import Mathlib

/-!
logdog: the consumers, their construction from the configuration, the reading
and parsing of a line and the fan-out.

A shallow embedding of `alert.go`, `stats.go`, `consumer.go`, `message.go`,
`source.go`, `util.go`, the structures of `config/config.go`, the two stores
and the reader and listener loops of `main.go`.

* Instants (`time.Time`) are integers: nanoseconds counted from the zero value
  `time.Time{}`, so the zero instant is `0`.
* Durations (`time.Duration`) are integers of nanoseconds; `Time.Sub` saturates
  at the ends of the signed 64-bit range, as the Go library does. A `time.Time`
  counts its seconds in an `int64`: `time.Unix` wraps and `Time.Add` saturates
  at the ends of that range (`timeUnix`, `timeAdd`).
* Pointers to `AlertLogNode` are addresses into an arena (`heap`) that holds
  every node allocated so far, in allocation order; `none` is `nil`. A Go
  pointer is nil or valid, so an address outside the arena stands for no Go
  state: reading through one is counted as a panic, writing through one does
  nothing.
* A call either returns, or panics at run time, or loops for ever: `Run`. The
  two pointer walks do not write, so a walk that takes more steps than the
  arena has nodes has met a node twice and goes on for ever.
* `int` counters are integers: a count moves by one per consumed record or per
  line read, so the ends of the 64-bit range are out of reach. Products and
  sums of configured or parsed `int64` values wrap (`wrapInt64`).
-/

namespace Logdog

set_option maxRecDepth 8000

/-! ## Outcome of a call -/

/-- Outcome of running a Go function: it returned a value, it hit a run-time
panic (nil dereference, index out of range), or its loop never exits. -/
inductive Run (α : Type) where
  | done : α → Run α
  | panic : Run α
  | diverge : Run α
deriving DecidableEq, Repr

/-- Sequencing of two calls: the second runs only when the first returned. -/
def Run.bind {α β : Type} (r : Run α) (f : α → Run β) : Run β :=
  match r with
  | .done a => f a
  | .panic => .panic
  | .diverge => .diverge

/-- Apply a pure observation to the returned value. -/
def Run.map {α β : Type} (f : α → β) (r : Run α) : Run β :=
  r.bind fun a => .done (f a)

/-! ## time -/

/-- Largest `time.Duration`. -/
def maxDuration : Int := 2 ^ 63 - 1

/-- Smallest `time.Duration`. -/
def minDuration : Int := -(2 ^ 63)

/-- One second, `time.Second`, in nanoseconds. -/
def Second : Int := 1000000000

/-- `t.Sub(u)`: the duration `t - u`, or the largest (smallest) duration when
the difference is out of range. -/
def timeSub (t u : Int) : Int :=
  if t - u > maxDuration then maxDuration
  else if t - u < minDuration then minDuration
  else t - u

/-- `t.Add(d)`. The library adds the whole seconds of `d` (`int64(d / 1e9)`,
rounded towards zero) to the seconds of `t` and the rest of `d` to its
nanoseconds, with a carry either way. The seconds are an `int64`: a sum past
its largest value is replaced by that value, `1<<63 - 1`, and a sum below its
smallest value by `-(1<<63 - 1)`; the nanoseconds are kept as computed. -/
def timeAdd (t d : Int) : Int :=
  let dsec0 : Int := if 0 ≤ d then d / Second else -((-d) / Second)
  let nsec0 : Int := t % Second + (d - dsec0 * Second)
  let dsec : Int :=
    if nsec0 ≥ Second then dsec0 + 1 else if nsec0 < 0 then dsec0 - 1 else dsec0
  let nsec : Int :=
    if nsec0 ≥ Second then nsec0 - Second else if nsec0 < 0 then nsec0 + Second else nsec0
  let sum : Int := t / Second + dsec
  let sec : Int :=
    if 0 < dsec ∧ sum > 2 ^ 63 - 1 then 2 ^ 63 - 1
    else if dsec < 0 ∧ sum < -(2 ^ 63) then -(2 ^ 63 - 1)
    else sum
  sec * Second + nsec

/-- `t.Before(u)`. -/
def timeBefore (t u : Int) : Bool := decide (t < u)

/-! ## message.go -/

/-- The raw log line, `LogMessage`. -/
structure LogMessage where
  SourceName : String
  Message : String
  Id : Int
  IsCancelSignal : Bool
deriving DecidableEq, Repr

/-- The parsed record, `LogMessageStructured`; the Go map `KV` is an
association list read by its first matching key. -/
structure LogMessageStructured extends LogMessage where
  KV : List (String × String)
  T : Int
deriving DecidableEq, Repr

/-- `lg.GetValue(k)`: `lg.KV[k]`, the empty string when the key is absent. -/
def LogMessageStructured.GetValue (lg : LogMessageStructured) (k : String) : String :=
  (lg.KV.lookup k).getD ""

/-! ## alert.go: source settings -/

/-- Per-source settings of an alert, `AlertTypeSourceSettings`. -/
structure AlertTypeSourceSettings where
  Key : String
  ValueMutateFunc : Option (String → Except String String)
  Values : List String

/-- `s.GetKey()`. -/
def AlertTypeSourceSettings.GetKey (s : AlertTypeSourceSettings) : String := s.Key

/-- `s.GetCleanedValue(msg)`: the value under `Key`, passed through the mutator
when one is set. -/
def AlertTypeSourceSettings.GetCleanedValue (s : AlertTypeSourceSettings)
    (msg : LogMessageStructured) : Except String String :=
  let val := msg.GetValue s.Key
  match s.ValueMutateFunc with
  | some f =>
    match f val with
    | .error err => .error err
    | .ok v => .ok v
  | none => .ok val

/-- The loop `for _, v := range s.Values { if value == v { return true } }`
followed by `return false`. -/
def matchValues (value : String) : List String → Bool
  | [] => false
  | v :: rest => if value = v then true else matchValues value rest

/-- `s.IsMatch(msg)`. -/
def AlertTypeSourceSettings.IsMatch (s : AlertTypeSourceSettings)
    (msg : LogMessageStructured) : Except String Bool :=
  if s.GetKey = "" then .ok true
  else
    match s.GetCleanedValue msg with
    | .error err => .error err
    | .ok value => .ok (matchValues value s.Values)

/-! ## alert.go: the consumer state -/

/-- A node of the chain, `AlertLogNode`; `Previous` and `Next` are addresses in
the arena. -/
structure AlertLogNode extends LogMessageStructured where
  Previous : Option Nat
  Next : Option Nat
deriving DecidableEq, Repr

/-- An alert interval, `Alert`; `End` is the zero instant until it is set. -/
structure Alert where
  Start : Int
  End : Int
deriving DecidableEq, Repr

/-- The alert consumer, `AlertType`, with the fields of the embedded
`baseLogConsumer` that `ConsumeLog` reads (the channel and the lock are left
out) and the arena `heap` of allocated nodes. -/
structure AlertType where
  Duration : Int
  Threshold : Int
  Name : String
  SourceSettings : List (String × AlertTypeSourceSettings)
  CurrentMovingCount : Int
  LatestLogNode : Option Nat
  OldestLogNode : Option Nat
  AlertOngoing : Bool
  Alerts : List Alert
  heap : List AlertLogNode

/-- `c.GetSourceSettings(srcName)` of `baseLogConsumer`. -/
def AlertType.GetSourceSettings (c : AlertType) (srcName : String) :
    Except String AlertTypeSourceSettings :=
  match c.SourceSettings.lookup srcName with
  | some settings => .ok settings
  | none => .error "source settings not found"

/-- The read `s.LatestLogNode.T`: the timestamp of the latest node, `none` when
the pointer is nil (the read then panics). -/
def AlertType.latestT (s : AlertType) : Option Int :=
  match s.LatestLogNode with
  | some l => (s.heap[l]?).map fun n => n.T
  | none => none

/-- Store `v` in the `Next` field of the node at address `i`. -/
def setNext (heap : List AlertLogNode) (i : Nat) (v : Option Nat) : List AlertLogNode :=
  match heap[i]? with
  | some n => heap.set i { n with Next := v }
  | none => heap

/-- Store `v` in the `Previous` field of the node at address `i`. -/
def setPrevious (heap : List AlertLogNode) (i : Nat) (v : Option Nat) : List AlertLogNode :=
  match heap[i]? with
  | some n => heap.set i { n with Previous := v }
  | none => heap

/-- The search loop of `addToChain`: from `currentNode`, follow `Previous`
while the record is before the node; the result is the node after which the
record is placed, `none` when the walk ran off the chain. -/
def addToChainWalk (heap : List AlertLogNode) (t : Int) : Nat → Option Nat → Run (Option Nat)
  | 0, _ => .diverge
  | _ + 1, none => .done none
  | fuel + 1, some i =>
    match heap[i]? with
    | none => .panic
    | some n => if timeBefore t n.T then addToChainWalk heap t fuel n.Previous else .done (some i)

/-- `s.addToChain(msg)`. The new node gets the next free address. A walk that
takes more steps than there are nodes is on a cycle and never ends. -/
def AlertType.addToChain (s : AlertType) (msg : LogMessageStructured) : Run AlertType :=
  (addToChainWalk s.heap msg.T (s.heap.length + 1) s.LatestLogNode).bind fun currentNode =>
    let addr := s.heap.length
    match currentNode with
    | none =>
      -- newLogNode.Next and newLogNode.Previous are both nil
      .done { s with
        heap := s.heap ++ [{ toLogMessageStructured := msg, Previous := none, Next := none }]
        LatestLogNode := some addr
        OldestLogNode := some addr }
    | some c =>
      match s.heap[c]? with
      | none => .panic
      | some cn =>
        let newLogNode : AlertLogNode :=
          { toLogMessageStructured := msg, Previous := some c, Next := cn.Next }
        let heap1 := setNext s.heap c (some addr) ++ [newLogNode]
        .done { s with
          heap := heap1
          LatestLogNode := if newLogNode.Next = none then some addr else s.LatestLogNode }

/-- The loop of `dropOldLogMessages` up to the node at which it stops: the
test `latestTimestamp.Sub(currentNode.T) > s.Duration` reads `currentNode`
before the nil check, so a nil `currentNode` panics. Returns the node at which
the loop stopped and the number of nodes passed. -/
def dropWalk (heap : List AlertLogNode) (latestTimestamp duration : Int) :
    Nat → Option Nat → Nat → Run (Nat × Nat)
  | 0, _, _ => .diverge
  | _ + 1, none, _ => .panic
  | fuel + 1, some i, numNodesRemoved =>
    match heap[i]? with
    | none => .panic
    | some n =>
      if timeSub latestTimestamp n.T > duration then
        dropWalk heap latestTimestamp duration fuel n.Next (numNodesRemoved + 1)
      else .done (i, numNodesRemoved)

/-- `s.dropOldLogMessages()`. The branch `if currentNode == nil` of the source
is never taken, since the test before it has already read `currentNode.T`. -/
def AlertType.dropOldLogMessages (s : AlertType) : Run (AlertType × Nat) :=
  match s.latestT with
  | none => .panic
  | some latestTimestamp =>
    (dropWalk s.heap latestTimestamp s.Duration (s.heap.length + 1) s.OldestLogNode 0).bind
      fun (currentNode, numNodesRemoved) =>
        match s.heap[currentNode]? with
        | none => .panic
        | some cn =>
          let heap1 := match cn.Previous with
            | some p => setNext s.heap p none
            | none => s.heap
          let heap2 := setPrevious heap1 currentNode none
          .done ({ s with heap := heap2, OldestLogNode := some currentNode }, numNodesRemoved)

/-- `c.triggerAlert(start)`. -/
def AlertType.triggerAlert (c : AlertType) (start : Int) : AlertType :=
  if c.AlertOngoing then c
  else { c with Alerts := c.Alerts ++ [{ Start := start, End := 0 }], AlertOngoing := true }

/-- `c.closeAlert(end)`; indexing `c.Alerts[len(c.Alerts)-1]` panics on an
empty slice. -/
def AlertType.closeAlert (c : AlertType) (end_ : Int) : Run AlertType :=
  if !c.AlertOngoing then .done c
  else
    match c.Alerts.getLast? with
    | none => .panic
    | some last =>
      .done { c with
        Alerts := c.Alerts.dropLast ++ [{ last with End := end_ }]
        AlertOngoing := false }

/-- The part of `ConsumeLog` that runs once the record is accepted: insert,
evict, update the count, then open or close the alert. -/
def AlertType.consumeAccepted (c : AlertType) (msg : LogMessageStructured) : Run AlertType :=
  (c.addToChain msg).bind fun c1 =>
  c1.dropOldLogMessages.bind fun (c2, numRemoved) =>
    let c3 := { c2 with CurrentMovingCount := c2.CurrentMovingCount + 1 - (numRemoved : Int) }
    let alertMode : Bool := decide (c3.CurrentMovingCount ≥ c3.Threshold)
    match c3.latestT with
    | none => .panic
    | some latestTimestamp =>
      let c4 := if alertMode then c3.triggerAlert latestTimestamp else c3
      if !alertMode then c4.closeAlert latestTimestamp else .done c4

/-- `c.ConsumeLog(msg)`: the state after the call and the returned error. -/
def AlertType.ConsumeLog (c : AlertType) (msg : LogMessageStructured) :
    Run (AlertType × Option String) :=
  match c.GetSourceSettings msg.SourceName with
  | .error err => .done (c, some err)
  | .ok settings =>
    match settings.IsMatch msg with
    | .error err => .done (c, some err)
    | .ok false => .done (c, none)
    | .ok true => (c.consumeAccepted msg).map fun c1 => (c1, none)

/-! ## stats.go

Go maps are association lists with one entry per key, read by key; a nil map
and an empty map read alike. Every window owns its `StatsMap`. Indices are Go
`int`s: reading a slice at a negative index or past its end panics. The window
walk of `determineWindow` need not end, so it takes the number of loop rounds
it may run; `none` means that this number was too small. -/

/-- `m[k] = v` on a map: replace the entry of `k`, or add one. -/
def mapSet {V : Type} : List (String × V) → String → V → List (String × V)
  | [], k, v => [(k, v)]
  | (k1, v1) :: rest, k, v =>
    if k1 = k then (k1, v) :: rest else (k1, v1) :: mapSet rest k v

/-- `filterMapCopy(kv, keyMask)` of util.go: a new map with `m[k] = kv[k]` for
every `k` of the mask. -/
def filterMapCopy (kv : List (String × String)) (keyMask : List String) :
    List (String × String) :=
  keyMask.foldl (fun m k => mapSet m k ((kv.lookup k).getD "")) []

/-- Counts kept for one value, `Stats`. -/
structure Stats where
  Count : Int
  OtherCounts : List (String × List (String × Int))
deriving DecidableEq, Repr

/-- One time window, `StatsWindow`, covering `[Start, End)`. -/
structure StatsWindow where
  StatsMap : List (String × Stats)
  Start : Int
  End : Int
deriving DecidableEq, Repr

/-- `NewStatsWindow(start, end)`. -/
def NewStatsWindow (start end_ : Int) : StatsWindow :=
  { StatsMap := [], Start := start, End := end_ }

/-- The statement `stats.OtherCounts[k][v]++` with the two nil checks before
it. -/
def bumpOther (other : List (String × List (String × Int))) (k v : String) :
    List (String × List (String × Int)) :=
  let inner := (other.lookup k).getD []
  mapSet other k (mapSet inner v ((inner.lookup v).getD 0 + 1))

/-- `w.add(value, kv)`. The loop over the map `kv` takes its entries in list
order; the entries have distinct keys, so the order does not matter. -/
def StatsWindow.add (w : StatsWindow) (value : String) (kv : List (String × String)) :
    StatsWindow :=
  let stats := (w.StatsMap.lookup value).getD { Count := 0, OtherCounts := [] }
  let stats1 : Stats := { stats with Count := stats.Count + 1 }
  let stats2 : Stats :=
    { stats1 with OtherCounts := kv.foldl (fun oc e => bumpOther oc e.1 e.2) stats1.OtherCounts }
  { w with StatsMap := mapSet w.StatsMap value stats2 }

/-- Per-source settings of a stats consumer, `StatsTypeSourceSettings`. -/
structure StatsTypeSourceSettings where
  Key : String
  ValueMutateFunc : Option (String → Except String String)
  OtherKeys : List String

/-- `s.GetCleanedValue(msg)` of the stats settings. -/
def StatsTypeSourceSettings.GetCleanedValue (s : StatsTypeSourceSettings)
    (msg : LogMessageStructured) : Except String String :=
  let val := msg.GetValue s.Key
  match s.ValueMutateFunc with
  | some f =>
    match f val with
    | .error err => .error err
    | .ok v => .ok v
  | none => .ok val

/-- `s.GetCleanedKV(msg)` of the stats settings; it never fails. -/
def StatsTypeSourceSettings.GetCleanedKV (s : StatsTypeSourceSettings)
    (msg : LogMessageStructured) : List (String × String) :=
  filterMapCopy msg.KV s.OtherKeys

/-- The stats consumer, `StatsType`, with the fields of the embedded
`baseLogConsumer` that it reads. -/
structure StatsType where
  Duration : Int
  Name : String
  SourceSettings : List (String × StatsTypeSourceSettings)
  Windows : List StatsWindow
  CurrentPointer : Int
  QueuedNotifications : List Int
  LatestTimestamp : Int

/-- `c.GetSourceSettings(srcName)` on a stats consumer. -/
def StatsType.GetSourceSettings (c : StatsType) (srcName : String) :
    Except String StatsTypeSourceSettings :=
  match c.SourceSettings.lookup srcName with
  | some settings => .ok settings
  | none => .error "source settings not found"

/-- The read `windows[i]` for a Go `int` index: `none` when the index is
negative or past the end, where the read panics. -/
def windowAt (windows : List StatsWindow) (i : Int) : Option StatsWindow :=
  if i < 0 then none else windows[i.toNat]?

/-- `c.PrepareForConsumption(currentTime)`; the second window ends at
`currentTime.Add(c.Duration)`. -/
def StatsType.PrepareForConsumption (c : StatsType) (currentTime : Int) : StatsType :=
  if c.Windows.length < 1 then
    { c with
      Windows := [NewStatsWindow 0 currentTime,
        NewStatsWindow currentTime (timeAdd currentTime c.Duration)]
      CurrentPointer := 1 }
  else c

/-- The loop of `determineWindow` on the window list, the index and the flag
`newWindowCreated`, for at most the given number of rounds. -/
def determineWindowLoop (duration t : Int) :
    Nat → List StatsWindow → Int → Bool → Option (Run (List StatsWindow × Int × Bool))
  | 0, _, _, _ => none
  | fuel + 1, windows, windowIndex, newWindowCreated =>
    -- if windowIndex >= len(s.Windows) { ... append ... }
    let grown : Run (List StatsWindow × Bool) :=
      if windowIndex ≥ (windows.length : Int) then
        match windows.getLast? with
        | none => .panic
        | some lastWindow =>
          .done (windows ++ [NewStatsWindow lastWindow.End (timeAdd lastWindow.End duration)],
            true)
      else .done (windows, newWindowCreated)
    match grown with
    | .panic => some .panic
    | .diverge => some .diverge
    | .done (windows1, created1) =>
      match windowAt windows1 windowIndex with
      | none => some .panic
      | some window =>
        if timeBefore t window.Start then
          determineWindowLoop duration t fuel windows1 (windowIndex - 1) created1
        else if decide (t > window.End) || decide (t = window.End) then
          determineWindowLoop duration t fuel windows1 (windowIndex + 1) created1
        else some (.done (windows1, windowIndex, created1))

/-- `s.determineWindow(t)`: the window list after the call, the index found
and `newWindowCreated`. -/
def StatsType.determineWindow (fuel : Nat) (s : StatsType) (t : Int) :
    Option (Run (List StatsWindow × Int × Bool)) :=
  determineWindowLoop s.Duration t fuel s.Windows s.CurrentPointer false

/-- The part of `addToWindow` after `determineWindow` returned: enqueue the
old pointer when a window was created, then count the record in its window;
the state and the returned error. -/
def StatsType.addToWindowAfter (s : StatsType) (msg : LogMessageStructured)
    (found : List StatsWindow × Int × Bool) : Run (StatsType × Option String) :=
  let s1 : StatsType := { s with Windows := found.1 }
  let s2 : StatsType :=
    if found.2.2 then { s1 with QueuedNotifications := s1.QueuedNotifications ++ [s1.CurrentPointer] }
    else s1
  match windowAt s2.Windows found.2.1 with
  | none => .panic
  | some window =>
    match s2.GetSourceSettings msg.SourceName with
    | .error err => .done (s2, some err)
    | .ok srcSettings =>
      match srcSettings.GetCleanedValue msg with
      | .error err => .done (s2, some err)
      | .ok cleanValue =>
        let cleanKV := srcSettings.GetCleanedKV msg
        let window1 := window.add cleanValue cleanKV
        .done ({ s2 with
          Windows := s2.Windows.set found.2.1.toNat window1
          CurrentPointer := found.2.1 }, none)

/-- `s.addToWindow(msg)`. -/
def StatsType.addToWindow (fuel : Nat) (s : StatsType) (msg : LogMessageStructured) :
    Option (Run (StatsType × Option String)) :=
  (s.determineWindow fuel msg.T).map fun r => r.bind (s.addToWindowAfter msg)

/-- The first loop of `releaseNotifications` from position `i` on: the windows
reported by `notify`, in order, and `doneIndexes`. -/
def scanNotifications (windows : List StatsWindow) (latestTimestamp : Int) :
    Nat → List Int → Run (List Int × List Nat)
  | _, [] => .done ([], [])
  | i, windowIndex :: rest =>
    match windowAt windows windowIndex with
    | none => .panic
    | some statsWindow =>
      (scanNotifications windows latestTimestamp (i + 1) rest).bind fun later =>
        if timeSub latestTimestamp statsWindow.End > 2 * Second then
          .done (windowIndex :: later.1, i :: later.2)
        else .done later

/-- The statement `q = append(q[:i], q[i+1:]...)`: slicing `q[i+1:]` panics
when `i + 1` is past the length. -/
def removeAt (q : List Int) (i : Nat) : Run (List Int) :=
  if i + 1 ≤ q.length then .done (q.take i ++ q.drop (i + 1)) else .panic

/-- The second loop of `releaseNotifications`, over `doneIndexes`. -/
def removeDone : List Nat → List Int → Run (List Int)
  | [], q => .done q
  | i :: rest, q => (removeAt q i).bind (removeDone rest)

/-- `s.releaseNotifications()`: the state afterwards and the windows reported,
in order. -/
def StatsType.releaseNotifications (s : StatsType) : Run (StatsType × List Int) :=
  (scanNotifications s.Windows s.LatestTimestamp 0 s.QueuedNotifications).bind fun scanned =>
    (removeDone scanned.2 s.QueuedNotifications).bind fun q =>
      .done ({ s with QueuedNotifications := q }, scanned.1)

/-- `c.ConsumeLog(msg)` on a stats consumer: the state afterwards, the returned
error and the windows reported. -/
def StatsType.ConsumeLog (fuel : Nat) (c : StatsType) (msg : LogMessageStructured) :
    Option (Run (StatsType × Option String × List Int)) :=
  (c.addToWindow fuel msg).map fun r =>
    r.bind fun added =>
      match added.2 with
      | some err => .done (added.1, some err, [])
      | none =>
        let c1 : StatsType :=
          if timeBefore added.1.LatestTimestamp msg.T then
            { added.1 with LatestTimestamp := msg.T }
          else added.1
        c1.releaseNotifications.bind fun released => .done (released.1, none, released.2)

/-! ## Observations used by the statements -/

/-- The state built by `NewAlertTypeFromConfig`: no node, no alert, count 0. -/
def AlertType.fresh (duration threshold : Int) (name : String)
    (settings : List (String × AlertTypeSourceSettings)) : AlertType :=
  { Duration := duration, Threshold := threshold, Name := name, SourceSettings := settings,
    CurrentMovingCount := 0, LatestLogNode := none, OldestLogNode := none,
    AlertOngoing := false, Alerts := [], heap := [] }

/-- Feed the records to `ConsumeLog` one after the other, as the worker of the
consumer does; a returned error leaves the loop running. -/
def consumeAll : AlertType → List LogMessageStructured → Run AlertType
  | c, [] => .done c
  | c, msg :: rest => (c.ConsumeLog msg).bind fun r => consumeAll r.1 rest

/-- The states an alert consumer can be in: those that `ConsumeLog` calls that
returned lead to from `c0`. -/
def Reachable (c0 c : AlertType) : Prop :=
  ∃ msgs, consumeAll c0 msgs = .done c

/-- The addresses read from `p` along `Next`, at most `fuel` of them. -/
def chainFrom (heap : List AlertLogNode) : Nat → Option Nat → List Nat
  | 0, _ => []
  | _ + 1, none => []
  | fuel + 1, some i =>
    match heap[i]? with
    | none => []
    | some n => i :: chainFrom heap fuel n.Next

/-- The chain: the nodes reachable from `OldestLogNode` along `Next`. -/
def AlertType.chain (s : AlertType) : List Nat :=
  chainFrom s.heap s.heap.length s.OldestLogNode

/-- Timestamp of the node at address `i`. -/
def nodeT (heap : List AlertLogNode) (i : Nat) : Int :=
  match heap[i]? with
  | some n => n.T
  | none => 0

/-- The timestamps along the chain. -/
def AlertType.chainTimes (s : AlertType) : List Int :=
  s.chain.map (nodeT s.heap)

/-- The settings of the tests: one source, every record accepted. -/
def vanillaSettings : List (String × AlertTypeSourceSettings) :=
  [("test_source", { Key := "", ValueMutateFunc := none, Values := [] })]

/-- A record of the test source at instant `t`. -/
def recordAt (t : Int) : LogMessageStructured :=
  { SourceName := "test_source", Message := "", Id := 0, IsCancelSignal := false, KV := [], T := t }

/-- The value a call returned, `d` when it did not return. -/
def Run.getD {α : Type} (r : Run α) (d : α) : α :=
  match r with
  | .done a => a
  | .panic => d
  | .diverge => d

/-- Whether a call returned. -/
def Run.isDone {α : Type} (r : Run α) : Bool :=
  match r with
  | .done _ => true
  | .panic => false
  | .diverge => false

/-- The instant `now` of the tests: 2019-02-07 21:12:43 UTC. -/
def t0 : Int := 63685170763 * Second

/-- The consumer of the tests, `VanillaAlertType(3, 5)`: window 3 s, threshold 5. -/
def vanillaAlertType : AlertType :=
  AlertType.fresh (3 * Second) 5 "Test Alert" vanillaSettings

/-- The records the first test feeds before its last one: `t0, t0, t0+1s, t0`. -/
def triggerRecords : List LogMessageStructured :=
  [recordAt t0, recordAt t0, recordAt (t0 + 1 * Second), recordAt t0]

/-- State of the first test before its last record. -/
def triggerPrior : AlertType :=
  (consumeAll vanillaAlertType triggerRecords).getD vanillaAlertType

/-- The records the second test feeds before its last one:
`t0, t0, t0+1s, t0, t0+1s, t0+2s`. -/
def recoverRecords : List LogMessageStructured :=
  [recordAt t0, recordAt t0, recordAt (t0 + 1 * Second), recordAt t0,
    recordAt (t0 + 1 * Second), recordAt (t0 + 2 * Second)]

/-- State of the second test before its last record. -/
def recoverPrior : AlertType :=
  (consumeAll vanillaAlertType recoverRecords).getD vanillaAlertType

/-- Records that open an alert and close it at the zero instant:
`-10 s, -10 s, 0`. -/
def zeroCloseRecords : List LogMessageStructured :=
  [recordAt (-10 * Second), recordAt (-10 * Second), recordAt 0]

/-- The value `IsMatch` compares with the accept-set: the raw value under
`Key`, or what the mutator made of it; `none` when the mutator failed. -/
def cleanedValue (s : AlertTypeSourceSettings) (msg : LogMessageStructured) : Option String :=
  match s.ValueMutateFunc with
  | none => some (msg.GetValue s.Key)
  | some f =>
    match f (msg.GetValue s.Key) with
    | .ok v => some v
    | .error _ => none

/-- A mutator that accepts only the value `a`, used to exercise `IsMatch`. -/
def onlyA (v : String) : Except String String :=
  if v = "a" then .ok "A" else .error "not a"

/-- States reached from `c0` by `ConsumeLog` calls none of whose records
carries the zero instant as its timestamp. -/
def ReachableNonzero (c0 c : AlertType) : Prop :=
  ∃ msgs, (∀ m ∈ msgs, m.T ≠ 0) ∧ consumeAll c0 msgs = .done c

/-- The last entry of `Alerts` exists and its `End` is unset, that is, the zero
instant. -/
def AlertType.lastEndUnset (c : AlertType) : Prop :=
  ∃ a, c.Alerts.getLast? = some a ∧ a.End = 0

/-- The test `CurrentMovingCount >= Threshold` of `ConsumeLog`. -/
def AlertType.countAtThreshold (c : AlertType) : Prop :=
  c.Threshold ≤ c.CurrentMovingCount

/-- The addresses `l` form a stretch of chain entered from `prev`: every
address holds a node, the `Previous` of each node is the address before it
(`prev` for the first), the `Next` of each node is the address after it, and
the last node has no `Next`. -/
def IsChain (heap : List AlertLogNode) : Option Nat → List Nat → Prop
  | _, [] => True
  | prev, i :: rest =>
    ∃ n, heap[i]? = some n ∧ n.Previous = prev ∧ n.Next = rest.head? ∧
      IsChain heap (some i) rest

/-- A well-formed chain `l` of the consumer `s`: `Next` and `Previous` agree
along `l`, the first node (`OldestLogNode`) has no predecessor, the last node
is `LatestLogNode`, and the timestamps do not decrease along `l`. -/
structure WellFormedChain (s : AlertType) (l : List Nat) : Prop where
  linked : IsChain s.heap none l
  oldest : s.OldestLogNode = l.head?
  latest : s.LatestLogNode = l.getLast?
  nonempty : l ≠ []
  sorted : List.Pairwise (fun i j => nodeT s.heap i ≤ nodeT s.heap j) l

/-- Whether the node at address `i` is older than the window: the test
`latestTimestamp.Sub(currentNode.T) > s.Duration` of `dropOldLogMessages`. -/
def tooOld (heap : List AlertLogNode) (latestTimestamp duration : Int) (i : Nat) : Bool :=
  decide (timeSub latestTimestamp (nodeT heap i) > duration)

/-- An arena holding the chain `0 → 1 → 2 → 3` with timestamps
`t0, t0+1s, t0+2s, t0+5s`, linked both ways. -/
def sampleHeap : List AlertLogNode :=
  [{ toLogMessageStructured := recordAt t0, Previous := none, Next := some 1 },
   { toLogMessageStructured := recordAt (t0 + 1 * Second), Previous := some 0, Next := some 2 },
   { toLogMessageStructured := recordAt (t0 + 2 * Second), Previous := some 1, Next := some 3 },
   { toLogMessageStructured := recordAt (t0 + 5 * Second), Previous := some 2, Next := none }]

/-- A consumer with window 3 s whose chain is `sampleHeap`. -/
def sampleChainState : AlertType :=
  { vanillaAlertType with
    heap := sampleHeap, OldestLogNode := some 0, LatestLogNode := some 3,
    CurrentMovingCount := 4 }

/-! ## util.go: request lines -/

/-- Cut a string, given by its characters, at every occurrence of `sep`. -/
def splitOnChar (sep : Char) : List Char → List (List Char)
  | [] => [[]]
  | c :: rest =>
    if c = sep then [] :: splitOnChar sep rest
    else
      match splitOnChar sep rest with
      | [] => [[c]]
      | part :: parts => (c :: part) :: parts

/-- `strings.Split(text, sep)` for a separator of one character. -/
def stringsSplit (text : String) (sep : Char) : List String :=
  (splitOnChar sep text.data).map String.mk

/-- `HTTPStatusLineToSection(text)`: the section of a request line such as
`GET /api/user HTTP/1.0`. The error carries the fixed part of the message. -/
def HTTPStatusLineToSection (text : String) : Except String String :=
  match stringsSplit text ' ' with
  | [_, endpoint, _] =>
    match stringsSplit endpoint '/' with
    | [] => .error "no endpoint parts detected, is the endpoint empty?"
    | first :: rest =>
      if first ≠ "" then .error "expected endpoint to begin with a `/`"
      else
        match rest with
        | [] => .error "not enough info in the endpoint string to extract website section"
        | second :: _ => .ok ("/" ++ second)
  | _ => .error "invalid number of parts"

/-- Settings with an empty key and the request-line mutator: every record is
accepted without the mutator being run. -/
def emptyKeySettings : List (String × AlertTypeSourceSettings) :=
  [("test_source", { Key := "", ValueMutateFunc := some HTTPStatusLineToSection, Values := [] })]

/-- Records that end in a nil dereference in `dropOldLogMessages` with a
window of 10 s: `t0, t0+3s, t0+1s, t0+11s, t0+2s, t0+22s`. -/
def panicRecords : List LogMessageStructured :=
  [recordAt t0, recordAt (t0 + 3 * Second), recordAt (t0 + 1 * Second),
    recordAt (t0 + 11 * Second), recordAt (t0 + 2 * Second), recordAt (t0 + 22 * Second)]

/-! ## Observations on the stats consumer -/

/-- The state built by `NewStatsTypeFromConfig`: no window, nothing queued. -/
def StatsType.fresh (duration : Int) (name : String)
    (settings : List (String × StatsTypeSourceSettings)) : StatsType :=
  { Duration := duration, Name := name, SourceSettings := settings, Windows := [],
    CurrentPointer := 0, QueuedNotifications := [], LatestTimestamp := 0 }

/-- The states a stats consumer can be in: those that `ConsumeLog` calls that
returned, with or without an error, lead to from `s0`. -/
inductive StatsReachable (s0 : StatsType) : StatsType → Prop where
  | start : StatsReachable s0 s0
  | step (fuel : Nat) (msg : LogMessageStructured) {s s1 : StatsType} {err : Option String}
      {reports : List Int} :
      StatsReachable s0 s → s.ConsumeLog fuel msg = some (.done (s1, err, reports)) →
      StatsReachable s0 s1

/-- The `Start` and `End` of every window, in order. -/
def windowBounds (ws : List StatsWindow) : List (Int × Int) :=
  ws.map fun w => (w.Start, w.End)

/-- Every interval from the second on starts where the one before it ends and
is `d` long. -/
def ContiguousBounds (d : Int) : List (Int × Int) → Prop
  | [] => True
  | [_] => True
  | a :: b :: rest => b.1 = a.2 ∧ b.2 = b.1 + d ∧ ContiguousBounds d (b :: rest)

/-- Every window from the second on starts where the one before it ends and is
`d` long. -/
def Contiguous (d : Int) (ws : List StatsWindow) : Prop :=
  ContiguousBounds d (windowBounds ws)

/-- Every interval from the second on starts where the one before it ends and
ends where `Add` puts the end: at `timeAdd` of its start and `d`. -/
def ContiguousAddBounds (d : Int) : List (Int × Int) → Prop
  | [] => True
  | [_] => True
  | a :: b :: rest => b.1 = a.2 ∧ b.2 = timeAdd b.1 d ∧ ContiguousAddBounds d (b :: rest)

/-- Every window from the second on starts where the one before it ends and
ends at `Start.Add(d)`. -/
def ContiguousAdd (d : Int) (ws : List StatsWindow) : Prop :=
  ContiguousAddBounds d (windowBounds ws)

/-- The settings of `VanillaStatsType`: key `request` through the request-line
mutator, broken down by `foo` and `bar`. -/
def vanillaStatsSettings : List (String × StatsTypeSourceSettings) :=
  [("test_source",
    { Key := "request", ValueMutateFunc := some HTTPStatusLineToSection,
      OtherKeys := ["foo", "bar"] })]

/-- The consumer of the stats tests after `PrepareForConsumption(t0)`: windows
of 2 s. -/
def vanillaStatsType : StatsType :=
  (StatsType.fresh (2 * Second) "Test Stats" vanillaStatsSettings).PrepareForConsumption t0

/-- A record of the test source at instant `t` with the given fields. -/
def statsRecord (t : Int) (kv : List (String × String)) : LogMessageStructured :=
  { SourceName := "test_source", Message := "", Id := 0, IsCancelSignal := false, KV := kv, T := t }

/-- The records `TestStatsType_ConsumeLog` feeds before its last one. -/
def statsPriorRecords : List LogMessageStructured :=
  [statsRecord t0 [("request", "GET /api/user HTTP/1.0"), ("foo", "foo1"), ("bar", "bar1")],
   statsRecord (t0 + 1 * Second)
     [("request", "GET /api/user HTTP/1.0"), ("foo", "foo2"), ("bar", "bar2")],
   statsRecord t0 [("request", "GET /api/user HTTP/1.0"), ("foo", "foo2"), ("bar", "bar2")],
   statsRecord (t0 + 1 * Second)
     [("request", "GET /api/user HTTP/1.0"), ("foo", "foo2"), ("bar", "bar2")]]

/-- The last record of `TestStatsType_ConsumeLog`, at `t0+2s`. -/
def statsLastRecord : LogMessageStructured :=
  statsRecord (t0 + 2 * Second) [("request", "GET /api/user HTTP/1.0")]

/-- Feed the records to the stats consumer one after the other, each call
with the given number of rounds for its window walk; the state at the end. -/
def statsConsumeAll (fuel : Nat) : StatsType → List LogMessageStructured → Option (Run StatsType)
  | c, [] => some (.done c)
  | c, msg :: rest =>
    match c.ConsumeLog fuel msg with
    | none => none
    | some .panic => some .panic
    | some .diverge => some .diverge
    | some (.done r) => statsConsumeAll fuel r.1 rest

/-- The state a run ended in, `d` when it did not end by returning. -/
def statsFinal (r : Option (Run StatsType)) (d : StatsType) : StatsType :=
  match r with
  | some (.done c) => c
  | _ => d

/-- State of `TestStatsType_ConsumeLog` before its last record. -/
def statsPrior : StatsType :=
  statsFinal (statsConsumeAll 8 vanillaStatsType statsPriorRecords) vanillaStatsType

/-- Whether a run of the stats consumer ended by returning. -/
def statsRan (r : Option (Run StatsType)) : Bool :=
  match r with
  | some (.done _) => true
  | _ => false

/-- What one call of `ConsumeLog` returned: state, error and reports; the
state itself with no error when the call did not return. -/
def statsStep (fuel : Nat) (s : StatsType) (msg : LogMessageStructured) :
    StatsType × Option String × List Int :=
  match s.ConsumeLog fuel msg with
  | some (.done r) => r
  | _ => (s, none, [])

/-- Whether one call of `ConsumeLog` returned. -/
def statsStepRan (fuel : Nat) (s : StatsType) (msg : LogMessageStructured) : Bool :=
  match s.ConsumeLog fuel msg with
  | some (.done _) => true
  | _ => false

/-- A stats consumer with windows of 1 s, prepared at `t0`. -/
def secondStatsType : StatsType :=
  (StatsType.fresh (1 * Second) "Test Stats" vanillaStatsSettings).PrepareForConsumption t0

/-- Records at `t0+1s, t0+2s, t0+5s` for `secondStatsType`: the third one
makes two queued windows due in the same call. -/
def twoDueRecords : List LogMessageStructured :=
  [statsRecord (t0 + 1 * Second) [("request", "GET /api/user HTTP/1.0")],
   statsRecord (t0 + 2 * Second) [("request", "GET /api/user HTTP/1.0")],
   statsRecord (t0 + 5 * Second) [("request", "GET /api/user HTTP/1.0")]]

/-- The fields of a stats consumer that the tests look at: number of windows,
pointer, queue, latest timestamp. -/
def StatsType.summary (s : StatsType) : Nat × Int × List Int × Int :=
  (s.Windows.length, s.CurrentPointer, s.QueuedNotifications, s.LatestTimestamp)

/-- The read `w.StatsMap[v].Count`: 0 for a value without entry. -/
def StatsWindow.count (w : StatsWindow) (v : String) : Int :=
  match w.StatsMap.lookup v with
  | some st => st.Count
  | none => 0

/-- The read `other[k][x]` on the nested map `OtherCounts`: 0 when absent. -/
def otherRead (other : List (String × List (String × Int))) (k x : String) : Int :=
  match other.lookup k with
  | some inner => (inner.lookup x).getD 0
  | none => 0

/-- The read `w.StatsMap[v].OtherCounts[k][x]`: 0 when absent. -/
def StatsWindow.otherCount (w : StatsWindow) (v k x : String) : Int :=
  match w.StatsMap.lookup v with
  | some st => otherRead st.OtherCounts k x
  | none => 0

/-- `Count` of value `v` in window `i` of the list, 0 when there is no such
window. -/
def countIn (ws : List StatsWindow) (i : Nat) (v : String) : Int :=
  match ws[i]? with
  | some w => w.count v
  | none => 0

/-- The breakdown counter of value `v`, key `k`, key value `x` in window `i`
of the list, 0 when there is no such window. -/
def otherCountIn (ws : List StatsWindow) (i : Nat) (v k x : String) : Int :=
  match ws[i]? with
  | some w => w.otherCount v k x
  | none => 0

/-- Append `n` windows of length `d` to the list, each starting where the
window before it ends. -/
def appendWindows (d : Int) : Nat → List StatsWindow → List StatsWindow
  | 0, ws => ws
  | n + 1, ws =>
    match ws.getLast? with
    | none => ws
    | some last => appendWindows d n (ws ++ [NewStatsWindow last.End (last.End + d)])

/-- The number of windows to append for the instant `t`: none when `t` is
before the end of the last window, otherwise as many as it takes for the last
window to end after `t`. -/
def windowsNeeded (d : Int) (ws : List StatsWindow) (t : Int) : Nat :=
  match ws.getLast? with
  | none => 0
  | some last => if t < last.End then 0 else ((t - last.End) / d).toNat + 1

/-- The window list extended as far as the instant `t` asks for. -/
def extendedWindows (d : Int) (ws : List StatsWindow) (t : Int) : List StatsWindow :=
  appendWindows d (windowsNeeded d ws t) ws

/-- A prepared stats consumer: its first window, the sentinel, starts at the
zero instant and its windows are contiguous. -/
structure Prepared (s : StatsType) : Prop where
  sentinel : ∃ b rest, windowBounds s.Windows = (0, b) :: rest
  contiguous : Contiguous s.Duration s.Windows

/-- The instants `TestStatsType_DetermineWindow` runs `determineWindow` on
before its last call, as offsets from `t0` in seconds. -/
def priorTimes : List Int :=
  [0, 0, -1, 0, 1, 1, 2, 2, 2, 3]

/-- Run `determineWindow` on each instant in turn, keeping the windows it
appends and, as the test does, leaving `CurrentPointer` alone. -/
def determineAll (fuel : Nat) : StatsType → List Int → StatsType
  | s, [] => s
  | s, t :: rest =>
    match s.determineWindow fuel t with
    | some (.done found) => determineAll fuel { s with Windows := found.1 } rest
    | _ => s

/-- State of `TestStatsType_DetermineWindow` before its last call. -/
def determinePrior : StatsType :=
  determineAll 8 vanillaStatsType (priorTimes.map fun k => t0 + k * Second)

/-! ## util.go, source.go, message.go: from a line to a record

Strings are lists of characters. Go indexes a string by bytes; the separators
and the quote the code looks for are one-byte characters that are part of no
other character, so cutting at them by character is cutting at them by byte. -/

/-- The double quote, `'"'`. -/
def quoteChar : Char := Char.ofNat 34

/-- `removeQuotes(str)`: when `len(str) > 1` and the first and the last byte
are double quotes, the slice `str[1 : len(str)-1]`. A string that starts and
ends with the one-byte double quote has more than one byte exactly when it has
more than one character. -/
def removeQuotes (str : String) : String :=
  if str.length > 1 ∧ str.data.head? = some quoteChar ∧ str.data.getLast? = some quoteChar then
    String.mk str.data.tail.dropLast
  else str

/-- The loop `for i, p := range parts { parts[i] = removeQuotes(p) }`, at
index `i` with the elements still to visit. -/
def stripQuotesLoop : Nat → List String → List String → List String
  | _, [], parts => parts
  | i, p :: rest, parts => stripQuotesLoop (i + 1) rest (parts.set i (removeQuotes p))

/-- `LogSourceFormat_CSV.GetPartsFromText(text, stripQuotes)`. -/
def LogSourceFormat_CSV.GetPartsFromText (text : String) (stripQuotes : Bool) : List String :=
  let parts := stringsSplit text ','
  if stripQuotes then stripQuotesLoop 0 parts parts else parts

/-- The loop `for i, h := range headers { kv[h] = parts[i] }`, at index `i`
with the headers still to visit. It runs only when there are as many parts as
headers, so `parts[i]` is in range. -/
def fillKV (parts : List String) : Nat → List String → List (String × String) →
    List (String × String)
  | _, [], kv => kv
  | i, h :: rest, kv => fillKV parts (i + 1) rest (mapSet kv h (parts.getD i ""))

/-- `LogSourceFormat_CSV.GetKeyValueMap(text, headers)`. -/
def LogSourceFormat_CSV.GetKeyValueMap (text : String) (headers : List String) :
    Except String (List (String × String)) :=
  let parts := LogSourceFormat_CSV.GetPartsFromText text false
  if parts.length ≠ headers.length then
    .error "number of elements in the log line are different than number of headers"
  else .ok (fillKV parts 0 headers [])

/-- The two errors of `strconv`: `ErrSyntax` (`invalid`) and `ErrRange`
(`range`). -/
inductive NumError where
  | invalid : NumError
  | range : NumError
deriving DecidableEq, Repr

/-- Largest `uint64`. -/
def maxUint64 : Nat := 2 ^ 64 - 1

/-- The loop of `strconv.ParseUint(s, 10, 64)` over the characters, with the
value `n` read so far. Base 10 takes the digits `0` to `9`; a letter is a digit
of at least 10 and any other character, the underscore included, is no digit:
both are `ErrSyntax`. `n >= cutoff` is the test that `n * 10` overflows and
`n1 < n` the test that adding the digit does. -/
def parseUintLoop : List Char → Nat → Except NumError Nat
  | [], n => .ok n
  | c :: rest, n =>
    if '0' ≤ c ∧ c ≤ '9' then
      let d := c.toNat - '0'.toNat
      if n ≥ maxUint64 / 10 + 1 then .error .range
      else
        let n1 := n * 10 + d
        if n1 > maxUint64 then .error .range
        else parseUintLoop rest n1
    else .error .invalid

/-- `strconv.ParseUint(s, 10, 64)` on the characters of `s`. -/
def ParseUint (s : List Char) : Except NumError Nat :=
  if s = [] then .error .invalid else parseUintLoop s 0

/-- The part of `strconv.ParseInt` after `ParseUint` returned `r`: a syntax
error is returned as it is; on a range error `un` is the largest `uint64`;
then the value has to fit in 64 bits with its sign. -/
def parseIntSigned (neg : Bool) (r : Except NumError Nat) : Except NumError Int :=
  match r with
  | .error .invalid => .error .invalid
  | r =>
    let un : Nat :=
      match r with
      | .ok n => n
      | .error _ => maxUint64
    let cutoff : Nat := 2 ^ 63
    if !neg && decide (un ≥ cutoff) then .error .range
    else if neg && decide (un > cutoff) then .error .range
    else .ok (if neg then -(un : Int) else (un : Int))

/-- `strconv.ParseInt(s, 10, 64)`: an empty string is a syntax error; a
leading `+` or `-` is taken off, the rest goes to `ParseUint`. -/
def ParseInt (s : String) : Except NumError Int :=
  match s.data with
  | [] => .error .invalid
  | c :: rest =>
    let neg : Bool := decide (c = '-')
    let digits := if c = '+' ∨ c = '-' then rest else c :: rest
    parseIntSigned neg (ParseUint digits)

/-- Seconds from the zero instant `time.Time{}` (1 January of year 1) to the
Unix epoch, `unixToInternal` of package time. -/
def unixToInternal : Int := 62135596800

/-- The value an `int64` holds after arithmetic whose exact result is `x`. -/
def wrapInt64 (x : Int) : Int := (x + 2 ^ 63) % 2 ^ 64 - 2 ^ 63

/-- `time.Unix(sec, 0)`: the library keeps the seconds since year 1,
`sec + unixToInternal`, in an `int64`. -/
def timeUnix (sec : Int) : Int := wrapInt64 (sec + unixToInternal) * Second

/-- `t.Unix()`: the seconds of `t` since the Unix epoch, an `int64`. -/
def timeToUnix (t : Int) : Int := wrapInt64 (t / Second - unixToInternal)

/-- `t.Nanosecond()`: the nanoseconds of `t` within its second. -/
def timeNanosecond (t : Int) : Int := t % Second

/-- `TimestampFormat_Unix.Parse(str)`. -/
def TimestampFormat_Unix.Parse (str : String) : Except String Int :=
  match ParseInt str with
  | .error _ => .error "could not convert to unix timestamp"
  | .ok unixTimestamp => .ok (timeUnix unixTimestamp)

/-- The implementations of the interface `LogSourceFormat`: only
`LogSourceFormat_CSV`. -/
inductive LogSourceFormat where
  | csv : LogSourceFormat
deriving DecidableEq, Repr

/-- The implementations of the interface `TimestampFormat`: only
`TimestampFormat_Unix`. -/
inductive TimestampFormat where
  | unix : TimestampFormat
deriving DecidableEq, Repr

/-- The method `GetKeyValueMap` of the interface. -/
def LogSourceFormat.GetKeyValueMap : LogSourceFormat → String → List String →
    Except String (List (String × String))
  | .csv, text, headers => LogSourceFormat_CSV.GetKeyValueMap text headers

/-- The method `GetPartsFromText` of the interface. -/
def LogSourceFormat.GetPartsFromText : LogSourceFormat → String → Bool → List String
  | .csv, text, stripQuotes => LogSourceFormat_CSV.GetPartsFromText text stripQuotes

/-- The method `Parse` of the interface. -/
def TimestampFormat.Parse : TimestampFormat → String → Except String Int
  | .unix, str => TimestampFormat_Unix.Parse str

/-- How to read the lines of a source, `LogSourceSettings`. -/
structure LogSourceSettings where
  Format : LogSourceFormat
  Headers : List String
  TimestampKey : String
  TimestampFormat : TimestampFormat
  UseFirstlineAsHeader : Bool
deriving DecidableEq, Repr

/-- `NewLogMessageStructured(rawMsg, settings)`. -/
def NewLogMessageStructured (rawMsg : LogMessage) (settings : LogSourceSettings) :
    Except String LogMessageStructured :=
  match settings.Format.GetKeyValueMap rawMsg.Message settings.Headers with
  | .error err => .error ("creating a key-value map: " ++ err)
  | .ok kv =>
    let timeStr := (kv.lookup settings.TimestampKey).getD ""
    match settings.TimestampFormat.Parse timeStr with
    | .error err => .error ("parsing to time: " ++ err)
    | .ok t => .ok { toLogMessage := rawMsg, KV := kv, T := t }

/-- The settings of `TestNewLogMessageStructured`: csv, unix timestamps under
`date`, seven headers. -/
def testSourceSettings : LogSourceSettings :=
  { Format := .csv
    Headers := ["remotehost", "rfc931", "authuser", "date", "request", "status", "bytes"]
    TimestampKey := "date"
    TimestampFormat := .unix
    UseFirstlineAsHeader := false }

/-- A raw line as the tests build it: only `Message` is set. -/
def rawLine (text : String) : LogMessage :=
  { SourceName := "", Message := text, Id := 0, IsCancelSignal := false }

/-- The seven-field line of `TestNewLogMessageStructured`. -/
def happyLine : String :=
  "\"10.0.0.5\",\"-\",\"apache\",1549573963,\"GET /api/user HTTP/1.0\",200,1234"

/-- The four-field line of `TestNewLogMessageStructured`. -/
def shortLine : String := "\"10.0.0.5\",alabama, mexico, hohoho"

/-! ## util.go, stats.go: the report of a window

Go walks a map in an order it does not fix. The embedding walks the list that
stands for the map from its head; the statements below are about every list,
so about every order. -/

/-- `m[k] = v` on a map with `int` keys. -/
def intMapSet {V : Type} : List (Int × V) → Int → V → List (Int × V)
  | [], k, v => [(k, v)]
  | (k1, v1) :: rest, k, v =>
    if k1 = k then (k1, v) :: rest else (k1, v1) :: intMapSet rest k v

/-- The first loop of `sortMapKeysByValue`: `vk[v] = append(vk[v], k)` for
every entry of `kv`. -/
def reverseMap (kv : List (String × Int)) : List (Int × List String) :=
  kv.foldl (fun vk e => intMapSet vk e.2 ((vk.lookup e.2).getD [] ++ [e.1])) []

/-- `sortMapKeysByValue(kv)`: the keys grouped by value, the groups in the
order of `sort.Sort(sort.Reverse(sort.IntSlice(vs)))`. The values `vs` are the
keys of a map, so no two are equal and every sort puts them in the same
order. -/
def sortMapKeysByValue (kv : List (String × Int)) : List String :=
  let vk := reverseMap kv
  let vs := vk.map Prod.fst
  let sorted := vs.insertionSort (fun a b => a ≥ b)
  sorted.foldl (fun sortedKs v => sortedKs ++ (vk.lookup v).getD []) []

/-- The loop of `notify` over `orderedKeys` with its counter `cnt`: the values
it prints, each with the `Stats` printed for it (its `Count` and the breakdown
`OtherCounts`). -/
def notifyLoop (statsMap : List (String × Stats)) : Nat → List String → List (String × Stats)
  | _, [] => []
  | cnt, k1 :: rest =>
    let cnt1 := cnt + 1
    if cnt1 ≥ 5 then []
    else
      (k1, (statsMap.lookup k1).getD { Count := 0, OtherCounts := [] }) ::
        notifyLoop statsMap cnt1 rest

/-- The map `kCountMap` that `notify` builds from a window. -/
def kCountMap (statsMap : List (String × Stats)) : List (String × Int) :=
  statsMap.foldl (fun m e => mapSet m e.1 e.2.Count) []

/-- `s.notify(windowIndex)`: the entries of the report it prints, in order. -/
def StatsType.notify (s : StatsType) (windowIndex : Int) : Run (List (String × Stats)) :=
  match windowAt s.Windows windowIndex with
  | none => .panic
  | some statsWindow =>
    let orderedKeys := sortMapKeysByValue (kCountMap statsWindow.StatsMap)
    .done (notifyLoop statsWindow.StatsMap 0 orderedKeys)

/-- A window with six values, counted 3, 1, 4, 1, 5 and 2 times. -/
def sixValueWindow : StatsWindow :=
  { StatsMap :=
      [("/a", { Count := 3, OtherCounts := [] }), ("/b", { Count := 1, OtherCounts := [] }),
       ("/c", { Count := 4, OtherCounts := [] }), ("/d", { Count := 1, OtherCounts := [] }),
       ("/e", { Count := 5, OtherCounts := [] }), ("/f", { Count := 2, OtherCounts := [] })]
    Start := t0
    End := t0 + 2 * Second }

/-- A consumer whose window 1 is `sixValueWindow`. -/
def sixValueStats : StatsType :=
  { vanillaStatsType with Windows := [NewStatsWindow 0 t0, sixValueWindow] }

/-- Records at `t0+2s`, `t0+1s` and `t0+4s` for the consumer with windows of
2 s: the second goes back to window 1, the third creates window 3. -/
def returningRecords : List LogMessageStructured :=
  [statsRecord (t0 + 2 * Second) [("request", "GET /api/user HTTP/1.0")],
   statsRecord (t0 + 1 * Second) [("request", "GET /api/user HTTP/1.0")],
   statsRecord (t0 + 4 * Second) [("request", "GET /api/user HTTP/1.0")]]

/-! ## main.go, consumer_store.go, source_store.go: the fan-out -/

/-- `unicode.IsSpace(c)`. -/
def isSpace (c : Char) : Bool :=
  c.toNat = 9 || c.toNat = 10 || c.toNat = 11 || c.toNat = 12 || c.toNat = 13 || c.toNat = 32 ||
  c.toNat = 133 || c.toNat = 160 || c.toNat = 5760 ||
  (decide (8192 ≤ c.toNat) && decide (c.toNat ≤ 8202)) ||
  c.toNat = 8232 || c.toNat = 8233 || c.toNat = 8239 || c.toNat = 8287 || c.toNat = 12288

/-- `strings.TrimSpace(s)`: `s` without the white space at its two ends. -/
def stringsTrimSpace (s : String) : String :=
  String.mk ((s.data.dropWhile isSpace).reverse.dropWhile isSpace).reverse

/-- What the fan-out reads of a `LogConsumer`: its name, the keys of the map
`GetAllSourceSettings()` returns, and its channel `GetChannel()`, named by a
number. -/
structure LogConsumer where
  Name : String
  SourceNames : List String
  Channel : Nat
deriving DecidableEq, Repr

/-- `RegisterConsumerInStore(c)` on the map `consumerStore.Data`. -/
def RegisterConsumerInStore (data : List (String × List LogConsumer)) (c : LogConsumer) :
    Except String (List (String × List LogConsumer)) :=
  if c.SourceNames.length < 1 then .error "no valid source settings for consumer"
  else
    .ok (c.SourceNames.foldl
      (fun d srcName => mapSet d srcName ((d.lookup srcName).getD [] ++ [c])) data)

/-- `GetConsumersBySourceFromStore(srcName)`. -/
def GetConsumersBySourceFromStore (data : List (String × List LogConsumer)) (srcName : String) :
    List LogConsumer :=
  (data.lookup srcName).getD []

/-- `GetSourceFromStore(name)` followed by `src.GetSettings()`, on the map
`sourceStore.Data`. -/
def GetSourceFromStore (data : List (String × LogSourceSettings)) (name : String) :
    Except String LogSourceSettings :=
  match data.lookup name with
  | some src => .ok src
  | none => .error "source name not found in store"

/-- What one round of the loop of `ListenToLogSources` does with the message
it took from the queue: leave the loop, return an error, or send on channels;
the sends `ch <- msg` are listed in order with the channel of each. -/
inductive FanOut where
  | stop : FanOut
  | failed : String → FanOut
  | sent : List (Nat × LogMessageStructured) → FanOut
deriving DecidableEq, Repr

/-- The loop `for _, c := range consumers { ch := c.GetChannel(); ch <- msg }`:
the sends it adds to those made so far. -/
def sendLoop (msg : LogMessageStructured) :
    List LogConsumer → List (Nat × LogMessageStructured) → List (Nat × LogMessageStructured)
  | [], sends => sends
  | c :: rest, sends => sendLoop msg rest (sends ++ [(c.Channel, msg)])

/-- One round of the loop of `ListenToLogSources` on the message `rawMsg`. -/
def fanOutStep (sources : List (String × LogSourceSettings))
    (consumers : List (String × List LogConsumer)) (rawMsg : LogMessage) : FanOut :=
  if rawMsg.IsCancelSignal then .stop
  else if stringsTrimSpace rawMsg.Message = "" then .failed "received an empty message"
  else
    match GetSourceFromStore sources rawMsg.SourceName with
    | .error err => .failed err
    | .ok settings =>
      match NewLogMessageStructured rawMsg settings with
      | .error err => .failed err
      | .ok msg => .sent (sendLoop msg (GetConsumersBySourceFromStore consumers msg.SourceName) [])

/-- Register the consumers one after the other, as `run` does, stopping at the
first error. -/
def registerAll : List (String × List LogConsumer) → List LogConsumer →
    Except String (List (String × List LogConsumer))
  | data, [] => .ok data
  | data, c :: rest =>
    match RegisterConsumerInStore data c with
    | .error err => .error err
    | .ok data1 => registerAll data1 rest

/-- Three consumers: two read the source `access`, the second one also `sys`,
the third only `sys`. -/
def sampleConsumers : List LogConsumer :=
  [{ Name := "stats", SourceNames := ["access"], Channel := 0 },
   { Name := "alert", SourceNames := ["sys", "access"], Channel := 1 },
   { Name := "other", SourceNames := ["sys"], Channel := 2 }]

/-- The consumer store after registering `sampleConsumers`. -/
def sampleConsumerStore : List (String × List LogConsumer) :=
  match registerAll [] sampleConsumers with
  | .ok data => data
  | .error _ => []

/-- A source store with the source `access` read as the tests read theirs. -/
def sampleSourceStore : List (String × LogSourceSettings) :=
  [("access", testSourceSettings)]

/-- The seven-field line of the tests as a message of the source `access`. -/
def accessLine : LogMessage :=
  { SourceName := "access", Message := happyLine, Id := 1, IsCancelSignal := false }

/-- The record that the line `accessLine` parses into. -/
def accessRecord : LogMessageStructured :=
  { toLogMessage := accessLine
    KV := [("remotehost", "\"10.0.0.5\""), ("rfc931", "\"-\""), ("authuser", "\"apache\""),
      ("date", "1549573963"), ("request", "\"GET /api/user HTTP/1.0\""), ("status", "200"),
      ("bytes", "1234")]
    T := t0 }

/-! ## What the statements call an integer literal -/

/-- A decimal digit, `0` to `9`. -/
def isDecimalDigit (c : Char) : Bool := decide ('0' ≤ c ∧ c ≤ '9')

/-- The number that the digits after the digits already read as `n` stand
for. -/
def decimalValue (digits : List Char) (n : Nat) : Nat :=
  digits.foldl (fun m c => m * 10 + (c.toNat - '0'.toNat)) n

/-- The number that a run of digits stands for, when it is one: at least one
character, all of them decimal digits. -/
def digitsValue (digits : List Char) : Option Nat :=
  if digits ≠ [] ∧ digits.all isDecimalDigit = true then some (decimalValue digits 0) else none

/-- The integer a string stands for as a base-10 integer literal: an optional
sign `+` or `-` followed by one or more decimal digits. -/
def intLiteral (s : String) : Option Int :=
  match s.data with
  | [] => none
  | c :: rest =>
    if c = '-' then
      match digitsValue rest with
      | some n => some (-(n : Int))
      | none => none
    else if c = '+' then
      match digitsValue rest with
      | some n => some (n : Int)
      | none => none
    else
      match digitsValue (c :: rest) with
      | some n => some (n : Int)
      | none => none

/-! ## util.go: the end of a line; what a round of the fan-out sent -/

/-- `StripTrailingNewlineCharacter(text)`. The byte `text[len(text)-1]` is the
byte of a newline exactly when the last character is a newline. -/
def StripTrailingNewlineCharacter (text : String) : String :=
  if text.length < 1 then text
  else if text.data.getLast? = some '\n' then String.mk text.data.dropLast
  else text

/-- The sends `ch <- msg` that a round of the loop of `ListenToLogSources`
made before it left the loop, returned or went on to the next message. The
`break` and the three `return err` all come before the loop over the
consumers. -/
def FanOut.sends : FanOut → List (Nat × LogMessageStructured)
  | .stop => []
  | .failed _ => []
  | .sent l => l

/-- The map `consumerStore.Data` after the call `RegisterConsumerInStore(c)`:
on an error the call returns before its loop. -/
def consumerStoreAfter (data : List (String × List LogConsumer)) (c : LogConsumer) :
    List (String × List LogConsumer) :=
  match RegisterConsumerInStore data c with
  | .ok data1 => data1
  | .error _ => data

/-- The consumer `alert` of `sampleConsumers`, which names the sources `sys`
and `access`. -/
def alertConsumer : LogConsumer :=
  { Name := "alert", SourceNames := ["sys", "access"], Channel := 1 }

/-- The consumer store after registering the consumer `stats` of
`sampleConsumers`, which names the source `access`. -/
def statsOnlyStore : List (String × List LogConsumer) :=
  [("access", [{ Name := "stats", SourceNames := ["access"], Channel := 0 }])]

/-! ## main.go: streaming the lines of a source -/

/-- The loop of `StreamLogMessagesFromSource` for the source `name`, on the
texts that the calls `buffReader.ReadString('\n')` still return without an
error; after them the call returns `io.EOF` and the loop ends. `id` is the
counter of the loop, `settings` what `src.GetSettings()` returns, `queue` the
messages sent on `inQueue` so far. The result is the settings of the source and
the messages sent when the loop ends. -/
def streamLoop (name : String) :
    List String → Int → LogSourceSettings → List LogMessage →
      LogSourceSettings × List LogMessage
  | [], _, settings, queue => (settings, queue)
  | text :: rest, id, settings, queue =>
    let text1 := StripTrailingNewlineCharacter text
    if text1 = "\\q" then (settings, queue)
    else if id = 0 ∧ settings.UseFirstlineAsHeader = true then
      streamLoop name rest (id + 1)
        { settings with Headers := settings.Format.GetPartsFromText text1 true } queue
    else
      streamLoop name rest (id + 1) settings
        (queue ++ [{ SourceName := name, Message := text1, Id := id + 1, IsCancelSignal := false }])

/-- `StreamLogMessagesFromSource(src, inQueue)` for a source named `name` with
the settings `settings` whose reader gives the newline-terminated lines
`lines`: each `ReadString('\n')` returns a line with its newline. The counter
`id` is an `int64` that grows by one per line. -/
def StreamLogMessagesFromSource (name : String) (settings : LogSourceSettings)
    (lines : List String) : LogSourceSettings × List LogMessage :=
  streamLoop name (lines.map fun l => l ++ "\n") 0 settings []

/-- The messages of the source `name` that carry the lines `ls`, numbered from
`first` on. -/
def numberedFrom (name : String) : Int → List String → List LogMessage
  | _, [] => []
  | first, l :: rest =>
    { SourceName := name, Message := l, Id := first, IsCancelSignal := false } ::
      numberedFrom name (first + 1) rest

/-- Settings of a source whose headers are on its first line. -/
def headerSettings : LogSourceSettings :=
  { Format := .csv
    Headers := []
    TimestampKey := "date"
    TimestampFormat := .unix
    UseFirstlineAsHeader := true }

/-! ## config.go, alert.go, stats.go: the consumers of a configuration -/

/-- `config.ConfigAlertTypeSourceSetting`. -/
structure ConfigAlertTypeSourceSetting where
  Name : String
  Key : String
  ValueMutateFuncName : String
  Values : List String
deriving DecidableEq, Repr

/-- `config.ConfigAlertType`; `DurationSeconds` is an `int64`. -/
structure ConfigAlertType where
  Name : String
  DurationSeconds : Int
  Threshold : Int
  Disabled : Bool
  SourceSettings : List ConfigAlertTypeSourceSetting
deriving DecidableEq, Repr

/-- `config.ConfigStatsTypeSourceSetting`. -/
structure ConfigStatsTypeSourceSetting where
  Name : String
  Key : String
  ValueMutateFuncName : String
  OtherKeys : List String
deriving DecidableEq, Repr

/-- `config.ConfigStatsType`; `DurationSeconds` is an `int64`. -/
structure ConfigStatsType where
  Name : String
  DurationSeconds : Int
  Disabled : Bool
  SourceSettings : List ConfigStatsTypeSourceSetting
deriving DecidableEq, Repr

/-- `NewAlertTypeSourceSettings(key, valueMutateFuncName, values)`. -/
def NewAlertTypeSourceSettings (key valueMutateFuncName : String) (values : List String) :
    Except String AlertTypeSourceSettings :=
  if valueMutateFuncName = "" then
    .ok { Key := key, ValueMutateFunc := none, Values := values }
  else if valueMutateFuncName = "HTTPStatusLineToSection" then
    .ok { Key := key, ValueMutateFunc := some HTTPStatusLineToSection, Values := values }
  else .error ("value mutate func name '" ++ valueMutateFuncName ++ "' not recognized")

/-- `NewStatsTypeSourceSettings(key, valueMutateFuncName, otherKeys)`. -/
def NewStatsTypeSourceSettings (key valueMutateFuncName : String) (otherKeys : List String) :
    Except String StatsTypeSourceSettings :=
  if valueMutateFuncName = "" then
    .ok { Key := key, ValueMutateFunc := none, OtherKeys := otherKeys }
  else if valueMutateFuncName = "HTTPStatusLineToSection" then
    .ok { Key := key, ValueMutateFunc := some HTTPStatusLineToSection, OtherKeys := otherKeys }
  else .error ("value mutate func name '" ++ valueMutateFuncName ++ "' not recognized")

/-- The loop `for _, cfgSettings := range req.SourceSettings` that the two
constructors share word for word: `name` reads `cfgSettings.Name`, `build` is
the call of `NewAlertTypeSourceSettings` or `NewStatsTypeSourceSettings`, and
the map is `sourceSettingsMap`. -/
def sourceSettingsLoop {C S : Type} (name : C → String) (build : C → Except String S) :
    List C → List (String × S) → Except String (List (String × S))
  | [], m => .ok m
  | cfgSettings :: rest, m =>
    if (m.lookup (name cfgSettings)).isSome then
      .error "multiple stats source settings for log source found"
    else
      match build cfgSettings with
      | .error err => .error err
      | .ok settings => sourceSettingsLoop name build rest (mapSet m (name cfgSettings) settings)

/-- `NewAlertTypeFromConfig(req)`. The product
`req.DurationSeconds * int64(time.Second)` is taken in `int64`. -/
def NewAlertTypeFromConfig (req : ConfigAlertType) : Except String AlertType :=
  match sourceSettingsLoop (fun cfg : ConfigAlertTypeSourceSetting => cfg.Name)
      (fun cfg => NewAlertTypeSourceSettings cfg.Key cfg.ValueMutateFuncName cfg.Values)
      req.SourceSettings [] with
  | .error err => .error err
  | .ok m =>
    .ok (AlertType.fresh (wrapInt64 (req.DurationSeconds * Second)) req.Threshold req.Name m)

/-- `NewStatsTypeFromConfig(req)`. The product
`req.DurationSeconds * int64(time.Second)` is taken in `int64`. -/
def NewStatsTypeFromConfig (req : ConfigStatsType) : Except String StatsType :=
  match sourceSettingsLoop (fun cfg : ConfigStatsTypeSourceSetting => cfg.Name)
      (fun cfg => NewStatsTypeSourceSettings cfg.Key cfg.ValueMutateFuncName cfg.OtherKeys)
      req.SourceSettings [] with
  | .error err => .error err
  | .ok m => .ok (StatsType.fresh (wrapInt64 (req.DurationSeconds * Second)) req.Name m)

/-- An alert over 9223372037 seconds on the sections `/api` of the source
`access`. -/
def longAlertConfig : ConfigAlertType :=
  { Name := "long alert", DurationSeconds := 9223372037, Threshold := 10, Disabled := false
    SourceSettings :=
      [{ Name := "access", Key := "request", ValueMutateFuncName := "HTTPStatusLineToSection",
         Values := ["/api"] }] }

/-- Statistics over 9223372037 seconds on the sections of the source
`access`. -/
def longStatsConfig : ConfigStatsType :=
  { Name := "long stats", DurationSeconds := 9223372037, Disabled := false
    SourceSettings :=
      [{ Name := "access", Key := "request", ValueMutateFuncName := "HTTPStatusLineToSection",
         OtherKeys := ["status"] }] }

/-! ## Runs of the stats consumer that the statements evaluate -/

/-- Records at `t0`, `t0+1s` and `t0+10s` for `secondStatsType`: the third one
makes the two queued windows due in the same call. -/
def tenSecondRecords : List LogMessageStructured :=
  [statsRecord t0 [("request", "GET /api/user HTTP/1.0")],
   statsRecord (t0 + 1 * Second) [("request", "GET /api/user HTTP/1.0")],
   statsRecord (t0 + 10 * Second) [("request", "GET /api/user HTTP/1.0")]]

/-- A record at `t0+4s` of a source that the test consumer has no settings
for. -/
def unknownSourceRecord : LogMessageStructured :=
  { SourceName := "other_source", Message := "", Id := 0, IsCancelSignal := false,
    KV := [("request", "GET /api/user HTTP/1.0")], T := t0 + 4 * Second }

/-- A record at `t0+4s` of the test source whose request line has two parts,
which `HTTPStatusLineToSection` rejects. -/
def rejectedValueRecord : LogMessageStructured :=
  statsRecord (t0 + 4 * Second) [("request", "GET /api/user")]

/-! ## The records along the chain of an alert -/

/-- The node at address `i` of the arena carries the record `r`. -/
def holdsRecord (heap : List AlertLogNode) (i : Nat) (r : LogMessageStructured) : Prop :=
  ∃ n, heap[i]? = some n ∧ n.toLogMessageStructured = r

/-- The records along the chain, from `OldestLogNode` on. -/
def AlertType.chainRecords (s : AlertType) : List LogMessageStructured :=
  s.chain.filterMap fun i => (s.heap[i]?).map fun n => n.toLogMessageStructured

/-- Records in the order of their timestamps for the consumer of the tests,
window 3 s: at `t0`, `t0+1s`, `t0+1s`, `t0+4s` and `t0+5s`. -/
def inOrderRecords : List LogMessageStructured :=
  [recordAt t0, recordAt (t0 + 1 * Second), recordAt (t0 + 1 * Second),
    recordAt (t0 + 4 * Second), recordAt (t0 + 5 * Second)]

/-! ## The last second of `time.Time` -/

/-- The instant that `TimestampFormat_Unix.Parse("9223371974719179007")`
returns: the largest count of seconds a `time.Time` holds, with zero
nanoseconds. -/
def lastSecond : Int := (2 ^ 63 - 1) * Second

/-- A stats consumer with windows of 2 s, prepared at `lastSecond`: its first
record carries the timestamp `9223371974719179007`. -/
def lateStatsType : StatsType :=
  (StatsType.fresh (2 * Second) "Test Stats" vanillaStatsSettings).PrepareForConsumption
    lastSecond

/-- A stats consumer with windows of 2 s, prepared 2 s before `lastSecond`:
its first record carries the timestamp `9223371974719179005`. -/
def nearLastStatsType : StatsType :=
  (StatsType.fresh (2 * Second) "Test Stats" vanillaStatsSettings).PrepareForConsumption
    (lastSecond - 2 * Second)

/-- A stats consumer with windows of 1 s, prepared 1 s before `lastSecond`:
its first record carries the timestamp `9223371974719179006`. -/
def nearLastSecondStatsType : StatsType :=
  (StatsType.fresh (1 * Second) "Test Stats" vanillaStatsSettings).PrepareForConsumption
    (lastSecond - 1 * Second)

/-! ## Basic facts -/

theorem Run.bind_eq_done {α β : Type} {r : Run α} {f : α → Run β} {b : β}
    (h : r.bind f = .done b) : ∃ a, r = .done a ∧ f a = .done b := by
  cases r with
  | done a => exact ⟨a, rfl, h⟩
  | panic => simp [Run.bind] at h
  | diverge => simp [Run.bind] at h

theorem Run.eq_done_getD {α : Type} (r : Run α) (d : α) (h : r.isDone = true) :
    r = .done (r.getD d) := by
  cases r with
  | done a => rfl
  | panic => simp [Run.isDone] at h
  | diverge => simp [Run.isDone] at h

theorem map_T_setNext (heap : List AlertLogNode) (i : Nat) (v : Option Nat) :
    (setNext heap i v).map (fun n => n.T) = heap.map (fun n => n.T) := by
  unfold setNext
  split
  · next n hn =>
    rw [List.map_set]
    have hlt : i < heap.length := (List.getElem?_eq_some_iff.mp hn).1
    have hget : heap[i] = n := (List.getElem?_eq_some_iff.mp hn).2
    apply List.ext_getElem?
    intro k
    by_cases hk : k = i
    · subst hk
      simp [List.getElem?_set, hlt, hget]
    · simp [List.getElem?_set, Ne.symm hk]
  · rfl

theorem map_T_setPrevious (heap : List AlertLogNode) (i : Nat) (v : Option Nat) :
    (setPrevious heap i v).map (fun n => n.T) = heap.map (fun n => n.T) := by
  unfold setPrevious
  split
  · next n hn =>
    rw [List.map_set]
    have hlt : i < heap.length := (List.getElem?_eq_some_iff.mp hn).1
    have hget : heap[i] = n := (List.getElem?_eq_some_iff.mp hn).2
    apply List.ext_getElem?
    intro k
    by_cases hk : k = i
    · subst hk
      simp [List.getElem?_set, hlt, hget]
    · simp [List.getElem?_set, Ne.symm hk]
  · rfl

/-- What `addToChain` leaves alone, and the timestamps on the arena after it. -/
theorem addToChain_frame {c c1 : AlertType} {msg : LogMessageStructured}
    (h : c.addToChain msg = .done c1) :
    c1.Duration = c.Duration ∧ c1.Threshold = c.Threshold ∧ c1.Name = c.Name ∧
    c1.SourceSettings = c.SourceSettings ∧ c1.CurrentMovingCount = c.CurrentMovingCount ∧
    c1.AlertOngoing = c.AlertOngoing ∧ c1.Alerts = c.Alerts ∧
    c1.heap.map (fun n => n.T) = c.heap.map (fun n => n.T) ++ [msg.T] := by
  unfold AlertType.addToChain at h
  obtain ⟨cur, -, h⟩ := Run.bind_eq_done h
  cases cur with
  | none =>
    simp only [Run.done.injEq] at h
    subst h
    simp
  | some i =>
    simp only at h
    split at h
    · simp at h
    · simp only [Run.done.injEq] at h
      subst h
      simp [map_T_setNext]

/-- After `addToChain` there is a latest node. -/
theorem addToChain_latest {c c1 : AlertType} {msg : LogMessageStructured}
    (h : c.addToChain msg = .done c1) : ∃ l, c1.LatestLogNode = some l := by
  unfold AlertType.addToChain at h
  obtain ⟨cur, hw, h⟩ := Run.bind_eq_done h
  cases cur with
  | none =>
    simp only [Run.done.injEq] at h
    subst h
    exact ⟨_, rfl⟩
  | some i =>
    simp only at h
    split at h
    · simp at h
    · next cn hcn =>
      simp only [Run.done.injEq] at h
      subst h
      by_cases hn : cn.Next = none
      · exact ⟨c.heap.length, by simp [hn]⟩
      · simp only [hn, if_false]
        cases hl : c.LatestLogNode with
        | some l => exact ⟨l, rfl⟩
        | none =>
          rw [hl] at hw
          simp [addToChainWalk] at hw

/-- Reading a timestamp off the arena only needs the timestamps of the arena. -/
theorem latestT_congr {a b : AlertType} (hl : a.LatestLogNode = b.LatestLogNode)
    (hh : a.heap.map (fun n => n.T) = b.heap.map (fun n => n.T)) : a.latestT = b.latestT := by
  unfold AlertType.latestT
  rw [hl]
  cases b.LatestLogNode with
  | none => rfl
  | some l =>
    have := congrArg (fun x => x[l]?) hh
    simpa [List.getElem?_map] using this

/-- What `dropOldLogMessages` leaves alone. -/
theorem dropOld_frame {c c2 : AlertType} {k : Nat}
    (h : c.dropOldLogMessages = .done (c2, k)) :
    c2.Duration = c.Duration ∧ c2.Threshold = c.Threshold ∧ c2.Name = c.Name ∧
    c2.SourceSettings = c.SourceSettings ∧ c2.CurrentMovingCount = c.CurrentMovingCount ∧
    c2.AlertOngoing = c.AlertOngoing ∧ c2.Alerts = c.Alerts ∧
    c2.LatestLogNode = c.LatestLogNode ∧
    c2.heap.map (fun n => n.T) = c.heap.map (fun n => n.T) := by
  unfold AlertType.dropOldLogMessages at h
  split at h
  · simp at h
  · obtain ⟨⟨cur, removed⟩, -, h⟩ := Run.bind_eq_done h
    simp only at h
    split at h
    · simp at h
    · simp only [Run.done.injEq, Prod.mk.injEq] at h
      obtain ⟨h, -⟩ := h
      subst h
      simp only [true_and]
      split <;> simp [map_T_setPrevious, map_T_setNext]

/-- After `dropOldLogMessages` the latest node is still there, with its timestamp. -/
theorem dropOld_latestT {c c2 : AlertType} {k : Nat}
    (h : c.dropOldLogMessages = .done (c2, k)) :
    ∃ t, c2.latestT = some t ∧ c.latestT = some t := by
  have hf := dropOld_frame h
  have heq : c2.latestT = c.latestT := latestT_congr hf.2.2.2.2.2.2.2.1 hf.2.2.2.2.2.2.2.2
  unfold AlertType.dropOldLogMessages at h
  split at h
  · simp at h
  · next t ht => exact ⟨t, heq.trans ht, ht⟩

/-- The accepted path of `ConsumeLog`, once insertion and eviction returned:
the count is updated and the alert is opened or closed at the timestamp of the
latest node. -/
theorem consumeAccepted_eval {c c1 c2 : AlertType} {msg : LogMessageStructured} {k : Nat}
    (hadd : c.addToChain msg = .done c1) (hdrop : c1.dropOldLogMessages = .done (c2, k)) :
    ∃ t, c2.latestT = some t ∧
      c.consumeAccepted msg =
        if c.Threshold ≤ c.CurrentMovingCount + 1 - (k : Int) then
          .done ({ c2 with CurrentMovingCount := c.CurrentMovingCount + 1 - (k : Int) }.triggerAlert t)
        else
          { c2 with CurrentMovingCount := c.CurrentMovingCount + 1 - (k : Int) }.closeAlert t := by
  obtain ⟨t, ht, -⟩ := dropOld_latestT hdrop
  have hf1 := addToChain_frame hadd
  have hf2 := dropOld_frame hdrop
  have hcount : c2.CurrentMovingCount = c.CurrentMovingCount := hf2.2.2.2.2.1.trans hf1.2.2.2.2.1
  have hthr : c2.Threshold = c.Threshold := hf2.2.1.trans hf1.2.1
  refine ⟨t, ht, ?_⟩
  have ht3 : ∀ x : Int, ({ c2 with CurrentMovingCount := x } : AlertType).latestT = some t :=
    fun _ => ht
  unfold AlertType.consumeAccepted
  simp only [hadd, hdrop, Run.bind]
  simp only [ht3]
  simp only [hcount, hthr]
  by_cases hm : c.Threshold ≤ c.CurrentMovingCount + 1 - (k : Int)
  · simp [hm]
  · simp [hm]

/-- `ConsumeLog` on an accepted record is the accepted path, with no error. -/
theorem ConsumeLog_accepted {c : AlertType} {msg : LogMessageStructured}
    {settings : AlertTypeSourceSettings}
    (hs : c.GetSourceSettings msg.SourceName = .ok settings)
    (hm : settings.IsMatch msg = .ok true) :
    c.ConsumeLog msg = (c.consumeAccepted msg).map fun c1 => (c1, none) := by
  unfold AlertType.ConsumeLog
  simp only [hs, hm]

theorem matchValues_iff (value : String) (values : List String) :
    matchValues value values = true ↔ value ∈ values := by
  induction values with
  | nil => simp [matchValues]
  | cons v rest ih =>
    unfold matchValues
    by_cases h : value = v
    · simp [h]
    · simp [h, ih]

/-! ## One step of the consumer -/

theorem ConsumeLog_done {c : AlertType} {msg : LogMessageStructured}
    {r : AlertType × Option String} (h : c.ConsumeLog msg = .done r) :
    r.1 = c ∨ ∃ c1, c.consumeAccepted msg = .done c1 ∧ r = (c1, none) := by
  unfold AlertType.ConsumeLog at h
  split at h
  · simp only [Run.done.injEq] at h; subst h; exact Or.inl rfl
  · split at h
    · simp only [Run.done.injEq] at h; subst h; exact Or.inl rfl
    · simp only [Run.done.injEq] at h; subst h; exact Or.inl rfl
    · obtain ⟨c1, h1, h2⟩ := Run.bind_eq_done h
      simp only [Run.done.injEq] at h2
      exact Or.inr ⟨c1, h1, h2.symm⟩

theorem consumeAccepted_done {c c3 : AlertType} {msg : LogMessageStructured}
    (h : c.consumeAccepted msg = .done c3) :
    ∃ c1 c2 k, c.addToChain msg = .done c1 ∧ c1.dropOldLogMessages = .done (c2, k) := by
  unfold AlertType.consumeAccepted at h
  obtain ⟨c1, h1, h⟩ := Run.bind_eq_done h
  obtain ⟨⟨c2, k⟩, h2, -⟩ := Run.bind_eq_done h
  exact ⟨c1, c2, k, h1, h2⟩

theorem latestT_mem {c : AlertType} {t : Int} (h : c.latestT = some t) :
    t ∈ c.heap.map (fun n => n.T) := by
  unfold AlertType.latestT at h
  split at h
  · next l hl =>
    cases hn : c.heap[l]? with
    | none => rw [hn] at h; simp at h
    | some n =>
      rw [hn] at h
      simp only [Option.map_some', Option.some.injEq] at h
      subst h
      exact List.mem_map.mpr ⟨n, List.getElem?_mem hn, rfl⟩
  · simp at h

/-- What an accepted `ConsumeLog` that returned has done to the alert state. -/
theorem consumeAccepted_spec {c c3 : AlertType} {msg : LogMessageStructured}
    (h : c.consumeAccepted msg = .done c3) :
    ∃ (k : Nat) (t : Int), t ∈ c.heap.map (fun n => n.T) ++ [msg.T] ∧
      c3.heap.map (fun n => n.T) = c.heap.map (fun n => n.T) ++ [msg.T] ∧
      c3.Duration = c.Duration ∧ c3.Threshold = c.Threshold ∧
      c3.SourceSettings = c.SourceSettings ∧
      c3.CurrentMovingCount = c.CurrentMovingCount + 1 - (k : Int) ∧
      ((c.Threshold ≤ c.CurrentMovingCount + 1 - (k : Int) ∧ c3.AlertOngoing = true ∧
          c3.Alerts = if c.AlertOngoing = true then c.Alerts
            else c.Alerts ++ [{ Start := t, End := 0 }]) ∨
        (c.CurrentMovingCount + 1 - (k : Int) < c.Threshold ∧ c3.AlertOngoing = false ∧
          ((c.AlertOngoing = false ∧ c3.Alerts = c.Alerts) ∨
            (c.AlertOngoing = true ∧ ∃ last, c.Alerts.getLast? = some last ∧
              c3.Alerts = c.Alerts.dropLast ++ [{ Start := last.Start, End := t }])))) := by
  obtain ⟨c1, c2, k, hadd, hdrop⟩ := consumeAccepted_done h
  obtain ⟨t, ht, hev⟩ := consumeAccepted_eval hadd hdrop
  have hf1 := addToChain_frame hadd
  have hf2 := dropOld_frame hdrop
  have hon2 : c2.AlertOngoing = c.AlertOngoing := hf2.2.2.2.2.2.1.trans hf1.2.2.2.2.2.1
  have hal2 : c2.Alerts = c.Alerts := hf2.2.2.2.2.2.2.1.trans hf1.2.2.2.2.2.2.1
  have hthr : c2.Threshold = c.Threshold := hf2.2.1.trans hf1.2.1
  have hdur : c2.Duration = c.Duration := hf2.1.trans hf1.1
  have hss : c2.SourceSettings = c.SourceSettings := hf2.2.2.2.1.trans hf1.2.2.2.1
  have hheap : c2.heap.map (fun n => n.T) = c.heap.map (fun n => n.T) ++ [msg.T] :=
    hf2.2.2.2.2.2.2.2.2.trans hf1.2.2.2.2.2.2.2
  have htm : t ∈ c.heap.map (fun n => n.T) ++ [msg.T] := hheap ▸ latestT_mem ht
  rw [h] at hev
  refine ⟨k, t, htm, ?_⟩
  by_cases hm : c.Threshold ≤ c.CurrentMovingCount + 1 - (k : Int)
  · rw [if_pos hm, Run.done.injEq] at hev
    subst hev
    cases hon : c.AlertOngoing with
    | true =>
      simp [AlertType.triggerAlert, hon2, hon, hal2, hthr, hdur, hss, hheap, hm]
    | false =>
      simp [AlertType.triggerAlert, hon2, hon, hal2, hthr, hdur, hss, hheap, hm]
  · rw [if_neg hm] at hev
    have hlt : c.CurrentMovingCount + 1 - (k : Int) < c.Threshold := not_le.mp hm
    cases hon : c.AlertOngoing with
    | false =>
      simp only [AlertType.closeAlert, hon2, hon, Bool.not_false, if_true, Run.done.injEq] at hev
      subst hev
      simp [hal2, hthr, hdur, hss, hheap, hlt]
    | true =>
      simp only [AlertType.closeAlert, hon2, hon, Bool.not_true, hal2] at hev
      cases hl : c.Alerts.getLast? with
      | none => rw [hl] at hev; simp at hev
      | some last =>
        rw [hl] at hev
        simp only [Bool.false_eq_true, if_false, Run.done.injEq] at hev
        subst hev
        simp [hthr, hdur, hss, hheap, hlt]

/-- A property kept by every `ConsumeLog` that returns is kept along any
sequence of records. -/
theorem consumeAll_induction (P : AlertType → Prop) (Q : LogMessageStructured → Prop)
    (hstep : ∀ c msg c1, P c → Q msg → c.consumeAccepted msg = .done c1 → P c1) :
    ∀ (msgs : List LogMessageStructured) (c c1 : AlertType), P c → (∀ m ∈ msgs, Q m) →
      consumeAll c msgs = .done c1 → P c1 := by
  intro msgs
  induction msgs with
  | nil =>
    intro c c1 hP _ h
    simp only [consumeAll, Run.done.injEq] at h
    exact h ▸ hP
  | cons m rest ih =>
    intro c c1 hP hQ h
    simp only [consumeAll] at h
    obtain ⟨r, hr, h⟩ := Run.bind_eq_done h
    refine ih r.1 c1 ?_ (fun x hx => hQ x (List.mem_cons_of_mem _ hx)) h
    rcases ConsumeLog_done hr with h1 | ⟨c2, h2, h3⟩
    · rw [h1]; exact hP
    · rw [h3]; exact hstep c m c2 hP (hQ m (List.mem_cons_self _ _)) h2

/-! ## Chains on the arena -/

theorem timeSub_self (t : Int) : timeSub t t = 0 := by
  simp [timeSub, maxDuration, minDuration]

theorem timeSub_antitone (t u v : Int) (h : u ≤ v) : timeSub t v ≤ timeSub t u := by
  simp only [timeSub, maxDuration, minDuration]
  split_ifs <;> omega

theorem getElem?_setNext_ne (heap : List AlertLogNode) (i j : Nat) (v : Option Nat)
    (h : j ≠ i) : (setNext heap i v)[j]? = heap[j]? := by
  unfold setNext
  split
  · simp [List.getElem?_set, Ne.symm h]
  · rfl

theorem getElem?_setPrevious_ne (heap : List AlertLogNode) (i j : Nat) (v : Option Nat)
    (h : j ≠ i) : (setPrevious heap i v)[j]? = heap[j]? := by
  unfold setPrevious
  split
  · simp [List.getElem?_set, Ne.symm h]
  · rfl

theorem getElem?_setPrevious_self (heap : List AlertLogNode) (i : Nat) (v : Option Nat)
    (n : AlertLogNode) (h : heap[i]? = some n) :
    (setPrevious heap i v)[i]? = some { n with Previous := v } := by
  unfold setPrevious
  have hlt : i < heap.length := (List.getElem?_eq_some_iff.mp h).1
  simp [h, List.getElem?_set, hlt]

theorem length_setNext (heap : List AlertLogNode) (i : Nat) (v : Option Nat) :
    (setNext heap i v).length = heap.length := by
  unfold setNext
  split <;> simp

theorem length_setPrevious (heap : List AlertLogNode) (i : Nat) (v : Option Nat) :
    (setPrevious heap i v).length = heap.length := by
  unfold setPrevious
  split <;> simp

theorem nodeT_congr {heap1 heap2 : List AlertLogNode}
    (h : heap1.map (fun n => n.T) = heap2.map (fun n => n.T)) (i : Nat) :
    nodeT heap1 i = nodeT heap2 i := by
  have hi := congrArg (fun x => x[i]?) h
  simp only [List.getElem?_map] at hi
  unfold nodeT
  cases h1 : heap1[i]? with
  | none =>
    rw [h1] at hi
    cases h2 : heap2[i]? with
    | none => rfl
    | some n2 => rw [h2] at hi; simp at hi
  | some n1 =>
    rw [h1] at hi
    cases h2 : heap2[i]? with
    | none => rw [h2] at hi; simp at hi
    | some n2 =>
      rw [h2] at hi
      simpa using hi

/-- A chain only depends on the nodes at its own addresses. -/
theorem IsChain_congr {heap1 heap2 : List AlertLogNode} :
    ∀ (l : List Nat) (prev : Option Nat), (∀ i ∈ l, heap2[i]? = heap1[i]?) →
      IsChain heap1 prev l → IsChain heap2 prev l := by
  intro l
  induction l with
  | nil => intro prev _ _; trivial
  | cons i rest ih =>
    intro prev hsame h
    obtain ⟨n, hn, hp, hnx, hrest⟩ := h
    refine ⟨n, ?_, hp, hnx, ih (some i) (fun j hj => hsame j (List.mem_cons_of_mem _ hj)) hrest⟩
    rw [hsame i (List.mem_cons_self _ _)]; exact hn

/-- Every address of a chain holds a node. -/
theorem IsChain_mem {heap : List AlertLogNode} :
    ∀ (l : List Nat) (prev : Option Nat), IsChain heap prev l →
      ∀ i ∈ l, ∃ n, heap[i]? = some n := by
  intro l
  induction l with
  | nil => intro prev _ i hi; simp at hi
  | cons j rest ih =>
    intro prev h i hi
    obtain ⟨n, hn, -, -, hrest⟩ := h
    rcases List.mem_cons.mp hi with rfl | hi
    · exact ⟨n, hn⟩
    · exact ih (some j) hrest i hi

/-- The tail part of a chain is a chain, entered from the last address of the
front part. -/
theorem IsChain_append {heap : List AlertLogNode} :
    ∀ (a b : List Nat) (prev : Option Nat), IsChain heap prev (a ++ b) →
      IsChain heap (match a.getLast? with | some x => some x | none => prev) b := by
  intro a
  induction a with
  | nil => intro b prev h; simpa using h
  | cons i rest ih =>
    intro b prev h
    obtain ⟨n, -, -, -, hrest⟩ := h
    have := ih b (some i) hrest
    cases hr : rest.getLast? with
    | none =>
      rw [hr] at this
      have hnil : rest = [] := List.getLast?_eq_none_iff.mp hr
      subst hnil
      simpa using this
    | some x =>
      rw [hr] at this
      have : (i :: rest).getLast? = some x := by
        cases rest with
        | nil => simp at hr
        | cons y ys => simpa [List.getLast?_cons_cons] using hr
      rw [this]
      assumption

/-- From a given address the rest of the chain is determined. -/
theorem IsChain_tail_unique {heap : List AlertLogNode} :
    ∀ (b b1 : List Nat) (i : Nat) (p p1 : Option Nat),
      IsChain heap p (i :: b) → IsChain heap p1 (i :: b1) → b = b1 := by
  intro b
  induction b with
  | nil =>
    intro b1 i p p1 h h1
    obtain ⟨n, hn, -, hnx, -⟩ := h
    obtain ⟨n1, hn1, -, hnx1, -⟩ := h1
    rw [hn] at hn1
    simp only [Option.some.injEq] at hn1
    subst hn1
    rw [hnx] at hnx1
    cases b1 with
    | nil => rfl
    | cons j js => simp at hnx1
  | cons j rest ih =>
    intro b1 i p p1 h h1
    obtain ⟨n, hn, -, hnx, hrest⟩ := h
    obtain ⟨n1, hn1, -, hnx1, hrest1⟩ := h1
    rw [hn] at hn1
    simp only [Option.some.injEq] at hn1
    subst hn1
    rw [hnx] at hnx1
    cases b1 with
    | nil => simp at hnx1
    | cons j1 js =>
      simp only [List.head?_cons, Option.some.injEq] at hnx1
      subst hnx1
      rw [ih js j (some i) (some i) hrest hrest1]

/-- No address occurs twice in a chain. -/
theorem IsChain_nodup {heap : List AlertLogNode} :
    ∀ (l : List Nat) (prev : Option Nat), IsChain heap prev l → l.Nodup := by
  intro l
  induction l with
  | nil => intro _ _; exact List.nodup_nil
  | cons i rest ih =>
    intro prev h
    have hrest : IsChain heap (some i) rest := by
      obtain ⟨n, -, -, -, hr⟩ := h
      exact hr
    refine List.nodup_cons.mpr ⟨?_, ih (some i) hrest⟩
    intro hmem
    obtain ⟨a, b, hab⟩ := List.append_of_mem hmem
    have hsub := IsChain_append a (i :: b) (some i) (hab ▸ hrest)
    have heq := IsChain_tail_unique rest b i prev _ h hsub
    have hlen := congrArg List.length hab
    rw [heq] at hlen
    simp at hlen
    omega

/-- Reading a chain off the arena along `Next` gives its addresses. -/
theorem chainFrom_of_IsChain {heap : List AlertLogNode} :
    ∀ (l : List Nat) (prev : Option Nat) (fuel : Nat), IsChain heap prev l →
      l.length ≤ fuel → chainFrom heap fuel l.head? = l := by
  intro l
  induction l with
  | nil =>
    intro prev fuel _ _
    cases fuel <;> simp [chainFrom]
  | cons i rest ih =>
    intro prev fuel h hlen
    obtain ⟨n, hn, -, hnx, hrest⟩ := h
    cases fuel with
    | zero => simp at hlen
    | succ f =>
      simp only [List.head?_cons, chainFrom, hn, hnx]
      rw [ih (some i) f hrest (by simpa using hlen)]

/-- A list of distinct addresses of an arena is no longer than the arena. -/
theorem length_le_of_nodup_lt (l : List Nat) (n : Nat) (hnd : l.Nodup)
    (hlt : ∀ i ∈ l, i < n) : l.length ≤ n := by
  have hsub : l ⊆ List.range n := fun i hi => List.mem_range.mpr (hlt i hi)
  have := (List.subperm_of_subset hnd hsub).length_le
  simpa using this

/-- When the property `p` can only be lost along the list, never regained, the
elements with `p` are a front part of the list. -/
theorem filter_eq_takeWhile {α : Type} (p : α → Bool) :
    ∀ l : List α, List.Pairwise (fun a b => p b = true → p a = true) l →
      l.filter p = l.takeWhile p ∧ l.filter (fun a => !p a) = l.dropWhile p := by
  intro l
  induction l with
  | nil => intro _; simp
  | cons a t ih =>
    intro h
    obtain ⟨ha, ht⟩ := List.pairwise_cons.mp h
    obtain ⟨ih1, ih2⟩ := ih ht
    by_cases hp : p a = true
    · simp [List.filter, List.takeWhile, List.dropWhile, hp, ih1, ih2]
    · have hall : ∀ b ∈ t, p b = false := by
        intro b hb
        cases hb2 : p b with
        | false => rfl
        | true => exact absurd (ha b hb hb2) hp
      have hp2 : p a = false := by simpa using hp
      have h1 : t.filter p = [] := List.filter_eq_nil_iff.mpr (by
        intro b hb; simp [hall b hb])
      have h2 : t.filter (fun a => !p a) = t := List.filter_eq_self.mpr (by
        intro b hb; simp [hall b hb])
      simp [List.filter, List.takeWhile, List.dropWhile, hp2, h1, h2]

/-! ## The chain on out-of-order input -/

/-- C1, evaluated on the code: window 10 s, records at `t0, t0+3s, t0+1s,
t0+2s`. The third record is placed between the first two without the
`Previous` of the node after it being redirected, so the walk for the fourth
record skips it: the chain read from `OldestLogNode` along `Next` carries the
timestamps `t0, t0+2s, t0+1s, t0+3s` and is not sorted. -/
theorem C1_chain_not_sorted :
    (consumeAll (AlertType.fresh (10 * Second) 5 "Test Alert" vanillaSettings)
        [recordAt t0, recordAt (t0 + 3 * Second), recordAt (t0 + 1 * Second),
          recordAt (t0 + 2 * Second)]).map AlertType.chainTimes =
      .done [t0, t0 + 2 * Second, t0 + 1 * Second, t0 + 3 * Second] ∧
    ¬ List.Pairwise (fun a b : Int => a ≤ b)
      [t0, t0 + 2 * Second, t0 + 1 * Second, t0 + 3 * Second] := by
  decide

/-- C2, evaluated on the code: window 10 s, records at `t0+5s` then `t0+3s`.
The second record is older than every node, so the new node becomes both
`OldestLogNode` and `LatestLogNode` with `Next` nil and the earlier node is
lost: the count is 2 and the chain has one node. -/
theorem C2_count_not_chain_length :
    (consumeAll (AlertType.fresh (10 * Second) 5 "Test Alert" vanillaSettings)
        [recordAt (t0 + 5 * Second), recordAt (t0 + 3 * Second)]).map
        (fun c => (c.CurrentMovingCount, c.chain.length, c.chainTimes)) =
      .done (2, 1, [t0 + 3 * Second]) := by
  decide

/-- C3, evaluated on the code: window 10 s, records at `t0, t0+3s, t0+1s,
t0+2s, t0+12s`. Eviction stops at the first node within the window, at
`t0+2s`; behind it the chain still holds the node at `t0+1s`, which is 11 s
older than the latest node. -/
theorem C3_node_older_than_window :
    (consumeAll (AlertType.fresh (10 * Second) 5 "Test Alert" vanillaSettings)
        [recordAt t0, recordAt (t0 + 3 * Second), recordAt (t0 + 1 * Second),
          recordAt (t0 + 2 * Second), recordAt (t0 + 12 * Second)]).map
        (fun c => (c.chainTimes, c.latestT)) =
      .done ([t0 + 2 * Second, t0 + 1 * Second, t0 + 3 * Second, t0 + 12 * Second],
        some (t0 + 12 * Second)) ∧
    timeSub (t0 + 12 * Second) (t0 + 1 * Second) > 10 * Second := by
  decide

/-! ## Invariants of the alert state -/

/-- C4: in every state reached from the empty consumer with `Threshold ≥ 1`,
`AlertOngoing` is true exactly when `CurrentMovingCount ≥ Threshold`; in
particular this holds right after every `ConsumeLog` that returns, so an alert
opens as soon as the count reaches the threshold and closes as soon as it
falls below, with no hysteresis. -/
theorem C4_alert_iff_threshold (duration threshold : Int) (name : String)
    (settings : List (String × AlertTypeSourceSettings)) (c : AlertType)
    (hthr : 1 ≤ threshold)
    (hreach : Reachable (AlertType.fresh duration threshold name settings) c) :
    (c.AlertOngoing = true ↔ c.countAtThreshold) ∧
    ∀ msg c1 err, c.ConsumeLog msg = .done (c1, err) →
      (c1.AlertOngoing = true ↔ c1.countAtThreshold) := by
  have hstep : ∀ (c : AlertType) (msg : LogMessageStructured) (c1 : AlertType),
      c.consumeAccepted msg = .done c1 → (c1.AlertOngoing = true ↔ c1.countAtThreshold) := by
    intro c msg c1 h
    obtain ⟨k, t, -, -, -, hthr1, -, hcnt, hcase⟩ := consumeAccepted_spec h
    unfold AlertType.countAtThreshold
    rw [hthr1, hcnt]
    rcases hcase with ⟨hge, hon, -⟩ | ⟨hlt, hoff, -⟩
    · simp [hon, hge]
    · simp [hoff, not_le.mpr hlt]
  have hinv : c.AlertOngoing = true ↔ c.countAtThreshold := by
    obtain ⟨msgs, hrun⟩ := hreach
    refine consumeAll_induction (fun c => c.AlertOngoing = true ↔ c.countAtThreshold)
      (fun _ => True) (fun c msg c1 _ _ h => hstep c msg c1 h) msgs _ c ?_ (fun _ _ => trivial)
      hrun
    simp only [AlertType.fresh, AlertType.countAtThreshold]
    constructor
    · intro h; simp at h
    · intro h; omega
  refine ⟨hinv, fun msg c1 err h => ?_⟩
  rcases ConsumeLog_done h with h1 | ⟨c2, h2, h3⟩
  · simp only at h1; rw [h1]; exact hinv
  · simp only [Prod.mk.injEq] at h3
    rw [h3.1]; exact hstep c msg c2 h2

/-- C4 on the second test: the state after six records is reachable, its alert
is open and its count, 6, is at least the threshold, 5. -/
theorem C4_alert_iff_threshold_witness :
    recoverPrior.CurrentMovingCount = 6 ∧ recoverPrior.AlertOngoing = true ∧
    ((recoverPrior.AlertOngoing = true ↔ recoverPrior.countAtThreshold) ∧
    ∀ msg c1 err, recoverPrior.ConsumeLog msg = .done (c1, err) →
      (c1.AlertOngoing = true ↔ c1.countAtThreshold)) :=
  ⟨rfl, rfl, C4_alert_iff_threshold (3 * Second) 5 "Test Alert" vanillaSettings recoverPrior
    (by decide) ⟨recoverRecords, Run.eq_done_getD _ _ (by decide)⟩⟩

/-- C5 as stated fails: with window 5 s and threshold 2, the records at
`-10 s, -10 s, 0` (instants counted from the zero instant) open an alert and
close it at the zero instant, so the state is reachable from the empty
consumer, `AlertOngoing` is false, and yet `Alerts` is non-empty and the `End`
of its last entry is the zero instant. -/
theorem C5_counterexample :
    ¬ ∀ c, Reachable (AlertType.fresh (5 * Second) 2 "Test Alert" vanillaSettings) c →
      (c.AlertOngoing = true ↔ c.lastEndUnset) := by
  intro h
  have h1 := h ((consumeAll (AlertType.fresh (5 * Second) 2 "Test Alert" vanillaSettings)
    zeroCloseRecords).getD (AlertType.fresh (5 * Second) 2 "Test Alert" vanillaSettings))
    ⟨zeroCloseRecords, Run.eq_done_getD _ _ (by decide)⟩
  have h2 := h1.mpr ⟨{ Start := -10 * Second, End := 0 }, rfl, rfl⟩
  exact absurd h2 (by decide)

/-- C5, amended: in every state reached from the empty consumer, an ongoing
alert means that `Alerts` is non-empty and the `End` of its last entry is the
zero instant; when no consumed record carries the zero instant as its
timestamp, the converse holds too. -/
theorem C5_ongoing_iff_last_unset (duration threshold : Int) (name : String)
    (settings : List (String × AlertTypeSourceSettings)) (c : AlertType) :
    (Reachable (AlertType.fresh duration threshold name settings) c →
      c.AlertOngoing = true → c.lastEndUnset) ∧
    (ReachableNonzero (AlertType.fresh duration threshold name settings) c →
      (c.AlertOngoing = true ↔ c.lastEndUnset)) := by
  constructor
  · rintro ⟨msgs, hrun⟩
    refine consumeAll_induction (fun c => c.AlertOngoing = true → c.lastEndUnset)
      (fun _ => True) ?_ msgs _ c ?_ (fun _ _ => trivial) hrun
    · intro c msg c1 hP _ h hon1
      obtain ⟨k, t, -, -, -, -, -, -, hcase⟩ := consumeAccepted_spec h
      rcases hcase with ⟨-, -, hal⟩ | ⟨-, hoff, -⟩
      · by_cases hon : c.AlertOngoing = true
        · rw [if_pos hon] at hal
          obtain ⟨a, ha, ha0⟩ := hP hon
          exact ⟨a, hal ▸ ha, ha0⟩
        · rw [if_neg hon] at hal
          exact ⟨{ Start := t, End := 0 }, by rw [hal]; simp, rfl⟩
      · rw [hoff] at hon1; simp at hon1
    · intro h; simp [AlertType.fresh] at h
  · rintro ⟨msgs, hnz, hrun⟩
    have key := consumeAll_induction
      (fun c => (c.AlertOngoing = true → c.lastEndUnset) ∧
        (c.AlertOngoing = false → ∀ a, c.Alerts.getLast? = some a → a.End ≠ 0) ∧
        (∀ x ∈ c.heap.map (fun n => n.T), x ≠ 0))
      (fun m => m.T ≠ 0) ?_ msgs _ c ?_ hnz hrun
    · obtain ⟨h1, h2, -⟩ := key
      constructor
      · exact h1
      · rintro ⟨a, ha, ha0⟩
        cases hon : c.AlertOngoing with
        | true => rfl
        | false => exact absurd ha0 (h2 hon a ha)
    · intro c msg c1 ⟨hP1, hP2, hP3⟩ hQ h
      obtain ⟨k, t, htm, hheap, -, -, -, -, hcase⟩ := consumeAccepted_spec h
      have hall : ∀ x ∈ c.heap.map (fun n => n.T) ++ [msg.T], x ≠ 0 := by
        intro x hx
        rcases List.mem_append.mp hx with hx | hx
        · exact hP3 x hx
        · simp only [List.mem_singleton] at hx
          rw [hx]; exact hQ
      have ht0 : t ≠ 0 := hall t htm
      refine ⟨?_, ?_, hheap ▸ hall⟩
      · intro hon1
        rcases hcase with ⟨-, -, hal⟩ | ⟨-, hoff, -⟩
        · by_cases hon : c.AlertOngoing = true
          · rw [if_pos hon] at hal
            obtain ⟨a, ha, ha0⟩ := hP1 hon
            exact ⟨a, hal ▸ ha, ha0⟩
          · rw [if_neg hon] at hal
            exact ⟨{ Start := t, End := 0 }, by rw [hal]; simp, rfl⟩
        · rw [hoff] at hon1; simp at hon1
      · intro hoff1 a ha
        rcases hcase with ⟨-, hon, -⟩ | ⟨-, -, hcl⟩
        · rw [hon] at hoff1; simp at hoff1
        · rcases hcl with ⟨hoff, hal⟩ | ⟨-, last, -, hal⟩
          · exact hP2 hoff a (hal ▸ ha)
          · rw [hal] at ha
            simp only [List.getLast?_append, List.getLast?_singleton, Option.or_some,
              Option.getD_some, Option.some.injEq] at ha
            rw [← ha]; exact ht0
    · simp [AlertType.fresh]

/-- C5, amended, on the second test: the state after six records at non-zero
instants has its alert open, and the last entry of `Alerts` has no `End`. -/
theorem C5_ongoing_iff_last_unset_witness :
    recoverPrior.AlertOngoing = true ∧ recoverPrior.lastEndUnset :=
  ⟨rfl, ((C5_ongoing_iff_last_unset (3 * Second) 5 "Test Alert" vanillaSettings recoverPrior).2
    ⟨recoverRecords, by decide, Run.eq_done_getD _ _ (by decide)⟩).mp rfl⟩

/-! ## The alert state machine -/

/-- C6: from a state with no ongoing alert, an accepted record after whose
insertion and eviction the count is at least the threshold makes `ConsumeLog`
return without error, append exactly one entry `{Start: latest.T, End: unset}`
to `Alerts` (earlier entries untouched, whether or not an earlier alert was
closed before) and set `AlertOngoing`. -/
theorem C6_trigger_appends_alert (c c1 c2 : AlertType) (msg : LogMessageStructured)
    (settings : AlertTypeSourceSettings) (numRemoved : Nat)
    (hs : c.GetSourceSettings msg.SourceName = .ok settings)
    (hm : settings.IsMatch msg = .ok true)
    (hadd : c.addToChain msg = .done c1)
    (hdrop : c1.dropOldLogMessages = .done (c2, numRemoved))
    (hoff : c.AlertOngoing = false)
    (hcount : c.Threshold ≤ c.CurrentMovingCount + 1 - (numRemoved : Int)) :
    ∃ c3 t, c.ConsumeLog msg = .done (c3, none) ∧ c3.latestT = some t ∧
      c3.CurrentMovingCount = c.CurrentMovingCount + 1 - (numRemoved : Int) ∧
      c3.Alerts = c.Alerts ++ [{ Start := t, End := 0 }] ∧ c3.AlertOngoing = true := by
  obtain ⟨t, ht, hev⟩ := consumeAccepted_eval hadd hdrop
  have hf1 := addToChain_frame hadd
  have hf2 := dropOld_frame hdrop
  have hon2 : c2.AlertOngoing = false := (hf2.2.2.2.2.2.1.trans hf1.2.2.2.2.2.1).trans hoff
  have hal2 : c2.Alerts = c.Alerts := hf2.2.2.2.2.2.2.1.trans hf1.2.2.2.2.2.2.1
  rw [if_pos hcount] at hev
  refine ⟨({ c2 with CurrentMovingCount := c.CurrentMovingCount + 1 - (numRemoved : Int) } :
    AlertType).triggerAlert t, t, ?_, ?_, ?_, ?_, ?_⟩
  · rw [ConsumeLog_accepted hs hm, hev]; rfl
  · simp only [AlertType.triggerAlert, hon2]; exact ht
  · simp [AlertType.triggerAlert, hon2]
  · simp [AlertType.triggerAlert, hon2, hal2]
  · simp [AlertType.triggerAlert, hon2]

/-- C6 on the first test: after `t0, t0, t0+1s, t0` the record at `t0+1s`
brings the count to 5 and opens one alert that starts at `t0+1s`. -/
theorem C6_trigger_appends_alert_witness :
    triggerPrior.AlertOngoing = false ∧ triggerPrior.CurrentMovingCount = 4 ∧
    triggerPrior.Alerts = [] ∧
    ∃ c3 t, triggerPrior.ConsumeLog (recordAt (t0 + 1 * Second)) = .done (c3, none) ∧
      c3.latestT = some t ∧
      c3.CurrentMovingCount = triggerPrior.CurrentMovingCount + 1 - ((0 : Nat) : Int) ∧
      c3.Alerts = triggerPrior.Alerts ++ [{ Start := t, End := 0 }] ∧ c3.AlertOngoing = true :=
  ⟨rfl, rfl, rfl,
    C6_trigger_appends_alert triggerPrior
      ((triggerPrior.addToChain (recordAt (t0 + 1 * Second))).getD triggerPrior)
      (((triggerPrior.addToChain (recordAt (t0 + 1 * Second))).getD
        triggerPrior).dropOldLogMessages.getD (triggerPrior, 0)).1
      (recordAt (t0 + 1 * Second)) { Key := "", ValueMutateFunc := none, Values := [] } 0
      rfl rfl rfl rfl rfl (by decide)⟩

/-- C7: from a state with an ongoing alert, an accepted record after whose
insertion and eviction the count is below the threshold makes `ConsumeLog`
return without error, set the `End` of the last entry of `Alerts` to the
timestamp of the latest node and clear `AlertOngoing`; the length of `Alerts`,
every other entry and the `Start` of the last entry stay as they were. -/
theorem C7_close_sets_end (c c1 c2 : AlertType) (msg : LogMessageStructured)
    (settings : AlertTypeSourceSettings) (numRemoved : Nat) (last : Alert)
    (hs : c.GetSourceSettings msg.SourceName = .ok settings)
    (hm : settings.IsMatch msg = .ok true)
    (hadd : c.addToChain msg = .done c1)
    (hdrop : c1.dropOldLogMessages = .done (c2, numRemoved))
    (hon : c.AlertOngoing = true)
    (hlast : c.Alerts.getLast? = some last)
    (hcount : c.CurrentMovingCount + 1 - (numRemoved : Int) < c.Threshold) :
    ∃ c3 t, c.ConsumeLog msg = .done (c3, none) ∧ c3.latestT = some t ∧
      c3.CurrentMovingCount = c.CurrentMovingCount + 1 - (numRemoved : Int) ∧
      c3.Alerts = c.Alerts.dropLast ++ [{ Start := last.Start, End := t }] ∧
      c3.Alerts.length = c.Alerts.length ∧ c3.AlertOngoing = false := by
  obtain ⟨t, ht, hev⟩ := consumeAccepted_eval hadd hdrop
  have hf1 := addToChain_frame hadd
  have hf2 := dropOld_frame hdrop
  have hon2 : c2.AlertOngoing = true := (hf2.2.2.2.2.2.1.trans hf1.2.2.2.2.2.1).trans hon
  have hal2 : c2.Alerts = c.Alerts := hf2.2.2.2.2.2.2.1.trans hf1.2.2.2.2.2.2.1
  rw [if_neg (not_le.mpr hcount)] at hev
  have hne : c.Alerts ≠ [] := by
    intro h0; rw [h0] at hlast; simp at hlast
  have hlen : 0 < c.Alerts.length := List.length_pos.mpr hne
  have hclose : ({ c2 with CurrentMovingCount := c.CurrentMovingCount + 1 - (numRemoved : Int) } :
      AlertType).closeAlert t =
      .done { c2 with
        CurrentMovingCount := c.CurrentMovingCount + 1 - (numRemoved : Int)
        Alerts := c.Alerts.dropLast ++ [{ Start := last.Start, End := t }]
        AlertOngoing := false } := by
    simp [AlertType.closeAlert, hon2, hal2, hlast]
  rw [hclose] at hev
  refine ⟨{ c2 with
    CurrentMovingCount := c.CurrentMovingCount + 1 - (numRemoved : Int)
    Alerts := c.Alerts.dropLast ++ [{ Start := last.Start, End := t }]
    AlertOngoing := false }, t, ?_, ?_, rfl, rfl, ?_, rfl⟩
  · rw [ConsumeLog_accepted hs hm, hev]; rfl
  · exact ht
  · simp only [List.length_append, List.length_dropLast, List.length_singleton]
    omega

/-- C7 on the second test: after `t0, t0, t0+1s, t0, t0+1s, t0+2s` (count 6,
alert open) the record at `t0+5s` evicts five nodes, leaves the count at 2 and
closes the alert. -/
theorem C7_close_sets_end_witness :
    recoverPrior.AlertOngoing = true ∧ recoverPrior.CurrentMovingCount = 6 ∧
    recoverPrior.Alerts = [{ Start := t0 + 1 * Second, End := 0 }] ∧
    ∃ c3 t, recoverPrior.ConsumeLog (recordAt (t0 + 5 * Second)) = .done (c3, none) ∧
      c3.latestT = some t ∧
      c3.CurrentMovingCount = recoverPrior.CurrentMovingCount + 1 - ((5 : Nat) : Int) ∧
      c3.Alerts = recoverPrior.Alerts.dropLast ++ [{ Start := t0 + 1 * Second, End := t }] ∧
      c3.Alerts.length = recoverPrior.Alerts.length ∧ c3.AlertOngoing = false :=
  ⟨rfl, rfl, rfl,
    C7_close_sets_end recoverPrior
      ((recoverPrior.addToChain (recordAt (t0 + 5 * Second))).getD recoverPrior)
      (((recoverPrior.addToChain (recordAt (t0 + 5 * Second))).getD
        recoverPrior).dropOldLogMessages.getD (recoverPrior, 0)).1
      (recordAt (t0 + 5 * Second)) { Key := "", ValueMutateFunc := none, Values := [] } 5
      { Start := t0 + 1 * Second, End := 0 }
      rfl rfl rfl rfl rfl rfl (by decide)⟩

/-- C8: an accepted record that re-enters the condition the consumer is
already in (alert ongoing and count at least the threshold, or no alert and
count below the threshold) leaves `Alerts` and `AlertOngoing` as they were. -/
theorem C8_same_condition_noop (c c1 c2 : AlertType) (msg : LogMessageStructured)
    (settings : AlertTypeSourceSettings) (numRemoved : Nat)
    (hs : c.GetSourceSettings msg.SourceName = .ok settings)
    (hm : settings.IsMatch msg = .ok true)
    (hadd : c.addToChain msg = .done c1)
    (hdrop : c1.dropOldLogMessages = .done (c2, numRemoved))
    (hsame : (c.AlertOngoing = true ∧ c.Threshold ≤ c.CurrentMovingCount + 1 - (numRemoved : Int)) ∨
      (c.AlertOngoing = false ∧ c.CurrentMovingCount + 1 - (numRemoved : Int) < c.Threshold)) :
    ∃ c3, c.ConsumeLog msg = .done (c3, none) ∧
      c3.CurrentMovingCount = c.CurrentMovingCount + 1 - (numRemoved : Int) ∧
      c3.Alerts = c.Alerts ∧ c3.AlertOngoing = c.AlertOngoing := by
  obtain ⟨t, -, hev⟩ := consumeAccepted_eval hadd hdrop
  have hf1 := addToChain_frame hadd
  have hf2 := dropOld_frame hdrop
  have hon2 : c2.AlertOngoing = c.AlertOngoing := hf2.2.2.2.2.2.1.trans hf1.2.2.2.2.2.1
  have hal2 : c2.Alerts = c.Alerts := hf2.2.2.2.2.2.2.1.trans hf1.2.2.2.2.2.2.1
  rcases hsame with ⟨hon, hcount⟩ | ⟨hoff, hcount⟩
  · rw [if_pos hcount] at hev
    refine ⟨({ c2 with CurrentMovingCount := c.CurrentMovingCount + 1 - (numRemoved : Int) } :
      AlertType).triggerAlert t, ?_, ?_, ?_, ?_⟩
    · rw [ConsumeLog_accepted hs hm, hev]; rfl
    · simp [AlertType.triggerAlert, hon2, hon]
    · simp [AlertType.triggerAlert, hon2, hon, hal2]
    · simp [AlertType.triggerAlert, hon2, hon]
  · rw [if_neg (not_le.mpr hcount)] at hev
    have hclose : ({ c2 with CurrentMovingCount := c.CurrentMovingCount + 1 - (numRemoved : Int) } :
        AlertType).closeAlert t =
        .done { c2 with CurrentMovingCount := c.CurrentMovingCount + 1 - (numRemoved : Int) } := by
      simp [AlertType.closeAlert, hon2, hoff]
    rw [hclose] at hev
    refine ⟨{ c2 with CurrentMovingCount := c.CurrentMovingCount + 1 - (numRemoved : Int) },
      ?_, rfl, hal2, hon2⟩
    rw [ConsumeLog_accepted hs hm, hev]; rfl

/-- C8 on the second test: with the alert open after five records, the record
at `t0+2s` keeps the count at or above the threshold and changes neither
`Alerts` nor `AlertOngoing`. -/
theorem C8_same_condition_noop_witness :
    ∃ c3, (recoverPrior.ConsumeLog (recordAt (t0 + 2 * Second))) = .done (c3, none) ∧
      c3.CurrentMovingCount = recoverPrior.CurrentMovingCount + 1 - ((0 : Nat) : Int) ∧
      c3.Alerts = recoverPrior.Alerts ∧ c3.AlertOngoing = recoverPrior.AlertOngoing :=
  C8_same_condition_noop recoverPrior
    ((recoverPrior.addToChain (recordAt (t0 + 2 * Second))).getD recoverPrior)
    (((recoverPrior.addToChain (recordAt (t0 + 2 * Second))).getD
      recoverPrior).dropOldLogMessages.getD (recoverPrior, 0)).1
    (recordAt (t0 + 2 * Second)) { Key := "", ValueMutateFunc := none, Values := [] } 0
    rfl rfl rfl rfl (Or.inl ⟨rfl, by decide⟩)

/-! ## Eviction on a well-formed chain -/

theorem nodeT_of_getElem? {heap : List AlertLogNode} {i : Nat} {n : AlertLogNode}
    (h : heap[i]? = some n) : nodeT heap i = n.T := by
  simp [nodeT, h]

/-- The eviction walk along a chain: it passes the front part `pre`, whose
nodes are all too old, and stops at `c`, the first node within the window. -/
theorem dropWalk_chain {heap : List AlertLogNode} (t d : Int) :
    ∀ (pre : List Nat) (c : Nat) (post : List Nat) (prev : Option Nat) (fuel k : Nat),
      IsChain heap prev (pre ++ c :: post) → (∀ i ∈ pre, tooOld heap t d i = true) →
      tooOld heap t d c = false → pre.length < fuel →
      dropWalk heap t d fuel (pre ++ c :: post).head? k = .done (c, k + pre.length) := by
  intro pre
  induction pre with
  | nil =>
    intro c post prev fuel k h _ hc hfuel
    obtain ⟨n, hn, -, -, -⟩ := h
    cases fuel with
    | zero => simp at hfuel
    | succ f =>
      have hc2 : ¬ timeSub t n.T > d := by
        simpa [tooOld, nodeT_of_getElem? hn] using hc
      simp [dropWalk, hn, hc2]
  | cons i rest ih =>
    intro c post prev fuel k h hpre hc hfuel
    obtain ⟨n, hn, -, hnx, hrest⟩ := h
    cases fuel with
    | zero => simp at hfuel
    | succ f =>
      have hi : timeSub t n.T > d := by
        have := hpre i (List.mem_cons_self _ _)
        simpa [tooOld, nodeT_of_getElem? hn] using this
      have hnx2 : n.Next = (rest ++ c :: post).head? := by simpa using hnx
      simp only [List.cons_append, List.head?_cons, dropWalk, hn, hi, if_true, hnx2]
      rw [ih c post (some i) f (k + 1) hrest
        (fun j hj => hpre j (List.mem_cons_of_mem _ hj)) hc (by simpa using hfuel)]
      simp only [List.length_cons]
      congr 2
      omega

/-- C9: on a well-formed chain (sorted, `Next` and `Previous` consistent,
`LatestLogNode` its last node) with `Duration ≥ 0`, `dropOldLogMessages`
returns; the chain afterwards consists, in order, of exactly the nodes `n` with
`LatestLogNode.T − n.T ≤ Duration` (a node exactly `Duration` old is kept, an
older one is removed); the returned number is the number of removed nodes;
`OldestLogNode` is the first kept node and has no predecessor; the latest node
and the records of the nodes are untouched. -/
theorem C9_dropOld_keeps_window (s : AlertType) (l : List Nat)
    (hwf : WellFormedChain s l) (hD : 0 ≤ s.Duration) :
    ∃ s1 t, s.latestT = some t ∧
      s.dropOldLogMessages =
        .done (s1, (l.filter fun i => decide (timeSub t (nodeT s.heap i) > s.Duration)).length) ∧
      s1.chain = l.filter (fun i => decide (timeSub t (nodeT s.heap i) ≤ s.Duration)) ∧
      (∀ i, i ∈ s1.chain ↔ i ∈ l ∧ timeSub t (nodeT s.heap i) ≤ s.Duration) ∧
      IsChain s1.heap none s1.chain ∧
      s1.OldestLogNode = s1.chain.head? ∧
      s1.LatestLogNode = s.LatestLogNode ∧ s1.LatestLogNode = s1.chain.getLast? ∧
      s1.heap.map (fun n => n.T) = s.heap.map (fun n => n.T) := by
  obtain ⟨hlink, hold, hlat, hne, hsorted⟩ := hwf
  -- the latest node and its timestamp
  have hlast : l.getLast? = some (l.getLast hne) := List.getLast?_eq_getLast l hne
  obtain ⟨nl, hnl⟩ := IsChain_mem l none hlink _ (List.getLast_mem hne)
  have hlatT : s.latestT = some nl.T := by
    simp [AlertType.latestT, hlat, hlast, hnl]
  -- the nodes to drop are a front part of the chain
  have hanti : List.Pairwise
      (fun a b => tooOld s.heap nl.T s.Duration b = true → tooOld s.heap nl.T s.Duration a = true)
      l := by
    refine hsorted.imp ?_
    intro a b hab hb
    have := timeSub_antitone nl.T _ _ hab
    simp only [tooOld, decide_eq_true_eq] at hb ⊢
    omega
  obtain ⟨hf1, hf2⟩ := filter_eq_takeWhile _ l hanti
  have hlastKeep : tooOld s.heap nl.T s.Duration (l.getLast hne) = false := by
    simp only [tooOld, nodeT_of_getElem? hnl, timeSub_self, decide_eq_false_iff_not]
    omega
  have hdne : l.dropWhile (tooOld s.heap nl.T s.Duration) ≠ [] := by
    intro h0
    have := (List.dropWhile_eq_nil_iff.mp h0) _ (List.getLast_mem hne)
    rw [hlastKeep] at this
    simp at this
  obtain ⟨c, post, hcp⟩ := List.exists_cons_of_ne_nil hdne
  have hc : tooOld s.heap nl.T s.Duration c = false := by
    have := List.head_dropWhile_not (tooOld s.heap nl.T s.Duration) l hdne
    simpa [hcp] using this
  have hsplit : l = l.takeWhile (tooOld s.heap nl.T s.Duration) ++ c :: post := by
    rw [← hcp]; exact (List.takeWhile_append_dropWhile _ l).symm
  generalize hpre : l.takeWhile (tooOld s.heap nl.T s.Duration) = pre at hsplit hf1
  have hpreOld : ∀ i ∈ pre, tooOld s.heap nl.T s.Duration i = true := by
    intro i hi
    rw [← hpre] at hi
    exact List.mem_takeWhile_imp hi
  -- sizes
  have hnodup : l.Nodup := IsChain_nodup l none hlink
  have hvalid : ∀ i ∈ l, i < s.heap.length := by
    intro i hi
    obtain ⟨n, hn⟩ := IsChain_mem l none hlink i hi
    exact (List.getElem?_eq_some_iff.mp hn).1
  have hlen : l.length ≤ s.heap.length := length_le_of_nodup_lt l _ hnodup hvalid
  have hprelen : pre.length < s.heap.length + 1 := by
    have := congrArg List.length hsplit
    simp at this
    omega
  -- the walk
  have hwalk := dropWalk_chain nl.T s.Duration pre c post none (s.heap.length + 1) 0
    (hsplit ▸ hlink) hpreOld hc hprelen
  rw [← hsplit, ← hold] at hwalk
  -- the node at which the walk stops
  have hkeptChain := IsChain_append pre (c :: post) none (hsplit ▸ hlink)
  obtain ⟨cn, hcn, hcprev, hcnext, hpost⟩ := hkeptChain
  have hnodup2 : (pre ++ c :: post).Nodup := hsplit ▸ hnodup
  have hcpre : c ∉ pre := by
    intro hmem
    exact (List.nodup_append.mp hnodup2).2.2 hmem (List.mem_cons_self _ _)
  have hcpost : c ∉ post :=
    (List.nodup_cons.mp (List.nodup_append.mp hnodup2).2.1).1
  have hpostpre : ∀ j ∈ post, j ∉ pre := by
    intro j hj hmem
    exact (List.nodup_append.mp hnodup2).2.2 hmem (List.mem_cons_of_mem _ hj)
  -- the arena after the two writes
  have hheap1 : ∃ heap1 : List AlertLogNode,
      (match cn.Previous with
        | some p => setNext s.heap p none
        | none => s.heap) = heap1 ∧
      heap1.length = s.heap.length ∧
      heap1.map (fun n => n.T) = s.heap.map (fun n => n.T) ∧
      ∀ j, j ∉ pre → heap1[j]? = s.heap[j]? := by
    cases hp : cn.Previous with
    | none => exact ⟨s.heap, rfl, rfl, rfl, fun _ _ => rfl⟩
    | some q =>
      refine ⟨setNext s.heap q none, rfl, length_setNext _ _ _, map_T_setNext _ _ _, ?_⟩
      intro j hj
      apply getElem?_setNext_ne
      intro hjq
      rw [hp] at hcprev
      cases hgl : pre.getLast? with
      | none => rw [hgl] at hcprev; simp at hcprev
      | some x =>
        rw [hgl] at hcprev
        simp only [Option.some.injEq] at hcprev
        have : x ∈ pre := List.mem_of_getLast?_eq_some hgl
        rw [← hcprev, ← hjq] at this
        exact hj this
  obtain ⟨heap1, hheap1eq, hlen1, hT1, hsame1⟩ := hheap1
  have hcn1 : heap1[c]? = some cn := (hsame1 c hcpre).trans hcn
  have hkept2 : IsChain (setPrevious heap1 c none) none (c :: post) := by
    refine ⟨{ cn with Previous := none }, getElem?_setPrevious_self _ _ _ _ hcn1, rfl, hcnext, ?_⟩
    refine IsChain_congr post (some c) ?_ hpost
    intro j hj
    have hjc : j ≠ c := fun h => hcpost (h ▸ hj)
    rw [getElem?_setPrevious_ne _ _ _ _ hjc]
    exact hsame1 j (hpostpre j hj)
  have hkeptlen : (c :: post).length ≤ (setPrevious heap1 c none).length := by
    rw [length_setPrevious, hlen1]
    have := congrArg List.length hsplit
    simp at this
    simp
    omega
  have hfilterKeep : l.filter (fun i => decide (timeSub nl.T (nodeT s.heap i) ≤ s.Duration)) =
      c :: post := by
    rw [← hcp, ← hf2]
    apply List.filter_congr
    intro i _
    simp only [tooOld, gt_iff_lt]
    by_cases h : timeSub nl.T (nodeT s.heap i) ≤ s.Duration
    · simp [h, not_lt.mpr h]
    · simp [h, not_le.mp h]
  have hfilterOld : l.filter (fun i => decide (timeSub nl.T (nodeT s.heap i) > s.Duration)) =
      pre := hf1
  have hchain : chainFrom (setPrevious heap1 c none) (setPrevious heap1 c none).length (some c) =
      c :: post := by
    have := chainFrom_of_IsChain (c :: post) none _ hkept2 hkeptlen
    simpa using this
  refine ⟨{ s with heap := setPrevious heap1 c none, OldestLogNode := some c }, nl.T, hlatT,
    ?_, ?_, ?_, ?_, ?_, rfl, ?_, ?_⟩
  · unfold AlertType.dropOldLogMessages
    simp only [hlatT, hwalk, Run.bind, hcn, hheap1eq, hfilterOld, Nat.zero_add]
  · simp only [AlertType.chain, hchain, hfilterKeep]
  · intro i
    simp only [AlertType.chain, hchain]
    rw [← hfilterKeep]
    simp [List.mem_filter]
  · simp only [AlertType.chain, hchain]
    exact hkept2
  · simp only [AlertType.chain, hchain, List.head?_cons]
  · simp only [AlertType.chain, hchain, hlat]
    rw [hsplit, List.getLast?_append, List.getLast?_eq_getLast _ (List.cons_ne_nil c post)]
    rfl
  · simp only [map_T_setPrevious, hT1]

/-- C9 on a chain of four nodes at `t0, t0+1s, t0+2s, t0+5s` with window 3 s:
the nodes at `t0` and `t0+1s` are removed, the node at `t0+2s`, exactly 3 s
older than the latest, is kept, and 2 is returned. -/
theorem C9_dropOld_keeps_window_witness :
    ∃ s1 t, sampleChainState.latestT = some t ∧
      sampleChainState.dropOldLogMessages =
        .done (s1, ([0, 1, 2, 3].filter fun i =>
          decide (timeSub t (nodeT sampleChainState.heap i) > sampleChainState.Duration)).length) ∧
      s1.chain = [0, 1, 2, 3].filter
        (fun i => decide (timeSub t (nodeT sampleChainState.heap i) ≤ sampleChainState.Duration)) ∧
      (∀ i, i ∈ s1.chain ↔
        i ∈ [0, 1, 2, 3] ∧ timeSub t (nodeT sampleChainState.heap i) ≤ sampleChainState.Duration) ∧
      IsChain s1.heap none s1.chain ∧
      s1.OldestLogNode = s1.chain.head? ∧
      s1.LatestLogNode = sampleChainState.LatestLogNode ∧
      s1.LatestLogNode = s1.chain.getLast? ∧
      s1.heap.map (fun n => n.T) = sampleChainState.heap.map (fun n => n.T) :=
  C9_dropOld_keeps_window sampleChainState [0, 1, 2, 3]
    { linked := ⟨_, rfl, rfl, rfl, _, rfl, rfl, rfl, _, rfl, rfl, rfl, _, rfl, rfl, rfl, trivial⟩
      oldest := rfl
      latest := rfl
      nonempty := by decide
      sorted := by decide }
    (by decide)

/-! ## The match filter -/

/-- C10: `IsMatch` returns true without error when `Key` is empty; otherwise
it returns an error exactly when the mutator is set and fails on
`record.KV[Key]`, and when it returns no error its result is true exactly when
the mutated value (the raw value when no mutator is set) is in `Values`. -/
theorem C10_IsMatch (s : AlertTypeSourceSettings) (msg : LogMessageStructured) :
    (s.Key = "" → s.IsMatch msg = .ok true) ∧
    (s.Key ≠ "" →
      ((∃ err, s.IsMatch msg = .error err) ↔
        ∃ f err, s.ValueMutateFunc = some f ∧ f (msg.GetValue s.Key) = .error err) ∧
      (∀ b, s.IsMatch msg = .ok b →
        ∃ value, cleanedValue s msg = some value ∧ (b = true ↔ value ∈ s.Values))) := by
  refine ⟨fun hk => by simp [AlertTypeSourceSettings.IsMatch, AlertTypeSourceSettings.GetKey, hk],
    fun hk => ?_⟩
  unfold AlertTypeSourceSettings.IsMatch AlertTypeSourceSettings.GetCleanedValue cleanedValue
  simp only [AlertTypeSourceSettings.GetKey, hk, if_false]
  cases hf : s.ValueMutateFunc with
  | none =>
    refine ⟨by simp, ?_⟩
    intro b hb
    simp only [Except.ok.injEq] at hb
    exact ⟨_, rfl, by rw [← hb, matchValues_iff]⟩
  | some f =>
    cases hv : f (msg.GetValue s.Key) with
    | error err =>
      simp only [hv]
      refine ⟨by simp [hv], ?_⟩
      intro b hb
      simp at hb
    | ok v =>
      simp only [hv]
      refine ⟨by simp [hv], ?_⟩
      intro b hb
      simp only [Except.ok.injEq] at hb
      exact ⟨v, rfl, by rw [← hb, matchValues_iff]⟩

/-- C10 at concrete settings: key `k`, a mutator that maps `a` to `A` and
rejects the rest, accept-set `[A]`. The record with `k = a` matches, the record
with `k = b` is an error. -/
theorem C10_IsMatch_witness :
    (({ Key := "k", ValueMutateFunc := some onlyA, Values := ["A"] } : AlertTypeSourceSettings).IsMatch
        { recordAt 0 with KV := [("k", "a")] } = .ok true) ∧
    ((∃ err, ({ Key := "k", ValueMutateFunc := some onlyA, Values := ["A"] } :
          AlertTypeSourceSettings).IsMatch { recordAt 0 with KV := [("k", "b")] } = .error err) ↔
      ∃ f err, (some onlyA : Option (String → Except String String)) = some f ∧
        f (({ recordAt 0 with KV := [("k", "b")] } : LogMessageStructured).GetValue "k") =
          .error err) :=
  ⟨rfl,
    ((C10_IsMatch { Key := "k", ValueMutateFunc := some onlyA, Values := ["A"] }
      { recordAt 0 with KV := [("k", "b")] }).2 (by decide)).1⟩

/-! ## Rejected records and errors of the alert consumer -/

/-- C11: a record from a configured source that `IsMatch` rejects makes
`ConsumeLog` return no error and leave the consumer exactly as it was: chain,
`LatestLogNode`, `OldestLogNode`, `CurrentMovingCount`, `AlertOngoing` and
`Alerts`. -/
theorem C11_rejected_is_noop (c : AlertType) (msg : LogMessageStructured)
    (settings : AlertTypeSourceSettings)
    (hs : c.GetSourceSettings msg.SourceName = .ok settings)
    (hm : settings.IsMatch msg = .ok false) :
    c.ConsumeLog msg = .done (c, none) := by
  unfold AlertType.ConsumeLog
  simp only [hs, hm]

/-- C11 on the second test state: with accept-set `[/api]` under key `request`,
a record whose request is `/report` is rejected and nothing changes. -/
theorem C11_rejected_is_noop_witness :
    ({ recoverPrior with
        SourceSettings := [("test_source",
          { Key := "request", ValueMutateFunc := none, Values := ["/api"] })] } :
      AlertType).ConsumeLog { recordAt t0 with KV := [("request", "/report")] } =
    .done ({ recoverPrior with
        SourceSettings := [("test_source",
          { Key := "request", ValueMutateFunc := none, Values := ["/api"] })] }, none) :=
  C11_rejected_is_noop _ _ { Key := "request", ValueMutateFunc := none, Values := ["/api"] }
    rfl rfl

/-- C12 as stated fails: with an empty `Key` the mutator is never run, so a
record whose value the mutator rejects (the request-line mutator fails on the
empty string) is consumed without error and the state changes (the count goes
from 0 to 1). -/
theorem C12_counterexample :
    HTTPStatusLineToSection ((recordAt t0).GetValue "") = .error "invalid number of parts" ∧
    ((AlertType.fresh (3 * Second) 5 "Test Alert" emptyKeySettings).ConsumeLog (recordAt t0)).map
      (fun r => (r.2, r.1.CurrentMovingCount)) = .done (none, 1) :=
  ⟨by rfl, by decide⟩

/-- C12, amended: `ConsumeLog` returns an error when the source name of the
record has no entry in the source settings, and when the settings of the source
have a non-empty `Key` and a mutator that rejects the value under that key; in
both cases the consumer is left exactly as it was. -/
theorem C12_errors_leave_state (c : AlertType) (msg : LogMessageStructured) :
    (c.SourceSettings.lookup msg.SourceName = none →
      ∃ err, c.ConsumeLog msg = .done (c, some err)) ∧
    (∀ settings f err, c.SourceSettings.lookup msg.SourceName = some settings →
      settings.Key ≠ "" → settings.ValueMutateFunc = some f →
      f (msg.GetValue settings.Key) = .error err →
      c.ConsumeLog msg = .done (c, some err)) := by
  constructor
  · intro h
    refine ⟨"source settings not found", ?_⟩
    simp [AlertType.ConsumeLog, AlertType.GetSourceSettings, h]
  · intro settings f err hs hk hf hv
    have hm : settings.IsMatch msg = .error err := by
      simp [AlertTypeSourceSettings.IsMatch, AlertTypeSourceSettings.GetKey, hk,
        AlertTypeSourceSettings.GetCleanedValue, hf, hv]
    simp [AlertType.ConsumeLog, AlertType.GetSourceSettings, hs, hm]

/-- C12, amended, on the test consumer: a record of an unknown source is an
error, and so is a record whose request line the mutator rejects under key
`request`; the state is the one before the call. -/
theorem C12_errors_leave_state_witness :
    (∃ err, vanillaAlertType.ConsumeLog { recordAt t0 with SourceName := "other" } =
      .done (vanillaAlertType, some err)) ∧
    ({ vanillaAlertType with
        SourceSettings := [("test_source",
          { Key := "request", ValueMutateFunc := some HTTPStatusLineToSection,
            Values := ["/api"] })] } : AlertType).ConsumeLog
        { recordAt t0 with KV := [("request", "GET api/ HTTP/1.0")] } =
      .done ({ vanillaAlertType with
        SourceSettings := [("test_source",
          { Key := "request", ValueMutateFunc := some HTTPStatusLineToSection,
            Values := ["/api"] })] }, some "expected endpoint to begin with a `/`") :=
  ⟨(C12_errors_leave_state vanillaAlertType { recordAt t0 with SourceName := "other" }).1 rfl,
    (C12_errors_leave_state _ { recordAt t0 with KV := [("request", "GET api/ HTTP/1.0")] }).2
      { Key := "request", ValueMutateFunc := some HTTPStatusLineToSection, Values := ["/api"] }
      HTTPStatusLineToSection "expected endpoint to begin with a `/`" rfl (by decide) rfl
      (by rfl)⟩

/-- C13, evaluated on the code: window 10 s, records at `t0, t0+3s, t0+1s,
t0+11s, t0+2s, t0+22s`. The first five calls return; after the fifth the
latest node is the record at `t0+2s`, which hangs off the evicted node at `t0`
and is not on the chain that starts at `OldestLogNode`. On the sixth call the
eviction walk finds every node of that chain too old, runs past its end and
reads `currentNode.T` of a nil node: `ConsumeLog` panics. -/
theorem C13_eviction_walk_panics :
    (consumeAll (AlertType.fresh (10 * Second) 5 "Test Alert" vanillaSettings)
        (panicRecords.take 5)).map (fun c => (c.chainTimes, c.latestT)) =
      .done ([t0 + 1 * Second, t0 + 3 * Second, t0 + 11 * Second], some (t0 + 2 * Second)) ∧
    (consumeAll (AlertType.fresh (10 * Second) 5 "Test Alert" vanillaSettings)
        panicRecords).map AlertType.chainTimes = .panic :=
  ⟨by decide, by decide⟩

/-! ## The window walk of the stats consumer -/

/-- Within the range of `time.Time`, `Add` is the sum. -/
theorem timeAdd_eq_add (t d : Int) (hhi : 0 ≤ d → t + d < 2 ^ 63 * Second)
    (hlo : d < 0 → -(2 ^ 63) * Second ≤ t + d) : timeAdd t d = t + d := by
  simp only [timeAdd, Second] at *
  split_ifs <;> omega

/-- Adding whole seconds to an instant of whole seconds up to `lastSecond`
gives an instant of whole seconds up to `lastSecond`. -/
theorem timeAdd_whole (t d : Int) (ht : t % Second = 0) (hd : d % Second = 0) (h0 : 0 ≤ d)
    (hle : t ≤ lastSecond) : timeAdd t d % Second = 0 ∧ timeAdd t d ≤ lastSecond := by
  simp only [timeAdd, Second, lastSecond] at *
  split_ifs <;> omega

theorem Option.map_eq_some_done {α β : Type} {o : Option (Run α)} {f : Run α → Run β} {b : β}
    (h : o.map f = some (.done b)) : ∃ r, o = some r ∧ f r = .done b := by
  cases o with
  | none => simp at h
  | some r => exact ⟨r, rfl, by simpa using h⟩

theorem windowAt_eq_some {ws : List StatsWindow} {i : Int} {w : StatsWindow}
    (h : windowAt ws i = some w) : 0 ≤ i ∧ ws[i.toNat]? = some w ∧ i.toNat < ws.length := by
  unfold windowAt at h
  split at h
  · simp at h
  · next hi =>
    exact ⟨not_lt.mp hi, h, (List.getElem?_eq_some_iff.mp h).1⟩

theorem windowAt_natCast (ws : List StatsWindow) (i : Nat) : windowAt ws (i : Int) = ws[i]? := by
  simp [windowAt]

theorem windowAt_append_left {ws ext : List StatsWindow} {i : Int} {w : StatsWindow}
    (h : windowAt ws i = some w) : windowAt (ws ++ ext) i = some w := by
  obtain ⟨h0, h1, h2⟩ := windowAt_eq_some h
  unfold windowAt
  rw [if_neg (not_lt.mpr h0), List.getElem?_append_left h2]
  exact h1

theorem windowBounds_append (a b : List StatsWindow) :
    windowBounds (a ++ b) = windowBounds a ++ windowBounds b := by
  simp [windowBounds]

theorem ContiguousBounds_append_new {d : Int} :
    ∀ (bs : List (Int × Int)) (last : Int × Int), ContiguousBounds d bs →
      bs.getLast? = some last → ContiguousBounds d (bs ++ [(last.2, last.2 + d)]) := by
  intro bs
  induction bs with
  | nil => intro last _ h; simp at h
  | cons a rest ih =>
    intro last hc hl
    cases rest with
    | nil =>
      simp only [List.getLast?_singleton, Option.some.injEq] at hl
      subst hl
      exact ⟨rfl, rfl, trivial⟩
    | cons b rest2 =>
      obtain ⟨h1, h2, h3⟩ := hc
      have hl2 : (b :: rest2).getLast? = some last := by
        simpa [List.getLast?_cons_cons] using hl
      exact ⟨h1, h2, ih last h3 hl2⟩

theorem Contiguous_append_new {d : Int} (ws : List StatsWindow) (last : StatsWindow)
    (hc : Contiguous d ws) (hl : ws.getLast? = some last) :
    Contiguous d (ws ++ [NewStatsWindow last.End (last.End + d)]) := by
  unfold Contiguous at hc ⊢
  rw [windowBounds_append]
  have hl2 : (windowBounds ws).getLast? = some (last.Start, last.End) := by
    simp [windowBounds, List.getLast?_map, hl]
  exact ContiguousBounds_append_new _ _ hc hl2

theorem ContiguousBounds_getElem? {d : Int} :
    ∀ (bs : List (Int × Int)) (i : Nat) (a b : Int × Int), ContiguousBounds d bs →
      bs[i]? = some a → bs[i + 1]? = some b → b.1 = a.2 ∧ b.2 = b.1 + d := by
  intro bs
  induction bs with
  | nil => intro i a b _ h; simp at h
  | cons x rest ih =>
    intro i a b hc ha hb
    cases rest with
    | nil => simp at hb
    | cons y rest2 =>
      obtain ⟨h1, h2, h3⟩ := hc
      cases i with
      | zero =>
        simp only [List.getElem?_cons_zero, Option.some.injEq] at ha
        simp only [Nat.zero_add, List.getElem?_cons_succ, List.getElem?_cons_zero,
          Option.some.injEq] at hb
        subst ha hb
        exact ⟨h1, h2⟩
      | succ k =>
        simp only [List.getElem?_cons_succ] at ha hb
        exact ih k a b h3 ha (by simpa using hb)

theorem Contiguous_getElem? {d : Int} {ws : List StatsWindow} {i : Nat} {a b : StatsWindow}
    (hc : Contiguous d ws) (ha : ws[i]? = some a) (hb : ws[i + 1]? = some b) :
    b.Start = a.End ∧ b.End = b.Start + d := by
  have := ContiguousBounds_getElem? (windowBounds ws) i (a.Start, a.End) (b.Start, b.End) hc
    (by simp [windowBounds, List.getElem?_map, ha]) (by simp [windowBounds, List.getElem?_map, hb])
  exact this

theorem ContiguousAddBounds_append_new {d : Int} :
    ∀ (bs : List (Int × Int)) (last : Int × Int), ContiguousAddBounds d bs →
      bs.getLast? = some last → ContiguousAddBounds d (bs ++ [(last.2, timeAdd last.2 d)]) := by
  intro bs
  induction bs with
  | nil => intro last _ h; simp at h
  | cons a rest ih =>
    intro last hc hl
    cases rest with
    | nil =>
      simp only [List.getLast?_singleton, Option.some.injEq] at hl
      subst hl
      exact ⟨rfl, rfl, trivial⟩
    | cons b rest2 =>
      obtain ⟨h1, h2, h3⟩ := hc
      have hl2 : (b :: rest2).getLast? = some last := by
        simpa [List.getLast?_cons_cons] using hl
      exact ⟨h1, h2, ih last h3 hl2⟩

theorem ContiguousAdd_append_new {d : Int} (ws : List StatsWindow) (last : StatsWindow)
    (hc : ContiguousAdd d ws) (hl : ws.getLast? = some last) :
    ContiguousAdd d (ws ++ [NewStatsWindow last.End (timeAdd last.End d)]) := by
  unfold ContiguousAdd at hc ⊢
  rw [windowBounds_append]
  have hl2 : (windowBounds ws).getLast? = some (last.Start, last.End) := by
    simp [windowBounds, List.getLast?_map, hl]
  exact ContiguousAddBounds_append_new _ _ hc hl2

theorem ContiguousAddBounds_getElem? {d : Int} :
    ∀ (bs : List (Int × Int)) (i : Nat) (a b : Int × Int), ContiguousAddBounds d bs →
      bs[i]? = some a → bs[i + 1]? = some b → b.1 = a.2 ∧ b.2 = timeAdd b.1 d := by
  intro bs
  induction bs with
  | nil => intro i a b _ h; simp at h
  | cons x rest ih =>
    intro i a b hc ha hb
    cases rest with
    | nil => simp at hb
    | cons y rest2 =>
      obtain ⟨h1, h2, h3⟩ := hc
      cases i with
      | zero =>
        simp only [List.getElem?_cons_zero, Option.some.injEq] at ha
        simp only [Nat.zero_add, List.getElem?_cons_succ, List.getElem?_cons_zero,
          Option.some.injEq] at hb
        subst ha hb
        exact ⟨h1, h2⟩
      | succ k =>
        simp only [List.getElem?_cons_succ] at ha hb
        exact ih k a b h3 ha (by simpa using hb)

theorem ContiguousAdd_getElem? {d : Int} {ws : List StatsWindow} {i : Nat} {a b : StatsWindow}
    (hc : ContiguousAdd d ws) (ha : ws[i]? = some a) (hb : ws[i + 1]? = some b) :
    b.Start = a.End ∧ b.End = timeAdd b.Start d := by
  have := ContiguousAddBounds_getElem? (windowBounds ws) i (a.Start, a.End) (b.Start, b.End) hc
    (by simp [windowBounds, List.getElem?_map, ha]) (by simp [windowBounds, List.getElem?_map, hb])
  exact this

/-- What the window walk has done when it returns: it only appended empty
windows, each starting at the end of the one before and ending where `Add`
puts its end, the flag tells whether it appended any, and the window it settled
on holds the instant. -/
theorem determineWindowLoop_done {d t : Int} :
    ∀ (fuel : Nat) (ws : List StatsWindow) (i : Int) (c : Bool) (ws1 : List StatsWindow)
      (j : Int) (c1 : Bool),
      determineWindowLoop d t fuel ws i c = some (.done (ws1, j, c1)) →
      ∃ ext, ws1 = ws ++ ext ∧ (∀ w ∈ ext, w.StatsMap = []) ∧
        (ContiguousAdd d ws → ContiguousAdd d ws1) ∧ c1 = (c || !ext.isEmpty) ∧
        ∃ w, windowAt ws1 j = some w ∧ w.Start ≤ t ∧ t < w.End := by
  intro fuel
  induction fuel with
  | zero => intro ws i c ws1 j c1 h; simp [determineWindowLoop] at h
  | succ n ih =>
    intro ws i c ws1 j c1 h
    unfold determineWindowLoop at h
    simp only at h
    by_cases hgrow : i ≥ (ws.length : Int)
    · simp only [hgrow, if_true] at h
      cases hl : ws.getLast? with
      | none => simp [hl] at h
      | some lastWindow =>
        simp only [hl] at h
        cases hw : windowAt (ws ++ [NewStatsWindow lastWindow.End (timeAdd lastWindow.End d)]) i with
        | none => simp [hw] at h
        | some window =>
          simp only [hw] at h
          have hstep : ∀ (i2 : Int),
              determineWindowLoop d t n (ws ++ [NewStatsWindow lastWindow.End (timeAdd lastWindow.End d)])
                i2 true = some (.done (ws1, j, c1)) →
              ∃ ext, ws1 = ws ++ ext ∧ (∀ w ∈ ext, w.StatsMap = []) ∧
                (ContiguousAdd d ws → ContiguousAdd d ws1) ∧ c1 = (c || !ext.isEmpty) ∧
                ∃ w, windowAt ws1 j = some w ∧ w.Start ≤ t ∧ t < w.End := by
            intro i2 h2
            obtain ⟨ext, h3, h4, h5, h6, h7⟩ := ih _ i2 true ws1 j c1 h2
            refine ⟨NewStatsWindow lastWindow.End (timeAdd lastWindow.End d) :: ext, ?_, ?_, ?_, ?_, h7⟩
            · rw [h3]; simp
            · intro w hw2
              rcases List.mem_cons.mp hw2 with rfl | hw3
              · rfl
              · exact h4 w hw3
            · intro hc
              exact h5 (ContiguousAdd_append_new ws lastWindow hc hl)
            · simp [h6]
          by_cases hb : timeBefore t window.Start = true
          · simp only [hb, if_true] at h
            exact hstep _ h
          · simp only [hb] at h
            by_cases ha : (decide (t > window.End) || decide (t = window.End)) = true
            · simp only [ha, if_true] at h
              exact hstep _ h
            · simp only [ha] at h
              simp only [Bool.false_eq_true, if_false, Option.some.injEq, Run.done.injEq,
                Prod.mk.injEq] at h
              obtain ⟨h1, h2, h3⟩ := h
              subst h1 h2 h3
              refine ⟨[NewStatsWindow lastWindow.End (timeAdd lastWindow.End d)], rfl, ?_, ?_, ?_,
                window, hw, ?_, ?_⟩
              · intro w hw2
                simp only [List.mem_singleton] at hw2
                subst hw2; rfl
              · intro hc
                exact ContiguousAdd_append_new ws lastWindow hc hl
              · simp
              · simp only [timeBefore, decide_eq_true_eq] at hb
                omega
              · simp only [Bool.or_eq_true, decide_eq_true_eq, not_or] at ha
                omega
    · simp only [hgrow, if_false] at h
      cases hw : windowAt ws i with
      | none => simp [hw] at h
      | some window =>
        simp only [hw] at h
        have hstep : ∀ (i2 : Int),
            determineWindowLoop d t n ws i2 c = some (.done (ws1, j, c1)) →
            ∃ ext, ws1 = ws ++ ext ∧ (∀ w ∈ ext, w.StatsMap = []) ∧
              (ContiguousAdd d ws → ContiguousAdd d ws1) ∧ c1 = (c || !ext.isEmpty) ∧
              ∃ w, windowAt ws1 j = some w ∧ w.Start ≤ t ∧ t < w.End :=
          fun i2 h2 => ih ws i2 c ws1 j c1 h2
        by_cases hb : timeBefore t window.Start = true
        · simp only [hb, if_true] at h
          exact hstep _ h
        · simp only [hb] at h
          by_cases ha : (decide (t > window.End) || decide (t = window.End)) = true
          · simp only [ha, if_true] at h
            exact hstep _ h
          · simp only [ha] at h
            simp only [Bool.false_eq_true, if_false, Option.some.injEq, Run.done.injEq,
              Prod.mk.injEq] at h
            obtain ⟨h1, h2, h3⟩ := h
            subst h1 h2 h3
            refine ⟨[], by simp, by simp, fun hc => hc, by simp, window, hw, ?_, ?_⟩
            · simp only [timeBefore, decide_eq_true_eq] at hb
              omega
            · simp only [Bool.or_eq_true, decide_eq_true_eq, not_or] at ha
              omega

/-! ## One call of the stats consumer -/

theorem windowBounds_set_add (ws : List StatsWindow) (i : Nat) (w : StatsWindow) (value : String)
    (kv : List (String × String)) (h : ws[i]? = some w) :
    windowBounds (ws.set i (w.add value kv)) = windowBounds ws := by
  unfold windowBounds
  rw [List.map_set]
  apply List.ext_getElem?
  intro k
  by_cases hk : k = i
  · subst hk
    have hlt : k < ws.length := (List.getElem?_eq_some_iff.mp h).1
    have hget : ws[k] = w := (List.getElem?_eq_some_iff.mp h).2
    simp [List.getElem?_set, hlt, List.getElem?_map, h, StatsWindow.add, hget]
  · simp [List.getElem?_set, Ne.symm hk]

/-- What the second part of `addToWindow` has done when it returns. -/
theorem addToWindowAfter_done {s s1 : StatsType} {msg : LogMessageStructured}
    {ws : List StatsWindow} {j : Int} {created : Bool} {err : Option String}
    (h : s.addToWindowAfter msg (ws, j, created) = .done (s1, err)) :
    s1.Duration = s.Duration ∧ s1.SourceSettings = s.SourceSettings ∧
    s1.LatestTimestamp = s.LatestTimestamp ∧
    s1.QueuedNotifications =
      (if created = true then s.QueuedNotifications ++ [s.CurrentPointer]
        else s.QueuedNotifications) ∧
    ∃ w, windowAt ws j = some w ∧
      ((∃ e, err = some e ∧ s1.Windows = ws ∧ s1.CurrentPointer = s.CurrentPointer) ∨
        (err = none ∧ s1.CurrentPointer = j ∧
          ∃ settings value, s.GetSourceSettings msg.SourceName = .ok settings ∧
            settings.GetCleanedValue msg = .ok value ∧
            s1.Windows = ws.set j.toNat (w.add value (settings.GetCleanedKV msg)))) := by
  unfold StatsType.addToWindowAfter at h
  simp only at h
  have hQ : ∀ x : StatsType,
      x = (if created = true then
          ({ s with Windows := ws,
                    QueuedNotifications := s.QueuedNotifications ++ [s.CurrentPointer] } :
            StatsType)
        else { s with Windows := ws }) →
      x.Duration = s.Duration ∧ x.SourceSettings = s.SourceSettings ∧
      x.LatestTimestamp = s.LatestTimestamp ∧ x.Windows = ws ∧
      x.CurrentPointer = s.CurrentPointer ∧
      x.QueuedNotifications =
        (if created = true then s.QueuedNotifications ++ [s.CurrentPointer]
          else s.QueuedNotifications) ∧
      x.GetSourceSettings msg.SourceName = s.GetSourceSettings msg.SourceName := by
    intro x hx
    subst hx
    cases created <;> simp [StatsType.GetSourceSettings]
  generalize hs2 : (if created = true then
          ({ s with Windows := ws,
                    QueuedNotifications := s.QueuedNotifications ++ [s.CurrentPointer] } :
            StatsType)
        else { s with Windows := ws }) = s2 at h
  obtain ⟨h1, h2, h3, h4, h5, h6, h7⟩ := hQ s2 hs2.symm
  rw [h4] at h
  cases hw : windowAt ws j with
  | none => simp [hw] at h
  | some w =>
    simp only [hw] at h
    rw [h7] at h
    cases hs : s.GetSourceSettings msg.SourceName with
    | error e =>
      simp only [hs, Run.done.injEq, Prod.mk.injEq] at h
      obtain ⟨ha, hb⟩ := h
      subst ha hb
      exact ⟨h1, h2, h3, h6, w, rfl, Or.inl ⟨e, rfl, h4, h5⟩⟩
    | ok settings =>
      simp only [hs] at h
      cases hv : settings.GetCleanedValue msg with
      | error e =>
        simp only [hv, Run.done.injEq, Prod.mk.injEq] at h
        obtain ⟨ha, hb⟩ := h
        subst ha hb
        exact ⟨h1, h2, h3, h6, w, rfl, Or.inl ⟨e, rfl, h4, h5⟩⟩
      | ok value =>
        simp only [hv, Run.done.injEq, Prod.mk.injEq] at h
        obtain ⟨ha, hb⟩ := h
        subst ha hb
        exact ⟨h1, h2, h3, h6, w, rfl, Or.inr ⟨rfl, rfl, settings, value, rfl, hv, rfl⟩⟩

/-- `releaseNotifications` only writes `QueuedNotifications`. -/
theorem releaseNotifications_done {s s1 : StatsType} {reports : List Int}
    (h : s.releaseNotifications = .done (s1, reports)) :
    s1 = { s with QueuedNotifications := s1.QueuedNotifications } := by
  unfold StatsType.releaseNotifications at h
  obtain ⟨scanned, -, h⟩ := Run.bind_eq_done h
  obtain ⟨q, -, h⟩ := Run.bind_eq_done h
  simp only [Run.done.injEq, Prod.mk.injEq] at h
  obtain ⟨h, -⟩ := h
  subst h
  rfl

/-- What a call of `ConsumeLog` on a stats consumer has done when it
returns. -/
theorem StatsConsumeLog_done {fuel : Nat} {s s1 : StatsType} {msg : LogMessageStructured}
    {err : Option String} {reports : List Int}
    (h : s.ConsumeLog fuel msg = some (.done (s1, err, reports))) :
    ∃ ws j created sa, s.determineWindow fuel msg.T = some (.done (ws, j, created)) ∧
      s.addToWindowAfter msg (ws, j, created) = .done (sa, err) ∧
      s1.Duration = s.Duration ∧ s1.SourceSettings = s.SourceSettings ∧
      s1.Windows = sa.Windows ∧ s1.CurrentPointer = sa.CurrentPointer ∧
      (err = none →
        ({ sa with LatestTimestamp :=
            (if timeBefore sa.LatestTimestamp msg.T = true then msg.T
              else sa.LatestTimestamp) } : StatsType).releaseNotifications =
          .done (s1, reports)) ∧
      (err ≠ none → s1 = sa) := by
  unfold StatsType.ConsumeLog at h
  obtain ⟨r, hr, hbind⟩ := Option.map_eq_some_done h
  obtain ⟨added, hadded, hrest⟩ := Run.bind_eq_done hbind
  subst hadded
  unfold StatsType.addToWindow at hr
  cases hdw : s.determineWindow fuel msg.T with
  | none => simp [hdw] at hr
  | some rd =>
    simp only [hdw, Option.map_some', Option.some.injEq] at hr
    obtain ⟨found, hfound, hafter⟩ := Run.bind_eq_done hr
    subst hfound
    obtain ⟨ws, j, created⟩ := found
    obtain ⟨sa, erra⟩ := added
    have hfacts := addToWindowAfter_done hafter
    cases erra with
    | some e =>
      simp only [Run.done.injEq, Prod.mk.injEq] at hrest
      obtain ⟨h1, h2, h3⟩ := hrest
      subst h1 h2 h3
      exact ⟨ws, j, created, sa, rfl, hafter, hfacts.1, hfacts.2.1, rfl, rfl,
        fun hn => by simp at hn, fun _ => rfl⟩
    | none =>
      simp only at hrest
      obtain ⟨released, hrel, hfin⟩ := Run.bind_eq_done hrest
      simp only [Run.done.injEq, Prod.mk.injEq] at hfin
      obtain ⟨h1, h2, h3⟩ := hfin
      subst h1 h2 h3
      have hstate : (if timeBefore sa.LatestTimestamp msg.T = true then
            ({ sa with LatestTimestamp := msg.T } : StatsType) else sa) =
          { sa with LatestTimestamp :=
              (if timeBefore sa.LatestTimestamp msg.T = true then msg.T
                else sa.LatestTimestamp) } := by
        by_cases hb : timeBefore sa.LatestTimestamp msg.T = true
        · simp [hb]
        · simp [hb]
      rw [hstate] at hrel
      have hsame := releaseNotifications_done hrel
      refine ⟨ws, j, created, sa, rfl, hafter, ?_, ?_, ?_, ?_, fun _ => hrel,
        fun hn => by simp at hn⟩
      · rw [hsame]; exact hfacts.1
      · rw [hsame]; exact hfacts.2.1
      · rw [hsame]
      · rw [hsame]

/-- C14: on a stats consumer without windows, `PrepareForConsumption(first_ts)`
sets `Windows` to exactly two windows with empty buckets, the sentinel
`[zero, first_ts)` and `[first_ts, first_ts.Add(Duration))`, sets
`CurrentPointer` to 1 and leaves the rest. The end of the second window is
`first_ts + Duration` whenever that instant is within the range of `time.Time`,
its count of seconds fitting an `int64`. On a consumer that has a window the
call changes nothing. -/
theorem C14_prepare (c : StatsType) (first_ts : Int) :
    (c.Windows = [] →
      c.PrepareForConsumption first_ts =
        { c with
          Windows := [{ StatsMap := [], Start := 0, End := first_ts },
            { StatsMap := [], Start := first_ts, End := timeAdd first_ts c.Duration }]
          CurrentPointer := 1 }) ∧
    (c.Windows = [] → -(2 ^ 63) * Second ≤ first_ts + c.Duration →
      first_ts + c.Duration < 2 ^ 63 * Second →
      c.PrepareForConsumption first_ts =
        { c with
          Windows := [{ StatsMap := [], Start := 0, End := first_ts },
            { StatsMap := [], Start := first_ts, End := first_ts + c.Duration }]
          CurrentPointer := 1 }) ∧
    (c.Windows ≠ [] → c.PrepareForConsumption first_ts = c) := by
  refine ⟨?_, ?_, ?_⟩
  · intro h
    simp [StatsType.PrepareForConsumption, h, NewStatsWindow]
  · intro h hlo hhi
    rw [← timeAdd_eq_add first_ts c.Duration (fun _ => hhi) (fun _ => hlo)]
    simp [StatsType.PrepareForConsumption, h, NewStatsWindow]
  · intro h
    have hlen : ¬ c.Windows.length < 1 := by
      have := List.length_pos.mpr h
      omega
    simp [StatsType.PrepareForConsumption, hlen]

/-- C14 on the test consumer: preparing the fresh consumer at `t0` gives the
two windows `[zero, t0)` and `[t0, t0+2s)` and pointer 1; preparing it again at
another instant changes nothing. -/
theorem C14_prepare_witness :
    vanillaStatsType.Windows =
      [{ StatsMap := [], Start := 0, End := t0 },
        { StatsMap := [], Start := t0, End := t0 + 2 * Second }] ∧
    vanillaStatsType.CurrentPointer = 1 ∧
    vanillaStatsType.PrepareForConsumption (t0 + 7 * Second) = vanillaStatsType :=
  ⟨congrArg StatsType.Windows
      ((C14_prepare (StatsType.fresh (2 * Second) "Test Stats" vanillaStatsSettings) t0).2.1 rfl
        (by decide) (by decide)),
    rfl, (C14_prepare vanillaStatsType (t0 + 7 * Second)).2.2 (by decide)⟩

/-- C14, the case the statement leaves out: the consumer with windows of 2 s is
prepared at the instant that the timestamp `9223371974719179007` parses into,
the last second of `time.Time`. `Add` stops there, so the second window is
`[first_ts, first_ts)` and not `[first_ts, first_ts + 2s)`. -/
theorem C14_counterexample :
    TimestampFormat_Unix.Parse "9223371974719179007" = .ok lastSecond ∧
    lateStatsType.Windows =
      [{ StatsMap := [], Start := 0, End := lastSecond },
        { StatsMap := [], Start := lastSecond, End := lastSecond }] ∧
    lateStatsType.Duration = 2 * Second ∧
    lateStatsType.Windows ≠
      [{ StatsMap := [], Start := 0, End := lastSecond },
        { StatsMap := [], Start := lastSecond, End := lastSecond + 2 * Second }] :=
  ⟨by rfl, by decide, by decide, by decide⟩

/-! ## Reachable states of the stats consumer -/

theorem statsStep_eq {fuel : Nat} {s : StatsType} {msg : LogMessageStructured}
    (h : statsStepRan fuel s msg = true) :
    s.ConsumeLog fuel msg = some (.done (statsStep fuel s msg)) := by
  unfold statsStepRan at h
  unfold statsStep
  split at h
  · next r hr => rw [hr]
  · simp at h

theorem statsStep_eq_none {fuel : Nat} {s : StatsType} {msg : LogMessageStructured}
    (h : statsStepRan fuel s msg = true) (he : (statsStep fuel s msg).2.1 = none) :
    s.ConsumeLog fuel msg =
      some (.done ((statsStep fuel s msg).1, none, (statsStep fuel s msg).2.2)) := by
  rw [statsStep_eq h, ← he]

theorem statsFinal_eq {r : Option (Run StatsType)} {d : StatsType} (h : statsRan r = true) :
    r = some (.done (statsFinal r d)) := by
  unfold statsRan at h
  unfold statsFinal
  split at h
  · rfl
  · simp at h

/-- A run of calls that all returned stays within the reachable states. -/
theorem StatsReachable_consumeAll (s0 : StatsType) (fuel : Nat) :
    ∀ (msgs : List LogMessageStructured) (s s1 : StatsType), StatsReachable s0 s →
      statsConsumeAll fuel s msgs = some (.done s1) → StatsReachable s0 s1 := by
  intro msgs
  induction msgs with
  | nil =>
    intro s s1 hr h
    simp only [statsConsumeAll, Option.some.injEq, Run.done.injEq] at h
    exact h ▸ hr
  | cons m rest ih =>
    intro s s1 hr h
    unfold statsConsumeAll at h
    split at h
    · simp at h
    · simp at h
    · simp at h
    · next r hstep =>
      exact ih r.1 s1 (StatsReachable.step fuel m hr hstep) h

/-- The windows after a call of `ConsumeLog` that returned: those before it,
with their `Start` and `End`, followed by the appended ones. -/
theorem StatsConsumeLog_bounds {fuel : Nat} {s s1 : StatsType} {msg : LogMessageStructured}
    {err : Option String} {reports : List Int}
    (h : s.ConsumeLog fuel msg = some (.done (s1, err, reports))) :
    ∃ ext, windowBounds s1.Windows = windowBounds (s.Windows ++ ext) ∧
      s1.Duration = s.Duration ∧
      (ContiguousAdd s.Duration s.Windows → ContiguousAdd s1.Duration s1.Windows) ∧
      (err ≠ none → s1.CurrentPointer = s.CurrentPointer) ∧
      (err = none → ∃ w, windowAt s1.Windows s1.CurrentPointer = some w ∧
        w.Start ≤ msg.T ∧ msg.T < w.End) := by
  obtain ⟨ws, j, created, sa, hdw, hafter, hdur, -, hwin, hcp, -, -⟩ := StatsConsumeLog_done h
  obtain ⟨ext, hext, -, hcont, -, w, hw, hw1, hw2⟩ :=
    determineWindowLoop_done fuel s.Windows s.CurrentPointer false ws j created hdw
  obtain ⟨-, -, -, -, w2, hw3, hcase⟩ := addToWindowAfter_done hafter
  rw [hw] at hw3
  simp only [Option.some.injEq] at hw3
  subst hw3
  obtain ⟨hj0, hjw, hjlt⟩ := windowAt_eq_some hw
  have hb : windowBounds s1.Windows = windowBounds ws := by
    rw [hwin]
    rcases hcase with ⟨e, -, hsw, -⟩ | ⟨-, -, settings, value, -, -, hsw⟩
    · rw [hsw]
    · rw [hsw, windowBounds_set_add ws j.toNat w value _ hjw]
  refine ⟨ext, hext ▸ hb, hdur, ?_, ?_, ?_⟩
  · intro hc
    have := hcont hc
    unfold ContiguousAdd at this ⊢
    rw [hdur, hb]
    exact this
  · intro hne
    rcases hcase with ⟨e, -, -, hsc⟩ | ⟨hnone, -, -⟩
    · rw [hcp, hsc]
    · exact absurd hnone hne
  · intro hnone
    rcases hcase with ⟨e, he, -, -⟩ | ⟨-, hsc, settings, value, -, -, hsw⟩
    · rw [hnone] at he; simp at he
    · rw [hcp, hsc, hwin, hsw]
      refine ⟨w.add value (settings.GetCleanedKV msg), ?_, hw1, hw2⟩
      unfold windowAt
      rw [if_neg (not_lt.mpr hj0)]
      simp [List.getElem?_set, hjlt]

/-- What holds in every state reached from a prepared consumer: the duration is
the one it started with, the first window starts at the zero instant, every
window from the second on starts where the one before it ends and ends at
`Start.Add(Duration)`, and `CurrentPointer` is the index of a window. -/
theorem StatsReachable_inv (s0 : StatsType) (first_ts : Int) (s : StatsType)
    (hfresh : s0.Windows = [])
    (hreach : StatsReachable (s0.PrepareForConsumption first_ts) s) :
    s.Duration = s0.Duration ∧ (∃ b rest, windowBounds s.Windows = (0, b) :: rest) ∧
    ContiguousAdd s.Duration s.Windows ∧
    0 ≤ s.CurrentPointer ∧ s.CurrentPointer < (s.Windows.length : Int) := by
  induction hreach with
  | start =>
    have hp : s0.PrepareForConsumption first_ts =
        { s0 with
          Windows := [NewStatsWindow 0 first_ts,
            NewStatsWindow first_ts (timeAdd first_ts s0.Duration)]
          CurrentPointer := 1 } := by
      simp [StatsType.PrepareForConsumption, hfresh]
    rw [hp]
    exact ⟨rfl, ⟨first_ts, _, rfl⟩, ⟨rfl, rfl, trivial⟩, by simp, by simp⟩
  | step fuel msg hprev hstep ih =>
    obtain ⟨hd, ⟨b, rest, hb⟩, hc, h0, hlt⟩ := ih
    obtain ⟨ext, hbounds, hdur, hcont, herr, hok⟩ := StatsConsumeLog_bounds hstep
    have hlen : ∀ x : List StatsWindow, (windowBounds x).length = x.length := by
      intro x; simp [windowBounds]
    have hlen1 := congrArg List.length hbounds
    rw [hlen, hlen, List.length_append] at hlen1
    refine ⟨hdur.trans hd, ?_, hcont hc, ?_⟩
    · rw [hbounds, windowBounds_append, hb]
      exact ⟨b, rest ++ windowBounds ext, rfl⟩
    · rename_i sprev snext errv reportsv
      cases he : errv with
      | some e =>
        have := herr (by simp [he])
        rw [this]
        exact ⟨h0, by omega⟩
      | none =>
        obtain ⟨w, hw, -, -⟩ := hok he
        obtain ⟨hj0, -, hjlt⟩ := windowAt_eq_some hw
        exact ⟨hj0, by omega⟩

theorem StatsReachable_statsStep {s0 s : StatsType} {fuel : Nat} {msg : LogMessageStructured}
    (hr : StatsReachable s0 s) (h : statsStepRan fuel s msg = true) :
    StatsReachable s0 (statsStep fuel s msg).1 :=
  StatsReachable.step fuel msg hr (statsStep_eq h)

theorem StatsReachable_statsFinal {s0 s d : StatsType} {fuel : Nat}
    {msgs : List LogMessageStructured} (hr : StatsReachable s0 s)
    (h : statsRan (statsConsumeAll fuel s msgs) = true) :
    StatsReachable s0 (statsFinal (statsConsumeAll fuel s msgs) d) :=
  StatsReachable_consumeAll s0 fuel msgs s _ hr (statsFinal_eq h)

/-- The state before the last record of `TestStatsType_ConsumeLog` is
reachable from the prepared test consumer. -/
theorem statsPrior_reachable :
    StatsReachable
      ((StatsType.fresh (2 * Second) "Test Stats" vanillaStatsSettings).PrepareForConsumption t0)
      statsPrior :=
  StatsReachable_statsFinal StatsReachable.start (by decide)

/-- The state after the last record of `TestStatsType_ConsumeLog` is
reachable from the prepared test consumer. -/
theorem statsAfter_reachable :
    StatsReachable
      ((StatsType.fresh (2 * Second) "Test Stats" vanillaStatsSettings).PrepareForConsumption t0)
      (statsStep 8 statsPrior statsLastRecord).1 :=
  StatsReachable_statsStep statsPrior_reachable (by decide)

/-- C15: in every state reached from `PrepareForConsumption` by `ConsumeLog`
calls, `Windows[0].Start` is the zero instant and every window from the second
on starts where the one before it ends and ends at `Start.Add(Duration)`, which
is `Start + Duration` whenever that instant is within the range of
`time.Time`, its count of seconds fitting an `int64`; a call of `ConsumeLog`
that returns leaves the `Start` and `End` of every window that was there as
they were. -/
theorem C15_windows_contiguous (s0 : StatsType) (first_ts : Int) (s : StatsType)
    (hfresh : s0.Windows = [])
    (hreach : StatsReachable (s0.PrepareForConsumption first_ts) s) :
    s.Duration = s0.Duration ∧
    (∃ w0, s.Windows[0]? = some w0 ∧ w0.Start = 0) ∧
    (∀ i a b, s.Windows[i]? = some a → s.Windows[i + 1]? = some b →
      b.End = timeAdd b.Start s.Duration ∧ b.Start = a.End ∧
      (-(2 ^ 63) * Second ≤ b.Start + s.Duration → b.Start + s.Duration < 2 ^ 63 * Second →
        b.End = b.Start + s.Duration)) ∧
    (∀ fuel msg s1 err reports, s.ConsumeLog fuel msg = some (.done (s1, err, reports)) →
      ∀ (i : Nat) (w : StatsWindow), s.Windows[i]? = some w →
        ∃ w1 : StatsWindow, s1.Windows[i]? = some w1 ∧ w1.Start = w.Start ∧ w1.End = w.End) := by
  obtain ⟨hd, ⟨b, rest, hb⟩, hc, -, -⟩ := StatsReachable_inv s0 first_ts s hfresh hreach
  refine ⟨hd, ?_, ?_, ?_⟩
  · have h0 := congrArg (fun x => x[0]?) hb
    simp only [windowBounds, List.getElem?_map, List.getElem?_cons_zero] at h0
    cases hw : s.Windows[0]? with
    | none => rw [hw] at h0; simp at h0
    | some w0 =>
      rw [hw] at h0
      simp only [Option.map_some', Option.some.injEq, Prod.mk.injEq] at h0
      exact ⟨w0, rfl, h0.1⟩
  · intro i a b2 ha hb2
    have := ContiguousAdd_getElem? hc ha hb2
    refine ⟨this.2, this.1, ?_⟩
    intro hlo hhi
    rw [this.2]
    exact timeAdd_eq_add b2.Start s.Duration (fun _ => hhi) (fun _ => hlo)
  · intro fuel msg s1 err reports hstep i w hw
    obtain ⟨ext, hbounds, -, -, -, -⟩ := StatsConsumeLog_bounds hstep
    have hi := congrArg (fun x => x[i]?) hbounds
    have hlt : i < s.Windows.length := (List.getElem?_eq_some_iff.mp hw).1
    simp only [windowBounds, List.getElem?_map, List.getElem?_append_left hlt, hw] at hi
    cases hw1 : s1.Windows[i]? with
    | none => rw [hw1] at hi; simp at hi
    | some w1 =>
      rw [hw1] at hi
      simp only [Option.map_some', Option.some.injEq, Prod.mk.injEq] at hi
      exact ⟨w1, rfl, hi.1, hi.2⟩

/-- C15, the case the statement leaves out: the state right after
`PrepareForConsumption` at the last second of `time.Time`, the instant that the
timestamp `9223371974719179007` parses into, with windows of 2 s. Window 1 is
`[lastSecond, lastSecond)`: its `End` is not its `Start` plus the `Duration`. -/
theorem C15_counterexample :
    StatsReachable
      ((StatsType.fresh (2 * Second) "Test Stats" vanillaStatsSettings).PrepareForConsumption
        lastSecond) lateStatsType ∧
    lateStatsType.Duration = 2 * Second ∧
    windowBounds lateStatsType.Windows = [(0, lastSecond), (lastSecond, lastSecond)] ∧
    ¬ ∀ i a b, lateStatsType.Windows[i]? = some a → lateStatsType.Windows[i + 1]? = some b →
      b.End = b.Start + lateStatsType.Duration ∧ b.Start = a.End := by
  refine ⟨StatsReachable.start, by decide, by decide, ?_⟩
  intro h
  have h1 := (h 0 { StatsMap := [], Start := 0, End := lastSecond }
    { StatsMap := [], Start := lastSecond, End := lastSecond } (by decide) (by decide)).1
  exact absurd h1 (by decide)

/-- C15 on the test consumer: the state after the five records of
`TestStatsType_ConsumeLog` is reachable; its three windows are `[zero, t0)`,
`[t0, t0+2s)` and `[t0+2s, t0+4s)`. -/
theorem C15_windows_contiguous_witness :
    windowBounds (statsStep 8 statsPrior statsLastRecord).1.Windows =
      [(0, t0), (t0, t0 + 2 * Second), (t0 + 2 * Second, t0 + 4 * Second)] ∧
    (statsStep 8 statsPrior statsLastRecord).1.Duration = 2 * Second ∧
    (∃ w0, (statsStep 8 statsPrior statsLastRecord).1.Windows[0]? = some w0 ∧ w0.Start = 0) :=
  ⟨by decide,
    (C15_windows_contiguous (StatsType.fresh (2 * Second) "Test Stats" vanillaStatsSettings) t0
      (statsStep 8 statsPrior statsLastRecord).1 rfl statsAfter_reachable).1,
    (C15_windows_contiguous (StatsType.fresh (2 * Second) "Test Stats" vanillaStatsSettings) t0
      (statsStep 8 statsPrior statsLastRecord).1 rfl statsAfter_reachable).2.1⟩

/-! ## Instants before the sentinel, the queue of notifications -/

/-- On a consumer prepared at `first_ts`, an instant before the zero instant
and before `first_ts` walks from window 1 to the sentinel and on to index -1,
where reading `s.Windows[windowIndex]` panics. -/
theorem determineWindow_before_zero (s0 : StatsType) (first_ts t : Int) (fuel : Nat)
    (hfresh : s0.Windows = []) (ht : t < 0) (hf : t < first_ts) :
    (s0.PrepareForConsumption first_ts).determineWindow (fuel + 3) t = some .panic := by
  have hp : s0.PrepareForConsumption first_ts =
      { s0 with
        Windows := [NewStatsWindow 0 first_ts,
          NewStatsWindow first_ts (timeAdd first_ts s0.Duration)]
        CurrentPointer := 1 } := by
    simp [StatsType.PrepareForConsumption, hfresh]
  rw [hp]
  simp [StatsType.determineWindow, determineWindowLoop, windowAt, NewStatsWindow, timeBefore,
    ht, hf]

/-- C17, evaluated on the code: the test consumer is prepared at `t0`; for the
instant one second before the zero instant (the unix timestamp -62135596801),
the walk steps from window 1 to the sentinel and, the instant being before the
sentinel's own start, on to index -1, where `s.Windows[windowIndex]` is out of
range. `determineWindow` panics instead of settling on index 0, whatever the
number of rounds allowed, and so does `ConsumeLog` on a record of that
instant. -/
theorem C17_before_sentinel_panics (fuel : Nat) :
    vanillaStatsType.determineWindow (fuel + 3) (-1 * Second) = some .panic ∧
    vanillaStatsType.ConsumeLog (fuel + 3)
      (statsRecord (-1 * Second) [("request", "GET /api/user HTTP/1.0")]) = some .panic := by
  have h := determineWindow_before_zero
    (StatsType.fresh (2 * Second) "Test Stats" vanillaStatsSettings) t0 (-1 * Second) fuel rfl
    (by decide) (by decide)
  refine ⟨h, ?_⟩
  have h2 : vanillaStatsType.determineWindow (fuel + 3)
      (statsRecord (-1 * Second) [("request", "GET /api/user HTTP/1.0")]).T = some .panic := h
  unfold StatsType.ConsumeLog StatsType.addToWindow
  rw [h2]
  rfl

/-- C18: in a state reached from a prepared consumer, a `ConsumeLog` that
succeeds has enqueued the value `CurrentPointer` had before the call, which is
the index of a window that was already there, exactly when locating the window
of the record appended a window, and nothing otherwise; afterwards
`CurrentPointer` is the index of a window that contains the timestamp of the
record. `releaseNotifications` then runs on that queue. -/
theorem C18_enqueue_previous_pointer (s0 : StatsType) (first_ts : Int) (s : StatsType)
    (hfresh : s0.Windows = [])
    (hreach : StatsReachable (s0.PrepareForConsumption first_ts) s)
    (fuel : Nat) (msg : LogMessageStructured) (s1 : StatsType) (reports : List Int)
    (h : s.ConsumeLog fuel msg = some (.done (s1, none, reports))) :
    ∃ sa, s.addToWindow fuel msg = some (.done (sa, none)) ∧
      s.Windows.length ≤ sa.Windows.length ∧
      (s.Windows.length < sa.Windows.length →
        sa.QueuedNotifications = s.QueuedNotifications ++ [s.CurrentPointer]) ∧
      (sa.Windows.length = s.Windows.length →
        sa.QueuedNotifications = s.QueuedNotifications) ∧
      0 ≤ s.CurrentPointer ∧ s.CurrentPointer < (s.Windows.length : Int) ∧
      s1.Windows = sa.Windows ∧ s1.CurrentPointer = sa.CurrentPointer ∧
      (∃ w, windowAt s1.Windows s1.CurrentPointer = some w ∧ w.Start ≤ msg.T ∧ msg.T < w.End) ∧
      ({ sa with LatestTimestamp :=
          (if timeBefore sa.LatestTimestamp msg.T = true then msg.T
            else sa.LatestTimestamp) } : StatsType).releaseNotifications =
        .done (s1, reports) := by
  obtain ⟨-, -, -, hcp0, hcplt⟩ := StatsReachable_inv s0 first_ts s hfresh hreach
  obtain ⟨ws, j, created, sa, hdw, hafter, -, -, hwin, hcp, hrel, -⟩ := StatsConsumeLog_done h
  obtain ⟨ext, hext, -, -, hcreated, -⟩ :=
    determineWindowLoop_done fuel s.Windows s.CurrentPointer false ws j created hdw
  obtain ⟨-, -, -, -, -, hcontains⟩ := StatsConsumeLog_bounds h
  obtain ⟨-, -, -, hq, w, hw, hcase⟩ := addToWindowAfter_done hafter
  have hlen : sa.Windows.length = s.Windows.length + ext.length := by
    rcases hcase with ⟨e, he, -, -⟩ | ⟨-, -, settings, value, -, -, hsw⟩
    · simp at he
    · rw [hsw, List.length_set, hext, List.length_append]
  refine ⟨sa, ?_, by omega, ?_, ?_, hcp0, hcplt, hwin, hcp, hcontains rfl, hrel rfl⟩
  · unfold StatsType.addToWindow
    rw [hdw]
    simp [Run.bind, hafter]
  · intro hgt
    have hne : ext ≠ [] := by
      intro h0; rw [h0] at hlen; simp at hlen; omega
    have hc : created = true := by
      rw [hcreated]
      cases ext with
      | nil => exact absurd rfl hne
      | cons a rest => simp
    rw [hq, if_pos hc]
  · intro heq
    have hnil : ext = [] := by
      cases ext with
      | nil => rfl
      | cons a rest => rw [heq] at hlen; simp at hlen
    have hc : created = false := by
      rw [hcreated, hnil]; simp
    rw [hq, hc]; simp

/-- C18 on `TestStatsType_ConsumeLog`: windows of 2 s, prepared at `t0`, after
the records at `t0, t0+1s, t0, t0+1s` the record at `t0+2s` gives three
windows, `CurrentPointer = 2`, `LatestTimestamp = t0+2s` and
`QueuedNotifications = [1]`, the pointer before the call. -/
theorem C18_enqueue_previous_pointer_witness :
    statsPrior.summary = (2, 1, [], t0 + 1 * Second) ∧
    (statsStep 8 statsPrior statsLastRecord).1.summary = (3, 2, [1], t0 + 2 * Second) ∧
    ∃ sa, statsPrior.addToWindow 8 statsLastRecord = some (.done (sa, none)) ∧
      statsPrior.Windows.length ≤ sa.Windows.length ∧
      (statsPrior.Windows.length < sa.Windows.length →
        sa.QueuedNotifications = statsPrior.QueuedNotifications ++ [statsPrior.CurrentPointer]) ∧
      (sa.Windows.length = statsPrior.Windows.length →
        sa.QueuedNotifications = statsPrior.QueuedNotifications) ∧
      0 ≤ statsPrior.CurrentPointer ∧
      statsPrior.CurrentPointer < (statsPrior.Windows.length : Int) ∧
      (statsStep 8 statsPrior statsLastRecord).1.Windows = sa.Windows ∧
      (statsStep 8 statsPrior statsLastRecord).1.CurrentPointer = sa.CurrentPointer ∧
      (∃ w, windowAt (statsStep 8 statsPrior statsLastRecord).1.Windows
          (statsStep 8 statsPrior statsLastRecord).1.CurrentPointer = some w ∧
        w.Start ≤ statsLastRecord.T ∧ statsLastRecord.T < w.End) ∧
      ({ sa with LatestTimestamp :=
          (if timeBefore sa.LatestTimestamp statsLastRecord.T = true then statsLastRecord.T
            else sa.LatestTimestamp) } : StatsType).releaseNotifications =
        .done ((statsStep 8 statsPrior statsLastRecord).1,
          (statsStep 8 statsPrior statsLastRecord).2.2) :=
  ⟨by decide, by decide,
    C18_enqueue_previous_pointer (StatsType.fresh (2 * Second) "Test Stats" vanillaStatsSettings)
      t0 statsPrior rfl statsPrior_reachable 8 statsLastRecord
      (statsStep 8 statsPrior statsLastRecord).1 (statsStep 8 statsPrior statsLastRecord).2.2
      (statsStep_eq_none (by decide) (by decide))⟩

/-- C20, evaluated on the code: windows of 1 s prepared at `t0`, records at
`t0+1s, t0+2s, t0+5s`. In the third call the queue is `[1, 2, 3]` and the
windows 1 and 2 are more than 2 s behind the latest timestamp, window 3 is not.
Both are reported and `doneIndexes` is `[0, 1]`; removing position 0 shifts the
queue, so removing position 1 takes out the entry of window 3: the queue ends
as `[2]` where the entries not due are `[3]`. When all three are due (last
record at `t0+100s`) the third removal slices past the end and panics. -/
theorem C20_release_removes_wrong_entries :
    (statsFinal (statsConsumeAll 8 secondStatsType (twoDueRecords.take 2))
        secondStatsType).summary = (4, 3, [1, 2], t0 + 2 * Second) ∧
    (statsFinal (statsConsumeAll 8 secondStatsType twoDueRecords)
        secondStatsType).summary = (7, 6, [2], t0 + 5 * Second) ∧
    scanNotifications
        [NewStatsWindow 0 t0, NewStatsWindow t0 (t0 + 1 * Second),
          NewStatsWindow (t0 + 1 * Second) (t0 + 2 * Second),
          NewStatsWindow (t0 + 2 * Second) (t0 + 3 * Second)]
        (t0 + 5 * Second) 0 [1, 2, 3] = .done ([1, 2], [0, 1]) ∧
    removeDone [0, 1] [1, 2, 3] = .done [2] ∧
    [1, 2, 3].filter (fun idx => decide (timeSub (t0 + 5 * Second)
        (t0 + idx * Second) ≤ 2 * Second)) = [3] ∧
    removeDone [0, 1, 2] [1, 2, 3] = .panic := by
  decide

/-! ## Counting a record in its window -/

theorem lookup_mapSet {V : Type} (m : List (String × V)) (k : String) (v : V) (k1 : String) :
    (mapSet m k v).lookup k1 = if k1 = k then some v else m.lookup k1 := by
  induction m with
  | nil =>
    by_cases h : k1 = k
    · simp [mapSet, List.lookup, h]
    · have hb : (k1 == k) = false := by simpa using h
      simp [mapSet, List.lookup, h, hb]
  | cons e rest ih =>
    obtain ⟨k2, v2⟩ := e
    unfold mapSet
    by_cases h2 : k2 = k
    · subst h2
      by_cases h : k1 = k2
      · simp [List.lookup, h]
      · have hb : (k1 == k2) = false := by simpa using h
        simp [List.lookup, h, hb]
    · simp only [h2, if_false]
      by_cases h : k1 = k2
      · subst h
        simp [List.lookup, h2]
      · have hb : (k1 == k2) = false := by simpa using h
        simp only [List.lookup, hb, ih]

theorem keys_mapSet {V : Type} (m : List (String × V)) (k : String) (v : V) :
    (mapSet m k v).map Prod.fst =
      if k ∈ m.map Prod.fst then m.map Prod.fst else m.map Prod.fst ++ [k] := by
  induction m with
  | nil => simp [mapSet]
  | cons e rest ih =>
    obtain ⟨k2, v2⟩ := e
    unfold mapSet
    by_cases h2 : k2 = k
    · subst h2
      simp
    · simp only [h2, if_false, List.map_cons, ih]
      have h3 : ¬ k = k2 := fun h => h2 h.symm
      by_cases hm : k ∈ rest.map Prod.fst
      · simp [hm]
      · simp [hm, h3]

theorem nodup_keys_mapSet {V : Type} (m : List (String × V)) (k : String) (v : V)
    (h : (m.map Prod.fst).Nodup) : ((mapSet m k v).map Prod.fst).Nodup := by
  rw [keys_mapSet]
  by_cases hm : k ∈ m.map Prod.fst
  · simp only [hm, if_true]; exact h
  · simp only [hm, if_false]
    exact List.Nodup.append h (List.nodup_singleton k) (by
      intro a ha hb
      simp only [List.mem_singleton] at hb
      subst hb
      exact hm ha)

/-- The map `filterMapCopy` builds has one entry per key of the mask, holding
the value of the record under that key, the empty string when there is
none. -/
theorem filterMapCopy_spec (kv : List (String × String)) :
    ∀ (keys : List String) (acc : List (String × String)), (acc.map Prod.fst).Nodup →
      ((keys.foldl (fun m k => mapSet m k ((kv.lookup k).getD "")) acc).map Prod.fst).Nodup ∧
      ∀ k, (keys.foldl (fun m k => mapSet m k ((kv.lookup k).getD "")) acc).lookup k =
        if k ∈ keys then some ((kv.lookup k).getD "") else acc.lookup k := by
  intro keys
  induction keys with
  | nil => intro acc h; simp [h]
  | cons k0 rest ih =>
    intro acc h
    simp only [List.foldl_cons]
    obtain ⟨h1, h2⟩ := ih (mapSet acc k0 ((kv.lookup k0).getD "")) (nodup_keys_mapSet _ _ _ h)
    refine ⟨h1, ?_⟩
    intro k
    rw [h2 k, lookup_mapSet]
    by_cases hk : k ∈ rest
    · simp [hk]
    · by_cases hk0 : k = k0
      · simp [hk0]
      · simp [hk, hk0]

theorem countP_of_nodup_keys (k x : String) :
    ∀ (l : List (String × String)), (l.map Prod.fst).Nodup →
      l.countP (fun e => decide (e.1 = k ∧ e.2 = x)) = if l.lookup k = some x then 1 else 0 := by
  intro l
  induction l with
  | nil => intro _; simp
  | cons e rest ih =>
    intro h
    obtain ⟨k1, x1⟩ := e
    simp only [List.map_cons, List.nodup_cons] at h
    obtain ⟨hnot, hnd⟩ := h
    by_cases hk : k1 = k
    · subst hk
      have hzero : rest.countP (fun e => decide (e.1 = k1 ∧ e.2 = x)) = 0 := by
        rw [List.countP_eq_zero]
        intro e he
        simp only [decide_eq_true_eq, not_and]
        intro hk _
        exact absurd (List.mem_map.mpr ⟨e, he, hk⟩) hnot
      rw [List.countP_cons, hzero]
      by_cases hx : x1 = x
      · simp [List.lookup, hx]
      · simp [List.lookup, hx]
    · have hb : (k == k1) = false := by
        simpa using (fun h : k = k1 => hk h.symm)
      simp only [List.countP_cons, decide_eq_true_eq, hk, false_and, if_false, Nat.add_zero,
        List.lookup, hb, ih hnd]

/-- Reading `other[k][x]` after the statement `other[k0][v0]++`. -/
theorem otherRead_bumpOther (oc : List (String × List (String × Int))) (k0 v0 k x : String) :
    otherRead (bumpOther oc k0 v0) k x =
      otherRead oc k x + if k = k0 ∧ x = v0 then 1 else 0 := by
  unfold bumpOther otherRead
  simp only [lookup_mapSet]
  by_cases hk : k = k0
  · subst hk
    simp only [if_true, lookup_mapSet, true_and]
    cases hl : oc.lookup k with
    | none =>
      by_cases hx : x = v0
      · subst hx
        simp only [if_true, Option.getD_none, Option.getD_some, List.lookup]
      · simp only [hx, if_false, Option.getD_none, List.lookup]
        rfl
    | some inner =>
      by_cases hx : x = v0
      · subst hx
        simp only [if_true, Option.getD_some]
      · simp only [hx, if_false, Option.getD_some, Int.add_zero]
  · simp only [hk, if_false, false_and, Int.add_zero]

theorem otherRead_foldl (k x : String) :
    ∀ (kv : List (String × String)) (oc : List (String × List (String × Int))),
      otherRead (kv.foldl (fun oc e => bumpOther oc e.1 e.2) oc) k x =
        otherRead oc k x + (kv.countP (fun e => decide (e.1 = k ∧ e.2 = x)) : Int) := by
  intro kv
  induction kv with
  | nil => intro oc; simp
  | cons e rest ih =>
    intro oc
    obtain ⟨k1, x1⟩ := e
    simp only [List.foldl_cons, ih, otherRead_bumpOther, List.countP_cons, decide_eq_true_eq]
    by_cases h : k1 = k ∧ x1 = x
    · obtain ⟨rfl, rfl⟩ := h
      simp only [and_self, if_true]
      push_cast
      omega
    · have h2 : ¬ (k = k1 ∧ x = x1) := fun h3 => h ⟨h3.1.symm, h3.2.symm⟩
      simp only [h, h2, if_false]
      push_cast
      omega

/-- `Count` of a value after `w.add(value, kv)`. -/
theorem count_add (w : StatsWindow) (value : String) (kv : List (String × String))
    (v : String) :
    (w.add value kv).count v = w.count v + if v = value then 1 else 0 := by
  unfold StatsWindow.add StatsWindow.count
  simp only [lookup_mapSet]
  by_cases hv : v = value
  · subst hv
    cases hl : w.StatsMap.lookup v with
    | none => simp
    | some st => simp
  · simp [hv]

/-- The breakdown counters after `w.add(value, kv)`. -/
theorem otherCount_add (w : StatsWindow) (value : String) (kv : List (String × String))
    (v k x : String) :
    (w.add value kv).otherCount v k x =
      w.otherCount v k x +
        if v = value then (kv.countP (fun e => decide (e.1 = k ∧ e.2 = x)) : Int) else 0 := by
  unfold StatsWindow.add StatsWindow.otherCount
  simp only [lookup_mapSet]
  by_cases hv : v = value
  · subst hv
    simp only [if_true, otherRead_foldl]
    cases hl : w.StatsMap.lookup v with
    | none => simp [otherRead, List.lookup]
    | some st => simp
  · simp [hv]

/-- C19: a `ConsumeLog` that succeeds on a record `r` whose cleaned value is
`v` and that lands in window `i` adds exactly 1 to `Windows[i].StatsMap[v].Count`
and, for every key `k` of `OtherKeys`, exactly 1 to
`StatsMap[v].OtherCounts[k][r.KV[k]]` (a missing key read as the empty string);
every other counter of every window is as before, a window appended during the
call counting from 0. -/
theorem C19_one_record_one_count (fuel : Nat) (s s1 : StatsType) (msg : LogMessageStructured)
    (reports : List Int)
    (h : s.ConsumeLog fuel msg = some (.done (s1, none, reports))) :
    ∃ (i : Nat) (settings : StatsTypeSourceSettings) (value : String),
      s.GetSourceSettings msg.SourceName = .ok settings ∧
      settings.GetCleanedValue msg = .ok value ∧
      s1.CurrentPointer = (i : Int) ∧
      (∃ w, s1.Windows[i]? = some w ∧ w.Start ≤ msg.T ∧ msg.T < w.End) ∧
      (∀ j v, countIn s1.Windows j v =
        countIn s.Windows j v + if j = i ∧ v = value then 1 else 0) ∧
      (∀ j v k x, otherCountIn s1.Windows j v k x =
        otherCountIn s.Windows j v k x +
          if j = i ∧ v = value ∧ k ∈ settings.OtherKeys ∧ x = msg.GetValue k then 1 else 0) := by
  obtain ⟨ws, j0, created, sa, hdw, hafter, -, -, hwin, hcp, -, -⟩ := StatsConsumeLog_done h
  obtain ⟨ext, hext, hempty, -, -, w0, hw0, hw1, hw2⟩ :=
    determineWindowLoop_done fuel s.Windows s.CurrentPointer false ws j0 created hdw
  obtain ⟨-, -, -, -, w, hw, hcase⟩ := addToWindowAfter_done hafter
  rw [hw0] at hw
  simp only [Option.some.injEq] at hw
  subst hw
  obtain ⟨hj0, hjw, hjlt⟩ := windowAt_eq_some hw0
  rcases hcase with ⟨e, he, -, -⟩ | ⟨-, hsc, settings, value, hs, hv, hsw⟩
  · simp at he
  have hi : (j0.toNat : Int) = j0 := Int.toNat_of_nonneg hj0
  -- the windows after the walk count as those before it
  have hold : ∀ j, (∀ v, countIn ws j v = countIn s.Windows j v) ∧
      (∀ v k x, otherCountIn ws j v k x = otherCountIn s.Windows j v k x) := by
    intro j
    by_cases hlt : j < s.Windows.length
    · have : ws[j]? = s.Windows[j]? := by rw [hext, List.getElem?_append_left hlt]
      simp [countIn, otherCountIn, this]
    · have hnone : s.Windows[j]? = none := List.getElem?_eq_none (by omega)
      cases hwj : ws[j]? with
      | none => simp [countIn, otherCountIn, hwj, hnone]
      | some wj =>
        have hmem : wj ∈ ext := by
          rw [hext, List.getElem?_append_right (by omega)] at hwj
          exact List.getElem?_mem hwj
        have hm := hempty wj hmem
        simp [countIn, otherCountIn, hwj, hnone, StatsWindow.count, StatsWindow.otherCount, hm,
          List.lookup]
  -- the window of the record after the call
  have hnew : ∀ j, s1.Windows[j]? =
      if j = j0.toNat then some (w0.add value (settings.GetCleanedKV msg)) else ws[j]? := by
    intro j
    rw [hwin, hsw, List.getElem?_set]
    by_cases hj : j0.toNat = j
    · subst hj; simp [hjlt]
    · have hj2 : ¬ j = j0.toNat := fun h => hj h.symm
      simp [hj, hj2]
  have hkv := filterMapCopy_spec msg.KV settings.OtherKeys [] (by simp)
  refine ⟨j0.toNat, settings, value, hs, hv, by rw [hcp, hsc, hi], ?_, ?_, ?_⟩
  · refine ⟨w0.add value (settings.GetCleanedKV msg), by rw [hnew]; simp, hw1, hw2⟩
  · intro j v
    rw [← (hold j).1 v]
    unfold countIn
    rw [hnew]
    by_cases hj : j = j0.toNat
    · subst hj
      simp only [if_true, hjw, count_add, true_and]
    · simp [hj]
  · intro j v k x
    rw [← (hold j).2 v k x]
    unfold otherCountIn
    rw [hnew]
    by_cases hj : j = j0.toNat
    · subst hj
      simp only [if_true, hjw, otherCount_add, true_and]
      congr 1
      by_cases hvv : v = value
      · simp only [hvv, if_true, true_and]
        unfold StatsTypeSourceSettings.GetCleanedKV filterMapCopy
        rw [countP_of_nodup_keys k x _ hkv.1, hkv.2 k]
        unfold LogMessageStructured.GetValue
        by_cases hk : k ∈ settings.OtherKeys
        · by_cases hx : x = (msg.KV.lookup k).getD ""
          · simp [hk, hx]
          · have hx2 : ¬ (msg.KV.lookup k).getD "" = x := fun h => hx h.symm
            simp [hk, hx, hx2]
        · simp [hk, List.lookup]
      · simp [hvv]
    · simp [hj]

/-- C19 on `TestStatsType_ConsumeLog`: the last record, at `t0+2s` with no
`foo` and no `bar`, lands in window 2 and is counted once under `/api`, once
under `foo` = empty string and once under `bar` = empty string; the four
records counted in window 1 stay. -/
theorem C19_one_record_one_count_witness :
    countIn (statsStep 8 statsPrior statsLastRecord).1.Windows 2 "/api" = 1 ∧
    otherCountIn (statsStep 8 statsPrior statsLastRecord).1.Windows 2 "/api" "foo" "" = 1 ∧
    countIn (statsStep 8 statsPrior statsLastRecord).1.Windows 1 "/api" = 4 ∧
    ∃ (i : Nat) (settings : StatsTypeSourceSettings) (value : String),
      statsPrior.GetSourceSettings statsLastRecord.SourceName = .ok settings ∧
      settings.GetCleanedValue statsLastRecord = .ok value ∧
      (statsStep 8 statsPrior statsLastRecord).1.CurrentPointer = (i : Int) ∧
      (∃ w, (statsStep 8 statsPrior statsLastRecord).1.Windows[i]? = some w ∧
        w.Start ≤ statsLastRecord.T ∧ statsLastRecord.T < w.End) ∧
      (∀ j v, countIn (statsStep 8 statsPrior statsLastRecord).1.Windows j v =
        countIn statsPrior.Windows j v + if j = i ∧ v = value then 1 else 0) ∧
      (∀ j v k x, otherCountIn (statsStep 8 statsPrior statsLastRecord).1.Windows j v k x =
        otherCountIn statsPrior.Windows j v k x +
          if j = i ∧ v = value ∧ k ∈ settings.OtherKeys ∧ x = statsLastRecord.GetValue k
            then 1 else 0) :=
  ⟨by decide, by decide, by decide,
    C19_one_record_one_count 8 statsPrior (statsStep 8 statsPrior statsLastRecord).1
      statsLastRecord (statsStep 8 statsPrior statsLastRecord).2.2
      (statsStep_eq_none (by decide) (by decide))⟩

/-! ## The window walk finds the window of an instant -/

/-- One round of the walk at the index of a window that is there. -/
theorem loop_round_in {d t : Int} (fuel : Nat) (ws : List StatsWindow) (i : Nat) (c : Bool)
    (w : StatsWindow) (hw : ws[i]? = some w) :
    determineWindowLoop d t (fuel + 1) ws (i : Int) c =
      if t < w.Start then determineWindowLoop d t fuel ws ((i : Int) - 1) c
      else if w.End ≤ t then determineWindowLoop d t fuel ws ((i : Int) + 1) c
      else some (.done (ws, (i : Int), c)) := by
  have hlt : i < ws.length := (List.getElem?_eq_some_iff.mp hw).1
  have hng : ¬ ((i : Int) ≥ (ws.length : Int)) := by omega
  rw [determineWindowLoop]
  simp only [hng, if_false, windowAt_natCast, hw, timeBefore, decide_eq_true_eq,
    Bool.or_eq_true]
  by_cases h1 : t < w.Start
  · simp [h1]
  · simp only [h1, if_false]
    by_cases h2 : w.End ≤ t
    · have h3 : t > w.End ∨ t = w.End := by omega
      simp [h2, h3]
    · have h3 : ¬ (t > w.End ∨ t = w.End) := by omega
      simp [h2, h3]

/-- One round of the walk at the index just past the last window, for an
instant not before the end of that window, when the end of the window to append
is within the range of `time.Time`. -/
theorem loop_round_grow {d t : Int} (fuel : Nat) (ws : List StatsWindow) (c : Bool)
    (a : StatsWindow) (ha : ws.getLast? = some a) (hat : a.End ≤ t) (hd : 0 ≤ d)
    (hrep : a.End + d < 2 ^ 63 * Second) :
    determineWindowLoop d t (fuel + 1) ws (ws.length : Int) c =
      if a.End + d ≤ t then
        determineWindowLoop d t fuel (ws ++ [NewStatsWindow a.End (a.End + d)])
          ((ws.length : Int) + 1) true
      else some (.done (ws ++ [NewStatsWindow a.End (a.End + d)], (ws.length : Int), true)) := by
  have hadd : timeAdd a.End d = a.End + d :=
    timeAdd_eq_add a.End d (fun _ => hrep) (fun h => absurd h (not_lt.mpr hd))
  rw [determineWindowLoop]
  have hw : windowAt (ws ++ [NewStatsWindow a.End (a.End + d)]) (ws.length : Int) =
      some (NewStatsWindow a.End (a.End + d)) := by
    rw [windowAt_natCast]
    simp
  have h1 : ¬ t < a.End := by omega
  simp only [ge_iff_le, le_refl, if_true, ha, hadd, hw, timeBefore, decide_eq_true_eq,
    Bool.or_eq_true]
  simp only [NewStatsWindow, h1, if_false]
  by_cases h2 : a.End + d ≤ t
  · have h3 : t > a.End + d ∨ t = a.End + d := by omega
    simp [h2, h3]
  · have h3 : ¬ (t > a.End + d ∨ t = a.End + d) := by omega
    simp [h2, h3]

theorem length_appendWindows (d : Int) :
    ∀ (n : Nat) (ws : List StatsWindow), ws.length ≤ (appendWindows d n ws).length := by
  intro n
  induction n with
  | zero => intro ws; simp [appendWindows]
  | succ k ih =>
    intro ws
    unfold appendWindows
    cases hl : ws.getLast? with
    | none => simp
    | some last =>
      simp only
      have := ih (ws ++ [NewStatsWindow last.End (last.End + d)])
      simp only [List.length_append, List.length_singleton] at this
      omega

theorem appendWindows_prefix (d : Int) :
    ∀ (n : Nat) (ws : List StatsWindow), ∃ ext, appendWindows d n ws = ws ++ ext := by
  intro n
  induction n with
  | zero => intro ws; exact ⟨[], by simp [appendWindows]⟩
  | succ k ih =>
    intro ws
    unfold appendWindows
    cases hl : ws.getLast? with
    | none => exact ⟨[], by simp⟩
    | some last =>
      obtain ⟨ext, hext⟩ := ih (ws ++ [NewStatsWindow last.End (last.End + d)])
      exact ⟨NewStatsWindow last.End (last.End + d) :: ext, by simp [hext]⟩

theorem Contiguous_appendWindows (d : Int) :
    ∀ (n : Nat) (ws : List StatsWindow), Contiguous d ws → Contiguous d (appendWindows d n ws) := by
  intro n
  induction n with
  | zero => intro ws h; simpa [appendWindows] using h
  | succ k ih =>
    intro ws h
    unfold appendWindows
    cases hl : ws.getLast? with
    | none => simpa using h
    | some last => exact ih _ (Contiguous_append_new ws last h hl)

/-- No window is needed for an instant before the end of the last window. -/
theorem extendedWindows_of_lt {d t : Int} {ws : List StatsWindow} {last : StatsWindow}
    (hl : ws.getLast? = some last) (ht : t < last.End) : extendedWindows d ws t = ws := by
  simp [extendedWindows, windowsNeeded, hl, ht, appendWindows]

/-- For an instant not before the end of the last window, one window is
appended and the rest is what the longer list asks for. -/
theorem extendedWindows_of_le {d t : Int} {ws : List StatsWindow} {last : StatsWindow}
    (hd : 0 < d) (hl : ws.getLast? = some last) (ht : last.End ≤ t) :
    extendedWindows d ws t =
      extendedWindows d (ws ++ [NewStatsWindow last.End (last.End + d)]) t := by
  have h1 : ¬ t < last.End := by omega
  have hl1 : (ws ++ [NewStatsWindow last.End (last.End + d)]).getLast? =
      some (NewStatsWindow last.End (last.End + d)) := by simp
  unfold extendedWindows windowsNeeded
  simp only [hl, h1, if_false, hl1]
  simp only [NewStatsWindow]
  by_cases h2 : t < last.End + d
  · have hq : (t - last.End) / d = 0 := Int.ediv_eq_zero_of_lt (by omega) (by omega)
    simp [h2, hq, appendWindows, hl, NewStatsWindow]
  · have hq : (t - last.End) / d = (t - (last.End + d)) / d + 1 := by
      have : t - last.End = (t - (last.End + d)) + d := by ring
      rw [this, Int.add_ediv_of_dvd_right (dvd_refl d), Int.ediv_self (by omega)]
    have hnn : 0 ≤ (t - (last.End + d)) / d := Int.ediv_nonneg (by omega) (by omega)
    have hn : ((t - last.End) / d).toNat = ((t - (last.End + d)) / d).toNat + 1 := by
      rw [hq]
      omega
    simp only [h2, if_false, hn]
    conv_lhs => unfold appendWindows
    simp only [hl, NewStatsWindow]

/-- In a contiguous list with windows of non-negative length the ends do not
decrease. -/
theorem Contiguous_end_mono {d : Int} {ws : List StatsWindow} (hc : Contiguous d ws)
    (hd : 0 ≤ d) :
    ∀ (n i : Nat) (a b : StatsWindow), ws[i]? = some a → ws[i + n]? = some b → a.End ≤ b.End := by
  intro n
  induction n with
  | zero =>
    intro i a b ha hb
    simp only [Nat.add_zero] at hb
    rw [ha] at hb
    simp only [Option.some.injEq] at hb
    subst hb
    exact le_refl _
  | succ k ih =>
    intro i a b ha hb
    have hlt : i + k < ws.length := by
      have := (List.getElem?_eq_some_iff.mp hb).1
      omega
    obtain ⟨m, hm⟩ : ∃ m, ws[i + k]? = some m := ⟨ws[i + k], List.getElem?_eq_getElem hlt⟩
    have h1 := ih i a m ha hm
    have h2 := Contiguous_getElem? hc hm (by simpa [Nat.add_assoc] using hb)
    omega

theorem Contiguous_end_le_start {d : Int} {ws : List StatsWindow} (hc : Contiguous d ws)
    (hd : 0 ≤ d) {i k : Nat} {a b : StatsWindow} (hik : i < k) (ha : ws[i]? = some a)
    (hb : ws[k]? = some b) : a.End ≤ b.Start := by
  have hlt : k - 1 < ws.length := by
    have := (List.getElem?_eq_some_iff.mp hb).1
    omega
  obtain ⟨m, hm⟩ : ∃ m, ws[k - 1]? = some m := ⟨ws[k - 1], List.getElem?_eq_getElem hlt⟩
  have h1 := Contiguous_end_mono hc hd (k - 1 - i) i a m ha (by
    have : i + (k - 1 - i) = k - 1 := by omega
    rw [this]; exact hm)
  have h2 := Contiguous_getElem? hc hm (by
    have : k - 1 + 1 = k := by omega
    rw [this]; exact hb)
  omega

theorem getLast?_eq_getElem? (ws : List StatsWindow) : ws.getLast? = ws[ws.length - 1]? := by
  cases ws with
  | nil => simp
  | cons a rest => simp [List.getLast?_eq_getElem?]

/-- Walking down: from a window that ends after the instant, the walk settles
on a window at or below it without touching the list. -/
theorem walk_down {d t : Int} {ws : List StatsWindow} (hc : Contiguous d ws)
    (h0 : ∃ b rest, windowBounds ws = (0, b) :: rest) (ht : 0 ≤ t) (c : Bool) :
    ∀ (i : Nat) (w : StatsWindow), ws[i]? = some w → t < w.End →
      ∃ (j : Nat) (wj : StatsWindow), j ≤ i ∧ ws[j]? = some wj ∧ wj.Start ≤ t ∧ t < wj.End ∧
        ∀ fuel, i + 1 ≤ fuel →
          determineWindowLoop d t fuel ws (i : Int) c = some (.done (ws, (j : Int), c)) := by
  intro i
  induction i with
  | zero =>
    intro w hw hlt
    have hs : w.Start = 0 := by
      obtain ⟨b, rest, hb⟩ := h0
      have h1 := congrArg (fun x => x[0]?) hb
      simp only [windowBounds, List.getElem?_map, hw, Option.map_some',
        List.getElem?_cons_zero, Option.some.injEq, Prod.mk.injEq] at h1
      exact h1.1
    refine ⟨0, w, le_refl _, hw, by omega, hlt, ?_⟩
    intro fuel hf
    obtain ⟨f, rfl⟩ : ∃ f, fuel = f + 1 := ⟨fuel - 1, by omega⟩
    rw [loop_round_in f ws 0 c w hw]
    have h1 : ¬ t < w.Start := by omega
    have h2 : ¬ w.End ≤ t := by omega
    simp [h1, h2]
  | succ k ih =>
    intro w hw hlt
    by_cases h1 : t < w.Start
    · have hklt : k < ws.length := by
        have := (List.getElem?_eq_some_iff.mp hw).1
        omega
      obtain ⟨a, ha⟩ : ∃ a, ws[k]? = some a := ⟨ws[k], List.getElem?_eq_getElem hklt⟩
      have hadj := Contiguous_getElem? hc ha hw
      obtain ⟨j, wj, hj, hwj, hs, he, hrun⟩ := ih a ha (by omega)
      refine ⟨j, wj, by omega, hwj, hs, he, ?_⟩
      intro fuel hf
      obtain ⟨f, rfl⟩ : ∃ f, fuel = f + 1 := ⟨fuel - 1, by omega⟩
      rw [loop_round_in f ws (k + 1) c w hw]
      simp only [h1, if_true]
      have hidx : (((k + 1 : Nat) : Int) - 1) = (k : Int) := by push_cast; ring
      rw [hidx]
      exact hrun f (by omega)
    · refine ⟨k + 1, w, le_refl _, hw, by omega, hlt, ?_⟩
      intro fuel hf
      obtain ⟨f, rfl⟩ : ∃ f, fuel = f + 1 := ⟨fuel - 1, by omega⟩
      rw [loop_round_in f ws (k + 1) c w hw]
      have h2 : ¬ w.End ≤ t := by omega
      simp [h1, h2]

/-- Walking up: from the index after a window that ends at or before the
instant, the walk passes the windows that are there, appends the windows
needed and settles on the window that holds the instant, when every window of
the extended list ends within the range of `time.Time`. -/
theorem walk_up {d t : Int} (hd : 0 < d) :
    ∀ (m : Nat) (ws : List StatsWindow) (i : Nat) (c : Bool) (a : StatsWindow),
      Contiguous d ws → (∀ w ∈ extendedWindows d ws t, w.End < 2 ^ 63 * Second) →
      ws[i]? = some a → a.End ≤ t → t < a.End + m * d →
      ∃ (j : Nat) (wj : StatsWindow), (extendedWindows d ws t)[j]? = some wj ∧
        wj.Start ≤ t ∧ t < wj.End ∧
        ∃ n, ∀ fuel, n ≤ fuel →
          determineWindowLoop d t fuel ws ((i : Int) + 1) c =
            some (.done (extendedWindows d ws t, (j : Int),
              c || decide (ws.length < (extendedWindows d ws t).length))) := by
  intro m
  induction m with
  | zero =>
    intro ws i c a _ _ _ h1 h2
    simp at h2
    omega
  | succ k ih =>
    intro ws i c a hc hrep ha h1 h2
    have hilt : i < ws.length := (List.getElem?_eq_some_iff.mp ha).1
    have h2k : t < a.End + d + k * d := by
      have : ((k + 1 : Nat) : Int) * d = k * d + d := by push_cast; ring
      rw [this] at h2
      omega
    by_cases hin : i + 1 < ws.length
    · -- the next window is there
      obtain ⟨w, hw⟩ : ∃ w, ws[i + 1]? = some w := ⟨ws[i + 1], List.getElem?_eq_getElem hin⟩
      have hadj := Contiguous_getElem? hc ha hw
      have hcast : ((i : Int) + 1) = ((i + 1 : Nat) : Int) := by push_cast; rfl
      by_cases hset : t < w.End
      · -- settle here
        obtain ⟨lastw, hlast⟩ : ∃ l, ws.getLast? = some l := by
          rw [getLast?_eq_getElem?]
          exact ⟨ws[ws.length - 1], List.getElem?_eq_getElem (by omega)⟩
        have hlastidx : ws[i + 1 + (ws.length - 1 - (i + 1))]? = some lastw := by
          have : i + 1 + (ws.length - 1 - (i + 1)) = ws.length - 1 := by omega
          rw [this, ← getLast?_eq_getElem?]; exact hlast
        have hmono := Contiguous_end_mono hc (le_of_lt hd) _ (i + 1) w lastw hw hlastidx
        have hext : extendedWindows d ws t = ws := extendedWindows_of_lt hlast (by omega)
        refine ⟨i + 1, w, by rw [hext]; exact hw, by omega, hset, 1, ?_⟩
        intro fuel hf
        obtain ⟨f, rfl⟩ : ∃ f, fuel = f + 1 := ⟨fuel - 1, by omega⟩
        rw [hcast, loop_round_in f ws (i + 1) c w hw, hext]
        have h3 : ¬ t < w.Start := by omega
        have h4 : ¬ w.End ≤ t := by omega
        simp [h3, h4]
      · -- go on
        obtain ⟨j, wj, hj, hs, he, n, hrun⟩ :=
          ih ws (i + 1) c w hc hrep hw (by omega) (by omega)
        refine ⟨j, wj, hj, hs, he, n + 1, ?_⟩
        intro fuel hf
        obtain ⟨f, rfl⟩ : ∃ f, fuel = f + 1 := ⟨fuel - 1, by omega⟩
        rw [hcast, loop_round_in f ws (i + 1) c w hw]
        have h3 : ¬ t < w.Start := by omega
        have h4 : w.End ≤ t := by omega
        simp only [h3, if_false, h4, if_true]
        exact hrun f (by omega)
    · -- past the last window: append
      have hlen : i + 1 = ws.length := by omega
      have hlast : ws.getLast? = some a := by
        rw [getLast?_eq_getElem?]
        have : ws.length - 1 = i := by omega
        rw [this]; exact ha
      have hcast : ((i : Int) + 1) = (ws.length : Int) := by
        rw [← hlen]; push_cast; rfl
      have hext := extendedWindows_of_le (t := t) hd hlast h1
      have hc1 := Contiguous_append_new ws a hc hlast
      have hnew : (ws ++ [NewStatsWindow a.End (a.End + d)])[i + 1]? =
          some (NewStatsWindow a.End (a.End + d)) := by
        rw [hlen]; simp
      have hrep1 : ∀ w ∈ extendedWindows d (ws ++ [NewStatsWindow a.End (a.End + d)]) t,
          w.End < 2 ^ 63 * Second := by
        rw [← hext]; exact hrep
      have hb : a.End + d < 2 ^ 63 * Second := by
        obtain ⟨ext, he⟩ := appendWindows_prefix d
          (windowsNeeded d (ws ++ [NewStatsWindow a.End (a.End + d)]) t)
          (ws ++ [NewStatsWindow a.End (a.End + d)])
        have hmem : NewStatsWindow a.End (a.End + d) ∈
            extendedWindows d (ws ++ [NewStatsWindow a.End (a.End + d)]) t := by
          unfold extendedWindows
          rw [he]
          simp
        simpa [NewStatsWindow] using hrep1 _ hmem
      by_cases hset : t < a.End + d
      · have hl1 : (ws ++ [NewStatsWindow a.End (a.End + d)]).getLast? =
            some (NewStatsWindow a.End (a.End + d)) := by simp
        have hext1 : extendedWindows d (ws ++ [NewStatsWindow a.End (a.End + d)]) t =
            ws ++ [NewStatsWindow a.End (a.End + d)] :=
          extendedWindows_of_lt hl1 (by simpa [NewStatsWindow] using hset)
        refine ⟨i + 1, NewStatsWindow a.End (a.End + d), by rw [hext, hext1]; exact hnew,
          by simpa [NewStatsWindow] using h1, by simpa [NewStatsWindow] using hset, 1, ?_⟩
        intro fuel hf
        obtain ⟨f, rfl⟩ : ∃ f, fuel = f + 1 := ⟨fuel - 1, by omega⟩
        rw [hcast, loop_round_grow f ws c a hlast h1 (le_of_lt hd) hb, hext, hext1]
        have h4 : ¬ a.End + d ≤ t := by omega
        simp only [h4, if_false]
        have : ((i + 1 : Nat) : Int) = (ws.length : Int) := by rw [hlen]
        simp [this]
      · obtain ⟨j, wj, hj, hs, he, n, hrun⟩ :=
          ih (ws ++ [NewStatsWindow a.End (a.End + d)]) (i + 1) true
            (NewStatsWindow a.End (a.End + d)) hc1 hrep1 hnew
            (by simp only [NewStatsWindow]; omega) (by simp only [NewStatsWindow]; omega)
        refine ⟨j, wj, by rw [hext]; exact hj, hs, he, n + 1, ?_⟩
        intro fuel hf
        obtain ⟨f, rfl⟩ : ∃ f, fuel = f + 1 := ⟨fuel - 1, by omega⟩
        rw [hcast, loop_round_grow f ws c a hlast h1 (le_of_lt hd) hb, hext]
        have h4 : a.End + d ≤ t := by omega
        simp only [h4, if_true]
        have hidx : ((ws.length : Int) + 1) = (((i + 1 : Nat) : Int) + 1) := by rw [hlen]
        rw [hidx, hrun f (by omega)]
        have hlong := length_appendWindows d
          (windowsNeeded d (ws ++ [NewStatsWindow a.End (a.End + d)]) t)
          (ws ++ [NewStatsWindow a.End (a.End + d)])
        have hl2 : ws.length <
            (extendedWindows d (ws ++ [NewStatsWindow a.End (a.End + d)]) t).length := by
          unfold extendedWindows
          simp only [List.length_append, List.length_singleton] at hlong
          omega
        simp [hl2]

/-- In a contiguous list no instant is in two windows. -/
theorem Contiguous_unique {d t : Int} {ws : List StatsWindow} (hc : Contiguous d ws)
    (hd : 0 ≤ d) {i k : Nat} {a b : StatsWindow} (ha : ws[i]? = some a) (hb : ws[k]? = some b)
    (h1 : a.Start ≤ t) (h2 : t < a.End) (h3 : b.Start ≤ t) (h4 : t < b.End) : i = k := by
  rcases Nat.lt_trichotomy i k with h | h | h
  · have := Contiguous_end_le_start hc hd h ha hb
    omega
  · exact h
  · have := Contiguous_end_le_start hc hd h hb ha
    omega

/-- In a contiguous list an instant that is the end of window `k` is in no
window but window `k + 1`. -/
theorem Contiguous_tie {d t : Int} {ws : List StatsWindow} (hc : Contiguous d ws)
    (hd : 0 < d) {j k : Nat} {wj w1 : StatsWindow} (hj : ws[j]? = some wj)
    (hk : ws[k]? = some w1) (h1 : wj.Start ≤ t) (h2 : t < wj.End) (h3 : t = w1.End) :
    j = k + 1 := by
  have hjlt : j < ws.length := (List.getElem?_eq_some_iff.mp hj).1
  have hklt : k < ws.length := (List.getElem?_eq_some_iff.mp hk).1
  rcases Nat.lt_trichotomy j k with h | h | h
  · have hle := Contiguous_end_le_start hc (le_of_lt hd) h hj hk
    obtain ⟨m, hm⟩ : ∃ m, ws[k - 1]? = some m :=
      ⟨ws[k - 1], List.getElem?_eq_getElem (by omega)⟩
    have hadj := Contiguous_getElem? hc hm (by
      have : k - 1 + 1 = k := by omega
      rw [this]; exact hk)
    omega
  · subst h
    rw [hj] at hk
    simp only [Option.some.injEq] at hk
    subst hk
    omega
  · obtain ⟨m, hm⟩ : ∃ m, ws[k + 1]? = some m :=
      ⟨ws[k + 1], List.getElem?_eq_getElem (by omega)⟩
    have hadj := Contiguous_getElem? hc hk hm
    by_cases hnext : j = k + 1
    · exact hnext
    · have hle := Contiguous_end_le_start hc (le_of_lt hd) (show k + 1 < j by omega) hm hj
      omega

/-- In a prepared list every window at or below an instant not before the zero
instant starts at or before it. -/
theorem Prepared_start_le {d t : Int} {ws : List StatsWindow} (hc : Contiguous d ws)
    (h0 : ∃ b rest, windowBounds ws = (0, b) :: rest) (hd : 0 ≤ d) (ht : 0 ≤ t)
    {i : Nat} {a : StatsWindow} (ha : ws[i]? = some a) (hat : a.End ≤ t) : a.Start ≤ t := by
  cases i with
  | zero =>
    obtain ⟨b, rest, hb⟩ := h0
    have h1 := congrArg (fun x => x[0]?) hb
    simp only [windowBounds, List.getElem?_map, ha, Option.map_some',
      List.getElem?_cons_zero, Option.some.injEq, Prod.mk.injEq] at h1
    omega
  | succ k =>
    have hlt : k + 1 < ws.length := (List.getElem?_eq_some_iff.mp ha).1
    obtain ⟨m, hm⟩ : ∃ m, ws[k]? = some m := ⟨ws[k], List.getElem?_eq_getElem (by omega)⟩
    have hadj := Contiguous_getElem? hc hm ha
    omega

/-- The walk from any window that is there, when every window of the extended
list ends within the range of `time.Time`: it ends, on the extended list and on
a window that holds the instant, and it reports a new window exactly when the
list has grown. -/
theorem walk_from {d t : Int} {ws : List StatsWindow} (hd : 0 < d) (hc : Contiguous d ws)
    (h0 : ∃ b rest, windowBounds ws = (0, b) :: rest) (ht : 0 ≤ t)
    (hrep : ∀ w ∈ extendedWindows d ws t, w.End < 2 ^ 63 * Second) (i : Nat)
    (hi : i < ws.length) :
    ∃ (j : Nat) (wj : StatsWindow), (extendedWindows d ws t)[j]? = some wj ∧
      wj.Start ≤ t ∧ t < wj.End ∧
      ∃ n, ∀ fuel, n ≤ fuel →
        determineWindowLoop d t fuel ws (i : Int) false =
          some (.done (extendedWindows d ws t, (j : Int),
            decide (ws.length < (extendedWindows d ws t).length))) := by
  obtain ⟨a, ha⟩ : ∃ a, ws[i]? = some a := ⟨ws[i], List.getElem?_eq_getElem hi⟩
  by_cases hlt : t < a.End
  · obtain ⟨lastw, hlast⟩ : ∃ l, ws.getLast? = some l := by
      rw [getLast?_eq_getElem?]
      exact ⟨ws[ws.length - 1], List.getElem?_eq_getElem (by omega)⟩
    have hlastidx : ws[i + (ws.length - 1 - i)]? = some lastw := by
      have : i + (ws.length - 1 - i) = ws.length - 1 := by omega
      rw [this, ← getLast?_eq_getElem?]; exact hlast
    have hmono := Contiguous_end_mono hc (le_of_lt hd) _ i a lastw ha hlastidx
    have hext : extendedWindows d ws t = ws := extendedWindows_of_lt hlast (by omega)
    obtain ⟨j, wj, -, hwj, hs, he, hrun⟩ := walk_down hc h0 ht false i a ha hlt
    refine ⟨j, wj, by rw [hext]; exact hwj, hs, he, i + 1, ?_⟩
    intro fuel hf
    rw [hrun fuel hf, hext]
    simp
  · have hle : a.End ≤ t := by omega
    have hstart := Prepared_start_le hc h0 (le_of_lt hd) ht ha hle
    have hm : t < a.End + (((t - a.End) / d).toNat + 1 : Nat) * d := by
      have hnn : 0 ≤ (t - a.End) / d := Int.ediv_nonneg (by omega) (le_of_lt hd)
      have h1 := Int.lt_ediv_add_one_mul_self (t - a.End) hd
      have h2 : ((((t - a.End) / d).toNat + 1 : Nat) : Int) = (t - a.End) / d + 1 := by
        push_cast
        rw [Int.toNat_of_nonneg hnn]
      rw [h2]
      omega
    obtain ⟨j, wj, hj, hs, he, n, hrun⟩ := walk_up hd _ ws i false a hc hrep ha hle hm
    refine ⟨j, wj, hj, hs, he, n + 1, ?_⟩
    intro fuel hf
    obtain ⟨f, rfl⟩ : ∃ f, fuel = f + 1 := ⟨fuel - 1, by omega⟩
    rw [loop_round_in f ws i false a ha]
    have h3 : ¬ t < a.Start := by omega
    simp only [h3, if_false, hle, if_true]
    rw [hrun f (by omega)]
    simp

/-! ## The window walk at the last second of `time.Time` -/

/-- With a duration of whole seconds and windows that start and end, on whole
seconds, no later than `lastSecond`, the walk for the instant `lastSecond`
never returns: every window, also every appended one, ends at or before the
instant, so each round moves on to the next index. -/
theorem walk_never_returns (d : Int) (hd0 : 0 ≤ d) (hdw : d % Second = 0) :
    ∀ (fuel : Nat) (ws : List StatsWindow) (i : Int) (c : Bool), ws ≠ [] → 0 ≤ i →
      i ≤ (ws.length : Int) →
      (∀ w ∈ ws, w.Start ≤ lastSecond ∧ w.End ≤ lastSecond ∧ w.End % Second = 0) →
      determineWindowLoop d lastSecond fuel ws i c = none := by
  intro fuel
  induction fuel with
  | zero => intro ws i c _ _ _ _; rfl
  | succ n ih =>
    intro ws i c hne h0 hle hinv
    rw [determineWindowLoop]
    by_cases hgrow : i ≥ (ws.length : Int)
    · have hi : i = (ws.length : Int) := by omega
      subst hi
      obtain ⟨last, hl⟩ : ∃ l, ws.getLast? = some l := by
        cases hg : ws.getLast? with
        | none => exact absurd (List.getLast?_eq_none_iff.mp hg) hne
        | some l => exact ⟨l, rfl⟩
      obtain ⟨hs, he, hm⟩ := hinv last (List.mem_of_getLast?_eq_some hl)
      obtain ⟨hw1, hw2⟩ := timeAdd_whole last.End d hm hdw hd0 he
      have hw : windowAt (ws ++ [NewStatsWindow last.End (timeAdd last.End d)])
          (ws.length : Int) = some (NewStatsWindow last.End (timeAdd last.End d)) := by
        rw [windowAt_natCast]
        simp
      have hb : ¬ lastSecond < last.End := by omega
      have ha : lastSecond > timeAdd last.End d ∨ lastSecond = timeAdd last.End d := by omega
      simp only [ge_iff_le, le_refl, if_true, hl, hw, timeBefore, decide_eq_true_eq,
        Bool.or_eq_true]
      simp only [NewStatsWindow, hb, if_false, ha, if_true]
      refine ih _ _ true (by simp) (by omega) (by simp) ?_
      intro w hwm
      rcases List.mem_append.mp hwm with h | h
      · exact hinv w h
      · simp only [List.mem_singleton] at h
        subst h
        exact ⟨he, hw2, hw1⟩
    · obtain ⟨k, hk⟩ : ∃ k : Nat, i = (k : Int) := ⟨i.toNat, (Int.toNat_of_nonneg h0).symm⟩
      subst hk
      have hklt : k < ws.length := by omega
      have hw : windowAt ws (k : Int) = some ws[k] := by
        rw [windowAt_natCast]
        exact List.getElem?_eq_getElem hklt
      obtain ⟨hs, he, hm⟩ := hinv ws[k] (List.getElem_mem hklt)
      have hb : ¬ lastSecond < ws[k].Start := by omega
      have ha : lastSecond > ws[k].End ∨ lastSecond = ws[k].End := by omega
      simp only [hgrow, if_false, hw, timeBefore, decide_eq_true_eq, Bool.or_eq_true, hb, ha,
        if_true]
      exact ih ws _ c hne (by omega) (by omega) hinv

theorem nearLastStatsType_prepared : Prepared nearLastStatsType :=
  ⟨⟨lastSecond - 2 * Second, [(lastSecond - 2 * Second, lastSecond)], by decide⟩, by
    unfold Contiguous
    rw [show windowBounds nearLastStatsType.Windows =
      [(0, lastSecond - 2 * Second), (lastSecond - 2 * Second, lastSecond)] from by decide]
    simp only [ContiguousBounds]
    decide⟩

theorem nearLastSecondStatsType_prepared : Prepared nearLastSecondStatsType :=
  ⟨⟨lastSecond - 1 * Second, [(lastSecond - 1 * Second, lastSecond)], by decide⟩, by
    unfold Contiguous
    rw [show windowBounds nearLastSecondStatsType.Windows =
      [(0, lastSecond - 1 * Second), (lastSecond - 1 * Second, lastSecond)] from by decide]
    simp only [ContiguousBounds]
    decide⟩

/-! ## The window found by the walk -/

/-- C16: on a prepared stats consumer with `Duration > 0` and contiguous
windows, and an instant `t` not before the zero instant for which every window
up to the one that holds `t` ends within the range of `time.Time` (its `End`,
`Start + Duration`, is an instant whose count of seconds fits an `int64`),
there is one index `j` such that, from every `CurrentPointer` that is the index
of a window, `determineWindow(t)` returns `j` given enough rounds. The window list it leaves keeps the windows that were
there, is contiguous, and window `j` is the only one of it with
`Start ≤ t < End`; when `t` is the `End` of window `k`, `j` is `k + 1`.
`newWindowCreated` is reported exactly when the list has grown. -/
theorem C16_determineWindow_finds_window (s : StatsType) (t : Int) (hD : 0 < s.Duration)
    (hp : Prepared s) (ht : 0 ≤ t)
    (hrep : ∀ w ∈ extendedWindows s.Duration s.Windows t, w.End < 2 ^ 63 * Second) :
    ∃ (j : Nat) (w : StatsWindow) (ext : List StatsWindow),
      extendedWindows s.Duration s.Windows t = s.Windows ++ ext ∧
      Contiguous s.Duration (s.Windows ++ ext) ∧
      (s.Windows ++ ext)[j]? = some w ∧ w.Start ≤ t ∧ t < w.End ∧
      (∀ (k : Nat) (w1 : StatsWindow), (s.Windows ++ ext)[k]? = some w1 →
        w1.Start ≤ t → t < w1.End → k = j) ∧
      (∀ (k : Nat) (w1 : StatsWindow), (s.Windows ++ ext)[k]? = some w1 →
        t = w1.End → j = k + 1) ∧
      (∀ cp : Nat, cp < s.Windows.length →
        ∃ n, ∀ fuel, n ≤ fuel →
          ({ s with CurrentPointer := (cp : Int) } : StatsType).determineWindow fuel t =
            some (.done (s.Windows ++ ext, (j : Int), decide (ext ≠ [])))) := by
  obtain ⟨ext, hext⟩ := appendWindows_prefix s.Duration (windowsNeeded s.Duration s.Windows t)
    s.Windows
  have hextE : extendedWindows s.Duration s.Windows t = s.Windows ++ ext := hext
  have hcE : Contiguous s.Duration (s.Windows ++ ext) := by
    rw [← hextE]
    exact Contiguous_appendWindows _ _ _ hp.contiguous
  have hpos : 0 < s.Windows.length := by
    obtain ⟨b, rest, hb⟩ := hp.sentinel
    have := congrArg List.length hb
    simp only [windowBounds, List.length_map, List.length_cons] at this
    omega
  obtain ⟨j, wj, hj, hs, he, -⟩ := walk_from hD hp.contiguous hp.sentinel ht hrep 0 hpos
  rw [hextE] at hj
  refine ⟨j, wj, ext, hextE, hcE, hj, hs, he, ?_, ?_, ?_⟩
  · intro k w1 hk h1 h2
    exact Contiguous_unique hcE (le_of_lt hD) hk hj h1 h2 hs he
  · intro k w1 hk h1
    exact Contiguous_tie hcE hD hj hk hs he h1
  · intro cp hcp
    obtain ⟨j1, w1, hj1, hs1, he1, n, hrun⟩ :=
      walk_from hD hp.contiguous hp.sentinel ht hrep cp hcp
    rw [hextE] at hj1
    have hsame : j1 = j := Contiguous_unique hcE (le_of_lt hD) hj1 hj hs1 he1 hs he
    refine ⟨n, ?_⟩
    intro fuel hf
    have h := hrun fuel hf
    rw [hextE, hsame] at h
    simp only [StatsType.determineWindow]
    rw [h]
    have hdec : decide (s.Windows.length < (s.Windows ++ ext).length) = decide (ext ≠ []) := by
      cases ext with
      | nil => simp
      | cons x rest => simp
    rw [hdec]

theorem determinePrior_prepared : Prepared determinePrior :=
  ⟨⟨t0, [(t0, t0 + 2 * Second), (t0 + 2 * Second, t0 + 4 * Second)], by decide⟩, by
    unfold Contiguous
    rw [show windowBounds determinePrior.Windows =
      [(0, t0), (t0, t0 + 2 * Second), (t0 + 2 * Second, t0 + 4 * Second)] from by decide]
    simp only [ContiguousBounds]
    decide⟩

/-- C16 on `TestStatsType_DetermineWindow`: windows of 2 s, prepared at `t0`,
after the ten calls of the test the windows are `[zero, t0)`, `[t0, t0+2s)`
and `[t0+2s, t0+4s)`, and `determineWindow(t0+3s)` returns 2 from each of the
three pointers, as it does for the instant `t0+2s`, the end of window 1. -/
theorem C16_determineWindow_finds_window_witness :
    windowBounds determinePrior.Windows =
      [(0, t0), (t0, t0 + 2 * Second), (t0 + 2 * Second, t0 + 4 * Second)] ∧
    determinePrior.CurrentPointer = 1 ∧
    (∀ cp ∈ [0, 1, 2],
      ({ determinePrior with CurrentPointer := cp } : StatsType).determineWindow 8
          (t0 + 3 * Second) = some (.done (determinePrior.Windows, 2, false)) ∧
      ({ determinePrior with CurrentPointer := cp } : StatsType).determineWindow 8
          (t0 + 2 * Second) = some (.done (determinePrior.Windows, 2, false))) ∧
    0 < determinePrior.Duration ∧ Prepared determinePrior ∧ 0 ≤ t0 + 3 * Second ∧
    (∀ w ∈ extendedWindows determinePrior.Duration determinePrior.Windows (t0 + 3 * Second),
      w.End < 2 ^ 63 * Second) ∧
    ∃ (j : Nat) (w : StatsWindow) (ext : List StatsWindow),
      extendedWindows determinePrior.Duration determinePrior.Windows (t0 + 3 * Second) =
        determinePrior.Windows ++ ext ∧
      Contiguous determinePrior.Duration (determinePrior.Windows ++ ext) ∧
      (determinePrior.Windows ++ ext)[j]? = some w ∧ w.Start ≤ t0 + 3 * Second ∧
      t0 + 3 * Second < w.End ∧
      (∀ (k : Nat) (w1 : StatsWindow), (determinePrior.Windows ++ ext)[k]? = some w1 →
        w1.Start ≤ t0 + 3 * Second → t0 + 3 * Second < w1.End → k = j) ∧
      (∀ (k : Nat) (w1 : StatsWindow), (determinePrior.Windows ++ ext)[k]? = some w1 →
        t0 + 3 * Second = w1.End → j = k + 1) ∧
      (∀ cp : Nat, cp < determinePrior.Windows.length →
        ∃ n, ∀ fuel, n ≤ fuel →
          ({ determinePrior with CurrentPointer := (cp : Int) } : StatsType).determineWindow fuel
              (t0 + 3 * Second) =
            some (.done (determinePrior.Windows ++ ext, (j : Int), decide (ext ≠ [])))) :=
  ⟨by decide, by decide, by decide, by decide, determinePrior_prepared, by decide, by decide,
    C16_determineWindow_finds_window determinePrior (t0 + 3 * Second) (by decide)
      determinePrior_prepared (by decide) (by decide)⟩

/-- C16, the case the statement leaves out: the consumer with windows of 2 s
whose first record carries the timestamp `9223371974719179005` has the windows
`[zero, T - 2s)` and `[T - 2s, T)`, where `T` is `lastSecond`, the instant that
the timestamp `9223371974719179007` parses into. It is prepared with contiguous
windows, its pointer 1 is the index of a window, and `T` is not before the zero
instant. `T` is the end of window 1; the window that would hold it is
`[T, T + 2s)`, whose end is past the range of `time.Time`. `Add` stops at `T`,
so the walk appends `[T, T)`, finds `T` at its end, and goes on in the same
way: `determineWindow(T)` returns for no number of rounds, from either
pointer. -/
theorem C16_counterexample :
    TimestampFormat_Unix.Parse "9223371974719179005" = .ok (lastSecond - 2 * Second) ∧
    TimestampFormat_Unix.Parse "9223371974719179007" = .ok lastSecond ∧
    windowBounds nearLastStatsType.Windows =
      [(0, lastSecond - 2 * Second), (lastSecond - 2 * Second, lastSecond)] ∧
    Prepared nearLastStatsType ∧ 0 < nearLastStatsType.Duration ∧
    nearLastStatsType.CurrentPointer = 1 ∧ 0 ≤ lastSecond ∧
    timeAdd lastSecond nearLastStatsType.Duration = lastSecond ∧
    (∀ fuel, nearLastStatsType.determineWindow fuel lastSecond = none) ∧
    (∀ fuel, ({ nearLastStatsType with CurrentPointer := 0 } : StatsType).determineWindow fuel
      lastSecond = none) :=
  ⟨by rfl, by rfl, by decide, nearLastStatsType_prepared, by decide, by decide, by decide,
    by decide,
    fun fuel => walk_never_returns (2 * Second) (by decide) (by decide) fuel
      nearLastStatsType.Windows 1 false (by decide) (by decide) (by decide) (by decide),
    fun fuel => walk_never_returns (2 * Second) (by decide) (by decide) fuel
      nearLastStatsType.Windows 0 false (by decide) (by decide) (by decide) (by decide)⟩

/-! ## The queue of notifications on records that go back -/

/-- C21, evaluated on the code: windows of 2 s prepared at `t0`, records at
`t0+2s`, `t0+1s` and `t0+4s`. The first record creates window 2 and enqueues
the pointer 1; the second goes back to window 1 and leaves the pointer there;
the third creates window 3 and enqueues the pointer again, which is still 1.
After the third call, a state reached from `PrepareForConsumption` by
`ConsumeLog` calls that all returned without error, `QueuedNotifications` is
`[1, 1]`: the index 1 is in it twice and the index 2 of the window that the
third record closed is not. A later timestamp `t0+5s` makes both entries due,
so window 1 is reported twice. -/
theorem C21_queue_holds_index_twice :
    statsRan (statsConsumeAll 8 vanillaStatsType returningRecords) = true ∧
    (statsFinal (statsConsumeAll 8 vanillaStatsType (returningRecords.take 1))
        vanillaStatsType).summary = (3, 2, [1], t0 + 2 * Second) ∧
    (statsFinal (statsConsumeAll 8 vanillaStatsType (returningRecords.take 2))
        vanillaStatsType).summary = (3, 1, [1], t0 + 2 * Second) ∧
    (statsFinal (statsConsumeAll 8 vanillaStatsType returningRecords)
        vanillaStatsType).summary = (4, 3, [1, 1], t0 + 4 * Second) ∧
    ¬ (statsFinal (statsConsumeAll 8 vanillaStatsType returningRecords)
        vanillaStatsType).QueuedNotifications.Nodup ∧
    StatsReachable
      ((StatsType.fresh (2 * Second) "Test Stats" vanillaStatsSettings).PrepareForConsumption t0)
      (statsFinal (statsConsumeAll 8 vanillaStatsType returningRecords) vanillaStatsType) ∧
    (scanNotifications
        (statsFinal (statsConsumeAll 8 vanillaStatsType returningRecords) vanillaStatsType).Windows
        (t0 + 5 * Second) 0 [1, 1]).map Prod.fst = .done [1, 1] := by
  refine ⟨by decide, by decide, by decide, by decide, by decide, ?_, by decide⟩
  exact StatsReachable_statsFinal StatsReachable.start (by decide)

/-! ## Maps as lists: reading an entry -/

/-- A key that `lookup` finds is in the list with the value found. -/
theorem mem_of_lookup_eq_some {α β : Type} [BEq α] [LawfulBEq α] :
    ∀ (m : List (α × β)) (k : α) (v : β), m.lookup k = some v → (k, v) ∈ m := by
  intro m
  induction m with
  | nil => intro k v h; simp at h
  | cons e rest ih =>
    intro k v h
    obtain ⟨k1, v1⟩ := e
    rw [List.lookup_cons] at h
    cases hb : (k == k1) with
    | true =>
      rw [hb] at h
      simp only [Option.some.injEq] at h
      have hk : k = k1 := by simpa using hb
      subst hk
      subst h
      exact List.mem_cons_self _ _
    | false =>
      rw [hb] at h
      exact List.mem_cons_of_mem _ (ih k v h)

/-- With one entry per key, `lookup` finds every entry of the list. -/
theorem lookup_of_mem_nodup {α β : Type} [BEq α] [LawfulBEq α] :
    ∀ (m : List (α × β)) (k : α) (v : β), (m.map Prod.fst).Nodup → (k, v) ∈ m →
      m.lookup k = some v := by
  intro m
  induction m with
  | nil => intro k v _ h; simp at h
  | cons e rest ih =>
    intro k v hnd h
    obtain ⟨k1, v1⟩ := e
    simp only [List.map_cons, List.nodup_cons] at hnd
    rw [List.lookup_cons]
    rcases List.mem_cons.mp h with heq | hmem
    · simp only [Prod.mk.injEq] at heq
      obtain ⟨hk, hv⟩ := heq
      subst hk
      subst hv
      simp
    · have hne : k ≠ k1 := by
        intro hk
        subst hk
        exact hnd.1 (List.mem_map.mpr ⟨(k, v), hmem, rfl⟩)
      have hb : (k == k1) = false := by simpa using hne
      rw [hb]
      exact ih k v hnd.2 hmem

/-- Reading a map whose values went through `f`. -/
theorem lookup_map_snd {β γ : Type} (f : β → γ) (k : String) :
    ∀ (m : List (String × β)),
      (m.map fun e => (e.1, f e.2)).lookup k = (m.lookup k).map f := by
  intro m
  induction m with
  | nil => simp
  | cons e rest ih =>
    obtain ⟨k1, v1⟩ := e
    simp only [List.map_cons, List.lookup_cons]
    cases hb : (k == k1) with
    | true => simp
    | false => simpa using ih

/-- Setting a key that the map does not have adds the entry at the end. -/
theorem mapSet_of_not_mem {V : Type} (k : String) (v : V) :
    ∀ (m : List (String × V)), k ∉ m.map Prod.fst → mapSet m k v = m ++ [(k, v)] := by
  intro m
  induction m with
  | nil => intro _; simp [mapSet]
  | cons e rest ih =>
    intro h
    obtain ⟨k1, v1⟩ := e
    simp only [List.map_cons, List.mem_cons, not_or] at h
    have hne : ¬ k1 = k := fun hk => h.1 hk.symm
    simp only [mapSet, hne, if_false, List.cons_append, ih h.2]

/-- Filling a map from a list with one entry per key, none of them in the map
yet, appends the entries in order. -/
theorem foldl_mapSet_of_nodup {β V : Type} (f : β → V) :
    ∀ (l : List (String × β)) (acc : List (String × V)),
      (acc.map Prod.fst ++ l.map Prod.fst).Nodup →
      l.foldl (fun m e => mapSet m e.1 (f e.2)) acc = acc ++ l.map fun e => (e.1, f e.2) := by
  intro l
  induction l with
  | nil => intro acc _; simp
  | cons e rest ih =>
    intro acc h
    have hnot : e.1 ∉ acc.map Prod.fst := by
      intro hmem
      have := (List.nodup_append.mp h).2.2
      exact this hmem (by simp)
    simp only [List.foldl_cons]
    rw [mapSet_of_not_mem e.1 (f e.2) acc hnot, ih]
    · simp
    · simpa using h

/-- The map of counts that `notify` builds: one entry per value of the window,
with its `Count`. -/
theorem kCountMap_eq (statsMap : List (String × Stats))
    (hnd : (statsMap.map Prod.fst).Nodup) :
    kCountMap statsMap = statsMap.map fun e => (e.1, e.2.Count) := by
  unfold kCountMap
  rw [foldl_mapSet_of_nodup (fun st : Stats => st.Count) statsMap [] (by simpa using hnd)]
  simp

/-! ## The order of the report -/

theorem keys_intMapSet {V : Type} (m : List (Int × V)) (k : Int) (v : V) :
    (intMapSet m k v).map Prod.fst =
      if k ∈ m.map Prod.fst then m.map Prod.fst else m.map Prod.fst ++ [k] := by
  induction m with
  | nil => simp [intMapSet]
  | cons e rest ih =>
    obtain ⟨k2, v2⟩ := e
    unfold intMapSet
    by_cases h2 : k2 = k
    · subst h2
      simp
    · simp only [h2, if_false, List.map_cons, ih]
      have h3 : ¬ k = k2 := fun h => h2 h.symm
      by_cases hm : k ∈ rest.map Prod.fst
      · simp [hm]
      · simp [hm, h3]

theorem nodup_keys_intMapSet {V : Type} (m : List (Int × V)) (k : Int) (v : V)
    (h : (m.map Prod.fst).Nodup) : ((intMapSet m k v).map Prod.fst).Nodup := by
  rw [keys_intMapSet]
  by_cases hm : k ∈ m.map Prod.fst
  · simp only [hm, if_true]; exact h
  · simp only [hm, if_false]
    exact List.Nodup.append h (List.nodup_singleton k) (by
      intro a ha hb
      simp only [List.mem_singleton] at hb
      subst hb
      exact hm ha)

theorem mem_intMapSet {V : Type} (k : Int) (v : V) (e : Int × V) :
    ∀ (m : List (Int × V)), e ∈ intMapSet m k v → e = (k, v) ∨ e ∈ m := by
  intro m
  induction m with
  | nil => intro h; simpa [intMapSet] using h
  | cons e1 rest ih =>
    intro h
    obtain ⟨k1, v1⟩ := e1
    unfold intMapSet at h
    by_cases h1 : k1 = k
    · simp only [h1, if_true, List.mem_cons] at h
      rcases h with h | h
      · exact Or.inl h
      · exact Or.inr (List.mem_cons_of_mem _ h)
    · simp only [h1, if_false, List.mem_cons] at h
      rcases h with h | h
      · exact Or.inr (h ▸ List.mem_cons_self _ _)
      · rcases ih h with h2 | h2
        · exact Or.inl h2
        · exact Or.inr (List.mem_cons_of_mem _ h2)

/-- The statement `vk[v] = append(vk[v], k)` adds `k` to the keys held by the
groups and nothing else. -/
theorem flatMap_intMapSet (v : Int) (k : String) :
    ∀ (m : List (Int × List String)),
      List.Perm ((intMapSet m v ((m.lookup v).getD [] ++ [k])).flatMap Prod.snd)
        (m.flatMap Prod.snd ++ [k]) := by
  intro m
  induction m with
  | nil => simp [intMapSet]
  | cons e rest ih =>
    obtain ⟨v1, g1⟩ := e
    unfold intMapSet
    by_cases h1 : v1 = v
    · subst h1
      simp only [if_true, List.lookup_cons, beq_self_eq_true, Option.getD_some,
        List.flatMap_cons, List.append_assoc]
      exact List.Perm.append_left g1 List.perm_append_comm
    · have hb : (v == v1) = false := by
        simpa using (fun h : v = v1 => h1 h.symm)
      simp only [h1, if_false, List.lookup_cons, hb, List.flatMap_cons, List.append_assoc]
      exact List.Perm.append_left g1 ih

/-- The first loop of `sortMapKeysByValue`, from any point on: the map `vk`
keeps one entry per value, its groups hold the keys they held and the keys
visited, and every key sits in the group of its value. -/
theorem reverseMap_inv (kv : List (String × Int)) :
    ∀ (l : List (String × Int)) (vk : List (Int × List String)),
      (∀ e ∈ l, e ∈ kv) → (vk.map Prod.fst).Nodup →
      (∀ g ∈ vk, ∀ k ∈ g.2, (k, g.1) ∈ kv) →
      ((l.foldl (fun vk e => intMapSet vk e.2 ((vk.lookup e.2).getD [] ++ [e.1])) vk).map
          Prod.fst).Nodup ∧
      List.Perm
        ((l.foldl (fun vk e => intMapSet vk e.2 ((vk.lookup e.2).getD [] ++ [e.1])) vk).flatMap
          Prod.snd)
        (vk.flatMap Prod.snd ++ l.map Prod.fst) ∧
      (∀ g ∈ l.foldl (fun vk e => intMapSet vk e.2 ((vk.lookup e.2).getD [] ++ [e.1])) vk,
        ∀ k ∈ g.2, (k, g.1) ∈ kv) := by
  intro l
  induction l with
  | nil => intro vk _ hnd hin; exact ⟨hnd, by simp, hin⟩
  | cons e rest ih =>
    intro vk hsub hnd hin
    obtain ⟨k0, v0⟩ := e
    simp only [List.foldl_cons]
    have hin1 : ∀ g ∈ intMapSet vk v0 ((vk.lookup v0).getD [] ++ [k0]), ∀ k ∈ g.2,
        (k, g.1) ∈ kv := by
      intro g hg k hk
      rcases mem_intMapSet v0 _ g vk hg with heq | hmem
      · subst heq
        rcases List.mem_append.mp hk with hk1 | hk1
        · cases hl : vk.lookup v0 with
          | none => rw [hl] at hk1; simp at hk1
          | some g0 =>
            rw [hl] at hk1
            exact hin (v0, g0) (mem_of_lookup_eq_some vk v0 g0 hl) k hk1
        · simp only [List.mem_singleton] at hk1
          subst hk1
          exact hsub _ (List.mem_cons_self _ _)
      · exact hin g hmem k hk
    obtain ⟨h1, h2, h3⟩ := ih (intMapSet vk v0 ((vk.lookup v0).getD [] ++ [k0]))
      (fun e he => hsub e (List.mem_cons_of_mem _ he)) (nodup_keys_intMapSet _ _ _ hnd) hin1
    refine ⟨h1, ?_, h3⟩
    refine h2.trans ?_
    simp only [List.map_cons]
    have := (flatMap_intMapSet v0 k0 vk).append_right (rest.map Prod.fst)
    simpa [List.append_assoc] using this

theorem foldl_append_eq_flatMap {α β : Type} (f : α → List β) :
    ∀ (l : List α) (init : List β),
      l.foldl (fun acc a => acc ++ f a) init = init ++ l.flatMap f := by
  intro l
  induction l with
  | nil => intro init; simp
  | cons a rest ih => intro init; simp [ih, List.flatMap_cons]

/-- `sortMapKeysByValue(kv)` is the groups of `vk` in the sorted order of
their values. -/
theorem sortMapKeysByValue_eq (kv : List (String × Int)) :
    sortMapKeysByValue kv =
      (((reverseMap kv).map Prod.fst).insertionSort (fun a b => a ≥ b)).flatMap
        fun v => ((reverseMap kv).lookup v).getD [] := by
  unfold sortMapKeysByValue
  simp only [foldl_append_eq_flatMap, List.nil_append]

/-- `sortMapKeysByValue(kv)` lists every key of `kv` once. -/
theorem sortMapKeysByValue_perm (kv : List (String × Int)) :
    List.Perm (sortMapKeysByValue kv) (kv.map Prod.fst) := by
  obtain ⟨hnd, hperm, -⟩ := reverseMap_inv kv kv [] (fun _ h => h) (by simp) (by simp)
  rw [sortMapKeysByValue_eq]
  refine (List.Perm.flatMap_right _ (List.perm_insertionSort _ _)).trans ?_
  rw [List.flatMap_map]
  have hgroups : List.Perm
      ((reverseMap kv).flatMap fun a => ((reverseMap kv).lookup a.1).getD [])
      ((reverseMap kv).flatMap Prod.snd) := by
    apply List.Perm.flatMap_left
    intro g hg
    rw [lookup_of_mem_nodup (reverseMap kv) g.1 g.2 hnd hg]
    exact List.Perm.refl _
  refine hgroups.trans ?_
  simpa using hperm

/-- `sortMapKeysByValue(kv)` lists the keys by descending value. -/
theorem sortMapKeysByValue_sorted (kv : List (String × Int))
    (hkv : (kv.map Prod.fst).Nodup) :
    List.Pairwise (fun a b => (kv.lookup a).getD 0 ≥ (kv.lookup b).getD 0)
      (sortMapKeysByValue kv) := by
  obtain ⟨-, -, hin⟩ := reverseMap_inv kv kv [] (fun _ h => h) (by simp) (by simp)
  have hval : ∀ (v : Int) (k : String), k ∈ ((reverseMap kv).lookup v).getD [] →
      (kv.lookup k).getD 0 = v := by
    intro v k hk
    cases hl : (reverseMap kv).lookup v with
    | none => rw [hl] at hk; simp at hk
    | some g =>
      rw [hl] at hk
      have hmem := hin (v, g) (mem_of_lookup_eq_some _ v g hl) k hk
      rw [lookup_of_mem_nodup kv k v hkv hmem]
      rfl
  rw [sortMapKeysByValue_eq, List.pairwise_flatMap]
  constructor
  · intro v _
    apply List.pairwise_of_forall_mem_list
    intro a ha b hb
    rw [hval v a ha, hval v b hb]
  · have hs : List.Pairwise (fun a b : Int => a ≥ b)
        (((reverseMap kv).map Prod.fst).insertionSort (fun a b => a ≥ b)) :=
      List.sorted_insertionSort (fun a b : Int => a ≥ b) _
    refine hs.imp ?_
    intro v1 v2 hge a ha b hb
    rw [hval v1 a ha, hval v2 b hb]
    exact hge

/-- The loop of `notify` prints the first `4 - cnt` keys. -/
theorem notifyLoop_eq (statsMap : List (String × Stats)) :
    ∀ (keys : List String) (cnt : Nat),
      notifyLoop statsMap cnt keys =
        (keys.take (4 - cnt)).map fun k =>
          (k, (statsMap.lookup k).getD { Count := 0, OtherCounts := [] }) := by
  intro keys
  induction keys with
  | nil => intro cnt; simp [notifyLoop]
  | cons k rest ih =>
    intro cnt
    unfold notifyLoop
    by_cases h : cnt + 1 ≥ 5
    · have h0 : 4 - cnt = 0 := by omega
      simp [h, h0]
    · have h1 : 4 - cnt = (4 - (cnt + 1)) + 1 := by omega
      simp only [h, if_false, ih (cnt + 1)]
      rw [h1, List.take_succ_cons, List.map_cons]

/-- In a state reached from a prepared consumer every window has one entry per
value. -/
theorem StatsReachable_nodup_keys (s0 : StatsType) (first_ts : Int) (s : StatsType)
    (hfresh : s0.Windows = [])
    (hreach : StatsReachable (s0.PrepareForConsumption first_ts) s) :
    ∀ w ∈ s.Windows, (w.StatsMap.map Prod.fst).Nodup := by
  induction hreach with
  | start =>
    intro w hw
    simp only [StatsType.PrepareForConsumption, hfresh, List.length_nil, Nat.lt_one_iff,
      if_true, List.mem_cons, List.mem_singleton, List.not_mem_nil, or_false] at hw
    rcases hw with hw | hw <;> subst hw <;> simp [NewStatsWindow]
  | step fuel msg hr hstep ih =>
    intro w hw
    obtain ⟨ws, j, created, sa, hdw, hafter, -, -, hwin, -, -, -⟩ := StatsConsumeLog_done hstep
    obtain ⟨ext, hext, hempty, -, -, -⟩ :=
      determineWindowLoop_done fuel _ _ false ws j created hdw
    have hws : ∀ w ∈ ws, (w.StatsMap.map Prod.fst).Nodup := by
      intro w1 hw1
      rw [hext] at hw1
      rcases List.mem_append.mp hw1 with h | h
      · exact ih w1 h
      · rw [hempty w1 h]; simp
    obtain ⟨-, -, -, -, w2, hw2, hcase⟩ := addToWindowAfter_done hafter
    rw [hwin] at hw
    rcases hcase with ⟨e, -, hsame, -⟩ | ⟨-, -, settings, value, -, -, hset⟩
    · rw [hsame] at hw
      exact hws w hw
    · rw [hset] at hw
      rcases List.mem_or_eq_of_mem_set hw with h | h
      · exact hws w h
      · subst h
        have hmem : w2 ∈ ws := by
          unfold windowAt at hw2
          split at hw2
          · simp at hw2
          · exact List.getElem?_mem hw2
        simp only [StatsWindow.add]
        exact nodup_keys_mapSet _ _ _ (hws w2 hmem)

/-- The `Count` printed for a key is the count of the window for it. -/
theorem count_getD_lookup (w : StatsWindow) (k : String) :
    ((w.StatsMap.lookup k).getD { Count := 0, OtherCounts := [] }).Count = w.count k := by
  unfold StatsWindow.count
  cases w.StatsMap.lookup k <;> rfl

/-- C22: for a window that holds `n` values, one entry each, `notify` returns
and its report lists `min(n, 4)` of them, each once and with the `Stats` the
window holds for it: the first four keys of `sortMapKeysByValue`. The counts
in the report do not increase from one line to the next, and every listed
value has a `Count` at least as large as every value of the window that is
left out. The order `sortMapKeysByValue` gives is a permutation of the values
of the window in which the counts do not increase. Every window of a state
reached from a prepared consumer holds one entry per value
(`StatsReachable_nodup_keys`). -/
theorem C22_report_top_four (s : StatsType) (windowIndex : Int) (w : StatsWindow)
    (hw : windowAt s.Windows windowIndex = some w)
    (hnd : (w.StatsMap.map Prod.fst).Nodup) :
    ∃ report : List (String × Stats),
      s.notify windowIndex = .done report ∧
      report.length = min w.StatsMap.length 4 ∧
      report.map Prod.fst = (sortMapKeysByValue (kCountMap w.StatsMap)).take 4 ∧
      (report.map Prod.fst).Nodup ∧
      (∀ e ∈ report, e ∈ w.StatsMap) ∧
      List.Pairwise (fun a b => a.2.Count ≥ b.2.Count) report ∧
      (∀ e ∈ report, ∀ e1 ∈ w.StatsMap, e1.1 ∉ report.map Prod.fst →
        e.2.Count ≥ e1.2.Count) ∧
      List.Perm (sortMapKeysByValue (kCountMap w.StatsMap)) (w.StatsMap.map Prod.fst) ∧
      List.Pairwise (fun a b => w.count a ≥ w.count b)
        (sortMapKeysByValue (kCountMap w.StatsMap)) := by
  have hcm := kCountMap_eq w.StatsMap hnd
  have hkeys : (kCountMap w.StatsMap).map Prod.fst = w.StatsMap.map Prod.fst := by
    rw [hcm]; simp
  have hperm : List.Perm (sortMapKeysByValue (kCountMap w.StatsMap))
      (w.StatsMap.map Prod.fst) := by
    rw [← hkeys]; exact sortMapKeysByValue_perm _
  have hcount : ∀ k, ((kCountMap w.StatsMap).lookup k).getD 0 = w.count k := by
    intro k
    rw [hcm, lookup_map_snd (fun st : Stats => st.Count) k w.StatsMap]
    unfold StatsWindow.count
    cases w.StatsMap.lookup k <;> rfl
  have hsorted : List.Pairwise (fun a b => w.count a ≥ w.count b)
      (sortMapKeysByValue (kCountMap w.StatsMap)) := by
    have h := sortMapKeysByValue_sorted (kCountMap w.StatsMap) (by rw [hkeys]; exact hnd)
    refine h.imp ?_
    intro a b hab
    rw [← hcount a, ← hcount b]
    exact hab
  have hnodup : (sortMapKeysByValue (kCountMap w.StatsMap)).Nodup := hperm.nodup_iff.mpr hnd
  have hrun : s.notify windowIndex = .done
      (((sortMapKeysByValue (kCountMap w.StatsMap)).take 4).map fun k =>
        (k, (w.StatsMap.lookup k).getD { Count := 0, OtherCounts := [] })) := by
    simp only [StatsType.notify, hw, notifyLoop_eq]
  have hfst : ((((sortMapKeysByValue (kCountMap w.StatsMap)).take 4).map fun k =>
      (k, (w.StatsMap.lookup k).getD { Count := 0, OtherCounts := [] })).map Prod.fst) =
      (sortMapKeysByValue (kCountMap w.StatsMap)).take 4 := by
    rw [List.map_map]
    exact List.map_id _
  -- an entry of the window is read back by its key
  have hread : ∀ e ∈ w.StatsMap,
      (w.StatsMap.lookup e.1).getD { Count := 0, OtherCounts := [] } = e.2 := by
    intro e he
    rw [lookup_of_mem_nodup w.StatsMap e.1 e.2 hnd he]
    rfl
  have hmemkey : ∀ k ∈ sortMapKeysByValue (kCountMap w.StatsMap),
      (k, (w.StatsMap.lookup k).getD { Count := 0, OtherCounts := [] }) ∈ w.StatsMap := by
    intro k hk
    obtain ⟨e, he, hek⟩ := List.mem_map.mp (hperm.subset hk)
    have := hread e he
    rw [hek] at this
    rw [this, ← hek]
    exact he
  refine ⟨_, hrun, ?_, hfst, ?_, ?_, ?_, ?_, hperm, hsorted⟩
  · rw [List.length_map, List.length_take, hperm.length_eq, List.length_map]
    exact Nat.min_comm _ _
  · rw [hfst]
    exact hnodup.sublist (List.take_sublist _ _)
  · intro e he
    obtain ⟨k, hk, rfl⟩ := List.mem_map.mp he
    exact hmemkey k (List.mem_of_mem_take hk)
  · rw [List.pairwise_map]
    refine (hsorted.sublist (List.take_sublist 4 _)).imp ?_
    intro a b hab
    simp only [count_getD_lookup]
    exact hab
  · intro e he e1 he1 hout
    obtain ⟨k, hk, rfl⟩ := List.mem_map.mp he
    rw [hfst] at hout
    have hin : e1.1 ∈ sortMapKeysByValue (kCountMap w.StatsMap) :=
      hperm.symm.subset (List.mem_map.mpr ⟨e1, he1, rfl⟩)
    have hsplit := List.take_append_drop 4 (sortMapKeysByValue (kCountMap w.StatsMap))
    have hdrop : e1.1 ∈ (sortMapKeysByValue (kCountMap w.StatsMap)).drop 4 := by
      rw [← hsplit] at hin
      rcases List.mem_append.mp hin with h | h
      · exact absurd h hout
      · exact h
    have hpw := hsorted
    rw [← hsplit] at hpw
    have hge := (List.pairwise_append.mp hpw).2.2 k hk e1.1 hdrop
    simp only [count_getD_lookup]
    have h1 : w.count e1.1 = e1.2.Count := by
      rw [← count_getD_lookup, hread e1 he1]
    rw [h1] at hge
    exact hge

/-- C22 on a window with six values counted 3, 1, 4, 1, 5 and 2 times: the
report lists the four values counted 5, 4, 3 and 2 times, in this order. -/
theorem C22_report_top_four_witness :
    sixValueStats.notify 1 = .done
      [("/e", { Count := 5, OtherCounts := [] }), ("/c", { Count := 4, OtherCounts := [] }),
       ("/a", { Count := 3, OtherCounts := [] }), ("/f", { Count := 2, OtherCounts := [] })] ∧
    ∃ report : List (String × Stats),
      sixValueStats.notify 1 = .done report ∧
      report.length = min sixValueWindow.StatsMap.length 4 ∧
      report.map Prod.fst = (sortMapKeysByValue (kCountMap sixValueWindow.StatsMap)).take 4 ∧
      (report.map Prod.fst).Nodup ∧
      (∀ e ∈ report, e ∈ sixValueWindow.StatsMap) ∧
      List.Pairwise (fun a b => a.2.Count ≥ b.2.Count) report ∧
      (∀ e ∈ report, ∀ e1 ∈ sixValueWindow.StatsMap, e1.1 ∉ report.map Prod.fst →
        e.2.Count ≥ e1.2.Count) ∧
      List.Perm (sortMapKeysByValue (kCountMap sixValueWindow.StatsMap))
        (sixValueWindow.StatsMap.map Prod.fst) ∧
      List.Pairwise (fun a b => sixValueWindow.count a ≥ sixValueWindow.count b)
        (sortMapKeysByValue (kCountMap sixValueWindow.StatsMap)) :=
  ⟨by decide, C22_report_top_four sixValueStats 1 sixValueWindow (by decide) (by decide)⟩

/-! ## Splitting a csv line and aligning it with the headers -/

/-- The quote-stripping loop replaces every part by `removeQuotes` of it. -/
theorem stripQuotesLoop_eq :
    ∀ (rest done : List String),
      stripQuotesLoop done.length rest (done ++ rest) = done ++ rest.map removeQuotes := by
  intro rest
  induction rest with
  | nil => intro done; simp [stripQuotesLoop]
  | cons p rest ih =>
    intro done
    have hset : (done ++ p :: rest).set done.length (removeQuotes p) =
        (done ++ [removeQuotes p]) ++ rest := by
      rw [List.set_append]
      simp
    have hlen : done.length + 1 = (done ++ [removeQuotes p]).length := by simp
    rw [stripQuotesLoop, hset, hlen, ih (done ++ [removeQuotes p])]
    simp

/-- A key is in the map exactly when reading it finds a value. -/
theorem mem_keys_iff_lookup {β : Type} (k : String) :
    ∀ (m : List (String × β)), k ∈ m.map Prod.fst ↔ ∃ v, m.lookup k = some v := by
  intro m
  induction m with
  | nil => simp
  | cons e rest ih =>
    obtain ⟨k1, v1⟩ := e
    rw [List.lookup_cons]
    by_cases h : k = k1
    · subst h
      simp
    · have hb : (k == k1) = false := by simpa using h
      simp only [List.map_cons, List.mem_cons, h, false_or, hb]
      exact ih

/-- The keys of the header-aligned map: those it had and the headers. -/
theorem fillKV_mem_keys (parts : List String) (k : String) :
    ∀ (hs : List String) (i : Nat) (kv : List (String × String)),
      k ∈ (fillKV parts i hs kv).map Prod.fst ↔ k ∈ kv.map Prod.fst ∨ k ∈ hs := by
  intro hs
  induction hs with
  | nil => intro i kv; simp [fillKV]
  | cons h rest ih =>
    intro i kv
    rw [fillKV, ih, keys_mapSet]
    by_cases hm : h ∈ kv.map Prod.fst
    · simp only [hm, if_true, List.mem_cons]
      constructor
      · rintro (h1 | h1)
        · exact Or.inl h1
        · exact Or.inr (Or.inr h1)
      · rintro (h1 | h1 | h1)
        · exact Or.inl h1
        · exact Or.inl (h1 ▸ hm)
        · exact Or.inr h1
    · simp only [hm, if_false, List.mem_append, List.mem_singleton, List.mem_cons]
      tauto

theorem fillKV_nodup_keys (parts : List String) :
    ∀ (hs : List String) (i : Nat) (kv : List (String × String)),
      (kv.map Prod.fst).Nodup → ((fillKV parts i hs kv).map Prod.fst).Nodup := by
  intro hs
  induction hs with
  | nil => intro i kv h; simpa [fillKV] using h
  | cons h rest ih =>
    intro i kv hnd
    rw [fillKV]
    exact ih _ _ (nodup_keys_mapSet _ _ _ hnd)

/-- A key that is not among the headers still to visit keeps its value. -/
theorem fillKV_lookup_of_not_mem (parts : List String) (k : String) :
    ∀ (hs : List String) (i : Nat) (kv : List (String × String)), k ∉ hs →
      (fillKV parts i hs kv).lookup k = kv.lookup k := by
  intro hs
  induction hs with
  | nil => intro i kv _; simp [fillKV]
  | cons h rest ih =>
    intro i kv hk
    simp only [List.mem_cons, not_or] at hk
    rw [fillKV, ih _ _ hk.2, lookup_mapSet]
    simp [hk.1]

/-- With pairwise distinct headers, the header at position `j` of those still
to visit gets the part at position `i + j`. -/
theorem fillKV_lookup (parts : List String) :
    ∀ (hs : List String) (i : Nat) (kv : List (String × String)), hs.Nodup →
      ∀ (j : Nat) (h : String), hs[j]? = some h →
        (fillKV parts i hs kv).lookup h = some (parts.getD (i + j) "") := by
  intro hs
  induction hs with
  | nil => intro i kv _ j h hj; simp at hj
  | cons h0 rest ih =>
    intro i kv hnd j h hj
    simp only [List.nodup_cons] at hnd
    rw [fillKV]
    cases j with
    | zero =>
      simp only [List.getElem?_cons_zero, Option.some.injEq] at hj
      subst hj
      rw [fillKV_lookup_of_not_mem parts h0 rest _ _ hnd.1, lookup_mapSet]
      simp
    | succ j1 =>
      simp only [List.getElem?_cons_succ] at hj
      rw [ih (i + 1) _ hnd.2 j1 h hj]
      have : i + 1 + j1 = i + (j1 + 1) := by omega
      rw [this]

/-- With pairwise distinct headers that the map does not hold yet, the keys of
the header-aligned map are the keys it had followed by the headers. -/
theorem fillKV_keys (parts : List String) :
    ∀ (hs : List String) (i : Nat) (kv : List (String × String)),
      (kv.map Prod.fst ++ hs).Nodup →
      (fillKV parts i hs kv).map Prod.fst = kv.map Prod.fst ++ hs := by
  intro hs
  induction hs with
  | nil => intro i kv _; simp [fillKV]
  | cons h rest ih =>
    intro i kv hnd
    have hnot : h ∉ kv.map Prod.fst := by
      intro hmem
      exact (List.nodup_append.mp hnd).2.2 hmem (List.mem_cons_self _ _)
    have hkeys : (mapSet kv h (parts.getD i "")).map Prod.fst = kv.map Prod.fst ++ [h] := by
      rw [keys_mapSet]; simp [hnot]
    rw [fillKV, ih, hkeys]
    · simp
    · rw [hkeys]; simpa using hnd

/-- C24: `LogSourceFormat_CSV.GetKeyValueMap(text, headers)` returns an error
exactly when the number of parts of `text` cut at its commas differs from the
number of headers. Otherwise it returns a map with one entry per key whose keys
are the headers; when the headers are pairwise distinct, the keys are the
headers in their order and the value under the header at position `i` is the
part at position `i` as the cut gives it, quotes included. The three cases of
`TestLogSourceFormat_CSV_GetKeyValueMap` and a line with quoted fields are
evaluated. -/
theorem C24_GetKeyValueMap (text : String) (headers : List String) :
    ((∃ err, LogSourceFormat_CSV.GetKeyValueMap text headers = .error err) ↔
      (stringsSplit text ',').length ≠ headers.length) ∧
    ((stringsSplit text ',').length = headers.length →
      ∃ kv, LogSourceFormat_CSV.GetKeyValueMap text headers = .ok kv ∧
        (kv.map Prod.fst).Nodup ∧
        (∀ k, k ∈ kv.map Prod.fst ↔ k ∈ headers) ∧
        (headers.Nodup →
          kv.map Prod.fst = headers ∧
          ∀ (i : Nat) (h : String), headers[i]? = some h →
            ∃ part, (stringsSplit text ',')[i]? = some part ∧ kv.lookup h = some part)) ∧
    LogSourceFormat_CSV.GetKeyValueMap "foo,bar,baz,yaz" ["hfoo", "hbar", "hbaz", "hyaz"] =
      .ok [("hfoo", "foo"), ("hbar", "bar"), ("hbaz", "baz"), ("hyaz", "yaz")] ∧
    (∃ err, LogSourceFormat_CSV.GetKeyValueMap "foo,bar,baz,yaz" ["hfoo", "hbar", "hbaz"] =
      .error err) ∧
    (∃ err, LogSourceFormat_CSV.GetKeyValueMap "foo,bar,baz" ["hfoo", "hbar", "hbaz", "hyaz"] =
      .error err) ∧
    LogSourceFormat_CSV.GetKeyValueMap "\"10.0.0.5\",\"-\",200" ["remotehost", "rfc931", "status"] =
      .ok [("remotehost", "\"10.0.0.5\""), ("rfc931", "\"-\""), ("status", "200")] := by
  refine ⟨?_, ?_, by rfl, ⟨_, by rfl⟩, ⟨_, by rfl⟩, by rfl⟩
  · unfold LogSourceFormat_CSV.GetKeyValueMap LogSourceFormat_CSV.GetPartsFromText
    by_cases h : (stringsSplit text ',').length = headers.length
    · simp [h]
    · simp [h]
  · intro hlen
    refine ⟨fillKV (stringsSplit text ',') 0 headers [], ?_, ?_, ?_, ?_⟩
    · unfold LogSourceFormat_CSV.GetKeyValueMap LogSourceFormat_CSV.GetPartsFromText
      simp [hlen]
    · exact fillKV_nodup_keys _ _ _ _ (by simp)
    · intro k
      rw [fillKV_mem_keys]
      simp
    · intro hnd
      refine ⟨by simpa using fillKV_keys (stringsSplit text ',') headers 0 [] (by simpa using hnd),
        ?_⟩
      intro i h hi
      have hlt : i < (stringsSplit text ',').length := by
        rw [hlen]
        exact (List.getElem?_eq_some_iff.mp hi).1
      refine ⟨(stringsSplit text ',')[i], List.getElem?_eq_getElem hlt, ?_⟩
      rw [fillKV_lookup _ headers 0 [] hnd i h hi]
      simp [List.getD_eq_getElem?_getD, List.getElem?_eq_getElem hlt]

/-! ## Quotes around a part -/

/-- C25 as stated fails: the string that is a single double quote begins and
ends with a double quote, yet `removeQuotes` returns it unchanged (the code
asks for `len(str) > 1`), which is not the string with its first and last
character removed. -/
theorem C25_counterexample :
    ("\"".data.head? = some quoteChar ∧ "\"".data.getLast? = some quoteChar) ∧
    removeQuotes "\"" = "\"" ∧
    removeQuotes "\"" ≠ String.mk "\"".data.tail.dropLast ∧
    ¬ ∀ s : String, (s.data.head? = some quoteChar ∧ s.data.getLast? = some quoteChar) →
      removeQuotes s = String.mk s.data.tail.dropLast := by
  refine ⟨by decide, by decide, by decide, ?_⟩
  intro h
  exact absurd (h "\"" (by decide)) (by decide)

/-- C25, amended: for every string `s`, `removeQuotes(s)` is `s` with its first
and last character removed when `s` has at least two characters and both begins
and ends with a double quote, and is `s` unchanged otherwise; so it changes `s`
exactly in the first case, and then `s` is the result between two double
quotes. `GetPartsFromText(text, true)` is `GetPartsFromText(text, false)` with
`removeQuotes` applied to each part, and `GetPartsFromText(text, false)` is
the cut of `text` at its commas. The line `foo,bar,"baz",yaz` gives
`[foo, bar, baz, yaz]` with stripping and `[foo, bar, "baz", yaz]` without. -/
theorem C25_removeQuotes (s text : String) :
    ((2 ≤ s.length ∧ s.data.head? = some quoteChar ∧ s.data.getLast? = some quoteChar) →
      removeQuotes s = String.mk s.data.tail.dropLast ∧
      s.data = quoteChar :: (removeQuotes s).data ++ [quoteChar]) ∧
    (¬ (2 ≤ s.length ∧ s.data.head? = some quoteChar ∧ s.data.getLast? = some quoteChar) →
      removeQuotes s = s) ∧
    (removeQuotes s ≠ s ↔
      (2 ≤ s.length ∧ s.data.head? = some quoteChar ∧ s.data.getLast? = some quoteChar)) ∧
    LogSourceFormat_CSV.GetPartsFromText text true =
      (LogSourceFormat_CSV.GetPartsFromText text false).map removeQuotes ∧
    LogSourceFormat_CSV.GetPartsFromText text false = stringsSplit text ',' ∧
    LogSourceFormat_CSV.GetPartsFromText "foo,bar,\"baz\",yaz" true =
      ["foo", "bar", "baz", "yaz"] ∧
    LogSourceFormat_CSV.GetPartsFromText "foo,bar,\"baz\",yaz" false =
      ["foo", "bar", "\"baz\"", "yaz"] ∧
    LogSourceFormat_CSV.GetPartsFromText "foo,bar,baz,yaz" false =
      ["foo", "bar", "baz", "yaz"] := by
  have hyes : (2 ≤ s.length ∧ s.data.head? = some quoteChar ∧
      s.data.getLast? = some quoteChar) →
      removeQuotes s = String.mk s.data.tail.dropLast := by
    intro h
    have h1 : s.length > 1 ∧ s.data.head? = some quoteChar ∧
        s.data.getLast? = some quoteChar := ⟨h.1, h.2⟩
    simp only [removeQuotes, h1, and_self, if_true]
  have hno : ¬ (2 ≤ s.length ∧ s.data.head? = some quoteChar ∧
      s.data.getLast? = some quoteChar) → removeQuotes s = s := by
    intro h
    have h1 : ¬ (s.length > 1 ∧ s.data.head? = some quoteChar ∧
        s.data.getLast? = some quoteChar) := fun h2 => h ⟨h2.1, h2.2⟩
    simp only [removeQuotes, h1, if_false]
  refine ⟨?_, hno, ?_, ?_, rfl, by decide, by decide, by decide⟩
  · intro h
    refine ⟨hyes h, ?_⟩
    rw [hyes h]
    obtain ⟨hlen, hhead, hlast⟩ := h
    obtain ⟨l⟩ := s
    simp only [String.length] at hlen
    simp only at hhead hlast ⊢
    cases l with
    | nil => simp at hhead
    | cons a rest =>
      simp only [List.head?_cons, Option.some.injEq] at hhead
      subst hhead
      have hne : rest ≠ [] := by
        intro h0
        subst h0
        simp at hlen
      have hl2 : rest.getLast? = some quoteChar := by
        cases rest with
        | nil => exact absurd rfl hne
        | cons b rest1 => simpa [List.getLast?_cons_cons] using hlast
      obtain ⟨init, rfl⟩ : ∃ init, rest = init ++ [quoteChar] := by
        refine ⟨rest.dropLast, ?_⟩
        have := List.dropLast_append_getLast? quoteChar hl2
        exact this.symm
      simp
  · constructor
    · intro hne
      by_contra hc
      exact hne (hno hc)
    · intro h hEq
      rw [hyes h] at hEq
      have hlen := congrArg String.length hEq
      simp only [String.length, List.length_dropLast, List.length_tail] at hlen
      have h2 := h.1
      simp only [String.length] at h2
      omega
  · unfold LogSourceFormat_CSV.GetPartsFromText
    simp only [if_true, Bool.false_eq_true, if_false]
    have := stripQuotesLoop_eq (stringsSplit text ',') []
    simpa using this

/-! ## Unix timestamps -/

theorem decimalValue_ge : ∀ (cs : List Char) (n : Nat), n ≤ decimalValue cs n := by
  intro cs
  induction cs with
  | nil => intro n; exact le_refl _
  | cons c rest ih =>
    intro n
    have h := ih (n * 10 + (c.toNat - '0'.toNat))
    simp only [decimalValue, List.foldl_cons] at h ⊢
    omega

/-- On a run of digits the loop of `ParseUint` returns the number they stand
for, or a range error when that number does not fit in 64 bits. -/
theorem parseUintLoop_digits :
    ∀ (cs : List Char) (n : Nat), cs.all isDecimalDigit = true → n ≤ maxUint64 →
      parseUintLoop cs n =
        if decimalValue cs n ≤ maxUint64 then .ok (decimalValue cs n) else .error .range := by
  intro cs
  induction cs with
  | nil =>
    intro n _ hn
    simp [parseUintLoop, decimalValue, hn]
  | cons c rest ih =>
    intro n hall hn
    simp only [List.all_cons, Bool.and_eq_true] at hall
    have hc : '0' ≤ c ∧ c ≤ '9' := by simpa [isDecimalDigit] using hall.1
    have hstep : decimalValue (c :: rest) n = decimalValue rest (n * 10 + (c.toNat - '0'.toNat)) :=
      rfl
    have hge := decimalValue_ge rest (n * 10 + (c.toNat - '0'.toNat))
    rw [parseUintLoop]
    simp only [hc, and_self, if_true]
    by_cases h1 : n ≥ maxUint64 / 10 + 1
    · have hbig : ¬ decimalValue (c :: rest) n ≤ maxUint64 := by
        rw [hstep]
        unfold maxUint64 at h1 ⊢
        omega
      simp only [h1, if_true, hbig, if_false]
    · simp only [h1, if_false]
      by_cases h2 : n * 10 + (c.toNat - '0'.toNat) > maxUint64
      · have hbig : ¬ decimalValue (c :: rest) n ≤ maxUint64 := by
          rw [hstep]
          omega
        simp only [h2, if_true, hbig, if_false]
      · simp only [h2, if_false]
        rw [ih _ hall.2 (by omega), hstep]

/-- On characters that are not all digits the loop of `ParseUint` returns an
error. -/
theorem parseUintLoop_not_digits :
    ∀ (cs : List Char) (n : Nat), cs.all isDecimalDigit = false →
      ∃ e, parseUintLoop cs n = .error e := by
  intro cs
  induction cs with
  | nil => intro n h; simp at h
  | cons c rest ih =>
    intro n hall
    rw [parseUintLoop]
    by_cases hc : '0' ≤ c ∧ c ≤ '9'
    · have hrest : rest.all isDecimalDigit = false := by
        have hd : isDecimalDigit c = true := by simpa [isDecimalDigit] using hc
        simpa [List.all_cons, hd] using hall
      simp only [hc, and_self, if_true]
      by_cases h1 : n ≥ maxUint64 / 10 + 1
      · exact ⟨.range, by simp only [h1, if_true]⟩
      · simp only [h1, if_false]
        by_cases h2 : n * 10 + (c.toNat - '0'.toNat) > maxUint64
        · exact ⟨.range, by simp only [h2, if_true]⟩
        · simp only [h2, if_false]
          exact ih _ hrest
    · exact ⟨.invalid, by simp only [hc, if_false]⟩

/-- `ParseUint` and the sign handling of `ParseInt` on the characters after the
sign: the value of a run of digits when it fits in 64 bits with the sign, an
error otherwise. -/
theorem parseIntSigned_spec (neg : Bool) (digits : List Char) :
    (∀ v, digitsValue digits = some v →
      parseIntSigned neg (ParseUint digits) =
        if (neg = false ∧ v < 2 ^ 63) ∨ (neg = true ∧ v ≤ 2 ^ 63) then
          .ok (if neg then -(v : Int) else (v : Int))
        else .error .range) ∧
    (digitsValue digits = none → ∃ e, parseIntSigned neg (ParseUint digits) = .error e) := by
  have hrange : parseIntSigned neg (.error .range) = .error .range := by
    cases neg <;> rfl
  constructor
  · intro v hv
    unfold digitsValue at hv
    split at hv
    · next hd =>
      simp only [Option.some.injEq] at hv
      have hloop := parseUintLoop_digits digits 0 hd.2 (Nat.zero_le _)
      rw [hv] at hloop
      simp only [ParseUint, hd.1, if_false, hloop]
      by_cases hfit : v ≤ maxUint64
      · simp only [hfit, if_true]
        cases neg with
        | false =>
          simp only [parseIntSigned, Bool.not_false, Bool.true_and, Bool.false_and,
            Bool.false_eq_true, if_false, true_and, false_and, or_false, decide_eq_true_eq]
          by_cases h1 : v < 2 ^ 63
          · have h2 : ¬ v ≥ 2 ^ 63 := by omega
            simp only [h1, h2, if_true, if_false]
          · have h2 : v ≥ 2 ^ 63 := by omega
            simp only [h1, h2, if_true, if_false]
        | true =>
          by_cases h1 : v ≤ 9223372036854775808
          · have h2 : ¬ 9223372036854775808 < v := by omega
            simp [parseIntSigned, h1, h2]
          · have h2 : 9223372036854775808 < v := by omega
            simp [parseIntSigned, h1, h2]
      · simp only [hfit, if_false, hrange]
        have h1 : ¬ v < 2 ^ 63 := by unfold maxUint64 at hfit; omega
        have h2 : ¬ v ≤ 2 ^ 63 := by unfold maxUint64 at hfit; omega
        simp only [h1, h2, and_false, or_self, if_false]
    · simp at hv
  · intro hnone
    unfold digitsValue at hnone
    split at hnone
    · simp at hnone
    · next hd =>
      by_cases hnil : digits = []
      · exact ⟨.invalid, by simp [ParseUint, hnil, parseIntSigned]⟩
      · have hall : digits.all isDecimalDigit = false := by
          cases h : digits.all isDecimalDigit with
          | false => rfl
          | true => exact absurd ⟨hnil, h⟩ hd
        obtain ⟨e, he⟩ := parseUintLoop_not_digits digits 0 hall
        simp only [ParseUint, hnil, if_false, he]
        cases e with
        | invalid => exact ⟨.invalid, rfl⟩
        | range => exact ⟨.range, hrange⟩

/-- The test of `ParseInt` on the size of the number read is the test that the
signed number fits in 64 bits. -/
theorem parseIntSigned_range (neg : Bool) (v : Nat) :
    (if (neg = false ∧ v < 2 ^ 63) ∨ (neg = true ∧ v ≤ 2 ^ 63) then
        (.ok (if neg then -(v : Int) else (v : Int)) : Except NumError Int)
      else .error .range) =
    if -2 ^ 63 ≤ (if neg then -(v : Int) else (v : Int)) ∧
        (if neg then -(v : Int) else (v : Int)) ≤ 2 ^ 63 - 1 then
      .ok (if neg then -(v : Int) else (v : Int))
    else .error .range := by
  cases neg with
  | false =>
    simp only [Bool.false_eq_true, if_false, true_and, false_and, or_false]
    split_ifs <;> first | rfl | (exfalso; omega)
  | true =>
    simp only [Bool.true_eq_false, if_true, true_and, false_and, false_or]
    split_ifs <;> first | rfl | (exfalso; omega)

/-- `strconv.ParseInt(s, 10, 64)` returns the integer that `s` stands for as a
base-10 literal when that integer fits in 64 bits, a range error when it does
not, and an error when `s` is no such literal. -/
theorem ParseInt_spec (s : String) :
    (∀ n, intLiteral s = some n →
      ParseInt s = if -2 ^ 63 ≤ n ∧ n ≤ 2 ^ 63 - 1 then .ok n else .error .range) ∧
    (intLiteral s = none → ∃ e, ParseInt s = .error e) := by
  obtain ⟨l⟩ := s
  cases l with
  | nil =>
    refine ⟨fun n h => ?_, fun _ => ⟨.invalid, rfl⟩⟩
    simp [intLiteral] at h
  | cons c rest =>
    -- the sign and the characters after it
    obtain ⟨neg, digits, hP, hL⟩ : ∃ (neg : Bool) (digits : List Char),
        ParseInt ⟨c :: rest⟩ = parseIntSigned neg (ParseUint digits) ∧
        intLiteral ⟨c :: rest⟩ =
          (match digitsValue digits with
            | some v => some (if neg then -(v : Int) else (v : Int))
            | none => none) := by
      by_cases hm : c = '-'
      · subst hm
        refine ⟨true, rest, rfl, ?_⟩
        simp only [intLiteral, if_true]
      · by_cases hp : c = '+'
        · subst hp
          refine ⟨false, rest, rfl, ?_⟩
          simp only [intLiteral, hm, if_false, if_true, Bool.false_eq_true]
        · refine ⟨false, c :: rest, ?_, ?_⟩
          · unfold ParseInt
            simp only [hm, hp, or_self, if_false, decide_False]
          · simp only [intLiteral, hm, hp, if_false, Bool.false_eq_true]
    obtain ⟨h1, h2⟩ := parseIntSigned_spec neg digits
    rw [hP, hL]
    cases hv : digitsValue digits with
    | none =>
      refine ⟨fun n h => ?_, fun _ => h2 hv⟩
      simp at h
    | some v =>
      refine ⟨fun n h => ?_, fun h => ?_⟩
      · simp only [Option.some.injEq] at h
        rw [h1 v hv, parseIntSigned_range, h]
      · simp at h

/-- The library's `time.Unix(sec, 0)`: its `Unix()` is `sec` again and its
nanoseconds are zero, for every `int64`; counted from year 1 it is `sec`
seconds after the Unix epoch as long as that count fits in an `int64`. -/
theorem timeUnix_spec (n : Int) (h1 : -2 ^ 63 ≤ n) (h2 : n ≤ 2 ^ 63 - 1) :
    timeToUnix (timeUnix n) = n ∧ timeNanosecond (timeUnix n) = 0 ∧
    (timeUnix n = (unixToInternal + n) * Second ↔ n ≤ 2 ^ 63 - 1 - unixToInternal) := by
  unfold timeToUnix timeNanosecond timeUnix wrapInt64 unixToInternal Second
  refine ⟨?_, ?_, ?_, ?_⟩
  · omega
  · omega
  · intro h
    omega
  · intro h
    omega

/-- C26: `TimestampFormat_Unix.Parse(str)` succeeds exactly when `str` is a
base-10 integer literal (an optional sign, then one or more decimal digits)
whose value `n` is in the signed 64-bit range. It then returns
`time.Unix(n, 0)`: the instant whose `Unix()` is `n` and whose nanoseconds are
zero; on the line of instants counted from year 1 this is `n` seconds after the
Unix epoch exactly for the `n` up to `2^63 - 1 - 62135596800`, the values for
which the library's count of seconds since year 1 fits in its `int64`. Every
other string returns an error; `1549573963` gives `t0`, and `ljh123jh` and the empty
string are no literals and give an error. -/
theorem C26_unix_parse (str : String) :
    ((∃ t, TimestampFormat_Unix.Parse str = .ok t) ↔
      ∃ n, intLiteral str = some n ∧ -2 ^ 63 ≤ n ∧ n ≤ 2 ^ 63 - 1) ∧
    (∀ n, intLiteral str = some n → -2 ^ 63 ≤ n → n ≤ 2 ^ 63 - 1 →
      TimestampFormat_Unix.Parse str = .ok (timeUnix n) ∧
      timeToUnix (timeUnix n) = n ∧ timeNanosecond (timeUnix n) = 0 ∧
      (timeUnix n = (unixToInternal + n) * Second ↔ n ≤ 2 ^ 63 - 1 - unixToInternal)) ∧
    ((¬ ∃ n, intLiteral str = some n ∧ -2 ^ 63 ≤ n ∧ n ≤ 2 ^ 63 - 1) →
      ∃ err, TimestampFormat_Unix.Parse str = .error err) ∧
    TimestampFormat_Unix.Parse "1549573963" = .ok t0 ∧
    t0 = (unixToInternal + 1549573963) * Second ∧
    intLiteral "ljh123jh" = none ∧
    (∃ err, TimestampFormat_Unix.Parse "ljh123jh" = .error err) ∧
    intLiteral "" = none ∧
    (∃ err, TimestampFormat_Unix.Parse "" = .error err) := by
  obtain ⟨hlit, hnone⟩ := ParseInt_spec str
  have hok : ∀ n, intLiteral str = some n → -2 ^ 63 ≤ n → n ≤ 2 ^ 63 - 1 →
      TimestampFormat_Unix.Parse str = .ok (timeUnix n) := by
    intro n hn h1 h2
    unfold TimestampFormat_Unix.Parse
    rw [hlit n hn, if_pos ⟨h1, h2⟩]
  have herr : (¬ ∃ n, intLiteral str = some n ∧ -2 ^ 63 ≤ n ∧ n ≤ 2 ^ 63 - 1) →
      ∃ err, TimestampFormat_Unix.Parse str = .error err := by
    intro h
    unfold TimestampFormat_Unix.Parse
    cases hl : intLiteral str with
    | none =>
      obtain ⟨e, he⟩ := hnone hl
      rw [he]
      exact ⟨_, rfl⟩
    | some n =>
      have hout : ¬ (-2 ^ 63 ≤ n ∧ n ≤ 2 ^ 63 - 1) := fun hr => h ⟨n, hl, hr.1, hr.2⟩
      rw [hlit n hl, if_neg hout]
      exact ⟨_, rfl⟩
  refine ⟨⟨?_, ?_⟩, ?_, herr, by rfl, by decide, by decide, ⟨_, by rfl⟩, by decide,
    ⟨_, by rfl⟩⟩
  · rintro ⟨t, ht⟩
    by_contra hno
    obtain ⟨err, he⟩ := herr hno
    rw [he] at ht
    cases ht
  · rintro ⟨n, hn, h1, h2⟩
    exact ⟨_, hok n hn h1 h2⟩
  · intro n hn h1 h2
    exact ⟨hok n hn h1 h2, timeUnix_spec n h1 h2⟩

/-- C26, the case the statement leaves out: `9223371974719179008` is a base-10
integer literal within the signed 64-bit range and `Parse` succeeds on it, but
the count of seconds since year 1 that `time.Unix` forms, `62135596800 + n`, is
`2^63` and wraps to `-2^63`: the instant returned is the first second of
`time.Time`, long before the Unix epoch, with `Unix()` still `n`. One second
less parses into the last second of `time.Time`, in its place. -/
theorem C26_counterexample :
    intLiteral "9223371974719179008" = some 9223371974719179008 ∧
    (9223371974719179008 : Int) ≤ 2 ^ 63 - 1 ∧
    TimestampFormat_Unix.Parse "9223371974719179008" = .ok (-(2 ^ 63) * Second) ∧
    -(2 ^ 63) * Second < unixToInternal * Second ∧
    -(2 ^ 63) * Second ≠ (unixToInternal + 9223371974719179008) * Second ∧
    timeToUnix (-(2 ^ 63) * Second) = 9223371974719179008 ∧
    TimestampFormat_Unix.Parse "9223371974719179007" =
      .ok ((unixToInternal + 9223371974719179007) * Second) :=
  ⟨by decide, by decide, by rfl, by decide, by decide, by decide, by rfl⟩

/-! ## From a raw line to a record -/

/-- What `GetKeyValueMap` returns when it returns a map. -/
theorem GetKeyValueMap_ok {text : String} {headers : List String}
    {kv : List (String × String)}
    (h : LogSourceFormat_CSV.GetKeyValueMap text headers = .ok kv) :
    (stringsSplit text ',').length = headers.length ∧
    kv = fillKV (stringsSplit text ',') 0 headers [] := by
  unfold LogSourceFormat_CSV.GetKeyValueMap LogSourceFormat_CSV.GetPartsFromText at h
  by_cases hlen : (stringsSplit text ',').length = headers.length
  · simp only [Bool.false_eq_true, if_false, hlen, ne_eq, not_true_eq_false,
      Except.ok.injEq] at h
    exact ⟨hlen, h.symm⟩
  · simp [hlen] at h

/-- `GetKeyValueMap` returns a map when there are as many parts as headers. -/
theorem GetKeyValueMap_of_length {text : String} {headers : List String}
    (h : (stringsSplit text ',').length = headers.length) :
    LogSourceFormat_CSV.GetKeyValueMap text headers =
      .ok (fillKV (stringsSplit text ',') 0 headers []) := by
  unfold LogSourceFormat_CSV.GetKeyValueMap LogSourceFormat_CSV.GetPartsFromText
  simp [h]

/-- The two steps of `NewLogMessageStructured`. -/
theorem NewLogMessageStructured_eq (rawMsg : LogMessage) (settings : LogSourceSettings) :
    NewLogMessageStructured rawMsg settings =
      match LogSourceFormat_CSV.GetKeyValueMap rawMsg.Message settings.Headers with
      | .error err => .error ("creating a key-value map: " ++ err)
      | .ok kv =>
        match TimestampFormat_Unix.Parse ((kv.lookup settings.TimestampKey).getD "") with
        | .error err => .error ("parsing to time: " ++ err)
        | .ok t => .ok { toLogMessage := rawMsg, KV := kv, T := t } := by
  obtain ⟨fmt, headers, key, tf, first⟩ := settings
  cases fmt
  cases tf
  rfl

/-- C23: with the csv format and the unix timestamp format,
`NewLogMessageStructured(raw, settings)` succeeds exactly when `raw.Message`
cut at its commas has as many fields as there are headers and the value of the
header-aligned map under `settings.TimestampKey` parses as a unix timestamp.
The record it returns carries `raw` unchanged, `KV` is the header-aligned map,
`KV` contains `TimestampKey`, and `T` is the parse of `KV[TimestampKey]`. A
timestamp key that is not among the headers makes it fail. The seven-field
line of `TestNewLogMessageStructured` gives seven entries with
`KV[date] = "1549573963"` and `T = t0`; its four-field line fails. -/
theorem C23_NewLogMessageStructured (rawMsg : LogMessage) (settings : LogSourceSettings) :
    ((∃ msg, NewLogMessageStructured rawMsg settings = .ok msg) ↔
      ((stringsSplit rawMsg.Message ',').length = settings.Headers.length ∧
        ∃ kv t, LogSourceFormat_CSV.GetKeyValueMap rawMsg.Message settings.Headers = .ok kv ∧
          TimestampFormat_Unix.Parse ((kv.lookup settings.TimestampKey).getD "") = .ok t)) ∧
    (∀ msg, NewLogMessageStructured rawMsg settings = .ok msg →
      msg.toLogMessage = rawMsg ∧
      LogSourceFormat_CSV.GetKeyValueMap rawMsg.Message settings.Headers = .ok msg.KV ∧
      settings.TimestampKey ∈ msg.KV.map Prod.fst ∧
      settings.TimestampKey ∈ settings.Headers ∧
      TimestampFormat_Unix.Parse (msg.GetValue settings.TimestampKey) = .ok msg.T) ∧
    (settings.TimestampKey ∉ settings.Headers →
      ∃ err, NewLogMessageStructured rawMsg settings = .error err) ∧
    NewLogMessageStructured (rawLine happyLine) testSourceSettings =
      .ok { toLogMessage := rawLine happyLine
            KV := [("remotehost", "\"10.0.0.5\""), ("rfc931", "\"-\""),
              ("authuser", "\"apache\""), ("date", "1549573963"),
              ("request", "\"GET /api/user HTTP/1.0\""), ("status", "200"), ("bytes", "1234")]
            T := t0 } ∧
    (stringsSplit shortLine ',').length = 4 ∧
    (∃ err, NewLogMessageStructured (rawLine shortLine) testSourceSettings = .error err) := by
  have hsucc : ∀ msg, NewLogMessageStructured rawMsg settings = .ok msg →
      msg.toLogMessage = rawMsg ∧
      LogSourceFormat_CSV.GetKeyValueMap rawMsg.Message settings.Headers = .ok msg.KV ∧
      settings.TimestampKey ∈ msg.KV.map Prod.fst ∧
      settings.TimestampKey ∈ settings.Headers ∧
      TimestampFormat_Unix.Parse (msg.GetValue settings.TimestampKey) = .ok msg.T := by
    intro msg h
    rw [NewLogMessageStructured_eq] at h
    cases hkv : LogSourceFormat_CSV.GetKeyValueMap rawMsg.Message settings.Headers with
    | error e => rw [hkv] at h; simp at h
    | ok kv =>
      rw [hkv] at h
      simp only at h
      cases hp : TimestampFormat_Unix.Parse ((kv.lookup settings.TimestampKey).getD "") with
      | error e => rw [hp] at h; simp at h
      | ok t =>
        rw [hp] at h
        simp only [Except.ok.injEq] at h
        subst h
        have hkey : settings.TimestampKey ∈ kv.map Prod.fst := by
          by_contra hno
          have hl : kv.lookup settings.TimestampKey = none := by
            cases hl : kv.lookup settings.TimestampKey with
            | none => rfl
            | some v => exact absurd ((mem_keys_iff_lookup _ kv).mpr ⟨v, hl⟩) hno
          rw [hl] at hp
          have hempty : TimestampFormat_Unix.Parse "" =
              .error "could not convert to unix timestamp" := rfl
          simp only [Option.getD_none] at hp
          rw [hempty] at hp
          cases hp
        refine ⟨rfl, rfl, hkey, ?_, hp⟩
        obtain ⟨-, hfill⟩ := GetKeyValueMap_ok hkv
        rw [hfill, fillKV_mem_keys] at hkey
        simpa using hkey
  refine ⟨⟨?_, ?_⟩, hsucc, ?_, by rfl, by decide, ⟨_, by rfl⟩⟩
  · rintro ⟨msg, h⟩
    obtain ⟨-, hkv, -, -, hp⟩ := hsucc msg h
    exact ⟨(GetKeyValueMap_ok hkv).1, msg.KV, msg.T, hkv, hp⟩
  · rintro ⟨-, kv, t, hkv, hp⟩
    rw [NewLogMessageStructured_eq, hkv]
    simp only
    rw [hp]
    exact ⟨_, rfl⟩
  · intro hno
    cases h : NewLogMessageStructured rawMsg settings with
    | error e => exact ⟨e, rfl⟩
    | ok msg => exact absurd (hsucc msg h).2.2.2.1 hno

/-! ## The section of a request line -/

/-- The first part of a cut: it holds no separator, and it is either the whole
text or what stands before the first separator, the rest being the cut of what
stands after it. -/
theorem splitOnChar_first (sep : Char) :
    ∀ (cs : List Char), ∃ (first : List Char) (rest : List (List Char)),
      splitOnChar sep cs = first :: rest ∧ sep ∉ first ∧
      ((cs = first ∧ rest = []) ∨
        ∃ tail, cs = first ++ sep :: tail ∧ rest = splitOnChar sep tail) := by
  intro cs
  induction cs with
  | nil => exact ⟨[], [], rfl, by simp, Or.inl ⟨rfl, rfl⟩⟩
  | cons c cs1 ih =>
    by_cases hc : c = sep
    · subst hc
      exact ⟨[], splitOnChar c cs1, by simp [splitOnChar], by simp,
        Or.inr ⟨cs1, rfl, rfl⟩⟩
    · obtain ⟨first, rest, hsplit, hnot, hcase⟩ := ih
      refine ⟨c :: first, rest, ?_, ?_, ?_⟩
      · simp [splitOnChar, hc, hsplit]
      · simp only [List.mem_cons, not_or]
        exact ⟨fun h => hc h.symm, hnot⟩
      · rcases hcase with ⟨h1, h2⟩ | ⟨tail, h1, h2⟩
        · exact Or.inl ⟨by rw [h1], h2⟩
        · exact Or.inr ⟨tail, by rw [h1]; rfl, h2⟩

/-- The section of an endpoint: an endpoint that starts with `/` gives `/`
followed by its first path segment, any other endpoint gives an error. -/
theorem section_of_endpoint (endpoint : String) :
    (∀ tail, endpoint.data = '/' :: tail →
      ∃ seg : List Char, '/' ∉ seg ∧
        (tail = seg ∨ ∃ more, tail = seg ++ '/' :: more) ∧
        (match stringsSplit endpoint '/' with
          | [] => (.error "no endpoint parts detected, is the endpoint empty?" :
              Except String String)
          | first :: rest =>
            if first ≠ "" then .error "expected endpoint to begin with a `/`"
            else
              match rest with
              | [] => .error "not enough info in the endpoint string to extract website section"
              | second :: _ => .ok ("/" ++ second)) = .ok (String.mk ('/' :: seg))) ∧
    (endpoint.data.head? ≠ some '/' →
      ∃ err,
        (match stringsSplit endpoint '/' with
          | [] => (.error "no endpoint parts detected, is the endpoint empty?" :
              Except String String)
          | first :: rest =>
            if first ≠ "" then .error "expected endpoint to begin with a `/`"
            else
              match rest with
              | [] => .error "not enough info in the endpoint string to extract website section"
              | second :: _ => .ok ("/" ++ second)) = .error err) := by
  constructor
  · intro tail htail
    obtain ⟨seg, rest, hsplit, hnot, hcase⟩ := splitOnChar_first '/' tail
    refine ⟨seg, hnot, ?_, ?_⟩
    · rcases hcase with ⟨h1, -⟩ | ⟨more, h1, -⟩
      · exact Or.inl h1
      · exact Or.inr ⟨more, h1⟩
    · have h : stringsSplit endpoint '/' = "" :: String.mk seg :: rest.map String.mk := by
        unfold stringsSplit
        rw [htail]
        simp [splitOnChar, hsplit]
      rw [h]
      simp only [ne_eq, not_true_eq_false, if_false]
      rfl
  · intro hhead
    obtain ⟨first, rest, hsplit, hnot, hcase⟩ := splitOnChar_first '/' endpoint.data
    have h : stringsSplit endpoint '/' = String.mk first :: rest.map String.mk := by
      unfold stringsSplit
      rw [hsplit]
      rfl
    rw [h]
    by_cases hf : first = []
    · subst hf
      rcases hcase with ⟨h1, h2⟩ | ⟨tail, h1, -⟩
      · subst h2
        exact ⟨_, rfl⟩
      · rw [h1] at hhead
        simp at hhead
    · have hne : String.mk first ≠ "" := by
        intro heq
        exact hf (congrArg String.data heq)
      simp only [ne_eq, hne, not_false_eq_true, if_true]
      exact ⟨_, rfl⟩

/-- `HTTPStatusLineToSection` on a text whose cut at the blanks has three
parts is the section of the middle part. -/
theorem HTTPStatusLineToSection_three {text a endpoint b : String}
    (h : stringsSplit text ' ' = [a, endpoint, b]) :
    (∀ tail, endpoint.data = '/' :: tail →
      ∃ seg : List Char, '/' ∉ seg ∧ (tail = seg ∨ ∃ more, tail = seg ++ '/' :: more) ∧
        HTTPStatusLineToSection text = .ok (String.mk ('/' :: seg))) ∧
    (endpoint.data.head? ≠ some '/' → ∃ err, HTTPStatusLineToSection text = .error err) := by
  obtain ⟨h1, h2⟩ := section_of_endpoint endpoint
  constructor
  · intro tail htail
    obtain ⟨seg, hnot, hcase, heq⟩ := h1 tail htail
    refine ⟨seg, hnot, hcase, ?_⟩
    unfold HTTPStatusLineToSection
    rw [h]
    exact heq
  · intro hhead
    obtain ⟨err, heq⟩ := h2 hhead
    refine ⟨err, ?_⟩
    unfold HTTPStatusLineToSection
    rw [h]
    exact heq

/-- `HTTPStatusLineToSection` on a text whose cut at the blanks has not three
parts is an error. -/
theorem HTTPStatusLineToSection_not_three {text : String}
    (h : ∀ a endpoint b, stringsSplit text ' ' ≠ [a, endpoint, b]) :
    HTTPStatusLineToSection text = .error "invalid number of parts" := by
  unfold HTTPStatusLineToSection
  split
  · next a endpoint b heq => exact absurd heq (h a endpoint b)
  · rfl

/-- C27: `HTTPStatusLineToSection(text)` succeeds exactly when `text` cut at
its single blanks has three parts and the middle part starts with `/`. The
result is then `/` followed by the first path segment of the middle part: the
characters between its leading `/` and the next `/`, or its end when there is
no other; so the result starts with `/` and has no second `/`. The six cases
of `TestHTTPStatusLineToSection` are evaluated. -/
theorem C27_section (text : String) :
    ((∃ r, HTTPStatusLineToSection text = .ok r) ↔
      ∃ a endpoint b, stringsSplit text ' ' = [a, endpoint, b] ∧
        endpoint.data.head? = some '/') ∧
    (∀ r, HTTPStatusLineToSection text = .ok r →
      ∃ (a endpoint b : String) (seg : List Char),
        stringsSplit text ' ' = [a, endpoint, b] ∧ '/' ∉ seg ∧
        (endpoint.data = '/' :: seg ∨ ∃ more, endpoint.data = '/' :: seg ++ '/' :: more) ∧
        r.data = '/' :: seg) ∧
    HTTPStatusLineToSection "GET /api/user HTTP/1.0" = .ok "/api" ∧
    HTTPStatusLineToSection "GET /api HTTP/1.0" = .ok "/api" ∧
    HTTPStatusLineToSection "GET /report/api/xyz?123/ HTTP/1.0" = .ok "/report" ∧
    HTTPStatusLineToSection "GET /api/ HTTP/1.0" = .ok "/api" ∧
    (∃ err, HTTPStatusLineToSection "GET api/ HTTP/1.0" = .error err) ∧
    (∃ err, HTTPStatusLineToSection "api/ GET HTTP/1.0 GET" = .error err) := by
  have hsucc : ∀ r, HTTPStatusLineToSection text = .ok r →
      ∃ (a endpoint b : String) (seg : List Char),
        stringsSplit text ' ' = [a, endpoint, b] ∧ '/' ∉ seg ∧
        (endpoint.data = '/' :: seg ∨ ∃ more, endpoint.data = '/' :: seg ++ '/' :: more) ∧
        r.data = '/' :: seg := by
    intro r hr
    by_cases h3 : ∃ a endpoint b, stringsSplit text ' ' = [a, endpoint, b]
    · obtain ⟨a, endpoint, b, h⟩ := h3
      obtain ⟨h1, h2⟩ := HTTPStatusLineToSection_three h
      by_cases hhead : endpoint.data.head? = some '/'
      · obtain ⟨tail, htail⟩ : ∃ tail, endpoint.data = '/' :: tail := by
          cases hd : endpoint.data with
          | nil => rw [hd] at hhead; simp at hhead
          | cons c tail =>
            rw [hd] at hhead
            simp only [List.head?_cons, Option.some.injEq] at hhead
            exact ⟨tail, by rw [hhead]⟩
        obtain ⟨seg, hnot, hcase, heq⟩ := h1 tail htail
        rw [heq] at hr
        simp only [Except.ok.injEq] at hr
        refine ⟨a, endpoint, b, seg, h, hnot, ?_, by rw [← hr]⟩
        rcases hcase with hc | ⟨more, hc⟩
        · exact Or.inl (by rw [htail, hc])
        · exact Or.inr ⟨more, by rw [htail, hc]; rfl⟩
      · obtain ⟨err, he⟩ := h2 hhead
        rw [he] at hr
        cases hr
    · have hno : ∀ a endpoint b, stringsSplit text ' ' ≠ [a, endpoint, b] :=
        fun a endpoint b h => h3 ⟨a, endpoint, b, h⟩
      rw [HTTPStatusLineToSection_not_three hno] at hr
      cases hr
  refine ⟨⟨?_, ?_⟩, hsucc, by rfl, by rfl, by rfl, by rfl, ⟨_, by rfl⟩, ⟨_, by rfl⟩⟩
  · rintro ⟨r, hr⟩
    obtain ⟨a, endpoint, b, seg, h, -, hcase, -⟩ := hsucc r hr
    refine ⟨a, endpoint, b, h, ?_⟩
    rcases hcase with hc | ⟨more, hc⟩ <;> rw [hc] <;> rfl
  · rintro ⟨a, endpoint, b, h, hhead⟩
    obtain ⟨tail, htail⟩ : ∃ tail, endpoint.data = '/' :: tail := by
      cases hd : endpoint.data with
      | nil => rw [hd] at hhead; simp at hhead
      | cons c tail =>
        rw [hd] at hhead
        simp only [List.head?_cons, Option.some.injEq] at hhead
        exact ⟨tail, by rw [hhead]⟩
    obtain ⟨seg, -, -, heq⟩ := (HTTPStatusLineToSection_three h).1 tail htail
    exact ⟨_, heq⟩

/-- C28, evaluated on the code: the request line `GET / HTTP/1.0` has three
parts and its middle part is exactly `/`. Cut at `/` the middle part gives two
empty strings, so the test `len(endpointParts) < 2` lets it pass and the
function returns the section `/` with no error, where the claim has an error.
The test only stops a middle part that is empty, as in `GET  HTTP/1.0`. -/
theorem C28_root_path_returns_slash :
    stringsSplit "GET / HTTP/1.0" ' ' = ["GET", "/", "HTTP/1.0"] ∧
    stringsSplit "/" '/' = ["", ""] ∧
    HTTPStatusLineToSection "GET / HTTP/1.0" = .ok "/" ∧
    stringsSplit "GET  HTTP/1.0" ' ' = ["GET", "", "HTTP/1.0"] ∧
    stringsSplit "" '/' = [""] ∧
    HTTPStatusLineToSection "GET  HTTP/1.0" =
      .error "not enough info in the endpoint string to extract website section" :=
  ⟨by decide, by decide, by rfl, by decide, by decide, by rfl⟩

/-! ## The copy of a record restricted to some keys -/

/-- C29: for every map `kv` and key list `keys`, `filterMapCopy(kv, keys)`
returns a map, built from an empty one, with one entry per key, whose keys are
exactly the elements of `keys`; it maps each of them to `kv[k]`, the empty
string when `kv` has no entry for `k`, and has no value for any other key. The
function only reads `kv`: the embedding passes `kv` in and the map built is a
new list. The two cases of `TestFilterMapCopy` are evaluated. -/
theorem C29_filterMapCopy (kv : List (String × String)) (keys : List String) :
    ((filterMapCopy kv keys).map Prod.fst).Nodup ∧
    (∀ k, k ∈ (filterMapCopy kv keys).map Prod.fst ↔ k ∈ keys) ∧
    (∀ k, k ∈ keys → (filterMapCopy kv keys).lookup k = some ((kv.lookup k).getD "")) ∧
    (∀ k, k ∈ keys → k ∉ kv.map Prod.fst → (filterMapCopy kv keys).lookup k = some "") ∧
    (∀ k, k ∉ keys → (filterMapCopy kv keys).lookup k = none) ∧
    filterMapCopy [("a", "_a"), ("b", "_b"), ("c", "_c"), ("d", "_d"), ("e", "_e")] ["b", "c"] =
      [("b", "_b"), ("c", "_c")] ∧
    filterMapCopy [("a", "_a"), ("b", "_b"), ("c", "_c"), ("d", "_d"), ("e", "_e"), ("", "_")]
      ["b", "c", ""] = [("b", "_b"), ("c", "_c"), ("", "_")] ∧
    filterMapCopy [("a", "_a")] ["a", "x", "a"] = [("a", "_a"), ("x", "")] := by
  obtain ⟨hnd, hlook⟩ := filterMapCopy_spec kv keys [] (by simp)
  have hin : ∀ k, k ∈ keys →
      (filterMapCopy kv keys).lookup k = some ((kv.lookup k).getD "") := by
    intro k hk
    have := hlook k
    simp only [hk, if_true] at this
    exact this
  have hout : ∀ k, k ∉ keys → (filterMapCopy kv keys).lookup k = none := by
    intro k hk
    have := hlook k
    simp only [hk, if_false, List.lookup_nil] at this
    exact this
  refine ⟨hnd, ?_, hin, ?_, hout, by decide, by decide, by decide⟩
  · intro k
    rw [mem_keys_iff_lookup]
    constructor
    · rintro ⟨v, hv⟩
      by_contra hk
      rw [hout k hk] at hv
      cases hv
    · intro hk
      exact ⟨_, hin k hk⟩
  · intro k hk hno
    rw [hin k hk]
    have hl : kv.lookup k = none := by
      cases hl : kv.lookup k with
      | none => rfl
      | some v => exact absurd ((mem_keys_iff_lookup k kv).mpr ⟨v, hl⟩) hno
    rw [hl]
    rfl

/-! ## The fan-out -/

/-- The loop over the consumers sends the record once on the channel of each,
in order. -/
theorem sendLoop_eq (msg : LogMessageStructured) :
    ∀ (cs : List LogConsumer) (sends : List (Nat × LogMessageStructured)),
      sendLoop msg cs sends = sends ++ cs.map fun c => (c.Channel, msg) := by
  intro cs
  induction cs with
  | nil => intro sends; simp [sendLoop]
  | cons c rest ih => intro sends; simp [sendLoop, ih]

/-- The loop of `RegisterConsumerInStore` over the source names of a consumer:
the consumer is appended to the list of every source it names and to no
other. -/
theorem register_fold (c : LogConsumer) (src : String) :
    ∀ (names : List String) (data : List (String × List LogConsumer)), names.Nodup →
      ((names.foldl (fun d srcName => mapSet d srcName ((d.lookup srcName).getD [] ++ [c]))
          data).lookup src).getD [] =
        (data.lookup src).getD [] ++ (if src ∈ names then [c] else []) := by
  intro names
  induction names with
  | nil => intro data _; simp
  | cons n rest ih =>
    intro data hnd
    simp only [List.nodup_cons] at hnd
    simp only [List.foldl_cons]
    rw [ih _ hnd.2, lookup_mapSet]
    by_cases h1 : src = n
    · subst h1
      simp [hnd.1]
    · have h2 : ¬ n = src := fun h => h1 h.symm
      by_cases h3 : src ∈ rest
      · simp [h1, h3]
      · simp [h1, h3]

/-- After registering consumers one after the other, the list of a source
holds what it held, followed by the consumers that name the source, in the
order of registration and once each. -/
theorem registerAll_spec (src : String) :
    ∀ (cs : List LogConsumer) (data data1 : List (String × List LogConsumer)),
      (∀ c ∈ cs, c.SourceNames.Nodup) → registerAll data cs = .ok data1 →
      GetConsumersBySourceFromStore data1 src =
        GetConsumersBySourceFromStore data src ++
          cs.filter fun c => decide (src ∈ c.SourceNames) := by
  intro cs
  induction cs with
  | nil =>
    intro data data1 _ h
    simp only [registerAll, Except.ok.injEq] at h
    subst h
    simp
  | cons c rest ih =>
    intro data data1 hnd h
    unfold registerAll at h
    cases hreg : RegisterConsumerInStore data c with
    | error e => rw [hreg] at h; simp at h
    | ok d1 =>
      rw [hreg] at h
      simp only at h
      have hstep : GetConsumersBySourceFromStore d1 src =
          GetConsumersBySourceFromStore data src ++
            (if src ∈ c.SourceNames then [c] else []) := by
        unfold RegisterConsumerInStore at hreg
        split at hreg
        · simp at hreg
        · simp only [Except.ok.injEq] at hreg
          subst hreg
          exact register_fold c src c.SourceNames data (hnd c (List.mem_cons_self _ _))
      rw [ih d1 data1 (fun c1 hc1 => hnd c1 (List.mem_cons_of_mem _ hc1)) h, hstep]
      by_cases hs : src ∈ c.SourceNames
      · simp [hs, List.filter_cons]
      · simp [hs, List.filter_cons]

/-- A string with a character that is not white space is not trimmed to the
empty string. -/
theorem stringsTrimSpace_ne_empty (s : String) (h : ∃ c ∈ s.data, isSpace c = false) :
    stringsTrimSpace s ≠ "" := by
  obtain ⟨c, hc, hsp⟩ := h
  have h1 : s.data.dropWhile isSpace ≠ [] := by
    intro hnil
    have := List.dropWhile_eq_nil_iff.mp hnil c hc
    rw [hsp] at this
    cases this
  have hhead : isSpace ((s.data.dropWhile isSpace).head h1) = false := by
    have := List.head_dropWhile_not isSpace s.data h1
    simpa using this
  have h2 : (s.data.dropWhile isSpace).reverse.dropWhile isSpace ≠ [] := by
    intro hnil
    have := List.dropWhile_eq_nil_iff.mp hnil ((s.data.dropWhile isSpace).head h1)
      (List.mem_reverse.mpr (List.head_mem h1))
    rw [hhead] at this
    cases this
  intro heq
  have hd := congrArg String.data heq
  simp only [stringsTrimSpace] at hd
  exact h2 (List.reverse_eq_nil_iff.mp hd)

/-- C30: the consumers are registered one after the other in an empty store,
each naming its sources once. For a raw message that is no cancel signal, has a
character that is not white space, names a source of the source store and
parses into the record `msg`, one round of the fan-out sends `msg` once on the
channel of each consumer that names the source of the message, in the order of
registration, and makes no other send: a consumer that does not name the
source, and whose channel is not that of one that does, gets nothing. -/
theorem C30_fan_out (sources : List (String × LogSourceSettings)) (cs : List LogConsumer)
    (data : List (String × List LogConsumer)) (rawMsg : LogMessage)
    (settings : LogSourceSettings) (msg : LogMessageStructured)
    (hreg : registerAll [] cs = .ok data) (hnd : ∀ c ∈ cs, c.SourceNames.Nodup)
    (hcancel : rawMsg.IsCancelSignal = false)
    (hspace : ∃ c ∈ rawMsg.Message.data, isSpace c = false)
    (hsrc : GetSourceFromStore sources rawMsg.SourceName = .ok settings)
    (hparse : NewLogMessageStructured rawMsg settings = .ok msg) :
    fanOutStep sources data rawMsg =
      .sent ((cs.filter fun c => decide (rawMsg.SourceName ∈ c.SourceNames)).map
        fun c => (c.Channel, msg)) ∧
    msg.toLogMessage = rawMsg ∧
    (∀ c ∈ cs, rawMsg.SourceName ∉ c.SourceNames →
      (∀ c1 ∈ cs, rawMsg.SourceName ∈ c1.SourceNames → c1.Channel ≠ c.Channel) →
      ∀ send ∈ (cs.filter fun c => decide (rawMsg.SourceName ∈ c.SourceNames)).map
        (fun c => (c.Channel, msg)), send.1 ≠ c.Channel) := by
  have hraw : msg.toLogMessage = rawMsg := by
    rw [NewLogMessageStructured_eq] at hparse
    split at hparse
    · simp at hparse
    · split at hparse
      · simp at hparse
      · simp only [Except.ok.injEq] at hparse
        rw [← hparse]
  have hname : msg.SourceName = rawMsg.SourceName := by rw [← hraw]
  refine ⟨?_, hraw, ?_⟩
  · unfold fanOutStep
    simp only [hcancel, Bool.false_eq_true, if_false, stringsTrimSpace_ne_empty _ hspace,
      hsrc, hparse, sendLoop_eq, List.nil_append, hname]
    rw [registerAll_spec rawMsg.SourceName cs [] data hnd hreg]
    simp [GetConsumersBySourceFromStore]
  · intro c hc hno hchan send hsend
    obtain ⟨c1, hc1, rfl⟩ := List.mem_map.mp hsend
    obtain ⟨hmem, hdec⟩ := List.mem_filter.mp hc1
    exact hchan c1 hmem (by simpa using hdec)

/-- C30 on three consumers: `stats` and `alert` name the source `access`,
`other` does not. The seven-field line of the source `access` is sent on the
channels 0 and 1, in this order, and on no other. -/
theorem C30_fan_out_witness :
    fanOutStep sampleSourceStore sampleConsumerStore accessLine =
      .sent [(0, accessRecord), (1, accessRecord)] ∧
    (fanOutStep sampleSourceStore sampleConsumerStore accessLine =
      .sent ((sampleConsumers.filter fun c => decide (accessLine.SourceName ∈ c.SourceNames)).map
        fun c => (c.Channel, accessRecord)) ∧
    accessRecord.toLogMessage = accessLine ∧
    (∀ c ∈ sampleConsumers, accessLine.SourceName ∉ c.SourceNames →
      (∀ c1 ∈ sampleConsumers, accessLine.SourceName ∈ c1.SourceNames →
        c1.Channel ≠ c.Channel) →
      ∀ send ∈ (sampleConsumers.filter fun c =>
          decide (accessLine.SourceName ∈ c.SourceNames)).map
        (fun c => (c.Channel, accessRecord)), send.1 ≠ c.Channel)) :=
  ⟨by decide,
    C30_fan_out sampleSourceStore sampleConsumers sampleConsumerStore accessLine
      testSourceSettings accessRecord (by rfl) (by decide) rfl ⟨'1', by decide, by decide⟩
      (by rfl) (by rfl)⟩

/-! ## The end of a line -/

/-- C40: for every string `s`, `StripTrailingNewlineCharacter(s + "\n")` is
`s`, and `StripTrailingNewlineCharacter(s)` is `s` when `s` is empty or does not
end with a newline. One newline is removed and no more, and a trailing carriage
return is kept: the four cases of `TestStripTrailingNewlineCharacter` and a
line that ends with two newlines are evaluated. -/
theorem C40_StripTrailingNewlineCharacter (s : String) :
    StripTrailingNewlineCharacter (s ++ "\n") = s ∧
    (s = "" ∨ s.data.getLast? ≠ some '\n' → StripTrailingNewlineCharacter s = s) ∧
    StripTrailingNewlineCharacter "" = "" ∧
    StripTrailingNewlineCharacter "abc\r" = "abc\r" ∧
    StripTrailingNewlineCharacter "\n" = "" ∧
    StripTrailingNewlineCharacter "abc\n" = "abc" ∧
    StripTrailingNewlineCharacter "abc\n\n" = "abc\n" ∧
    StripTrailingNewlineCharacter "abc\r\n" = "abc\r" := by
  refine ⟨?_, ?_, by decide, by decide, by decide, by decide, by decide, by decide⟩
  · have hdata : (s ++ "\n").data = s.data ++ ['\n'] := rfl
    have hlen : ¬ (s ++ "\n").length < 1 := by
      have h1 : (s ++ "\n").length = s.length + 1 := by
        rw [String.length_append]
        rfl
      omega
    unfold StripTrailingNewlineCharacter
    rw [if_neg hlen, hdata]
    simp
  · intro h
    unfold StripTrailingNewlineCharacter
    rcases h with h | h
    · subst h
      rfl
    · simp [h]

/-! ## The errors of the fan-out -/

/-- A string of white space only is trimmed to the empty string. -/
theorem stringsTrimSpace_eq_empty (s : String) (h : ∀ c ∈ s.data, isSpace c = true) :
    stringsTrimSpace s = "" := by
  have h1 : s.data.dropWhile isSpace = [] := List.dropWhile_eq_nil_iff.mpr h
  unfold stringsTrimSpace
  rw [h1]
  rfl

/-- The trimmed text is empty exactly when the text is white space only. -/
theorem stringsTrimSpace_eq_empty_iff (s : String) :
    stringsTrimSpace s = "" ↔ ∀ c ∈ s.data, isSpace c = true := by
  constructor
  · intro h c hc
    by_contra hsp
    exact stringsTrimSpace_ne_empty s ⟨c, hc, by simpa using hsp⟩ h
  · exact stringsTrimSpace_eq_empty s

/-- C31: one round of the fan-out on a raw message. On a cancel signal it
leaves the loop and no error is returned. Otherwise it does not leave the loop,
and it returns an error exactly when the text is white space only (the empty
text included), or the source store has no source of the name of the message,
or the source is found and `NewLogMessageStructured` fails on the message with
its settings. When the round left the loop or returned an error, it made no
send on any channel: every send of a round is the record that a message which
is no cancel signal parsed into. -/
theorem C31_fan_out_errors (sources : List (String × LogSourceSettings))
    (consumers : List (String × List LogConsumer)) (rawMsg : LogMessage) :
    (rawMsg.IsCancelSignal = true → fanOutStep sources consumers rawMsg = .stop) ∧
    (rawMsg.IsCancelSignal = false →
      ((∃ err, fanOutStep sources consumers rawMsg = .failed err) ↔
        ((∀ c ∈ rawMsg.Message.data, isSpace c = true) ∨
          sources.lookup rawMsg.SourceName = none ∨
          ∃ settings, sources.lookup rawMsg.SourceName = some settings ∧
            ∃ err, NewLogMessageStructured rawMsg settings = .error err))) ∧
    (rawMsg.IsCancelSignal = false → fanOutStep sources consumers rawMsg ≠ .stop) ∧
    (fanOutStep sources consumers rawMsg = .stop ∨
        (∃ err, fanOutStep sources consumers rawMsg = .failed err) →
      (fanOutStep sources consumers rawMsg).sends = []) ∧
    (∀ send ∈ (fanOutStep sources consumers rawMsg).sends,
      rawMsg.IsCancelSignal = false ∧
      ∃ settings, sources.lookup rawMsg.SourceName = some settings ∧
        NewLogMessageStructured rawMsg settings = .ok send.2) := by
  have hcases : ∀ (hc : rawMsg.IsCancelSignal = false),
      ((∀ c ∈ rawMsg.Message.data, isSpace c = true) ∧
        fanOutStep sources consumers rawMsg = .failed "received an empty message") ∨
      ((¬ ∀ c ∈ rawMsg.Message.data, isSpace c = true) ∧
        sources.lookup rawMsg.SourceName = none ∧
        fanOutStep sources consumers rawMsg = .failed "source name not found in store") ∨
      (∃ settings err, (¬ ∀ c ∈ rawMsg.Message.data, isSpace c = true) ∧
        sources.lookup rawMsg.SourceName = some settings ∧
        NewLogMessageStructured rawMsg settings = .error err ∧
        fanOutStep sources consumers rawMsg = .failed err) ∨
      (∃ settings msg, (¬ ∀ c ∈ rawMsg.Message.data, isSpace c = true) ∧
        sources.lookup rawMsg.SourceName = some settings ∧
        NewLogMessageStructured rawMsg settings = .ok msg ∧
        fanOutStep sources consumers rawMsg =
          .sent (sendLoop msg (GetConsumersBySourceFromStore consumers msg.SourceName) [])) := by
    intro hc
    by_cases hsp : ∀ c ∈ rawMsg.Message.data, isSpace c = true
    · left
      refine ⟨hsp, ?_⟩
      unfold fanOutStep
      simp only [hc, Bool.false_eq_true, if_false, stringsTrimSpace_eq_empty _ hsp, if_true]
    · right
      have hne : stringsTrimSpace rawMsg.Message ≠ "" := fun h =>
        hsp ((stringsTrimSpace_eq_empty_iff _).mp h)
      cases hl : sources.lookup rawMsg.SourceName with
      | none =>
        left
        refine ⟨hsp, rfl, ?_⟩
        unfold fanOutStep GetSourceFromStore
        simp only [hc, Bool.false_eq_true, if_false, hne, hl]
      | some settings =>
        right
        cases hp : NewLogMessageStructured rawMsg settings with
        | error err =>
          left
          refine ⟨settings, err, hsp, rfl, hp, ?_⟩
          unfold fanOutStep GetSourceFromStore
          simp only [hc, Bool.false_eq_true, if_false, hne, hl, hp]
        | ok msg =>
          right
          refine ⟨settings, msg, hsp, rfl, hp, ?_⟩
          unfold fanOutStep GetSourceFromStore
          simp only [hc, Bool.false_eq_true, if_false, hne, hl, hp]
  refine ⟨?_, ?_, ?_, ?_, ?_⟩
  · intro hc
    unfold fanOutStep
    simp [hc]
  · intro hc
    rcases hcases hc with ⟨hsp, hf⟩ | ⟨hsp, hl, hf⟩ | ⟨st, err, hsp, hl, hp, hf⟩ |
      ⟨st, msg, hsp, hl, hp, hf⟩
    · exact ⟨fun _ => Or.inl hsp, fun _ => ⟨_, hf⟩⟩
    · exact ⟨fun _ => Or.inr (Or.inl hl), fun _ => ⟨_, hf⟩⟩
    · exact ⟨fun _ => Or.inr (Or.inr ⟨st, hl, err, hp⟩), fun _ => ⟨_, hf⟩⟩
    · constructor
      · rintro ⟨err, he⟩
        rw [hf] at he
        cases he
      · rintro (h | h | ⟨st1, hl1, err, hp1⟩)
        · exact absurd h hsp
        · rw [hl] at h
          cases h
        · rw [hl] at hl1
          cases hl1
          rw [hp] at hp1
          cases hp1
  · intro hc
    rcases hcases hc with ⟨_, hf⟩ | ⟨_, _, hf⟩ | ⟨_, _, _, _, _, hf⟩ | ⟨_, _, _, _, _, hf⟩ <;>
      rw [hf] <;> intro h <;> cases h
  · rintro (h | ⟨err, h⟩) <;> rw [h] <;> rfl
  · intro send hsend
    cases hc : rawMsg.IsCancelSignal with
    | true =>
      have hstop : fanOutStep sources consumers rawMsg = .stop := by
        unfold fanOutStep
        simp [hc]
      rw [hstop] at hsend
      cases hsend
    | false =>
      refine ⟨rfl, ?_⟩
      rcases hcases hc with ⟨_, hf⟩ | ⟨_, _, hf⟩ | ⟨_, _, _, _, _, hf⟩ |
        ⟨st, msg, _, hl, hp, hf⟩
      · rw [hf] at hsend; cases hsend
      · rw [hf] at hsend; cases hsend
      · rw [hf] at hsend; cases hsend
      · rw [hf, sendLoop_eq] at hsend
        simp only [FanOut.sends, List.nil_append, List.mem_map] at hsend
        obtain ⟨c, _, rfl⟩ := hsend
        exact ⟨st, hl, hp⟩

/-! ## The consumer store -/

/-- C39: `RegisterConsumerInStore(c)`, for a consumer `c` whose source names
are the keys of a map and so pairwise distinct, returns an error exactly when
`c` has no source settings, and then the list of no source changes. On success
`c` is appended to the end of the list of each source that `c` names and the
list of every other source is unchanged. After registering the consumers `cs`
one after the other in an empty store, `GetConsumersBySourceFromStore(s)` is
the list of the consumers of `cs` that name `s`, in the order of
registration. -/
theorem C39_RegisterConsumerInStore (data : List (String × List LogConsumer)) (c : LogConsumer)
    (hnd : c.SourceNames.Nodup) :
    ((∃ err, RegisterConsumerInStore data c = .error err) ↔ c.SourceNames = []) ∧
    (c.SourceNames = [] → ∀ s, GetConsumersBySourceFromStore (consumerStoreAfter data c) s =
      GetConsumersBySourceFromStore data s) ∧
    (c.SourceNames ≠ [] →
      ∃ data1, RegisterConsumerInStore data c = .ok data1 ∧ consumerStoreAfter data c = data1 ∧
        (∀ s ∈ c.SourceNames, GetConsumersBySourceFromStore data1 s =
          GetConsumersBySourceFromStore data s ++ [c]) ∧
        (∀ s, s ∉ c.SourceNames → GetConsumersBySourceFromStore data1 s =
          GetConsumersBySourceFromStore data s)) ∧
    (∀ (cs : List LogConsumer) (stored : List (String × List LogConsumer)) (s : String),
      (∀ c1 ∈ cs, c1.SourceNames.Nodup) → registerAll [] cs = .ok stored →
      GetConsumersBySourceFromStore stored s =
        cs.filter fun c1 => decide (s ∈ c1.SourceNames)) := by
  refine ⟨?_, ?_, ?_, ?_⟩
  · unfold RegisterConsumerInStore
    cases hs : c.SourceNames with
    | nil => simp
    | cons a rest => simp
  · intro hempty s
    unfold consumerStoreAfter RegisterConsumerInStore
    simp [hempty]
  · intro hne
    have hlen : ¬ c.SourceNames.length < 1 := by
      cases hs : c.SourceNames with
      | nil => exact absurd hs hne
      | cons a rest => simp
    have hreg : RegisterConsumerInStore data c =
        .ok (c.SourceNames.foldl
          (fun d srcName => mapSet d srcName ((d.lookup srcName).getD [] ++ [c])) data) := by
      unfold RegisterConsumerInStore
      rw [if_neg hlen]
    refine ⟨_, hreg, ?_, ?_, ?_⟩
    · unfold consumerStoreAfter
      rw [hreg]
    · intro s hs
      unfold GetConsumersBySourceFromStore
      rw [register_fold c s c.SourceNames data hnd]
      simp [hs]
    · intro s hs
      unfold GetConsumersBySourceFromStore
      rw [register_fold c s c.SourceNames data hnd]
      simp [hs]
  · intro cs stored s hcs hreg
    rw [registerAll_spec s cs [] stored hcs hreg]
    simp [GetConsumersBySourceFromStore]

/-- C39 on the consumer `alert`, which names the sources `sys` and `access`,
registered after the consumer `stats`, which names `access`: it is put at the
end of the two lists. -/
theorem C39_RegisterConsumerInStore_witness :
    alertConsumer.SourceNames.Nodup ∧
    RegisterConsumerInStore statsOnlyStore alertConsumer =
      .ok [("access", [{ Name := "stats", SourceNames := ["access"], Channel := 0 },
            alertConsumer]),
          ("sys", [alertConsumer])] ∧
    (((∃ err, RegisterConsumerInStore statsOnlyStore alertConsumer = .error err) ↔
      alertConsumer.SourceNames = []) ∧
    (alertConsumer.SourceNames = [] →
      ∀ s, GetConsumersBySourceFromStore (consumerStoreAfter statsOnlyStore alertConsumer) s =
        GetConsumersBySourceFromStore statsOnlyStore s) ∧
    (alertConsumer.SourceNames ≠ [] →
      ∃ data1, RegisterConsumerInStore statsOnlyStore alertConsumer = .ok data1 ∧
        consumerStoreAfter statsOnlyStore alertConsumer = data1 ∧
        (∀ s ∈ alertConsumer.SourceNames, GetConsumersBySourceFromStore data1 s =
          GetConsumersBySourceFromStore statsOnlyStore s ++ [alertConsumer]) ∧
        (∀ s, s ∉ alertConsumer.SourceNames → GetConsumersBySourceFromStore data1 s =
          GetConsumersBySourceFromStore statsOnlyStore s)) ∧
    (∀ (cs : List LogConsumer) (stored : List (String × List LogConsumer)) (s : String),
      (∀ c1 ∈ cs, c1.SourceNames.Nodup) → registerAll [] cs = .ok stored →
      GetConsumersBySourceFromStore stored s =
        cs.filter fun c1 => decide (s ∈ c1.SourceNames))) :=
  ⟨by decide, by rfl, C39_RegisterConsumerInStore statsOnlyStore alertConsumer (by decide)⟩

/-! ## Streaming the lines of a source -/

/-- A line read with its newline is the line again once the newline is
stripped. -/
theorem strip_append_newline (s : String) : StripTrailingNewlineCharacter (s ++ "\n") = s := by
  have hdata : (s ++ "\n").data = s.data ++ ['\n'] := rfl
  have hlen : ¬ (s ++ "\n").length < 1 := by
    have h1 : (s ++ "\n").length = s.length + 1 := by
      rw [String.length_append]
      rfl
    omega
  unfold StripTrailingNewlineCharacter
  rw [if_neg hlen, hdata]
  simp

/-- Once the first line is behind, or when the first line is no header, the
loop sends every line before the first `\q`, numbered from `id + 1` on, and
leaves the settings alone. -/
theorem streamLoop_data (name : String) (settings : LogSourceSettings) :
    ∀ (ls : List String) (id : Int) (queue : List LogMessage), 0 ≤ id →
      (id = 0 → settings.UseFirstlineAsHeader = false) →
      streamLoop name (ls.map fun l => l ++ "\n") id settings queue =
        (settings, queue ++
          numberedFrom name (id + 1) (ls.takeWhile fun l => decide (l ≠ "\\q"))) := by
  intro ls
  induction ls with
  | nil => intro id queue _ _; simp [streamLoop, numberedFrom]
  | cons l rest ih =>
    intro id queue hid hflag
    have hhead : ¬ (id = 0 ∧ settings.UseFirstlineAsHeader = true) := by
      rintro ⟨h0, h1⟩
      rw [hflag h0] at h1
      cases h1
    simp only [List.map_cons, streamLoop, strip_append_newline]
    by_cases hq : l = "\\q"
    · simp [hq, numberedFrom]
    · rw [if_neg hq, if_neg hhead, ih (id + 1) _ (by omega) (fun h => by omega)]
      simp [List.takeWhile_cons, hq, numberedFrom]

/-- The numbers of `numberedFrom` are the positions of the lines, counted from
`first`. -/
theorem numberedFrom_getElem? (name : String) :
    ∀ (ls : List String) (first : Int) (k : Nat),
      (numberedFrom name first ls)[k]? =
        (ls[k]?).map fun l =>
          { SourceName := name, Message := l, Id := first + k, IsCancelSignal := false } := by
  intro ls
  induction ls with
  | nil => intro first k; simp [numberedFrom]
  | cons l rest ih =>
    intro first k
    cases k with
    | zero => simp [numberedFrom]
    | succ k1 =>
      simp only [numberedFrom, List.getElem?_cons_succ, ih]
      have : first + 1 + (k1 : Int) = first + ((k1 + 1 : Nat) : Int) := by push_cast; ring
      rw [this]

theorem length_numberedFrom (name : String) :
    ∀ (ls : List String) (first : Int), (numberedFrom name first ls).length = ls.length := by
  intro ls
  induction ls with
  | nil => intro first; rfl
  | cons l rest ih => intro first; simp [numberedFrom, ih]

/-- The numbers of `numberedFrom` increase, and all are at least `first`. -/
theorem numberedFrom_increasing (name : String) :
    ∀ (ls : List String) (first : Int),
      (∀ m ∈ numberedFrom name first ls, first ≤ m.Id) ∧
      List.Pairwise (fun a b : LogMessage => a.Id < b.Id) (numberedFrom name first ls) := by
  intro ls
  induction ls with
  | nil => intro first; simp [numberedFrom]
  | cons l rest ih =>
    intro first
    obtain ⟨h1, h2⟩ := ih (first + 1)
    constructor
    · intro m hm
      simp only [numberedFrom, List.mem_cons] at hm
      rcases hm with hm | hm
      · subst hm; exact le_refl _
      · have := h1 m hm; omega
    · simp only [numberedFrom, List.pairwise_cons]
      refine ⟨?_, h2⟩
      intro m hm
      have := h1 m hm
      show first < m.Id
      omega

/-- An element of the lines before the first line that fails `p` is the line
at the same position, and no line up to it fails `p`. -/
theorem takeWhile_getElem? {α : Type} (p : α → Bool) :
    ∀ (ls : List α) (k : Nat) (l : α), (ls.takeWhile p)[k]? = some l →
      ls[k]? = some l ∧ ∀ j, j ≤ k → ∀ l1, ls[j]? = some l1 → p l1 = true := by
  intro ls
  induction ls with
  | nil => intro k l h; simp at h
  | cons a rest ih =>
    intro k l h
    rw [List.takeWhile_cons] at h
    by_cases hp : p a = true
    · rw [if_pos hp] at h
      cases k with
      | zero =>
        simp only [List.getElem?_cons_zero, Option.some.injEq] at h
        subst h
        refine ⟨by simp, ?_⟩
        intro j hj l1 hl1
        have : j = 0 := by omega
        subst this
        simp only [List.getElem?_cons_zero, Option.some.injEq] at hl1
        subst hl1
        exact hp
      | succ k1 =>
        simp only [List.getElem?_cons_succ] at h
        obtain ⟨h1, h2⟩ := ih k1 l h
        refine ⟨by simpa using h1, ?_⟩
        intro j hj l1 hl1
        cases j with
        | zero =>
          simp only [List.getElem?_cons_zero, Option.some.injEq] at hl1
          subst hl1
          exact hp
        | succ j1 =>
          simp only [List.getElem?_cons_succ] at hl1
          exact h2 j1 (by omega) l1 hl1
    · rw [if_neg hp] at h
      simp at h

/-- A message of `numberedFrom` carries a line before the first `\q`, with its
position as number. -/
theorem mem_numberedFrom (name : String) (ls : List String) (first : Int) (m : LogMessage)
    (hm : m ∈ numberedFrom name first (ls.takeWhile fun l => decide (l ≠ "\\q"))) :
    ∃ k : Nat, m.Id = first + k ∧ ls[k]? = some m.Message ∧ m.SourceName = name ∧
      m.IsCancelSignal = false ∧ ∀ j, j ≤ k → ∀ l, ls[j]? = some l → l ≠ "\\q" := by
  obtain ⟨k, hk⟩ := List.getElem?_of_mem hm
  rw [numberedFrom_getElem?] at hk
  cases hl : (ls.takeWhile fun l => decide (l ≠ "\\q"))[k]? with
  | none => rw [hl] at hk; simp at hk
  | some l =>
    rw [hl] at hk
    simp only [Option.map_some', Option.some.injEq] at hk
    obtain ⟨h1, h2⟩ := takeWhile_getElem? _ ls k l hl
    refine ⟨k, by rw [← hk], by rw [← hk]; exact h1, by rw [← hk], by rw [← hk], ?_⟩
    intro j hj l1 hl1
    simpa using h2 j hj l1 hl1

/-- C32: `StreamLogMessagesFromSource` on the newline-terminated lines `lines`
of the source `name`. When `UseFirstlineAsHeader` is not set, the lines before
the first line equal to `\q` are enqueued in order, the `k`-th with `Id` `k`,
and the settings stay. When the flag is set and the first line is not `\q`, the
first line is not enqueued, the `Headers` become
`GetPartsFromText(firstLine, true)`, and the following lines before the first
`\q` are enqueued in order, the `k`-th of them with `Id` `k + 1`. When the flag
is set and the first line is `\q`, or there is no line, nothing is enqueued and
the `Headers` stay as they were. In every case the `Id`s increase strictly along
the queue, every enqueued message carries the line whose position, counted from
1, is its `Id`, and no line up to that position is `\q`. Two streams are
evaluated. -/
theorem C32_stream (name : String) (settings : LogSourceSettings) (lines : List String) :
    (settings.UseFirstlineAsHeader = false →
      StreamLogMessagesFromSource name settings lines =
        (settings, numberedFrom name 1 (lines.takeWhile fun l => decide (l ≠ "\\q")))) ∧
    (settings.UseFirstlineAsHeader = true →
      ∀ (first : String) (rest : List String), lines = first :: rest → first ≠ "\\q" →
        StreamLogMessagesFromSource name settings lines =
          ({ settings with Headers := settings.Format.GetPartsFromText first true },
            numberedFrom name 2 (rest.takeWhile fun l => decide (l ≠ "\\q")))) ∧
    (settings.UseFirstlineAsHeader = true → (lines = [] ∨ ∃ rest, lines = "\\q" :: rest) →
      StreamLogMessagesFromSource name settings lines = (settings, [])) ∧
    List.Pairwise (fun a b : LogMessage => a.Id < b.Id)
      (StreamLogMessagesFromSource name settings lines).2 ∧
    (∀ m ∈ (StreamLogMessagesFromSource name settings lines).2,
      ∃ k : Nat, m.Id = (k : Int) + 1 ∧ lines[k]? = some m.Message ∧ m.SourceName = name ∧
        m.IsCancelSignal = false ∧ ∀ j, j ≤ k → ∀ l, lines[j]? = some l → l ≠ "\\q") ∧
    (∀ (k : Nat), (numberedFrom name 1 lines)[k]? =
      (lines[k]?).map fun l =>
        { SourceName := name, Message := l, Id := 1 + k, IsCancelSignal := false }) ∧
    StreamLogMessagesFromSource "access" headerSettings
        ["a,\"b\"", "1,2", "3,4", "\\q", "5,6"] =
      ({ headerSettings with Headers := ["a", "b"] },
        [{ SourceName := "access", Message := "1,2", Id := 2, IsCancelSignal := false },
         { SourceName := "access", Message := "3,4", Id := 3, IsCancelSignal := false }]) ∧
    StreamLogMessagesFromSource "access" testSourceSettings ["1,2", "3,4", "\\q", "5,6"] =
      (testSourceSettings,
        [{ SourceName := "access", Message := "1,2", Id := 1, IsCancelSignal := false },
         { SourceName := "access", Message := "3,4", Id := 2, IsCancelSignal := false }]) := by
  have hoff : settings.UseFirstlineAsHeader = false →
      StreamLogMessagesFromSource name settings lines =
        (settings, numberedFrom name 1 (lines.takeWhile fun l => decide (l ≠ "\\q"))) := by
    intro hflag
    unfold StreamLogMessagesFromSource
    rw [streamLoop_data name settings lines 0 [] (le_refl _) (fun _ => hflag)]
    simp
  have hon : settings.UseFirstlineAsHeader = true →
      ∀ (first : String) (rest : List String), lines = first :: rest → first ≠ "\\q" →
        StreamLogMessagesFromSource name settings lines =
          ({ settings with Headers := settings.Format.GetPartsFromText first true },
            numberedFrom name 2 (rest.takeWhile fun l => decide (l ≠ "\\q"))) := by
    intro hflag first rest hlines hfirst
    subst hlines
    unfold StreamLogMessagesFromSource
    simp only [List.map_cons, streamLoop, strip_append_newline]
    rw [if_neg hfirst, if_pos ⟨trivial, hflag⟩,
      streamLoop_data name _ rest (0 + 1) [] (by omega) (fun h => by omega)]
    simp
  have hquit : settings.UseFirstlineAsHeader = true →
      (lines = [] ∨ ∃ rest, lines = "\\q" :: rest) →
      StreamLogMessagesFromSource name settings lines = (settings, []) := by
    intro _ h
    rcases h with h | ⟨rest, h⟩
    · subst h
      rfl
    · subst h
      unfold StreamLogMessagesFromSource
      simp only [List.map_cons, streamLoop, strip_append_newline, if_true]
  refine ⟨hoff, hon, hquit, ?_, ?_, ?_, by decide, by decide⟩
  · cases hflag : settings.UseFirstlineAsHeader with
    | false =>
      rw [hoff hflag]
      exact (numberedFrom_increasing name _ 1).2
    | true =>
      cases hl : lines with
      | nil =>
        rw [← hl, hquit hflag (Or.inl hl)]
        exact List.Pairwise.nil
      | cons first rest =>
        by_cases hq : first = "\\q"
        · rw [← hl, hquit hflag (Or.inr ⟨rest, by rw [hl, hq]⟩)]
          exact List.Pairwise.nil
        · rw [← hl, hon hflag first rest hl hq]
          exact (numberedFrom_increasing name _ 2).2
  · intro m hm
    cases hflag : settings.UseFirstlineAsHeader with
    | false =>
      rw [hoff hflag] at hm
      obtain ⟨k, h1, h2, h3, h4, h5⟩ := mem_numberedFrom name lines 1 m hm
      exact ⟨k, by omega, h2, h3, h4, h5⟩
    | true =>
      cases hl : lines with
      | nil =>
        rw [hquit hflag (Or.inl hl)] at hm
        cases hm
      | cons first rest =>
        by_cases hq : first = "\\q"
        · rw [hquit hflag (Or.inr ⟨rest, by rw [hl, hq]⟩)] at hm
          cases hm
        · rw [hon hflag first rest hl hq] at hm
          obtain ⟨k, h1, h2, h3, h4, h5⟩ := mem_numberedFrom name rest 2 m hm
          refine ⟨k + 1, by push_cast; omega, by simpa using h2, h3, h4, ?_⟩
          intro j hj l hjl
          cases j with
          | zero =>
            simp only [List.getElem?_cons_zero, Option.some.injEq] at hjl
            subst hjl
            exact hq
          | succ j1 =>
            simp only [List.getElem?_cons_succ] at hjl
            exact h5 j1 (by omega) l hjl
  · intro k
    exact numberedFrom_getElem? name lines 1 k

/-- C32, the case the statement leaves out: with `UseFirstlineAsHeader` set and
a first line equal to `\q`, the loop ends before the header is read. The
`Headers` stay empty and are not `GetPartsFromText(firstLine, true)`, which is
the one part `\q`. -/
theorem C32_counterexample :
    headerSettings.UseFirstlineAsHeader = true ∧
    (StreamLogMessagesFromSource "access" headerSettings ["\\q", "a,b", "1,2"]).1.Headers = [] ∧
    headerSettings.Format.GetPartsFromText "\\q" true = ["\\q"] ∧
    (StreamLogMessagesFromSource "access" headerSettings ["\\q", "a,b", "1,2"]).1.Headers ≠
      headerSettings.Format.GetPartsFromText "\\q" true := by
  decide

/-! ## The consumers of a configuration -/

/-- The loop of the two constructors returns an error exactly when a name is
bound twice or a source setting cannot be built. -/
theorem sourceSettingsLoop_error {C S : Type} (name : C → String)
    (build : C → Except String S) :
    ∀ (cfgs : List C) (m : List (String × S)), (m.map Prod.fst).Nodup →
      ((∃ err, sourceSettingsLoop name build cfgs m = .error err) ↔
        (¬ (m.map Prod.fst ++ cfgs.map name).Nodup ∨
          ∃ cfg ∈ cfgs, ∃ err, build cfg = .error err)) := by
  intro cfgs
  induction cfgs with
  | nil =>
    intro m hnd
    simp [sourceSettingsLoop, hnd]
  | cons cfg rest ih =>
    intro m hnd
    rw [sourceSettingsLoop]
    by_cases hin : name cfg ∈ m.map Prod.fst
    · obtain ⟨v, hv⟩ := (mem_keys_iff_lookup (name cfg) m).mp hin
      simp only [hv, Option.isSome_some, if_true]
      refine ⟨fun _ => Or.inl ?_, fun _ => ⟨_, rfl⟩⟩
      intro hnd2
      exact (List.nodup_append.mp hnd2).2.2 hin (by simp)
    · have hnone : m.lookup (name cfg) = none := by
        cases hl : m.lookup (name cfg) with
        | none => rfl
        | some v => exact absurd ((mem_keys_iff_lookup (name cfg) m).mpr ⟨v, hl⟩) hin
      simp only [hnone, Option.isSome_none, Bool.false_eq_true, if_false]
      cases hb : build cfg with
      | error e =>
        simp only
        exact ⟨fun _ => Or.inr ⟨cfg, List.mem_cons_self _ _, e, hb⟩, fun _ => ⟨_, rfl⟩⟩
      | ok s =>
        simp only
        have hkeys : (mapSet m (name cfg) s).map Prod.fst = m.map Prod.fst ++ [name cfg] := by
          rw [keys_mapSet]; simp [hin]
        rw [ih _ (nodup_keys_mapSet m _ s hnd), hkeys]
        simp only [List.map_cons, List.append_assoc, List.singleton_append, List.mem_cons,
          exists_eq_or_imp, hb]
        simp

/-- When the loop of the two constructors returns without an error, the map
has got one entry per source setting, in their order, each with the settings
built for it, and no other entry has changed. -/
theorem sourceSettingsLoop_ok {C S : Type} (name : C → String) (build : C → Except String S) :
    ∀ (cfgs : List C) (m m1 : List (String × S)), (m.map Prod.fst).Nodup →
      sourceSettingsLoop name build cfgs m = .ok m1 →
      m1.map Prod.fst = m.map Prod.fst ++ cfgs.map name ∧ (m1.map Prod.fst).Nodup ∧
      (∀ cfg ∈ cfgs, ∃ s, build cfg = .ok s ∧ m1.lookup (name cfg) = some s) ∧
      (∀ k, k ∉ cfgs.map name → m1.lookup k = m.lookup k) := by
  intro cfgs
  induction cfgs with
  | nil =>
    intro m m1 hnd h
    simp only [sourceSettingsLoop, Except.ok.injEq] at h
    subst h
    simp [hnd]
  | cons cfg rest ih =>
    intro m m1 hnd h
    rw [sourceSettingsLoop] at h
    split at h
    · cases h
    · rename_i hsome
      have hin : name cfg ∉ m.map Prod.fst := by
        intro hmem
        obtain ⟨v, hv⟩ := (mem_keys_iff_lookup (name cfg) m).mp hmem
        rw [hv] at hsome
        exact hsome rfl
      cases hb : build cfg with
      | error e => rw [hb] at h; cases h
      | ok s =>
        rw [hb] at h
        simp only at h
        have hkeys : (mapSet m (name cfg) s).map Prod.fst = m.map Prod.fst ++ [name cfg] := by
          rw [keys_mapSet]; simp [hin]
        obtain ⟨h1, h2, h3, h4⟩ := ih _ m1 (nodup_keys_mapSet m _ s hnd) h
        rw [hkeys] at h1
        have hfresh : name cfg ∉ rest.map name := by
          intro hmem
          rw [h1] at h2
          exact (List.nodup_append.mp h2).2.2 (by simp) hmem
        refine ⟨by rw [h1]; simp, h2, ?_, ?_⟩
        · intro cfg1 hc1
          rcases List.mem_cons.mp hc1 with hc1 | hc1
          · subst hc1
            refine ⟨s, hb, ?_⟩
            rw [h4 _ hfresh, lookup_mapSet]
            simp
          · exact h3 cfg1 hc1
        · intro k hk
          simp only [List.map_cons, List.mem_cons, not_or] at hk
          rw [h4 k hk.2, lookup_mapSet]
          simp [hk.1]

/-- `NewAlertTypeSourceSettings` fails exactly on a mutator name that is
neither empty nor `HTTPStatusLineToSection`, and otherwise keeps the key and
the values. -/
theorem NewAlertTypeSourceSettings_spec (key vm : String) (values : List String) :
    ((∃ err, NewAlertTypeSourceSettings key vm values = .error err) ↔
      (vm ≠ "" ∧ vm ≠ "HTTPStatusLineToSection")) ∧
    ∀ s, NewAlertTypeSourceSettings key vm values = .ok s → s.Key = key ∧ s.Values = values ∧
      (s.ValueMutateFunc.isSome = true ↔ vm = "HTTPStatusLineToSection") := by
  unfold NewAlertTypeSourceSettings
  by_cases h1 : vm = ""
  · subst h1
    refine ⟨by simp, ?_⟩
    intro s hs
    simp only [if_true, Except.ok.injEq] at hs
    subst hs
    simp
  · by_cases h2 : vm = "HTTPStatusLineToSection"
    · subst h2
      refine ⟨by simp, ?_⟩
      intro s hs
      simp only [if_true, Except.ok.injEq] at hs
      rw [if_neg (by decide)] at hs
      simp only [Except.ok.injEq] at hs
      subst hs
      simp
    · refine ⟨by simp [h1, h2], ?_⟩
      intro s hs
      simp [h1, h2] at hs

/-- `NewStatsTypeSourceSettings` fails exactly on a mutator name that is
neither empty nor `HTTPStatusLineToSection`, and otherwise keeps the key and
the other keys. -/
theorem NewStatsTypeSourceSettings_spec (key vm : String) (otherKeys : List String) :
    ((∃ err, NewStatsTypeSourceSettings key vm otherKeys = .error err) ↔
      (vm ≠ "" ∧ vm ≠ "HTTPStatusLineToSection")) ∧
    ∀ s, NewStatsTypeSourceSettings key vm otherKeys = .ok s → s.Key = key ∧
      s.OtherKeys = otherKeys ∧
      (s.ValueMutateFunc.isSome = true ↔ vm = "HTTPStatusLineToSection") := by
  unfold NewStatsTypeSourceSettings
  by_cases h1 : vm = ""
  · subst h1
    refine ⟨by simp, ?_⟩
    intro s hs
    simp only [if_true, Except.ok.injEq] at hs
    subst hs
    simp
  · by_cases h2 : vm = "HTTPStatusLineToSection"
    · subst h2
      refine ⟨by simp, ?_⟩
      intro s hs
      rw [if_neg (by decide)] at hs
      simp only [if_true, Except.ok.injEq] at hs
      subst hs
      simp
    · refine ⟨by simp [h1, h2], ?_⟩
      intro s hs
      simp [h1, h2] at hs

/-- The product of the constructors is the number of seconds when it fits an
`int64`. -/
theorem wrapInt64_seconds (n : Int) (h1 : -9223372036 ≤ n) (h2 : n ≤ 9223372036) :
    wrapInt64 (n * Second) = n * Second := by
  unfold wrapInt64 Second
  omega

/-- C33: `NewAlertTypeFromConfig` and `NewStatsTypeFromConfig` return an error
exactly when two source settings bind the same source name or the mutator name
of one is neither empty nor `HTTPStatusLineToSection`. On success the map of
source settings has one entry per configured source name, in the configured
order, each with the configured key (and values or other keys); the `Threshold`
is the configured one; the `Duration` is the `int64` product of
`duration_seconds` and `time.Second`, which is `duration_seconds` seconds when
`duration_seconds` is between -9223372036 and 9223372036, so that the product
fits an `int64`. -/
theorem C33_consumers_from_config (areq : ConfigAlertType) (sreq : ConfigStatsType) :
    ((∃ err, NewAlertTypeFromConfig areq = .error err) ↔
      (¬ (areq.SourceSettings.map fun cfg => cfg.Name).Nodup ∨
        ∃ cfg ∈ areq.SourceSettings, cfg.ValueMutateFuncName ≠ "" ∧
          cfg.ValueMutateFuncName ≠ "HTTPStatusLineToSection")) ∧
    (∀ c, NewAlertTypeFromConfig areq = .ok c →
      c.SourceSettings.map Prod.fst = areq.SourceSettings.map (fun cfg => cfg.Name) ∧
      (c.SourceSettings.map Prod.fst).Nodup ∧
      (∀ cfg ∈ areq.SourceSettings, ∃ s, c.GetSourceSettings cfg.Name = .ok s ∧
        s.Key = cfg.Key ∧ s.Values = cfg.Values ∧
        (s.ValueMutateFunc.isSome = true ↔ cfg.ValueMutateFuncName = "HTTPStatusLineToSection")) ∧
      c.Threshold = areq.Threshold ∧
      c.Duration = wrapInt64 (areq.DurationSeconds * Second) ∧
      (-9223372036 ≤ areq.DurationSeconds → areq.DurationSeconds ≤ 9223372036 →
        c.Duration = areq.DurationSeconds * Second)) ∧
    ((∃ err, NewStatsTypeFromConfig sreq = .error err) ↔
      (¬ (sreq.SourceSettings.map fun cfg => cfg.Name).Nodup ∨
        ∃ cfg ∈ sreq.SourceSettings, cfg.ValueMutateFuncName ≠ "" ∧
          cfg.ValueMutateFuncName ≠ "HTTPStatusLineToSection")) ∧
    (∀ c, NewStatsTypeFromConfig sreq = .ok c →
      c.SourceSettings.map Prod.fst = sreq.SourceSettings.map (fun cfg => cfg.Name) ∧
      (c.SourceSettings.map Prod.fst).Nodup ∧
      (∀ cfg ∈ sreq.SourceSettings, ∃ s, c.GetSourceSettings cfg.Name = .ok s ∧
        s.Key = cfg.Key ∧ s.OtherKeys = cfg.OtherKeys ∧
        (s.ValueMutateFunc.isSome = true ↔ cfg.ValueMutateFuncName = "HTTPStatusLineToSection")) ∧
      c.Duration = wrapInt64 (sreq.DurationSeconds * Second) ∧
      (-9223372036 ≤ sreq.DurationSeconds → sreq.DurationSeconds ≤ 9223372036 →
        c.Duration = sreq.DurationSeconds * Second)) := by
  refine ⟨?_, ?_, ?_, ?_⟩
  · have hloop := sourceSettingsLoop_error (fun cfg : ConfigAlertTypeSourceSetting => cfg.Name)
      (fun cfg => NewAlertTypeSourceSettings cfg.Key cfg.ValueMutateFuncName cfg.Values)
      areq.SourceSettings [] (by simp)
    have hiff : (∃ err, NewAlertTypeFromConfig areq = .error err) ↔
        ∃ err, sourceSettingsLoop (fun cfg : ConfigAlertTypeSourceSetting => cfg.Name)
          (fun cfg => NewAlertTypeSourceSettings cfg.Key cfg.ValueMutateFuncName cfg.Values)
          areq.SourceSettings [] = .error err := by
      unfold NewAlertTypeFromConfig
      cases sourceSettingsLoop (fun cfg : ConfigAlertTypeSourceSetting => cfg.Name)
          (fun cfg => NewAlertTypeSourceSettings cfg.Key cfg.ValueMutateFuncName cfg.Values)
          areq.SourceSettings [] with
      | error e => simp
      | ok m => simp
    rw [hiff, hloop]
    simp only [List.map_nil, List.nil_append]
    refine or_congr Iff.rfl ?_
    constructor
    · rintro ⟨cfg, hc, herr⟩
      exact ⟨cfg, hc, (NewAlertTypeSourceSettings_spec _ _ _).1.mp herr⟩
    · rintro ⟨cfg, hc, hbad⟩
      exact ⟨cfg, hc, (NewAlertTypeSourceSettings_spec _ _ _).1.mpr hbad⟩
  · intro c hc
    unfold NewAlertTypeFromConfig at hc
    cases hl : sourceSettingsLoop (fun cfg : ConfigAlertTypeSourceSetting => cfg.Name)
        (fun cfg => NewAlertTypeSourceSettings cfg.Key cfg.ValueMutateFuncName cfg.Values)
        areq.SourceSettings [] with
    | error e => rw [hl] at hc; cases hc
    | ok m =>
      rw [hl] at hc
      simp only [Except.ok.injEq] at hc
      subst hc
      obtain ⟨h1, h2, h3, -⟩ := sourceSettingsLoop_ok _ _ areq.SourceSettings [] m (by simp) hl
      refine ⟨by simpa [AlertType.fresh] using h1, by simpa [AlertType.fresh] using h2, ?_, rfl,
        rfl, ?_⟩
      · intro cfg hcfg
        obtain ⟨s, hs, hlook⟩ := h3 cfg hcfg
        refine ⟨s, ?_, (NewAlertTypeSourceSettings_spec _ _ _).2 s hs⟩
        simp only [AlertType.GetSourceSettings, AlertType.fresh, hlook]
      · intro hlo hhi
        exact wrapInt64_seconds _ hlo hhi
  · have hloop := sourceSettingsLoop_error (fun cfg : ConfigStatsTypeSourceSetting => cfg.Name)
      (fun cfg => NewStatsTypeSourceSettings cfg.Key cfg.ValueMutateFuncName cfg.OtherKeys)
      sreq.SourceSettings [] (by simp)
    have hiff : (∃ err, NewStatsTypeFromConfig sreq = .error err) ↔
        ∃ err, sourceSettingsLoop (fun cfg : ConfigStatsTypeSourceSetting => cfg.Name)
          (fun cfg => NewStatsTypeSourceSettings cfg.Key cfg.ValueMutateFuncName cfg.OtherKeys)
          sreq.SourceSettings [] = .error err := by
      unfold NewStatsTypeFromConfig
      cases sourceSettingsLoop (fun cfg : ConfigStatsTypeSourceSetting => cfg.Name)
          (fun cfg => NewStatsTypeSourceSettings cfg.Key cfg.ValueMutateFuncName cfg.OtherKeys)
          sreq.SourceSettings [] with
      | error e => simp
      | ok m => simp
    rw [hiff, hloop]
    simp only [List.map_nil, List.nil_append]
    refine or_congr Iff.rfl ?_
    constructor
    · rintro ⟨cfg, hc, herr⟩
      exact ⟨cfg, hc, (NewStatsTypeSourceSettings_spec _ _ _).1.mp herr⟩
    · rintro ⟨cfg, hc, hbad⟩
      exact ⟨cfg, hc, (NewStatsTypeSourceSettings_spec _ _ _).1.mpr hbad⟩
  · intro c hc
    unfold NewStatsTypeFromConfig at hc
    cases hl : sourceSettingsLoop (fun cfg : ConfigStatsTypeSourceSetting => cfg.Name)
        (fun cfg => NewStatsTypeSourceSettings cfg.Key cfg.ValueMutateFuncName cfg.OtherKeys)
        sreq.SourceSettings [] with
    | error e => rw [hl] at hc; cases hc
    | ok m =>
      rw [hl] at hc
      simp only [Except.ok.injEq] at hc
      subst hc
      obtain ⟨h1, h2, h3, -⟩ := sourceSettingsLoop_ok _ _ sreq.SourceSettings [] m (by simp) hl
      refine ⟨by simpa [StatsType.fresh] using h1, by simpa [StatsType.fresh] using h2, ?_,
        rfl, ?_⟩
      · intro cfg hcfg
        obtain ⟨s, hs, hlook⟩ := h3 cfg hcfg
        refine ⟨s, ?_, (NewStatsTypeSourceSettings_spec _ _ _).2 s hs⟩
        simp only [StatsType.GetSourceSettings, StatsType.fresh, hlook]
      · intro hlo hhi
        exact wrapInt64_seconds _ hlo hhi

/-- C33, the case the statement leaves out: with `duration_seconds` 9223372037
the two constructors return without an error, and the `Duration` is the wrapped
product -9223372036709551616 ns, not 9223372037 seconds. -/
theorem C33_counterexample :
    (∃ c, NewAlertTypeFromConfig longAlertConfig = .ok c ∧
      c.Duration = -9223372036709551616 ∧ c.Duration ≠ longAlertConfig.DurationSeconds * Second) ∧
    (∃ c, NewStatsTypeFromConfig longStatsConfig = .ok c ∧
      c.Duration = -9223372036709551616 ∧ c.Duration ≠ longStatsConfig.DurationSeconds * Second) :=
  ⟨⟨_, rfl, by decide, by decide⟩, ⟨_, rfl, by decide, by decide⟩⟩

/-! ## Two windows due in one call; an error after the windows were appended -/

/-- C36, evaluated on the code: windows of 1 s prepared at `t0`, records of the
configured source at `t0`, `t0+1s` and `t0+10s`, whose request line the mutator
accepts. The first two calls return and leave the queue `[1]`. The third call
appends the windows 3 to 11 and enqueues 2; the windows 1 and 2 are both more
than 2 s behind, so `doneIndexes` is `[0, 1]`; removing position 0 leaves a
queue of one entry, and removing position 1 slices `q[2:]` of it, which is out
of range: `ConsumeLog` panics, whatever the number of rounds allowed beyond the
eleven that the walk takes. -/
theorem C36_two_due_windows_panic (fuel : Nat) :
    (statsFinal (statsConsumeAll (fuel + 11) secondStatsType (tenSecondRecords.take 2))
        secondStatsType).summary = (3, 2, [1], t0 + 1 * Second) ∧
    statsConsumeAll (fuel + 11) secondStatsType tenSecondRecords = some .panic ∧
    scanNotifications (extendedWindows (1 * Second) secondStatsType.Windows (t0 + 10 * Second))
        (t0 + 10 * Second) 0 [1, 2] = .done ([1, 2], [0, 1]) ∧
    removeAt [1, 2] 0 = .done [2] ∧
    removeAt [2] 1 = .panic ∧
    removeDone [0, 1] [1, 2] = .panic := by
  refine ⟨by rfl, by rfl, by decide, by decide, by decide, by decide⟩

/-- C38, evaluated on the code: the test consumer, windows of 2 s prepared at
`t0`, has two windows, pointer 1, an empty queue and the zero instant as latest
timestamp. `ConsumeLog` on a record at `t0+4s` of a source without settings
returns the error of `GetSourceSettings`, and on a record at `t0+4s` whose
value the mutator rejects it returns the error of the mutator; after either
call the consumer has four windows and the queue `[1]`: the windows that
`determineWindow` appended and the entry that `addToWindow` enqueued before the
settings were read stay. The pointer and the latest timestamp are as before. -/
theorem C38_error_keeps_appended_windows (fuel : Nat) :
    vanillaStatsType.summary = (2, 1, [], 0) ∧
    statsStepRan (fuel + 3) vanillaStatsType unknownSourceRecord = true ∧
    (statsStep (fuel + 3) vanillaStatsType unknownSourceRecord).2.1 =
      some "source settings not found" ∧
    (statsStep (fuel + 3) vanillaStatsType unknownSourceRecord).1.summary = (4, 1, [1], 0) ∧
    statsStepRan (fuel + 3) vanillaStatsType rejectedValueRecord = true ∧
    (statsStep (fuel + 3) vanillaStatsType rejectedValueRecord).2.1.isSome = true ∧
    (statsStep (fuel + 3) vanillaStatsType rejectedValueRecord).1.summary = (4, 1, [1], 0) ∧
    (statsStep (fuel + 3) vanillaStatsType unknownSourceRecord).1.Windows ≠
      vanillaStatsType.Windows ∧
    (statsStep (fuel + 3) vanillaStatsType unknownSourceRecord).1.QueuedNotifications ≠
      vanillaStatsType.QueuedNotifications := by
  refine ⟨by decide, by rfl, by rfl, by rfl, by rfl, by rfl, by rfl, ?_, ?_⟩
  · intro h
    have h2 := congrArg List.length h
    revert h2
    show (statsStep (fuel + 3) vanillaStatsType unknownSourceRecord).1.Windows.length ≠ 2
    have h4 : (statsStep (fuel + 3) vanillaStatsType unknownSourceRecord).1.Windows.length = 4 := by
      rfl
    rw [h4]
    decide
  · have hq : (statsStep (fuel + 3) vanillaStatsType unknownSourceRecord).1.QueuedNotifications =
        [1] := by rfl
    rw [hq]
    decide

/-! ## The window walk ends, with the windows that the instant needs -/

/-- Appending `n` windows to a list with a window makes it `n` longer. -/
theorem length_appendWindows_eq (d : Int) :
    ∀ (n : Nat) (ws : List StatsWindow), ws ≠ [] →
      (appendWindows d n ws).length = ws.length + n := by
  intro n
  induction n with
  | zero => intro ws _; simp [appendWindows]
  | succ k ih =>
    intro ws hne
    unfold appendWindows
    cases hl : ws.getLast? with
    | none =>
      rw [List.getLast?_eq_none_iff] at hl
      exact absurd hl hne
    | some last =>
      simp only
      rw [ih _ (by simp)]
      simp only [List.length_append, List.length_singleton]
      omega

/-- For an instant not before the end of the last window, the last window of
the extended list holds the instant. -/
theorem extendedWindows_last {d t : Int} (hd : 0 < d) :
    ∀ (m : Nat) (ws : List StatsWindow) (last : StatsWindow), ws.getLast? = some last →
      last.End ≤ t → t < last.End + m * d →
      ∃ w, (extendedWindows d ws t).getLast? = some w ∧ w.Start ≤ t ∧ t < w.End := by
  intro m
  induction m with
  | zero =>
    intro ws last _ h1 h2
    simp at h2
    omega
  | succ k ih =>
    intro ws last hl h1 h2
    have h2k : t < last.End + d + k * d := by
      have : ((k + 1 : Nat) : Int) * d = k * d + d := by push_cast; ring
      rw [this] at h2
      omega
    have hl1 : (ws ++ [NewStatsWindow last.End (last.End + d)]).getLast? =
        some (NewStatsWindow last.End (last.End + d)) := by simp
    rw [extendedWindows_of_le hd hl h1]
    by_cases hset : t < last.End + d
    · rw [extendedWindows_of_lt hl1 (by simpa [NewStatsWindow] using hset)]
      exact ⟨_, hl1, by simpa [NewStatsWindow] using h1, by simpa [NewStatsWindow] using hset⟩
    · exact ih _ _ hl1 (by simp only [NewStatsWindow]; omega)
        (by simp only [NewStatsWindow]; omega)

/-- C37: on a prepared stats consumer with `Duration > 0`, contiguous windows,
a `CurrentPointer` that is the index of a window and an instant `t` not before
the zero instant for which every window up to the one that holds `t` ends
within the range of `time.Time` (its `End`, `Start + Duration`, is an instant
whose count of seconds fits an `int64`), the walk of `determineWindow(t)` ends: there is a number of rounds
from which on the call returns. It returns the window list with the
windows `ext` appended, and `ext` is empty when `t` is before the end of the
last window that was there. Otherwise `ext` has `(t - last.End) / Duration + 1`
windows, the last window of the list then holds `t`, and every window before
the last one ends at or before `t`, so that no smaller number of windows would
do. -/
theorem C37_walk_terminates (s : StatsType) (t : Int) (hD : 0 < s.Duration) (hp : Prepared s)
    (hcp0 : 0 ≤ s.CurrentPointer) (hcp1 : s.CurrentPointer < (s.Windows.length : Int))
    (ht : 0 ≤ t)
    (hrep : ∀ w ∈ extendedWindows s.Duration s.Windows t, w.End < 2 ^ 63 * Second) :
    ∃ (last : StatsWindow) (ext : List StatsWindow) (j n : Nat),
      s.Windows.getLast? = some last ∧
      (∀ fuel, n ≤ fuel →
        s.determineWindow fuel t =
          some (.done (s.Windows ++ ext, (j : Int), decide (ext ≠ [])))) ∧
      ext.length = windowsNeeded s.Duration s.Windows t ∧
      (t < last.End → ext = []) ∧
      (last.End ≤ t →
        ext.length = ((t - last.End) / s.Duration).toNat + 1 ∧
        ∃ w, (s.Windows ++ ext).getLast? = some w ∧ w.Start ≤ t ∧ t < w.End ∧
          ∀ (i : Nat) (w1 : StatsWindow), i + 1 < (s.Windows ++ ext).length →
            (s.Windows ++ ext)[i]? = some w1 → w1.End ≤ t) := by
  have hpos : 0 < s.Windows.length := by
    obtain ⟨b, rest, hb⟩ := hp.sentinel
    have := congrArg List.length hb
    simp only [windowBounds, List.length_map, List.length_cons] at this
    omega
  have hne : s.Windows ≠ [] := by
    intro h
    rw [h] at hpos
    simp at hpos
  obtain ⟨last, hlast⟩ : ∃ l, s.Windows.getLast? = some l := by
    rw [getLast?_eq_getElem?]
    exact ⟨s.Windows[s.Windows.length - 1], List.getElem?_eq_getElem (by omega)⟩
  obtain ⟨ext, hext⟩ := appendWindows_prefix s.Duration (windowsNeeded s.Duration s.Windows t)
    s.Windows
  have hextE : extendedWindows s.Duration s.Windows t = s.Windows ++ ext := hext
  have hcE : Contiguous s.Duration (s.Windows ++ ext) := by
    rw [← hextE]
    exact Contiguous_appendWindows _ _ _ hp.contiguous
  have hlen : ext.length = windowsNeeded s.Duration s.Windows t := by
    have h1 := length_appendWindows_eq s.Duration (windowsNeeded s.Duration s.Windows t)
      s.Windows hne
    rw [hext, List.length_append] at h1
    omega
  obtain ⟨cp, hcp⟩ : ∃ cp : Nat, s.CurrentPointer = (cp : Int) :=
    ⟨s.CurrentPointer.toNat, (Int.toNat_of_nonneg hcp0).symm⟩
  obtain ⟨j, wj, hj, hs, he, n, hrun⟩ :=
    walk_from hD hp.contiguous hp.sentinel ht hrep cp (by omega)
  refine ⟨last, ext, j, n, hlast, ?_, hlen, ?_, ?_⟩
  · intro fuel hf
    have h := hrun fuel hf
    rw [hextE] at h
    simp only [StatsType.determineWindow]
    rw [hcp, h]
    have hdec : decide (s.Windows.length < (s.Windows ++ ext).length) = decide (ext ≠ []) := by
      cases ext with
      | nil => simp
      | cons x rest => simp
    rw [hdec]
  · intro hlt
    have h0 : windowsNeeded s.Duration s.Windows t = 0 := by
      simp [windowsNeeded, hlast, hlt]
    rw [h0] at hlen
    exact List.length_eq_zero.mp hlen
  · intro hle
    have hneed : windowsNeeded s.Duration s.Windows t =
        ((t - last.End) / s.Duration).toNat + 1 := by
      have h1 : ¬ t < last.End := by omega
      simp [windowsNeeded, hlast, h1]
    have hm : t < last.End + (((t - last.End) / s.Duration).toNat + 1 : Nat) * s.Duration := by
      have hnn : 0 ≤ (t - last.End) / s.Duration := Int.ediv_nonneg (by omega) (le_of_lt hD)
      have h1 := Int.lt_ediv_add_one_mul_self (t - last.End) hD
      have h2 : ((((t - last.End) / s.Duration).toNat + 1 : Nat) : Int) =
          (t - last.End) / s.Duration + 1 := by
        push_cast
        rw [Int.toNat_of_nonneg hnn]
      rw [h2]
      omega
    obtain ⟨w, hw, hws, hwe⟩ := extendedWindows_last hD _ s.Windows last hlast hle hm
    rw [hextE] at hw
    refine ⟨by rw [hlen, hneed], w, hw, hws, hwe, ?_⟩
    intro i w1 hi hw1
    have hwidx : (s.Windows ++ ext)[(s.Windows ++ ext).length - 1]? = some w := by
      rw [← getLast?_eq_getElem?]
      exact hw
    have := Contiguous_end_le_start hcE (le_of_lt hD) (show i < (s.Windows ++ ext).length - 1 by
      omega) hw1 hwidx
    omega

/-- C37 on the consumer of `TestStatsType_DetermineWindow` after the ten calls
of the test, with windows that end at `t0+4s`: for the instant `t0+7s` the walk
from window 1 appends the two windows `[t0+4s, t0+6s)` and `[t0+6s, t0+8s)` and
returns the index 4. -/
theorem C37_walk_terminates_witness :
    determinePrior.determineWindow 8 (t0 + 7 * Second) =
      some (.done (determinePrior.Windows ++
        [NewStatsWindow (t0 + 4 * Second) (t0 + 6 * Second),
         NewStatsWindow (t0 + 6 * Second) (t0 + 8 * Second)], 4, true)) ∧
    0 < determinePrior.Duration ∧ Prepared determinePrior ∧
    0 ≤ determinePrior.CurrentPointer ∧
    determinePrior.CurrentPointer < (determinePrior.Windows.length : Int) ∧
    0 ≤ t0 + 7 * Second ∧
    (∀ w ∈ extendedWindows determinePrior.Duration determinePrior.Windows (t0 + 7 * Second),
      w.End < 2 ^ 63 * Second) ∧
    ∃ (last : StatsWindow) (ext : List StatsWindow) (j n : Nat),
      determinePrior.Windows.getLast? = some last ∧
      (∀ fuel, n ≤ fuel →
        determinePrior.determineWindow fuel (t0 + 7 * Second) =
          some (.done (determinePrior.Windows ++ ext, (j : Int), decide (ext ≠ [])))) ∧
      ext.length = windowsNeeded determinePrior.Duration determinePrior.Windows
        (t0 + 7 * Second) ∧
      (t0 + 7 * Second < last.End → ext = []) ∧
      (last.End ≤ t0 + 7 * Second →
        ext.length = ((t0 + 7 * Second - last.End) / determinePrior.Duration).toNat + 1 ∧
        ∃ w, (determinePrior.Windows ++ ext).getLast? = some w ∧ w.Start ≤ t0 + 7 * Second ∧
          t0 + 7 * Second < w.End ∧
          ∀ (i : Nat) (w1 : StatsWindow), i + 1 < (determinePrior.Windows ++ ext).length →
            (determinePrior.Windows ++ ext)[i]? = some w1 → w1.End ≤ t0 + 7 * Second) :=
  ⟨by decide, by decide, determinePrior_prepared, by decide, by decide, by decide, by decide,
    C37_walk_terminates determinePrior (t0 + 7 * Second) (by decide) determinePrior_prepared
      (by decide) (by decide) (by decide) (by decide)⟩

/-- C37, the case the statement leaves out: the consumer with windows of 1 s
whose first record carries the timestamp `9223371974719179006` has the windows
`[zero, T - 1s)` and `[T - 1s, T)`, where `T` is `lastSecond`, the instant that
the timestamp `9223371974719179007` parses into. It is prepared with contiguous
windows and its pointer 1 is within the list; for the instant `T`, not before
the zero instant, the walk of `determineWindow` does not end. One window,
`[T, T + 1s)`, would do, but its end is past the range of `time.Time`: `Add`
stops at `T`, the window appended is `[T, T)`, and the walk appends such windows
for as many rounds as it is given. -/
theorem C37_counterexample :
    TimestampFormat_Unix.Parse "9223371974719179006" = .ok (lastSecond - 1 * Second) ∧
    TimestampFormat_Unix.Parse "9223371974719179007" = .ok lastSecond ∧
    windowBounds nearLastSecondStatsType.Windows =
      [(0, lastSecond - 1 * Second), (lastSecond - 1 * Second, lastSecond)] ∧
    Prepared nearLastSecondStatsType ∧ 0 < nearLastSecondStatsType.Duration ∧
    0 ≤ nearLastSecondStatsType.CurrentPointer ∧
    nearLastSecondStatsType.CurrentPointer < (nearLastSecondStatsType.Windows.length : Int) ∧
    0 ≤ lastSecond ∧
    windowsNeeded nearLastSecondStatsType.Duration nearLastSecondStatsType.Windows lastSecond =
      1 ∧
    timeAdd lastSecond nearLastSecondStatsType.Duration = lastSecond ∧
    (∀ fuel, nearLastSecondStatsType.determineWindow fuel lastSecond = none) :=
  ⟨by rfl, by rfl, by decide, nearLastSecondStatsType_prepared, by decide, by decide, by decide,
    by decide, by decide, by decide,
    fun fuel => walk_never_returns (1 * Second) (by decide) (by decide) fuel
      nearLastSecondStatsType.Windows 1 false (by decide) (by decide) (by decide) (by decide)⟩

/-! ## The chain on records that come in the order of their timestamps -/

theorem timeSub_mono_left (t1 t2 u : Int) (h : t1 ≤ t2) : timeSub t1 u ≤ timeSub t2 u := by
  simp only [timeSub, maxDuration, minDuration]
  split_ifs <;> omega

/-- For a duration below the largest one, the test on the saturated difference
is the test on the difference. -/
theorem timeSub_le_iff (t u d : Int) (h0 : 0 ≤ d) (h1 : d < maxDuration) :
    timeSub t u ≤ d ↔ t - u ≤ d := by
  simp only [timeSub, maxDuration, minDuration] at *
  split_ifs <;> omega

theorem getElem?_setNext_self (heap : List AlertLogNode) (i : Nat) (v : Option Nat)
    (n : AlertLogNode) (h : heap[i]? = some n) :
    (setNext heap i v)[i]? = some { n with Next := v } := by
  unfold setNext
  have hlt : i < heap.length := (List.getElem?_eq_some_iff.mp h).1
  simp [h, List.getElem?_set, hlt]

theorem holdsRecord_nodeT {heap : List AlertLogNode} {i : Nat} {r : LogMessageStructured}
    (h : holdsRecord heap i r) : nodeT heap i = r.T := by
  obtain ⟨n, hn, hr⟩ := h
  rw [nodeT_of_getElem? hn, ← hr]

theorem holdsRecord_setNext {heap : List AlertLogNode} {i : Nat} {r : LogMessageStructured}
    (j : Nat) (v : Option Nat) (h : holdsRecord heap i r) :
    holdsRecord (setNext heap j v) i r := by
  obtain ⟨n, hn, hr⟩ := h
  by_cases hij : i = j
  · subst hij
    exact ⟨_, getElem?_setNext_self heap i v n hn, hr⟩
  · exact ⟨n, by rw [getElem?_setNext_ne heap j i v hij]; exact hn, hr⟩

theorem holdsRecord_setPrevious {heap : List AlertLogNode} {i : Nat} {r : LogMessageStructured}
    (j : Nat) (v : Option Nat) (h : holdsRecord heap i r) :
    holdsRecord (setPrevious heap j v) i r := by
  obtain ⟨n, hn, hr⟩ := h
  by_cases hij : i = j
  · subst hij
    exact ⟨_, getElem?_setPrevious_self heap i v n hn, hr⟩
  · exact ⟨n, by rw [getElem?_setPrevious_ne heap j i v hij]; exact hn, hr⟩

theorem holdsRecord_append {heap : List AlertLogNode} {i : Nat} {r : LogMessageStructured}
    (more : List AlertLogNode) (h : holdsRecord heap i r) : holdsRecord (heap ++ more) i r := by
  obtain ⟨n, hn, hr⟩ := h
  have hlt : i < heap.length := (List.getElem?_eq_some_iff.mp hn).1
  exact ⟨n, by rw [List.getElem?_append_left hlt]; exact hn, hr⟩

/-- Reading the records along addresses that carry the records `rs` gives
`rs`. -/
theorem filterMap_of_holdsRecord {heap : List AlertLogNode} :
    ∀ (l : List Nat) (rs : List LogMessageStructured), List.Forall₂ (holdsRecord heap) l rs →
      (l.filterMap fun i => (heap[i]?).map fun n => n.toLogMessageStructured) = rs := by
  intro l rs h
  induction h with
  | nil => rfl
  | cons hir _ ih =>
    obtain ⟨n, hn, hr⟩ := hir
    simp only [List.filterMap_cons, hn, Option.map_some', hr, ih]

/-- Filtering the addresses by a test on the timestamp of their node filters
the records they carry by the same test. -/
theorem forall₂_filter_holdsRecord {heap : List AlertLogNode} (p : Int → Bool) :
    ∀ (l : List Nat) (rs : List LogMessageStructured), List.Forall₂ (holdsRecord heap) l rs →
      List.Forall₂ (holdsRecord heap) (l.filter fun i => p (nodeT heap i))
        (rs.filter fun r => p r.T) := by
  intro l rs h
  induction h with
  | nil => exact List.Forall₂.nil
  | cons hir _ ih =>
    have hT := holdsRecord_nodeT hir
    simp only [List.filter_cons, hT]
    split
    · exact List.Forall₂.cons hir ih
    · exact ih

/-- Appending a node to the end of a chain: the `Next` of the last node is
redirected to the new address, the new node points back to it. -/
theorem IsChain_snoc {heap : List AlertLogNode} (c : Nat) (msg : LogMessageStructured) :
    ∀ (l : List Nat) (prev : Option Nat), IsChain heap prev l → l.Nodup →
      l.getLast? = some c →
      IsChain (setNext heap c (some heap.length) ++
          [{ toLogMessageStructured := msg, Previous := some c, Next := none }]) prev
        (l ++ [heap.length]) := by
  intro l
  induction l with
  | nil => intro prev _ _ h; simp at h
  | cons i rest ih =>
    intro prev h hnd hlast
    obtain ⟨n, hn, hp, hnx, hrest⟩ := h
    have hilt : i < heap.length := (List.getElem?_eq_some_iff.mp hn).1
    have hilt2 : i < (setNext heap c (some heap.length)).length := by
      rw [length_setNext]; exact hilt
    cases rest with
    | nil =>
      simp only [List.getLast?_singleton, Option.some.injEq] at hlast
      subst hlast
      refine ⟨{ n with Next := some heap.length }, ?_, hp, by simp, ?_⟩
      · rw [List.getElem?_append_left hilt2]
        exact getElem?_setNext_self heap i _ n hn
      · refine ⟨{ toLogMessageStructured := msg, Previous := some i, Next := none }, ?_, rfl,
          rfl, trivial⟩
        rw [List.getElem?_append_right (by rw [length_setNext])]
        simp [length_setNext]
    | cons j more =>
      have hlast2 : (j :: more).getLast? = some c := by
        simpa [List.getLast?_cons_cons] using hlast
      have hcmem : c ∈ j :: more := List.mem_of_getLast?_eq_some hlast2
      have hic : i ≠ c := by
        intro hic
        subst hic
        exact (List.nodup_cons.mp hnd).1 hcmem
      refine ⟨n, ?_, hp, by simpa using hnx, ?_⟩
      · rw [List.getElem?_append_left hilt2, getElem?_setNext_ne heap c i _ hic]
        exact hn
      · exact ih (some i) hrest (List.nodup_cons.mp hnd).2 hlast2

/-- The last node of a chain has no `Next`. -/
theorem IsChain_last {heap : List AlertLogNode} (l : List Nat) (prev : Option Nat) (c : Nat)
    (h : IsChain heap prev l) (hlast : l.getLast? = some c) :
    ∃ n, heap[c]? = some n ∧ n.Next = none := by
  have hne : l ≠ [] := by
    intro h0
    rw [h0] at hlast
    simp at hlast
  have hc : l.getLast hne = c := by
    rw [List.getLast?_eq_getLast l hne] at hlast
    simpa using hlast
  have hsplit : l = l.dropLast ++ [c] := by
    rw [← hc]
    exact (List.dropLast_append_getLast hne).symm
  have h2 := IsChain_append l.dropLast [c] prev (hsplit ▸ h)
  obtain ⟨n, hn, -, hnx, -⟩ := h2
  exact ⟨n, hn, by simpa using hnx⟩

/-- In a list sorted by a preorder every element is at most the last. -/
theorem le_last_of_pairwise (f : Nat → Int) (l : List Nat) (c : Nat)
    (hs : List.Pairwise (fun i j => f i ≤ f j) l) (hlast : l.getLast? = some c) :
    ∀ a ∈ l, f a ≤ f c := by
  have hne : l ≠ [] := by
    intro h0
    rw [h0] at hlast
    simp at hlast
  have hc : l.getLast hne = c := by
    rw [List.getLast?_eq_getLast l hne] at hlast
    simpa using hlast
  have hsplit : l = l.dropLast ++ [c] := by
    rw [← hc]
    exact (List.dropLast_append_getLast hne).symm
  intro a ha
  rw [hsplit] at ha hs
  rcases List.mem_append.mp ha with h | h
  · exact (List.pairwise_append.mp hs).2.2 a h c (by simp)
  · simp only [List.mem_singleton] at h
    rw [h]

theorem nodeT_snoc (heap : List AlertLogNode) (c : Nat) (v : Option Nat) (x : AlertLogNode)
    (i : Nat) (hi : i < heap.length) : nodeT (setNext heap c v ++ [x]) i = nodeT heap i := by
  have h1 : nodeT (setNext heap c v ++ [x]) i = nodeT (setNext heap c v) i := by
    unfold nodeT
    rw [List.getElem?_append_left (by rw [length_setNext]; exact hi)]
  rw [h1]
  exact nodeT_congr (map_T_setNext heap c v) i

/-- The first record: `addToChain` on a consumer without a latest node makes
the new node the whole chain. -/
theorem addToChain_first (s : AlertType) (msg : LogMessageStructured)
    (hlat : s.LatestLogNode = none) :
    ∃ s1, s.addToChain msg = .done s1 ∧ WellFormedChain s1 [s.heap.length] ∧
      List.Forall₂ (holdsRecord s1.heap) [s.heap.length] [msg] ∧ s1.latestT = some msg.T := by
  refine ⟨{ s with
      heap := s.heap ++ [{ toLogMessageStructured := msg, Previous := none, Next := none }]
      LatestLogNode := some s.heap.length
      OldestLogNode := some s.heap.length }, ?_, ?_, ?_, ?_⟩
  · simp [AlertType.addToChain, hlat, addToChainWalk, Run.bind]
  · refine ⟨?_, rfl, rfl, by simp, by simp⟩
    exact ⟨{ toLogMessageStructured := msg, Previous := none, Next := none }, by simp, rfl, rfl,
      trivial⟩
  · exact List.Forall₂.cons
      ⟨{ toLogMessageStructured := msg, Previous := none, Next := none }, by simp, rfl⟩
      List.Forall₂.nil
  · simp [AlertType.latestT]

/-- A record not before the latest node: `addToChain` puts the new node at the
end of a well-formed chain, and the chain stays well-formed. -/
theorem addToChain_inorder (s : AlertType) (l : List Nat) (rs : List LogMessageStructured)
    (msg : LogMessageStructured) (tl : Int) (hwf : WellFormedChain s l)
    (hrs : List.Forall₂ (holdsRecord s.heap) l rs) (htl : s.latestT = some tl)
    (hord : tl ≤ msg.T) :
    ∃ s1, s.addToChain msg = .done s1 ∧ WellFormedChain s1 (l ++ [s.heap.length]) ∧
      List.Forall₂ (holdsRecord s1.heap) (l ++ [s.heap.length]) (rs ++ [msg]) ∧
      s1.latestT = some msg.T := by
  obtain ⟨hlink, hold, hlat, hne, hsorted⟩ := hwf
  have hlast : l.getLast? = some (l.getLast hne) := List.getLast?_eq_getLast l hne
  generalize hc : l.getLast hne = c at hlast
  obtain ⟨n, hn, hnx⟩ := IsChain_last l none c hlink hlast
  have hnT : n.T = tl := by
    simp only [AlertType.latestT, hlat, hlast, hn, Option.map_some', Option.some.injEq] at htl
    exact htl
  have hnb : ¬ msg.T < n.T := by omega
  have hnodup : l.Nodup := IsChain_nodup l none hlink
  have hvalid : ∀ i ∈ l, i < s.heap.length := by
    intro i hi
    obtain ⟨m, hm⟩ := IsChain_mem l none hlink i hi
    exact (List.getElem?_eq_some_iff.mp hm).1
  refine ⟨{ s with
      heap := setNext s.heap c (some s.heap.length) ++
        [{ toLogMessageStructured := msg, Previous := some c, Next := none }]
      LatestLogNode := some s.heap.length }, ?_, ?_, ?_, ?_⟩
  · simp [AlertType.addToChain, hlat, hlast, addToChainWalk, hn, timeBefore, hnb, Run.bind, hnx]
  · refine ⟨IsChain_snoc c msg l none hlink hnodup hlast, ?_, by simp, by simp, ?_⟩
    · show s.OldestLogNode = (l ++ [s.heap.length]).head?
      rw [hold]
      cases l with
      | nil => exact absurd rfl hne
      | cons a rest => rfl
    · show List.Pairwise _ (l ++ [s.heap.length])
      rw [List.pairwise_append]
      refine ⟨?_, by simp, ?_⟩
      · refine (List.Pairwise.and_mem.mp hsorted).imp ?_
        rintro a b ⟨ha, hb, hab⟩
        show nodeT (setNext s.heap c (some s.heap.length) ++ _) a ≤
          nodeT (setNext s.heap c (some s.heap.length) ++ _) b
        rw [nodeT_snoc _ _ _ _ a (hvalid a ha), nodeT_snoc _ _ _ _ b (hvalid b hb)]
        exact hab
      · intro a ha b hb
        simp only [List.mem_singleton] at hb
        subst hb
        show nodeT (setNext s.heap c (some s.heap.length) ++ _) a ≤
          nodeT (setNext s.heap c (some s.heap.length) ++ _) s.heap.length
        rw [nodeT_snoc _ _ _ _ a (hvalid a ha)]
        have h1 := le_last_of_pairwise (nodeT s.heap) l c hsorted hlast a ha
        rw [nodeT_of_getElem? hn] at h1
        have h2 : nodeT (setNext s.heap c (some s.heap.length) ++
            [{ toLogMessageStructured := msg, Previous := some c, Next := none }])
            s.heap.length = msg.T := by
          unfold nodeT
          rw [List.getElem?_append_right (by rw [length_setNext])]
          simp [length_setNext]
        rw [h2]
        omega
  · show List.Forall₂ (holdsRecord (setNext s.heap c (some s.heap.length) ++ _))
      (l ++ [s.heap.length]) (rs ++ [msg])
    refine List.rel_append (hrs.imp fun _ _ h =>
      holdsRecord_append _ (holdsRecord_setNext c _ h)) ?_
    refine List.Forall₂.cons
      ⟨{ toLogMessageStructured := msg, Previous := some c, Next := none }, ?_, rfl⟩
      List.Forall₂.nil
    rw [List.getElem?_append_right (by rw [length_setNext])]
    simp [length_setNext]
  · show ((setNext s.heap c (some s.heap.length) ++
      [{ toLogMessageStructured := msg, Previous := some c, Next := none }])[s.heap.length]?).map
        (fun n => n.T) = some msg.T
    rw [List.getElem?_append_right (by rw [length_setNext])]
    simp [length_setNext]

/-- Eviction on a well-formed chain with `Duration ≥ 0`: `dropOldLogMessages`
returns the number of nodes that are too old, and leaves a well-formed chain
of the nodes within the window, in order, with the records they carried. -/
theorem dropOld_wellFormed (s : AlertType) (l : List Nat) (rs : List LogMessageStructured)
    (hwf : WellFormedChain s l) (hrs : List.Forall₂ (holdsRecord s.heap) l rs)
    (hD : 0 ≤ s.Duration) :
    ∃ s1 t, s.latestT = some t ∧
      s.dropOldLogMessages =
        .done (s1, (l.filter fun i => decide (timeSub t (nodeT s.heap i) > s.Duration)).length) ∧
      WellFormedChain s1 (l.filter fun i => decide (timeSub t (nodeT s.heap i) ≤ s.Duration)) ∧
      List.Forall₂ (holdsRecord s1.heap)
        (l.filter fun i => decide (timeSub t (nodeT s.heap i) ≤ s.Duration))
        (rs.filter fun r => decide (timeSub t r.T ≤ s.Duration)) ∧
      s1.chain = l.filter (fun i => decide (timeSub t (nodeT s.heap i) ≤ s.Duration)) := by
  obtain ⟨hlink, hold, hlat, hne, hsorted⟩ := hwf
  -- the latest node and its timestamp
  have hlast : l.getLast? = some (l.getLast hne) := List.getLast?_eq_getLast l hne
  obtain ⟨nl, hnl⟩ := IsChain_mem l none hlink _ (List.getLast_mem hne)
  have hlatT : s.latestT = some nl.T := by
    simp [AlertType.latestT, hlat, hlast, hnl]
  -- the nodes to drop are a front part of the chain
  have hanti : List.Pairwise
      (fun a b => tooOld s.heap nl.T s.Duration b = true → tooOld s.heap nl.T s.Duration a = true)
      l := by
    refine hsorted.imp ?_
    intro a b hab hb
    have := timeSub_antitone nl.T _ _ hab
    simp only [tooOld, decide_eq_true_eq] at hb ⊢
    omega
  obtain ⟨hf1, hf2⟩ := filter_eq_takeWhile _ l hanti
  have hlastKeep : tooOld s.heap nl.T s.Duration (l.getLast hne) = false := by
    simp only [tooOld, nodeT_of_getElem? hnl, timeSub_self, decide_eq_false_iff_not]
    omega
  have hdne : l.dropWhile (tooOld s.heap nl.T s.Duration) ≠ [] := by
    intro h0
    have := (List.dropWhile_eq_nil_iff.mp h0) _ (List.getLast_mem hne)
    rw [hlastKeep] at this
    simp at this
  obtain ⟨c, post, hcp⟩ := List.exists_cons_of_ne_nil hdne
  have hc : tooOld s.heap nl.T s.Duration c = false := by
    have := List.head_dropWhile_not (tooOld s.heap nl.T s.Duration) l hdne
    simpa [hcp] using this
  have hsplit : l = l.takeWhile (tooOld s.heap nl.T s.Duration) ++ c :: post := by
    rw [← hcp]; exact (List.takeWhile_append_dropWhile _ l).symm
  generalize hpre : l.takeWhile (tooOld s.heap nl.T s.Duration) = pre at hsplit hf1
  have hpreOld : ∀ i ∈ pre, tooOld s.heap nl.T s.Duration i = true := by
    intro i hi
    rw [← hpre] at hi
    exact List.mem_takeWhile_imp hi
  -- sizes
  have hnodup : l.Nodup := IsChain_nodup l none hlink
  have hvalid : ∀ i ∈ l, i < s.heap.length := by
    intro i hi
    obtain ⟨n, hn⟩ := IsChain_mem l none hlink i hi
    exact (List.getElem?_eq_some_iff.mp hn).1
  have hlen : l.length ≤ s.heap.length := length_le_of_nodup_lt l _ hnodup hvalid
  have hprelen : pre.length < s.heap.length + 1 := by
    have := congrArg List.length hsplit
    simp at this
    omega
  -- the walk
  have hwalk := dropWalk_chain nl.T s.Duration pre c post none (s.heap.length + 1) 0
    (hsplit ▸ hlink) hpreOld hc hprelen
  rw [← hsplit, ← hold] at hwalk
  -- the node at which the walk stops
  have hkeptChain := IsChain_append pre (c :: post) none (hsplit ▸ hlink)
  obtain ⟨cn, hcn, hcprev, hcnext, hpost⟩ := hkeptChain
  have hnodup2 : (pre ++ c :: post).Nodup := hsplit ▸ hnodup
  have hcpre : c ∉ pre := by
    intro hmem
    exact (List.nodup_append.mp hnodup2).2.2 hmem (List.mem_cons_self _ _)
  have hcpost : c ∉ post :=
    (List.nodup_cons.mp (List.nodup_append.mp hnodup2).2.1).1
  have hpostpre : ∀ j ∈ post, j ∉ pre := by
    intro j hj hmem
    exact (List.nodup_append.mp hnodup2).2.2 hmem (List.mem_cons_of_mem _ hj)
  -- the arena after the two writes
  have hheap1 : ∃ heap1 : List AlertLogNode,
      (match cn.Previous with
        | some p => setNext s.heap p none
        | none => s.heap) = heap1 ∧
      heap1.length = s.heap.length ∧
      heap1.map (fun n => n.T) = s.heap.map (fun n => n.T) ∧
      (∀ i r, holdsRecord s.heap i r → holdsRecord heap1 i r) ∧
      ∀ j, j ∉ pre → heap1[j]? = s.heap[j]? := by
    cases hp : cn.Previous with
    | none => exact ⟨s.heap, rfl, rfl, rfl, fun _ _ h => h, fun _ _ => rfl⟩
    | some q =>
      refine ⟨setNext s.heap q none, rfl, length_setNext _ _ _, map_T_setNext _ _ _,
        fun _ _ h => holdsRecord_setNext q none h, ?_⟩
      intro j hj
      apply getElem?_setNext_ne
      intro hjq
      rw [hp] at hcprev
      cases hgl : pre.getLast? with
      | none => rw [hgl] at hcprev; simp at hcprev
      | some x =>
        rw [hgl] at hcprev
        simp only [Option.some.injEq] at hcprev
        have : x ∈ pre := List.mem_of_getLast?_eq_some hgl
        rw [← hcprev, ← hjq] at this
        exact hj this
  obtain ⟨heap1, hheap1eq, hlen1, hT1, hrec1, hsame1⟩ := hheap1
  have hcn1 : heap1[c]? = some cn := (hsame1 c hcpre).trans hcn
  have hkept2 : IsChain (setPrevious heap1 c none) none (c :: post) := by
    refine ⟨{ cn with Previous := none }, getElem?_setPrevious_self _ _ _ _ hcn1, rfl, hcnext, ?_⟩
    refine IsChain_congr post (some c) ?_ hpost
    intro j hj
    have hjc : j ≠ c := fun h => hcpost (h ▸ hj)
    rw [getElem?_setPrevious_ne _ _ _ _ hjc]
    exact hsame1 j (hpostpre j hj)
  have hkeptlen : (c :: post).length ≤ (setPrevious heap1 c none).length := by
    rw [length_setPrevious, hlen1]
    have := congrArg List.length hsplit
    simp at this
    simp
    omega
  have hfilterKeep : l.filter (fun i => decide (timeSub nl.T (nodeT s.heap i) ≤ s.Duration)) =
      c :: post := by
    rw [← hcp, ← hf2]
    apply List.filter_congr
    intro i _
    simp only [tooOld, gt_iff_lt]
    by_cases h : timeSub nl.T (nodeT s.heap i) ≤ s.Duration
    · simp [h, not_lt.mpr h]
    · simp [h, not_le.mp h]
  have hfilterOld : l.filter (fun i => decide (timeSub nl.T (nodeT s.heap i) > s.Duration)) =
      pre := hf1
  have hchain : chainFrom (setPrevious heap1 c none) (setPrevious heap1 c none).length (some c) =
      c :: post := by
    have := chainFrom_of_IsChain (c :: post) none _ hkept2 hkeptlen
    simpa using this
  have hTall : (setPrevious heap1 c none).map (fun n => n.T) = s.heap.map (fun n => n.T) := by
    rw [map_T_setPrevious, hT1]
  refine ⟨{ s with heap := setPrevious heap1 c none, OldestLogNode := some c }, nl.T, hlatT,
    ?_, ?_, ?_, ?_⟩
  · unfold AlertType.dropOldLogMessages
    simp only [hlatT, hwalk, Run.bind, hcn, hheap1eq, hfilterOld, Nat.zero_add]
  · rw [hfilterKeep]
    refine ⟨hkept2, rfl, ?_, List.cons_ne_nil c post, ?_⟩
    · show s.LatestLogNode = (c :: post).getLast?
      rw [hlat, hsplit, List.getLast?_append, List.getLast?_eq_getLast _ (List.cons_ne_nil c post)]
      rfl
    · show List.Pairwise (fun i j => nodeT (setPrevious heap1 c none) i ≤
        nodeT (setPrevious heap1 c none) j) (c :: post)
      have hsub : List.Pairwise (fun i j => nodeT s.heap i ≤ nodeT s.heap j) (c :: post) := by
        rw [hsplit] at hsorted
        exact (List.pairwise_append.mp hsorted).2.1
      refine hsub.imp ?_
      intro a b hab
      rw [nodeT_congr hTall a, nodeT_congr hTall b]
      exact hab
  · have h1 := forall₂_filter_holdsRecord (fun x => decide (timeSub nl.T x ≤ s.Duration)) l rs hrs
    exact h1.imp fun _ _ h => holdsRecord_setPrevious c none (hrec1 _ _ h)
  · simp only [AlertType.chain, hchain, hfilterKeep]

/-- The end of `ConsumeLog`: opening or closing the alert returns when an
ongoing alert has an entry in `Alerts`, and touches neither the chain nor the
count. -/
theorem alertStep_done (c2 : AlertType) (t : Int) (b : Prop) [Decidable b]
    (h : c2.AlertOngoing = true → c2.Alerts ≠ []) :
    ∃ c3, (if b then Run.done (c2.triggerAlert t) else c2.closeAlert t) = .done c3 ∧
      c3.heap = c2.heap ∧ c3.OldestLogNode = c2.OldestLogNode ∧
      c3.LatestLogNode = c2.LatestLogNode ∧ c3.CurrentMovingCount = c2.CurrentMovingCount ∧
      c3.Duration = c2.Duration ∧ c3.Threshold = c2.Threshold ∧ c3.Name = c2.Name ∧
      c3.SourceSettings = c2.SourceSettings ∧ (c3.AlertOngoing = true → c3.Alerts ≠ []) := by
  by_cases hb : b
  · rw [if_pos hb]
    cases hon : c2.AlertOngoing with
    | true =>
      have e : c2.triggerAlert t = c2 := by simp [AlertType.triggerAlert, hon]
      rw [e]
      exact ⟨c2, rfl, rfl, rfl, rfl, rfl, rfl, rfl, rfl, rfl, fun _ => h hon⟩
    | false =>
      have e : c2.triggerAlert t =
          { c2 with Alerts := c2.Alerts ++ [{ Start := t, End := 0 }], AlertOngoing := true } := by
        simp [AlertType.triggerAlert, hon]
      rw [e]
      exact ⟨_, rfl, rfl, rfl, rfl, rfl, rfl, rfl, rfl, rfl, fun _ => by simp⟩
  · rw [if_neg hb]
    cases hon : c2.AlertOngoing with
    | false =>
      have e : c2.closeAlert t = .done c2 := by simp [AlertType.closeAlert, hon]
      rw [e]
      exact ⟨c2, rfl, rfl, rfl, rfl, rfl, rfl, rfl, rfl, rfl, fun h1 => by
        rw [hon] at h1; cases h1⟩
    | true =>
      cases hl : c2.Alerts.getLast? with
      | none => exact absurd (List.getLast?_eq_none_iff.mp hl) (h hon)
      | some last =>
        have e : c2.closeAlert t =
            .done { c2 with
              Alerts := c2.Alerts.dropLast ++ [{ last with End := t }]
              AlertOngoing := false } := by
          simp [AlertType.closeAlert, hon, hl]
        rw [e]
        exact ⟨_, rfl, rfl, rfl, rfl, rfl, rfl, rfl, rfl, rfl, fun h1 => by cases h1⟩

/-- A well-formed chain is a matter of the arena and the two ends. -/
theorem WellFormedChain_congr {s s1 : AlertType} {l : List Nat} (hh : s1.heap = s.heap)
    (ho : s1.OldestLogNode = s.OldestLogNode) (hl : s1.LatestLogNode = s.LatestLogNode)
    (h : WellFormedChain s l) : WellFormedChain s1 l := by
  obtain ⟨h1, h2, h3, h4, h5⟩ := h
  exact ⟨hh ▸ h1, ho ▸ h2, hl ▸ h3, h4, hh ▸ h5⟩

/-- One accepted record that is not before the latest node, once it is on the
end of the chain `chain1`: `ConsumeLog` returns, the chain is well-formed and
holds, in order, the records within the window of the record, and the count is
the length of the chain. -/
theorem consumeAccepted_inorder (c c1 : AlertType) (msg : LogMessageStructured)
    (chain1 : List Nat) (rs1 : List LogMessageStructured)
    (hadd : c.addToChain msg = .done c1) (hwf1 : WellFormedChain c1 chain1)
    (hrs1 : List.Forall₂ (holdsRecord c1.heap) chain1 rs1) (hlat1 : c1.latestT = some msg.T)
    (hcount : c.CurrentMovingCount + 1 = (chain1.length : Int)) (hD : 0 ≤ c.Duration)
    (halert : c.AlertOngoing = true → c.Alerts ≠ []) :
    ∃ c3 l, c.consumeAccepted msg = .done c3 ∧ WellFormedChain c3 l ∧
      List.Forall₂ (holdsRecord c3.heap) l
        (rs1.filter fun r => decide (timeSub msg.T r.T ≤ c.Duration)) ∧
      c3.chain = l ∧ c3.CurrentMovingCount = (l.length : Int) ∧ c3.latestT = some msg.T ∧
      c3.Duration = c.Duration ∧ c3.Threshold = c.Threshold ∧ c3.Name = c.Name ∧
      c3.SourceSettings = c.SourceSettings ∧ (c3.AlertOngoing = true → c3.Alerts ≠ []) := by
  obtain ⟨hd1, hthr1, hname1, hss1, hcnt1, hon1, hal1, -⟩ := addToChain_frame hadd
  obtain ⟨c2, t, hlatT, hdrop, hwf2, hrs2, hchain2⟩ :=
    dropOld_wellFormed c1 chain1 rs1 hwf1 hrs1 (by rw [hd1]; exact hD)
  have ht : t = msg.T := by
    rw [hlat1] at hlatT
    simpa using hlatT.symm
  subst ht
  rw [hd1] at hdrop hwf2 hrs2 hchain2
  obtain ⟨hd2, hthr2, hname2, hss2, hcnt2, hon2, hal2, hlat2, -⟩ := dropOld_frame hdrop
  obtain ⟨t2, hlatT2, -⟩ := dropOld_latestT hdrop
  obtain ⟨t3, hlatT3, heval⟩ := consumeAccepted_eval hadd hdrop
  have hlatc2 : c2.latestT = some msg.T := by
    obtain ⟨t4, h4, h5⟩ := dropOld_latestT hdrop
    rw [h4]
    rw [hlat1] at h5
    exact h5.symm
  -- the count
  have hsplitlen : chain1.length =
      (chain1.filter fun i => decide (timeSub msg.T (nodeT c1.heap i) > c.Duration)).length +
      (chain1.filter fun i => decide (timeSub msg.T (nodeT c1.heap i) ≤ c.Duration)).length := by
    have h1 := List.length_eq_length_filter_add
      (fun i => decide (timeSub msg.T (nodeT c1.heap i) > c.Duration)) (l := chain1)
    have h2 : (chain1.filter fun i =>
          !decide (timeSub msg.T (nodeT c1.heap i) > c.Duration)) =
        chain1.filter fun i => decide (timeSub msg.T (nodeT c1.heap i) ≤ c.Duration) := by
      apply List.filter_congr
      intro i _
      by_cases h : timeSub msg.T (nodeT c1.heap i) ≤ c.Duration
      · simp [h, not_lt.mpr h]
      · simp [h, not_le.mp h]
    rw [h2] at h1
    exact h1
  have hal : ({ c2 with CurrentMovingCount := c.CurrentMovingCount + 1 -
        (((chain1.filter fun i =>
          decide (timeSub msg.T (nodeT c1.heap i) > c.Duration)).length : Nat) : Int) } :
      AlertType).AlertOngoing = true →
      ({ c2 with CurrentMovingCount := c.CurrentMovingCount + 1 -
        (((chain1.filter fun i =>
          decide (timeSub msg.T (nodeT c1.heap i) > c.Duration)).length : Nat) : Int) } :
      AlertType).Alerts ≠ [] := by
    intro h
    show c2.Alerts ≠ []
    rw [hal2, hal1]
    apply halert
    rw [← hon1, ← hon2]
    exact h
  obtain ⟨c3, hc3, hh, ho, hl, hcnt, hd, hthr, hname, hss, halert3⟩ :=
    alertStep_done _ t3 (c.Threshold ≤ c.CurrentMovingCount + 1 -
      (((chain1.filter fun i =>
        decide (timeSub msg.T (nodeT c1.heap i) > c.Duration)).length : Nat) : Int)) hal
  have hwf2a : WellFormedChain
      ({ c2 with CurrentMovingCount := c.CurrentMovingCount + 1 -
        (((chain1.filter fun i =>
          decide (timeSub msg.T (nodeT c1.heap i) > c.Duration)).length : Nat) : Int) } :
        AlertType)
      (chain1.filter fun i => decide (timeSub msg.T (nodeT c1.heap i) ≤ c.Duration)) :=
    @WellFormedChain_congr c2 _ _ rfl rfl rfl hwf2
  refine ⟨c3, _, heval.trans hc3, WellFormedChain_congr hh ho hl hwf2a, ?_, ?_, ?_, ?_, ?_, ?_,
    ?_, ?_, halert3⟩
  · rw [hh]
    exact hrs2
  · rw [← hchain2]
    unfold AlertType.chain
    rw [hh, ho]
  · rw [hcnt]
    show c.CurrentMovingCount + 1 - _ = _
    rw [hcount, hsplitlen]
    push_cast
    omega
  · rw [← hlatc2]
    unfold AlertType.latestT
    rw [hh, hl]
  · rw [hd]; exact hd2.trans hd1
  · rw [hthr]; exact hthr2.trans hthr1
  · rw [hname]; exact hname2.trans hname1
  · rw [hss]; exact hss2.trans hss1

theorem consumeAll_append :
    ∀ (a b : List LogMessageStructured) (c : AlertType),
      consumeAll c (a ++ b) = (consumeAll c a).bind fun c1 => consumeAll c1 b := by
  intro a
  induction a with
  | nil => intro b c; rfl
  | cons m rest ih =>
    intro b c
    simp only [List.cons_append, consumeAll]
    cases c.ConsumeLog m with
    | done r => simp only [Run.bind]; exact ih b r.1
    | panic => rfl
    | diverge => rfl

/-- Records that are accepted and come in the order of their timestamps, fed to
an empty consumer with `Duration ≥ 0`: every `ConsumeLog` returns, and after the
last one the chain is well-formed and holds, in order, the records consumed
that are within the window of the last one; the count is its length. -/
theorem inorder_run (duration threshold : Int) (name : String)
    (settings : List (String × AlertTypeSourceSettings)) (hD : 0 ≤ duration) :
    ∀ (consumed : List LogMessageStructured),
      (∀ m ∈ consumed, ∃ st,
        (AlertType.fresh duration threshold name settings).GetSourceSettings m.SourceName =
          .ok st ∧ st.IsMatch m = .ok true) →
      List.Pairwise (fun a b : LogMessageStructured => a.T ≤ b.T) consumed →
      ∃ c, consumeAll (AlertType.fresh duration threshold name settings) consumed = .done c ∧
        c.Duration = duration ∧ c.SourceSettings = settings ∧
        (c.AlertOngoing = true → c.Alerts ≠ []) ∧
        (consumed = [] → c.LatestLogNode = none ∧ c.CurrentMovingCount = 0) ∧
        (∀ pre last, consumed = pre ++ [last] →
          ∃ l, WellFormedChain c l ∧
            List.Forall₂ (holdsRecord c.heap) l
              (consumed.filter fun r => decide (timeSub last.T r.T ≤ duration)) ∧
            c.chain = l ∧ c.CurrentMovingCount = (l.length : Int) ∧
            c.latestT = some last.T) := by
  intro consumed
  induction consumed using List.reverseRecOn with
  | nil =>
    intro _ _
    refine ⟨AlertType.fresh duration threshold name settings, rfl, rfl, rfl, ?_, ?_, ?_⟩
    · intro h; simp [AlertType.fresh] at h
    · intro _; exact ⟨rfl, rfl⟩
    · intro pre last h
      simp at h
  | append_singleton pre last ih =>
    intro hacc hord
    obtain ⟨c, hrun, hdur, hss, halert, hempty, hchain⟩ :=
      ih (fun m hm => hacc m (List.mem_append_left _ hm)) (List.pairwise_append.mp hord).1
    obtain ⟨st, hst, hmatch⟩ := hacc last (by simp)
    have hst2 : c.GetSourceSettings last.SourceName = .ok st := by
      unfold AlertType.GetSourceSettings at hst ⊢
      rw [hss]
      exact hst
    have hD2 : 0 ≤ c.Duration := by rw [hdur]; exact hD
    -- the record is put at the end of the chain
    have hadd : ∃ c1 chain1 rsPrev, c.addToChain last = .done c1 ∧ WellFormedChain c1 chain1 ∧
        List.Forall₂ (holdsRecord c1.heap) chain1 (rsPrev ++ [last]) ∧
        (rsPrev.filter fun r => decide (timeSub last.T r.T ≤ duration)) =
          (pre.filter fun r => decide (timeSub last.T r.T ≤ duration)) ∧
        c1.latestT = some last.T ∧ c.CurrentMovingCount + 1 = (chain1.length : Int) := by
      rcases List.eq_nil_or_concat pre with hpre | ⟨pre1, plast, hpre⟩
      · obtain ⟨hlat, hcnt⟩ := hempty hpre
        obtain ⟨c1, h1, h2, h3, h4⟩ := addToChain_first c last hlat
        refine ⟨c1, _, [], h1, h2, by simpa using h3, by rw [hpre], h4, ?_⟩
        rw [hcnt]
        simp
      · rw [List.concat_eq_append] at hpre
        obtain ⟨l, hwf, hrs, -, hcnt, hlatT⟩ := hchain pre1 plast hpre
        have hle : plast.T ≤ last.T :=
          (List.pairwise_append.mp hord).2.2 plast (by rw [hpre]; simp) last (by simp)
        obtain ⟨c1, h1, h2, h3, h4⟩ := addToChain_inorder c l _ last plast.T hwf hrs hlatT hle
        refine ⟨c1, _, _, h1, h2, h3, ?_, h4, ?_⟩
        · rw [List.filter_filter]
          apply List.filter_congr
          intro r _
          by_cases hk : timeSub last.T r.T ≤ duration
          · have := timeSub_mono_left plast.T last.T r.T hle
            have hk2 : timeSub plast.T r.T ≤ duration := by omega
            simp [hk, hk2]
          · simp [hk]
        · rw [hcnt]
          simp
    obtain ⟨c1, chain1, rsPrev, hadd1, hwf1, hrs1, hfil, hlat1, hcount⟩ := hadd
    obtain ⟨c3, l, hacc3, hwf3, hrs3, hchain3, hcnt3, hlat3, hdur3, -, -, hss3, halert3⟩ :=
      consumeAccepted_inorder c c1 last chain1 (rsPrev ++ [last]) hadd1 hwf1 hrs1 hlat1 hcount
        hD2 halert
    refine ⟨c3, ?_, hdur3.trans hdur, hss3.trans hss, halert3, ?_, ?_⟩
    · rw [consumeAll_append, hrun]
      simp only [Run.bind, consumeAll]
      rw [ConsumeLog_accepted hst2 hmatch, hacc3]
      rfl
    · intro h
      simp at h
    · intro pre2 last2 h
      obtain ⟨-, h2⟩ := List.append_inj' h rfl
      simp only [List.cons.injEq, and_true] at h2
      subst h2
      refine ⟨l, hwf3, ?_, hchain3, hcnt3, hlat3⟩
      rw [hdur, List.filter_append, hfil, ← List.filter_append] at hrs3
      exact hrs3

/-- C35: an alert consumer starts empty with `Duration ≥ 0` and is fed records
that it accepts and whose timestamps do not decrease in the order of
consumption. After each `ConsumeLog`, here the one of the record `last` at
position `n`, the calls so far have all returned, the chain read from
`OldestLogNode` along `Next` ends at `LatestLogNode` and carries, in the order
of consumption, exactly the records consumed so far that are no more than
`Duration` older than `last`, by the difference that `Sub` gives; and
`CurrentMovingCount` is the number of these records. For a `Duration` below the
largest duration the difference is the plain difference of the instants. -/
theorem C35_inorder_chain (duration threshold : Int) (name : String)
    (settings : List (String × AlertTypeSourceSettings)) (records : List LogMessageStructured)
    (n : Nat) (last : LogMessageStructured) (hD : 0 ≤ duration)
    (hacc : ∀ m ∈ records, ∃ st,
      (AlertType.fresh duration threshold name settings).GetSourceSettings m.SourceName =
        .ok st ∧ st.IsMatch m = .ok true)
    (hord : List.Pairwise (fun a b : LogMessageStructured => a.T ≤ b.T) records)
    (hn : records[n]? = some last) :
    ∃ c, consumeAll (AlertType.fresh duration threshold name settings) (records.take (n + 1)) =
        .done c ∧
      c.chainRecords =
        (records.take (n + 1)).filter (fun r => decide (timeSub last.T r.T ≤ duration)) ∧
      c.CurrentMovingCount =
        (((records.take (n + 1)).filter
          (fun r => decide (timeSub last.T r.T ≤ duration))).length : Int) ∧
      c.chain ≠ [] ∧ c.OldestLogNode = c.chain.head? ∧ c.LatestLogNode = c.chain.getLast? ∧
      IsChain c.heap none c.chain ∧ c.latestT = some last.T ∧
      (duration < maxDuration →
        c.chainRecords =
          (records.take (n + 1)).filter (fun r => decide (last.T - r.T ≤ duration))) := by
  have htake : records.take (n + 1) = records.take n ++ [last] := by
    rw [List.take_succ, hn]
    rfl
  obtain ⟨c, hrun, -, -, -, -, hchain⟩ :=
    inorder_run duration threshold name settings hD (records.take (n + 1))
      (fun m hm => hacc m (List.mem_of_mem_take hm))
      (hord.sublist (List.take_sublist _ _))
  obtain ⟨l, hwf, hrs, hl, hcnt, hlat⟩ := hchain (records.take n) last htake
  have hrec : c.chainRecords =
      (records.take (n + 1)).filter (fun r => decide (timeSub last.T r.T ≤ duration)) := by
    unfold AlertType.chainRecords
    rw [hl]
    exact filterMap_of_holdsRecord l _ hrs
  refine ⟨c, hrun, hrec, ?_, ?_, ?_, ?_, ?_, hlat, ?_⟩
  · rw [hcnt, hrs.length_eq]
  · rw [hl]; exact hwf.nonempty
  · rw [hl]; exact hwf.oldest
  · rw [hl]; exact hwf.latest
  · rw [hl]; exact hwf.linked
  · intro hmax
    rw [hrec]
    apply List.filter_congr
    intro r _
    by_cases h : last.T - r.T ≤ duration
    · simp [h, (timeSub_le_iff last.T r.T duration hD hmax).mpr h]
    · have h2 : ¬ timeSub last.T r.T ≤ duration := fun h3 =>
        h ((timeSub_le_iff last.T r.T duration hD hmax).mp h3)
      simp [h, h2]

/-- C35 on the consumer of the tests, window 3 s, fed records at `t0`, `t0+1s`,
`t0+1s`, `t0+4s` and `t0+5s`: after the third record the chain holds the first
three and the count is 3; after the fifth the chain holds the records at
`t0+4s` and `t0+5s` and the count is 2. -/
theorem C35_inorder_chain_witness :
    (consumeAll vanillaAlertType (inOrderRecords.take 3)).map
        (fun c => (c.chainRecords, c.CurrentMovingCount)) =
      .done ([recordAt t0, recordAt (t0 + 1 * Second), recordAt (t0 + 1 * Second)], 3) ∧
    (consumeAll vanillaAlertType inOrderRecords).map
        (fun c => (c.chainRecords, c.CurrentMovingCount)) =
      .done ([recordAt (t0 + 4 * Second), recordAt (t0 + 5 * Second)], 2) ∧
    (0 : Int) ≤ 3 * Second ∧
    (∀ m ∈ inOrderRecords, ∃ st,
      (AlertType.fresh (3 * Second) 5 "Test Alert" vanillaSettings).GetSourceSettings
        m.SourceName = .ok st ∧ st.IsMatch m = .ok true) ∧
    List.Pairwise (fun a b : LogMessageStructured => a.T ≤ b.T) inOrderRecords ∧
    inOrderRecords[4]? = some (recordAt (t0 + 5 * Second)) ∧
    ∃ c, consumeAll (AlertType.fresh (3 * Second) 5 "Test Alert" vanillaSettings)
        (inOrderRecords.take (4 + 1)) = .done c ∧
      c.chainRecords =
        (inOrderRecords.take (4 + 1)).filter
          (fun r => decide (timeSub (recordAt (t0 + 5 * Second)).T r.T ≤ 3 * Second)) ∧
      c.CurrentMovingCount =
        (((inOrderRecords.take (4 + 1)).filter
          (fun r => decide (timeSub (recordAt (t0 + 5 * Second)).T r.T ≤ 3 * Second))).length :
          Int) ∧
      c.chain ≠ [] ∧ c.OldestLogNode = c.chain.head? ∧ c.LatestLogNode = c.chain.getLast? ∧
      IsChain c.heap none c.chain ∧ c.latestT = some (recordAt (t0 + 5 * Second)).T ∧
      (3 * Second < maxDuration →
        c.chainRecords =
          (inOrderRecords.take (4 + 1)).filter
            (fun r => decide ((recordAt (t0 + 5 * Second)).T - r.T ≤ 3 * Second))) :=
  have hacc : ∀ m ∈ inOrderRecords, ∃ st,
      (AlertType.fresh (3 * Second) 5 "Test Alert" vanillaSettings).GetSourceSettings
        m.SourceName = .ok st ∧ st.IsMatch m = .ok true := by
    intro m hm
    simp only [inOrderRecords, List.mem_cons, List.mem_singleton, List.not_mem_nil,
      or_false] at hm
    rcases hm with rfl | rfl | rfl | rfl | rfl <;>
      exact ⟨{ Key := "", ValueMutateFunc := none, Values := [] }, rfl, rfl⟩
  ⟨by decide, by decide, by decide, hacc, by decide, by decide,
    C35_inorder_chain (3 * Second) 5 "Test Alert" vanillaSettings inOrderRecords 4
      (recordAt (t0 + 5 * Second)) (by decide) hacc (by decide) (by decide)⟩

end Logdog
